import Mathlib

/-!
# alarm_fingerprints_2: detector, window collector and matcher

A shallow embedding of the per-sample loop of `main` in
`alarm_fingerprints_2.cpp` (lines 913-1521) and of `_eucl_dist`
(lines 1555-1662), with the validation and amendment of the parameters
(lines 102-661) and the reading of a bank file (lines 807-854), followed by
theorems about the detector state machine, the window collector, the
distance, the matcher, the sampling and the hourly limit on generated files.

Conventions of the embedding

* `double` values are exact rationals (`ℚ`); the only IEEE special value
  that the program can produce from rational inputs, the `0/0` of
  `_eucl_dist`, is kept as `DistVal.nan`.
* the one `float` variable, `_diffavg`, is an exact rational in `loop_body`
  and a rounded one in `loop_body_float`, which follows the arithmetic of
  lines 1424 and 1459-1461 operation by operation (`to_float`, `to_double`).
  The two differ by the rounding of the stored value; where that decides a
  property (the noise floor reaching zero), the theorem is on
  `loop_body_float`.
* `int`, `long` and `long long` variables are `Int`.  None of them can leave
  its machine range on the inputs considered: the counters move by one per
  sample, and the microsecond difference is a 64-bit `long`.
* global variables of the program are the fields of `State` (mutable) and
  `Params` (set once before the loop starts); names are those of the source.
* `std::string` is `List Char`; `std::vector<double>` and `double *` are
  `List ℚ`; a read past the end of a vector is tracked as `Status.undefined`.
* logging (`LOG`, `DLOG`, `_lmessage`, `_match_comment`, `_filenam`) is left
  out; it does not feed back into any variable of the loop.
-/

namespace AlarmFingerprints

/-- The `struct timeval` of the source: seconds and microseconds. -/
structure Timeval where
  tv_sec : Int
  tv_usec : Int
deriving DecidableEq

/-- Microseconds since the epoch of a `Timeval`. -/
def Timeval.usec (t : Timeval) : Int := t.tv_sec * 1000000 + t.tv_usec

/-- One parsed input line: the timestamp (`mktime` seconds and the parsed
microsecond field) and the measured value. -/
structure Sample where
  t : Timeval
  v : ℚ
deriving DecidableEq

/-- One loaded fingerprint: `_fngptsnames[i]` and `_fngpts[i]`. -/
structure Fingerprint where
  name : List Char
  values : List ℚ
deriving DecidableEq

/-- How the process stands: still inside the `while` loop, left through
`return code`, or past a read outside a vector (undefined behaviour). -/
inductive Status where
  | running
  | exited (code : Int)
  | undefined
deriving DecidableEq

/-- Everything that is fixed when the loop starts: the parameters of
`alarm_fingerprints_2.hpp` after validation and coercion, the selected wavelet
transform `_wav_func` (defined in `wavelet_ms.hpp`) and the loaded bank
(`_fngptsnames` and `_fngpts`, `_numberfps` entries, in load order). -/
structure Params where
  _sample_each : Int
  _initial_avg_diff : ℚ
  _n_amend_avgdiff : Int
  _number_of_points_to_alarm : Int
  _multiplicator_to_detect : ℚ
  _wait_state_usec : Int
  _distance_calculation_type : Int
  _fingerprint_length : Int
  _fingerprint_match_positives_from : Int
  _fingerprint_match_negatives_from : Int
  _fingerprint_match_positives_to : Int
  _fingerprint_match_negatives_to : Int
  _wavelet_function : Int
  _wav_func : Int → List ℚ → List ℚ
  _generate_fingerprints : Int
  _matching_distance_positives_max : ℚ
  _matching_distance_negatives_max : ℚ
  _matches_evaluation_logic : Int
  _use_diff_value : Int
  _matchdistance_to_output : Int
  _genpattern_hour_limit : Int
  _fngpts : List Fingerprint

/-- The working variables of `alarm_fingerprints_2.hpp` that the loop reads
and writes.  `_outputfiles` is the list of fingerprint files written so far
(pattern id, time of writing, coefficients). -/
structure State where
  status : Status
  _diffavg : ℚ
  _cursample : Int
  _isalarm : Int
  _iswait : Int
  _numthresholded : Int
  _lasttime : Timeval
  _curtime : Timeval
  _alarmraisetime : Timeval
  _genpattern_time : Timeval
  _genpattern_count : Int
  _lineid : Int
  _curval : ℚ
  _lastval : ℚ
  _diff : ℚ
  _diffnoabs : ℚ
  _patternid : Int
  _ispattern : Int
  _patterncount : Int
  _seqdata : List ℚ
  _dw : List ℚ
  _vw : List ℚ
  _ismatch : Int
  _pos_count : Int
  _matchpos_count : Int
  _neg_count : Int
  _matchneg_count : Int
  _matchtestposname : List Char
  _matchdistance_out : ℚ
  _matchdistance_pos_min : ℚ
  _matchdistance_neg_min : ℚ
  _contivalue : ℚ
  _outputvalue : ℚ
  _outputfiles : List (Int × Timeval × List ℚ)

/-- The variable `_fingerprint_n`, set once to `_fingerprint_length`
(line 677). -/
def _fingerprint_n (P : Params) : Int := P._fingerprint_length

/-- The state in which the `while` loop is entered (lines 676-705; the
variables not assigned there are zero-initialised globals). -/
def init (P : Params) : State where
  status := .running
  _diffavg := P._initial_avg_diff
  _cursample := P._sample_each
  _isalarm := 0
  _iswait := 0
  _numthresholded := P._number_of_points_to_alarm
  _lasttime := ⟨2147483646, 0⟩
  _curtime := ⟨2147483646, 0⟩
  _alarmraisetime := ⟨0, 0⟩
  _genpattern_time := ⟨0, 0⟩
  _genpattern_count := 0
  _lineid := 0
  _curval := 0
  _lastval := 0
  _diff := 0
  _diffnoabs := 0
  _patternid := 0
  _ispattern := 0
  _patterncount := 0
  _seqdata := []
  _dw := []
  _vw := []
  _ismatch := 0
  _pos_count := 0
  _matchpos_count := 0
  _neg_count := 0
  _matchneg_count := 0
  _matchtestposname := []
  _matchdistance_out := -1
  _matchdistance_pos_min := 0
  _matchdistance_neg_min := 0
  _contivalue := 0
  _outputvalue := 0
  _outputfiles := []

/-! ## The distance kernel `_eucl_dist` (lines 1555-1662) -/

/-- What `_eucl_dist` hands back: a number, the not-a-number of `0/0`, or
nothing defined because an index outside one of the two vectors was read. -/
inductive DistVal where
  | num (d : ℚ)
  | nan
  | oob
deriving DecidableEq

/-- The read `v[i]` of a `double *`: defined inside the stored values only. -/
def rd (v : List ℚ) (i : Int) : Option ℚ :=
  if 0 ≤ i then v.get? i.toNat else none

/-- The indices of `for (int i = lo; i <= hi; i++)`. -/
def int_range (lo hi : Int) : List Int :=
  (List.range (hi - lo + 1).toNat).map (fun (k : Nat) => lo + (k : Int))

/-- The three running sums `cc`, `xx`, `yy`. -/
structure Sums where
  cc : ℚ
  xx : ℚ
  yy : ℚ
deriving DecidableEq

/-- One pass of the summing loops: `cc += pow(a - b, 2); xx += pow(a, 2);
yy += pow(b, 2)`. -/
def Sums.add (s : Sums) (a b : ℚ) : Sums :=
  ⟨s.cc + (a - b) ^ 2, s.xx + a ^ 2, s.yy + b ^ 2⟩

/-- The loop of `case 1` (lines 1625-1633) over the indices `is`. -/
def sum_items (v1 v2 : List ℚ) : List Int → Sums → Option Sums
  | [], s => some s
  | i :: is, s =>
    match rd v1 i, rd v2 i with
    | some a, some b => sum_items v1 v2 is (s.add a b)
    | _, _ => none

/-- The inner loop of `case 2` (lines 1585-1591): the two running averages
`acavgv1`, `acavgv2` of one level, each item divided by the level width `w`. -/
def level_avg (v1 v2 : List ℚ) (w : ℚ) : List Int → ℚ × ℚ → Option (ℚ × ℚ)
  | [], acc => some acc
  | j :: js, acc =>
    match rd v1 j, rd v2 j with
    | some a, some b => level_avg v1 v2 w js (acc.1 + a / w, acc.2 + b / w)
    | _, _ => none

/-- The outer loop of `case 2` (lines 1573-1600) over the levels `ls`: the
averages `a1`, `a2` of the levels that lie fully inside `from_ .. to_`. -/
def level_avgs (v1 v2 : List ℚ) (from_ to_ : Int) :
    List Int → List (ℚ × ℚ) → Option (List (ℚ × ℚ))
  | [], acc => some acc
  | i :: ls, acc =>
    let ifrom : Int := if i = 0 then 0 else 2 ^ (i - 1).toNat
    let ito : Int := 2 ^ i.toNat - 1
    if ifrom ≥ from_ ∧ ito ≤ to_ then
      match level_avg v1 v2 ((ito - ifrom + 1 : Int) : ℚ) (int_range ifrom ito) (0, 0) with
      | some a => level_avgs v1 v2 from_ to_ ls (acc ++ [a])
      | none => none
    else level_avgs v1 v2 from_ to_ ls acc

/-- The sums `cc`, `xx`, `yy` as they stand at line 1652, per
`distance_calculation`; the `default` branch leaves them at zero. -/
def dist_sums (v1 v2 : List ℚ) (from_ to_ flength distance_calculation : Int) :
    Option Sums :=
  let clength : Int := (Nat.log2 flength.toNat : Nat)
  if distance_calculation = 2 then
    match level_avgs v1 v2 from_ to_ (int_range 0 clength) [] with
    | some a => some (a.foldl (fun s p => s.add p.1 p.2) ⟨0, 0, 0⟩)
    | none => none
  else if distance_calculation = 1 then
    sum_items v1 v2 (int_range from_ to_) ⟨0, 0, 0⟩
  else some ⟨0, 0, 0⟩

/-- The function `_eucl_dist` (lines 1555-1662).  `cc / (xx + yy)` with
`xx + yy = 0` is `0/0` (then `cc = 0` as well), a not-a-number that both
clamping tests let through. -/
def _eucl_dist (v1 v2 : List ℚ) (from_ to_ flength distance_calculation : Int) :
    DistVal :=
  match dist_sums v1 v2 from_ to_ flength distance_calculation with
  | none => .oob
  | some s =>
    if s.xx + s.yy = 0 then .nan
    else
      let cc := s.cc / (s.xx + s.yy)
      let cc := if cc > 1 then 1 else cc
      let cc := if cc < 0 then 0 else cc
      .num cc

/-! ## The matcher (lines 1032-1280) -/

/-- The body of the positives loop for one bank entry up to the `break` test
(lines 1046-1094): count the entry, take the distance, amend the minimum, and
count and name an individual match. -/
def match_positive (P : Params) (fp : Fingerprint) (s : State) : State :=
  if fp.name.take 1 = ['p'] then
    match _eucl_dist s._vw fp.values P._fingerprint_match_positives_from
        P._fingerprint_match_positives_to P._fingerprint_length
        P._distance_calculation_type with
    | .oob => { s with _pos_count := s._pos_count + 1, status := .undefined }
    | .nan => { s with _pos_count := s._pos_count + 1 }
    | .num d =>
      { s with
        _pos_count := s._pos_count + 1
        _matchdistance_pos_min :=
          if d < s._matchdistance_pos_min then d else s._matchdistance_pos_min
        _matchpos_count :=
          if d ≤ P._matching_distance_positives_max then s._matchpos_count + 1
          else s._matchpos_count
        _matchtestposname :=
          if d ≤ P._matching_distance_positives_max then fp.name
          else s._matchtestposname }
  else s

/-- The positives loop (lines 1045-1102), with its `break` after the first
individual match under logic 2 and 3. -/
def scan_positives (P : Params) : List Fingerprint → State → State
  | [], s => s
  | fp :: rest, s =>
    if (match_positive P fp s).status ≠ .running then match_positive P fp s
    else if (match_positive P fp s)._matchpos_count ≠ 0 ∧
        (P._matches_evaluation_logic = 2 ∨ P._matches_evaluation_logic = 3) then
      match_positive P fp s
    else scan_positives P rest (match_positive P fp s)

/-- The body of the negatives loop for one bank entry (lines 1112-1161). -/
def match_negative (P : Params) (fp : Fingerprint) (s : State) : State :=
  if fp.name.take 1 = ['n'] then
    match _eucl_dist s._vw fp.values P._fingerprint_match_negatives_from
        P._fingerprint_match_negatives_to P._fingerprint_length
        P._distance_calculation_type with
    | .oob => { s with _neg_count := s._neg_count + 1, status := .undefined }
    | .nan => { s with _neg_count := s._neg_count + 1 }
    | .num d =>
      { s with
        _neg_count := s._neg_count + 1
        _matchdistance_neg_min :=
          if d < s._matchdistance_neg_min then d else s._matchdistance_neg_min
        _matchneg_count :=
          if d ≤ P._matching_distance_negatives_max then s._matchneg_count + 1
          else s._matchneg_count }
  else s

/-- The negatives loop (lines 1111-1162). -/
def scan_negatives (P : Params) : List Fingerprint → State → State
  | [], s => s
  | fp :: rest, s =>
    if (match_negative P fp s).status ≠ .running then match_negative P fp s
    else scan_negatives P rest (match_negative P fp s)

/-- The smaller of the two minimum distances, as logic 3 takes it: the
negative one unless the positive one is strictly smaller (lines 1226-1228
and 1236-1238). -/
def min_distance (s : State) : ℚ :=
  if s._matchdistance_pos_min < s._matchdistance_neg_min then s._matchdistance_pos_min
  else s._matchdistance_neg_min

/-- The final evaluation: the defaults of lines 1175-1177 and the `switch`
on `_matches_evaluation_logic` (lines 1179-1280); its `default` branch is
`return 1`. -/
def final_evaluation (P : Params) (s : State) : State :=
  if P._matches_evaluation_logic = 0 then
    { s with _ismatch := 1, _matchdistance_out := -1, _contivalue := 1 }
  else if P._matches_evaluation_logic = 1 then
    if s._matchneg_count = 0 then
      { s with _ismatch := 1, _matchdistance_out := s._matchdistance_neg_min,
               _contivalue := s._matchdistance_neg_min }
    else
      { s with _ismatch := 0, _matchdistance_out := -1,
               _contivalue := s._matchdistance_neg_min }
  else if P._matches_evaluation_logic = 2 then
    if s._matchpos_count ≠ 0 then
      { s with _ismatch := 1, _matchdistance_out := s._matchdistance_pos_min,
               _contivalue := 1 - s._matchdistance_pos_min }
    else
      { s with _ismatch := 0, _matchdistance_out := -1,
               _contivalue := 1 - s._matchdistance_pos_min }
  else if P._matches_evaluation_logic = 3 then
    if s._matchneg_count = 0 ∧ s._matchpos_count > 0 then
      { s with _ismatch := 1, _matchdistance_out := min_distance s,
               _contivalue := 1 - min_distance s }
    else
      { s with _ismatch := 0, _matchdistance_out := -1,
               _contivalue := 1 - min_distance s }
  else if P._matches_evaluation_logic = 4 then
    if s._matchpos_count ≠ 0 then
      { s with _ismatch := 1, _matchdistance_out := s._matchdistance_pos_min,
               _contivalue := 1 - s._matchdistance_pos_min }
    else
      { s with _ismatch := 0, _matchdistance_out := -1,
               _contivalue := 1 - s._matchdistance_pos_min }
  else
    { s with _ismatch := 0, _matchdistance_out := -1, _contivalue := 0,
             status := .exited 1 }

/-- The hourly throttle (lines 1299-1302): the start of the current hour
and the number of files written in it, after the test on the elapsed time. -/
def throttle (s : State) : Timeval × Int :=
  if s._curtime.tv_sec - s._genpattern_time.tv_sec > 60 * 60 then (s._curtime, 0)
  else (s._genpattern_time, s._genpattern_count)

/-- Writing the fingerprint file under the hourly limit (lines 1295-1378).
The file holds `_vw[0]` .. `_vw[_fingerprint_n - 1]`; a transform result
shorter than that is read past its end. -/
def generate_fingerprint (P : Params) (s : State) : State :=
  if P._generate_fingerprints = 1 ∨ (P._generate_fingerprints = 2 ∧ s._ismatch = 0) then
    if P._genpattern_hour_limit = 0 ∨ (throttle s).2 < P._genpattern_hour_limit then
      if (s._vw.length : Int) < _fingerprint_n P then
        { s with _genpattern_time := (throttle s).1,
                 _genpattern_count := (throttle s).2 + 1,
                 status := .undefined }
      else
        { s with _genpattern_time := (throttle s).1,
                 _genpattern_count := (throttle s).2 + 1,
                 _outputfiles := s._outputfiles ++
                   [(s._patternid, s._curtime, s._vw.take (_fingerprint_n P).toNat)] }
    else
      { s with _genpattern_time := (throttle s).1, _genpattern_count := (throttle s).2 }
  else s

/-- The transform of the collected window (lines 989-997): `_dw` points to
the first item of `_seqdata`, and `_wav_func` is told to transform
`_fingerprint_n` items from there. -/
def run_transform (P : Params) (s : State) : State :=
  { s with _dw := s._seqdata, _vw := P._wav_func (_fingerprint_n P) s._seqdata }

/-- The clearing of the counters and minimum distances before the bank is
scanned (lines 1032-1037). -/
def clear_counts (s : State) : State :=
  { s with _pos_count := 0, _matchpos_count := 0, _neg_count := 0,
           _matchneg_count := 0, _matchdistance_pos_min := 1,
           _matchdistance_neg_min := 1 }

/-- The scan of the positives, if the logic asks for it (lines 1040-1104). -/
def evaluate_positives (P : Params) (s : State) : State :=
  if P._matches_evaluation_logic = 2 ∨ P._matches_evaluation_logic = 3
      ∨ P._matches_evaluation_logic = 4 then scan_positives P P._fngpts s else s

/-- The scan of the negatives, if the logic asks for it (lines 1107-1164). -/
def evaluate_negatives (P : Params) (s : State) : State :=
  if P._matches_evaluation_logic = 1 ∨ P._matches_evaluation_logic = 3
    then scan_negatives P P._fngpts s else s

/-- A stage of the loop body that is run only while the process runs. -/
def and_then (s : State) (f : State → State) : State :=
  if s.status ≠ .running then s else f s

/-- Matching against the bank (lines 1032-1164). -/
def match_bank (P : Params) (s : State) : State :=
  and_then (evaluate_positives P (clear_counts s)) (evaluate_negatives P)

/-- The clearing of the collector for the next pattern (lines 1390-1391). -/
def clear_pattern (s : State) : State :=
  { s with _seqdata := [], _ispattern := 0 }

/-- What happens when a window is complete (lines 988-1391): transform,
matching, final evaluation, file generation, and clearing the collector. -/
def pattern_end (P : Params) (s : State) : State :=
  and_then (and_then (and_then (match_bank P (run_transform P s))
    (final_evaluation P)) (generate_fingerprint P)) clear_pattern

/-! ## The per-sample loop body (lines 958-1519) -/

/-- The value against which the difference of a sample is taken: the sample
itself on the first line, `_lastval` afterwards (lines 967-968). -/
def prev_value (s : State) (x : Sample) : ℚ :=
  if s._lineid = 0 then x.v else s._lastval

/-- Taking over the parsed line (lines 958-972): current time and value, the
line counter, the seeding of `_lastval` on the first line, and the two
differences. -/
def read_sample (s : State) (x : Sample) : State :=
  { s with
    _curtime := x.t
    _lasttime := x.t
    _curval := x.v
    _lineid := s._lineid + 1
    _lastval := prev_value s x
    _diffnoabs := x.v - prev_value s x
    _diff := |x.v - prev_value s x| }

/-- The value pushed to `_seqdata`: the signed difference or the measurement,
per `_use_diff_value`. -/
def pushed_value (P : Params) (s : State) : ℚ :=
  if P._use_diff_value ≠ 0 then s._diffnoabs else s._curval

/-- The push and the countdown of the collector (lines 978-987). -/
def push_sample (P : Params) (s : State) : State :=
  { s with _seqdata := s._seqdata ++ [pushed_value P s],
           _patterncount := s._patterncount - 1 }

/-- The collector step, `if (_ispattern == 1)` (lines 975-1394). -/
def pattern_evaluation (P : Params) (s : State) : State :=
  if s._ispattern = 1 then
    if (push_sample P s)._patterncount ≤ 0 then pattern_end P (push_sample P s)
    else push_sample P s
  else s

/-- The wait flag at the end of the wait branch (lines 1413-1418): cleared
when more than `_wait_state_usec` have passed since the alarm, and forced
back while a pattern is in progress. -/
def next_iswait (P : Params) (s : State) : Int :=
  if s._ispattern ≠ 0 then 1
  else if (s._curtime.tv_sec - s._alarmraisetime.tv_sec) * 1000000
      + s._curtime.tv_usec - s._alarmraisetime.tv_usec > P._wait_state_usec then 0
  else s._iswait

/-- The wait state and the detector (lines 1403-1454). -/
def wait_detector (P : Params) (s : State) : State :=
  if s._iswait = 1 then
    { s with _isalarm := 0, _iswait := next_iswait P s }
  else if s._diff < P._multiplicator_to_detect * s._diffavg then
    { s with _numthresholded := P._number_of_points_to_alarm }
  else if s._numthresholded - 1 = 0 then
    { s with
      _isalarm := 1
      _alarmraisetime := s._curtime
      _iswait := 1
      _numthresholded := P._number_of_points_to_alarm
      _patternid := s._patternid + 1
      _ispattern := 1
      _patterncount := _fingerprint_n P
      _seqdata := s._seqdata ++ [pushed_value P s] }
  else
    { s with _numthresholded := s._numthresholded - 1 }

/-- The amendment of `_diffavg` (lines 1459-1461), in exact arithmetic;
`amend_diffavg_float` has the roundings of the program. -/
def amend_diffavg (P : Params) (s : State) : State :=
  if s._iswait = 0 ∧ s._numthresholded = P._number_of_points_to_alarm then
    { s with _diffavg := (s._diffavg * ((P._n_amend_avgdiff - 1 : Int) : ℚ) + s._diff)
        / (P._n_amend_avgdiff : ℚ) }
  else s

/-- Remembering the current value and choosing the output value
(lines 1468-1482). -/
def set_output (P : Params) (s : State) : State :=
  { s with
    _lastval := s._curval
    _outputvalue :=
      if P._matchdistance_to_output ≠ 0 then s._matchdistance_out else s._contivalue }

/-- The reset of the match variables at the end of the body
(lines 1517-1519). -/
def reset_match (s : State) : State :=
  { s with _ismatch := 0, _matchdistance_out := -1, _contivalue := 0 }

/-- The state at the point where the output line of a sample is produced
(line 1499), from the state at the top of the loop body and the parsed
sample.  A process that has stopped stays as it is. -/
def process_sample (P : Params) (s : State) (x : Sample) : State :=
  and_then s fun s =>
    and_then (pattern_evaluation P (read_sample s x)) fun e =>
      set_output P (amend_diffavg P (wait_detector P e))

/-- One full pass of the loop body for a parsed sample. -/
def loop_body (P : Params) (s : State) (x : Sample) : State :=
  and_then (process_sample P s x) reset_match

/-- The loop over a list of parsed samples. -/
def main_loop (P : Params) (s : State) (xs : List Sample) : State :=
  xs.foldl (loop_body P) s

/-- The output line of a sample (lines 1486-1496). -/
structure Record where
  lineid : Int
  timestamp : Timeval
  meas : ℚ
  diff : ℚ
  diffavg : ℚ
  isdetect : Int
  isalarm : Int
  iswait : Int
  patternid : Int
  isfinalmatch : Int
  matchdistance : ℚ
  contivalue : ℚ
  outputvalue : ℚ
deriving DecidableEq

/-- The fields of the output line, read off the state at line 1486. -/
def output_record (P : Params) (s : State) : Record where
  lineid := s._lineid
  timestamp := s._curtime
  meas := s._curval
  diff := s._diffnoabs
  diffavg := s._diffavg
  isdetect := if s._numthresholded = P._number_of_points_to_alarm then 0 else 1
  isalarm := s._isalarm
  iswait := s._iswait
  patternid := if s._ispattern ≠ 0 then s._patternid else 0
  isfinalmatch := s._ismatch
  matchdistance := s._matchdistance_out
  contivalue := s._contivalue
  outputvalue := s._outputvalue

/-- The output lines of a run, one per sample that is processed to the end
of the loop body. -/
def records (P : Params) : State → List Sample → List Record
  | _, [] => []
  | s, x :: xs =>
    if (process_sample P s x).status ≠ .running then []
    else output_record P (process_sample P s x)
      :: records P (reset_match (process_sample P s x)) xs


/-! ## Definitions used in the statements and proofs -/

/-- The variables that the matcher and the file generation leave alone. -/
structure Core where
  diffavg : ℚ
  isalarm : Int
  iswait : Int
  numthresholded : Int
  curtime : Timeval
  alarmraisetime : Timeval
  lineid : Int
  curval : ℚ
  lastval : ℚ
  diff : ℚ
  diffnoabs : ℚ
  patternid : Int
  ispattern : Int
  patterncount : Int
  seqdata : List ℚ
  dw : List ℚ
  vw : List ℚ

/-- The detector and collector variables of a state. -/
def State.core (s : State) : Core :=
  ⟨s._diffavg, s._isalarm, s._iswait, s._numthresholded, s._curtime, s._alarmraisetime,
    s._lineid, s._curval, s._lastval, s._diff, s._diffnoabs, s._patternid, s._ispattern,
    s._patterncount, s._seqdata, s._dw, s._vw⟩

/-- The flags are 0 or 1, an alarm or a window in progress comes with the
wait flag, and the line counter does not go below zero. -/
structure Inv (s : State) : Prop where
  alarm01 : s._isalarm = 0 ∨ s._isalarm = 1
  wait01 : s._iswait = 0 ∨ s._iswait = 1
  pattern01 : s._ispattern = 0 ∨ s._ispattern = 1
  alarm_wait : s._isalarm = 1 → s._iswait = 1
  pattern_wait : s._ispattern = 1 → s._iswait = 1
  lineid_nonneg : 0 ≤ s._lineid

/-- The value that a sample contributes to a window: its signed difference
to the previous value, or the measurement itself, per `_use_diff_value`. -/
def window_value (P : Params) (s : State) (x : Sample) : ℚ :=
  if P._use_diff_value ≠ 0 then x.v - prev_value s x else x.v

/-- The rest of the loop body after the collector step. -/
def finish_sample (P : Params) (e : State) : State :=
  reset_match (set_output P (amend_diffavg P (wait_detector P e)))

/-- The amended noise floor of a state and a difference. -/
def amended (P : Params) (d a : ℚ) : ℚ :=
  (d * ((P._n_amend_avgdiff - 1 : Int) : ℚ) + a) / (P._n_amend_avgdiff : ℚ)

/-- A small valid configuration for concrete runs: an alarm after one point,
a wait time of 100 microseconds, windows of 8 samples, evaluation logic 0 and
an empty bank.  `_wav_func` is a stand-in that returns its first `n` input
values. -/
def example_params : Params where
  _sample_each := 1
  _initial_avg_diff := 10
  _n_amend_avgdiff := 500
  _number_of_points_to_alarm := 1
  _multiplicator_to_detect := 2
  _wait_state_usec := 100
  _distance_calculation_type := 1
  _fingerprint_length := 8
  _fingerprint_match_positives_from := 0
  _fingerprint_match_negatives_from := 0
  _fingerprint_match_positives_to := 7
  _fingerprint_match_negatives_to := 7
  _wavelet_function := 2
  _wav_func := fun n d => d.take n.toNat
  _generate_fingerprints := 0
  _matching_distance_positives_max := 1 / 2
  _matching_distance_negatives_max := 1 / 2
  _matches_evaluation_logic := 0
  _use_diff_value := 0
  _matchdistance_to_output := 0
  _genpattern_hour_limit := 0
  _fngpts := []

/-- A sample `u` microseconds after second 1000 of the epoch. -/
def sample_at (u : Int) (v : ℚ) : Sample := ⟨⟨1000, u⟩, v⟩

/-- A quiet sample followed by a jump: the jump raises the alarm under
`example_params`. -/
def example_jump : List Sample := [sample_at 0 100, sample_at 1 1000]

/-- The jump, then a sample 500 microseconds later: the wait time of 100
microseconds is over, the window of 8 samples is not. -/
def example_late : List Sample := example_jump ++ [sample_at 501 1000]

/-- The absolute differences of a list of values, the first one taken
against `prev`. -/
def abs_diffs (prev : ℚ) : List ℚ → List ℚ
  | [] => []
  | v :: vs => |v - prev| :: abs_diffs v vs

/-- The absolute differences `Δ` that the samples `xs` have when they are
processed from the state `s`. -/
def deltas (s : State) : List Sample → List ℚ
  | [] => []
  | x :: xs => abs_diffs (prev_value s x) (x.v :: xs.map (fun y => y.v))

/-- The configuration `example_params` with an alarm after three points. -/
def example_params3 : Params :=
  { example_params with _number_of_points_to_alarm := 3 }

/-- Three rising samples after a first quiet one. -/
def example_rise : List Sample :=
  [sample_at 1 1000, sample_at 2 2000, sample_at 3 3000]

/-- The jump followed by eight steady samples: the window of 8 that the jump
starts is complete on the last one. -/
def example_window : List Sample :=
  example_jump ++ [sample_at 2 1000, sample_at 3 1000, sample_at 4 1000, sample_at 5 1000,
    sample_at 6 1000, sample_at 7 1000, sample_at 8 1000, sample_at 9 1000]

/-- After the window a steady sample past the wait time, then a second
jump. -/
def example_two_alarms : List Sample :=
  example_window ++ [sample_at 200 1000, sample_at 201 5000]

/-- The output line of the first jump of `example_two_alarms`. -/
def example_first_alarm : Record :=
  ⟨2, ⟨1000, 1⟩, 1000, 900, 499 / 50, 0, 1, 1, 1, 0, -1, 0, 0⟩

/-- The output line of the second jump of `example_two_alarms`. -/
def example_second_alarm : Record :=
  ⟨12, ⟨1000, 201⟩, 5000, 4000, 249001 / 25000, 0, 1, 1, 2, 0, -1, 0, 0⟩

/-- The collector invariant of a running process: inside a window the buffer
holds one value more than the samples counted off so far, outside a window
it is empty. -/
def Collecting (P : Params) (s : State) : Prop :=
  s.status = .running →
    (s._ispattern = 1 →
      (s._seqdata.length : Int) = P._fingerprint_length - s._patterncount + 1
      ∧ 1 ≤ s._patterncount ∧ s._patterncount ≤ P._fingerprint_length)
    ∧ (s._ispattern ≠ 1 → s._seqdata = [])

/-- The signed first differences of a list of values, the first one taken
against `prev`. -/
def first_differences (prev : ℚ) : List ℚ → List ℚ
  | [] => []
  | v :: vs => (v - prev) :: first_differences v vs

/-- The values that a window holds for the measurements `vs`: the
measurements themselves, or their signed first differences when
`use_diff_value` is set (`prev` is the value before the first one). -/
def window_values (P : Params) (prev : ℚ) (vs : List ℚ) : List ℚ :=
  if P._use_diff_value ≠ 0 then first_differences prev vs else vs

/-- The eight steady samples that follow `example_jump` in
`example_window`. -/
def example_tail : List Sample :=
  [sample_at 2 1000, sample_at 3 1000, sample_at 4 1000, sample_at 5 1000,
    sample_at 6 1000, sample_at 7 1000, sample_at 8 1000, sample_at 9 1000]

/-- The wait flag described by the time `t` of the last sample: set exactly
when at most the wait time has passed since the alarm or a window is in
progress. -/
def wait_flag_explained (P : Params) (s : State) (t : Int) : Prop :=
  s._iswait = 1 ↔ (t - s._alarmraisetime.usec ≤ P._wait_state_usec ∨ s._ispattern = 1)

/-- A process that has stopped has stopped inside a window. -/
def stopped_in_window (s : State) : Prop :=
  s.status ≠ .running → s._ispattern = 1

/-- A first sample 5 microseconds after the epoch. -/
def example_early : List Sample := [⟨⟨0, 5⟩, 100⟩]

/-- The window of `example_window`, then a sample exactly 100 microseconds
after the alarm. -/
def example_boundary : List Sample := example_window ++ [sample_at 101 1000]

/-- The sums with the roles of the two vectors exchanged. -/
def Sums.swap (s : Sums) : Sums := ⟨s.cc, s.yy, s.xx⟩

/-- The normalisation and clamping of lines 1652-1660 on given sums. -/
def normalise (s : Sums) : DistVal :=
  if s.xx + s.yy = 0 then .nan
  else .num (if (if s.cc / (s.xx + s.yy) > 1 then 1 else s.cc / (s.xx + s.yy)) < 0 then 0
    else (if s.cc / (s.xx + s.yy) > 1 then 1 else s.cc / (s.xx + s.yy)))

/-- The first index `ifrom` of level `i` (line 1576). -/
def level_from (i : Int) : Int := if i = 0 then 0 else 2 ^ (i - 1).toNat

/-- The last index `ito` of level `i` (line 1577). -/
def level_to (i : Int) : Int := 2 ^ i.toNat - 1

/-- The item `v[i]` of a vector, zero outside the stored values. -/
def item (v : List ℚ) (i : Int) : ℚ := (rd v i).getD 0

/-- The numerator of the reference distance: the sum of `(v1[i] − v2[i])²`
over `i = from .. to`. -/
def window_num (v1 v2 : List ℚ) (from_ to_ : Int) : ℚ :=
  ∑ i in Finset.Icc from_ to_, (item v1 i - item v2 i) ^ 2

/-- The denominator of the reference distance: the sum of `v1[i]²` plus the
sum of `v2[i]²` over `i = from .. to`. -/
def window_den (v1 v2 : List ℚ) (from_ to_ : Int) : ℚ :=
  ∑ i in Finset.Icc from_ to_, item v1 i ^ 2 + ∑ i in Finset.Icc from_ to_, item v2 i ^ 2

/-- The clamp of a value to the interval from 0 to 1. -/
def clamp01 (q : ℚ) : ℚ := max 0 (min q 1)

/-- The sums of a vector and its `k`-fold: `cc = (1 − k)²·xx` and
`yy = k²·xx`. -/
def Scaled (k : ℚ) (s : Sums) : Prop :=
  s.cc = (1 - k) ^ 2 * s.xx ∧ s.yy = k ^ 2 * s.xx

/-- The vector of length 8 with the values 1 to 8. -/
def example_vector : List ℚ := [1, 2, 3, 4, 5, 6, 7, 8]

/-- The zero vector of length 8. -/
def zero_vector : List ℚ := [0, 0, 0, 0, 0, 0, 0, 0]

/-- The dyadic bands of the reference definition of mode 2: `[0, 0]` and
`[2^(i−1), 2^i − 1]` for `i = 1 .. log2 L` (written with `j = i − 1`). -/
def bands (flength : Int) : List (Int × Int) :=
  (0, 0) :: (List.range (Nat.log2 flength.toNat)).map
    (fun (j : Nat) => ((2 : Int) ^ j, (2 : Int) ^ (j + 1) - 1))

/-- The bands that lie fully inside `from_ .. to_`. -/
def kept_bands (from_ to_ flength : Int) : List (Int × Int) :=
  (bands flength).filter (fun b => decide (from_ ≤ b.1 ∧ b.2 ≤ to_))

/-- The arithmetic mean of a vector over a band. -/
def band_mean (v : List ℚ) (b : Int × Int) : ℚ :=
  (∑ j in Finset.Icc b.1 b.2, item v j) / ((b.2 - b.1 + 1 : Int) : ℚ)

/-- The vector of the means of `v` over the kept bands. -/
def band_means (v : List ℚ) (from_ to_ flength : Int) : List ℚ :=
  (kept_bands from_ to_ flength).map (band_mean v)

/-- The name of a bank entry starts with `p`: a positive fingerprint. -/
def is_positive (fp : Fingerprint) : Bool := decide (fp.name.take 1 = ['p'])

/-- The name of a bank entry starts with `n`: a negative fingerprint. -/
def is_negative (fp : Fingerprint) : Bool := decide (fp.name.take 1 = ['n'])

/-- The coefficients of the completed window: what `_wav_func` makes of
`_seqdata` (line 997). -/
def coefficients (P : Params) (s : State) : List ℚ :=
  P._wav_func (_fingerprint_n P) s._seqdata

/-- The distance of the coefficients `vw` to a bank entry taken as a positive
fingerprint (lines 1051-1055). -/
def positive_distance (P : Params) (vw : List ℚ) (fp : Fingerprint) : DistVal :=
  _eucl_dist vw fp.values P._fingerprint_match_positives_from
    P._fingerprint_match_positives_to P._fingerprint_length P._distance_calculation_type

/-- The distance of the coefficients `vw` to a bank entry taken as a negative
fingerprint (lines 1117-1121). -/
def negative_distance (P : Params) (vw : List ℚ) (fp : Fingerprint) : DistVal :=
  _eucl_dist vw fp.values P._fingerprint_match_negatives_from
    P._fingerprint_match_negatives_to P._fingerprint_length P._distance_calculation_type

/-- The distances that are numbers, in order. -/
def numbers : List DistVal → List ℚ
  | [] => []
  | .num d :: ds => d :: numbers ds
  | .nan :: ds => numbers ds
  | .oob :: ds => numbers ds

/-- The distances of `vw` to the positive fingerprints of a bank, in bank
order. -/
def positive_distances (P : Params) (bank : List Fingerprint) (vw : List ℚ) : List ℚ :=
  numbers ((bank.filter is_positive).map (positive_distance P vw))

/-- The distances of `vw` to the negative fingerprints of a bank, in bank
order. -/
def negative_distances (P : Params) (bank : List Fingerprint) (vw : List ℚ) : List ℚ :=
  numbers ((bank.filter is_negative).map (negative_distance P vw))

/-- The minimum of a list of distances, 1 for the empty list. -/
def least (ds : List ℚ) : ℚ := ds.foldl min 1

/-- The number of distances within the threshold. -/
def hits (thr : ℚ) (ds : List ℚ) : Int := (ds.countP (fun d => decide (d ≤ thr)) : Nat)

/-- The distances up to and including the first one within the threshold. -/
def up_to_first_hit (thr : ℚ) : List ℚ → List ℚ
  | [] => []
  | d :: ds => if d ≤ thr then [d] else d :: up_to_first_hit thr ds

/-- The distances that the positives loop takes: all of them under logic 4,
those up to the first hit under logic 2 and 3. -/
def scanned (R : Int) (thr : ℚ) (ds : List ℚ) : List ℚ :=
  if R = 2 ∨ R = 3 then up_to_first_hit thr ds else ds

/-- The tallies of the matcher in a state. -/
structure Tally where
  status : Status
  vw : List ℚ
  matchpos_count : Int
  matchneg_count : Int
  pos_min : ℚ
  neg_min : ℚ

/-- The matcher's tallies of a state. -/
def State.tally (s : State) : Tally :=
  ⟨s.status, s._vw, s._matchpos_count, s._matchneg_count, s._matchdistance_pos_min,
    s._matchdistance_neg_min⟩

/-- The three results of the final evaluation in a state. -/
def State.verdict (s : State) : Int × ℚ × ℚ :=
  (s._ismatch, s._matchdistance_out, s._contivalue)

/-- A bank of two positive and two negative fingerprints of length 8. -/
def example_bank : List Fingerprint :=
  [⟨['p', '_', 'a'], [1, 2, 3, 4, 5, 6, 7, 9]⟩, ⟨['n', '_', 'a'], [8, 7, 6, 5, 4, 3, 2, 1]⟩,
    ⟨['p', '_', 'b'], [1, 2, 3, 4, 5, 6, 7, 8]⟩, ⟨['n', '_', 'b'], [1, 2, 3, 4, 5, 6, 7, 0]⟩]

/-- The parameters `example_params` with `example_bank`, the evaluation
logic `R` and the threshold `1/10` for the negative fingerprints. -/
def example_matcher (R : Int) : Params :=
  { example_params with
    _matches_evaluation_logic := R
    _matching_distance_negatives_max := 1 / 10
    _fngpts := example_bank }

/-- A running state whose window is complete: nine collected values. -/
def example_collected : State :=
  { init example_params with _seqdata := [1, 2, 3, 4, 5, 6, 7, 8, 9] }

/-- The match variables stand as the end of the loop body leaves them
(lines 1517-1519), in a running process. -/
def Cleared (s : State) : Prop := s.status = .running → s.verdict = (0, -1, 0)

/-- The state that the end of a window hands to the matcher: the sample is
read and pushed. -/
def window_state (P : Params) (s : State) (x : Sample) : State :=
  push_sample P (read_sample s x)

/-- The step on the sample with index `j` of a run completes a window. -/
def completes_window (P : Params) (xs : List Sample) (j : Nat) : Prop :=
  (main_loop P (init P) (xs.take j))._ispattern = 1
    ∧ (main_loop P (init P) (xs.take j))._patterncount - 1 ≤ 0

/-- Both minimum distances lie between 0 and 1. -/
def MinRange (s : State) : Prop :=
  (0 ≤ s._matchdistance_pos_min ∧ s._matchdistance_pos_min ≤ 1)
    ∧ (0 ≤ s._matchdistance_neg_min ∧ s._matchdistance_neg_min ≤ 1)

/-- The output line of the window end of `example_window` under
`example_matcher 1`. -/
def example_match_line : Record :=
  ⟨10, ⟨1000, 9⟩, 1000, 0, 499 / 50, 0, 0, 1, 0, 1, 1982051 / 2000051, 1982051 / 2000051,
    1982051 / 2000051⟩

/-- The output line of the window end of `example_window` under
`example_params`, that is under logic 0. -/
def example_plain_line : Record :=
  ⟨10, ⟨1000, 9⟩, 1000, 0, 499 / 50, 0, 0, 1, 0, 1, -1, 1, 1⟩

/-- The coefficients of the window that the sample `x` with index `j`
completes in the run over `xs`. -/
def window_coefficients (P : Params) (xs : List Sample) (j : Nat) (x : Sample) : List ℚ :=
  coefficients P (window_state P (main_loop P (init P) (xs.take j)) x)

/-- The parameters `example_params` under logic 2 with a bank of two positive
fingerprints: the first one near the window of `example_window`, the second
one equal to it. -/
def example_known : Params :=
  { example_params with
    _matches_evaluation_logic := 2
    _fngpts :=
      [⟨['p', '_', 'n', 'e', 'a', 'r'], [1000, 1000, 1000, 1000, 1000, 1000, 1000, 900]⟩,
        ⟨['p', '_', 's', 'a', 'm', 'e'],
          [1000, 1000, 1000, 1000, 1000, 1000, 1000, 1000]⟩] }

/-- The output line of the window end of `example_window` under
`example_known`. -/
def example_known_line : Record :=
  ⟨10, ⟨1000, 9⟩, 1000, 0, 499 / 50, 0, 0, 1, 0, 1, 1 / 1581, 1580 / 1581, 1580 / 1581⟩

/-- The two counters of computed distances: `_pos_count` and `_neg_count` go
up by one with every call of `_eucl_dist` (lines 1048 and 1114). -/
def State.counts (s : State) : Int × Int := (s._pos_count, s._neg_count)

/-- The parameters `example_params` under the default logic 1; the bank is
empty. -/
def example_default_logic : Params :=
  { example_params with _matches_evaluation_logic := 1 }

/-- The parameters `example_params` under logic 2; the bank is empty. -/
def example_positive_logic : Params :=
  { example_params with _matches_evaluation_logic := 2 }

/-- The output line of the window end of `example_window` under
`example_default_logic`. -/
def example_default_line : Record :=
  ⟨10, ⟨1000, 9⟩, 1000, 0, 499 / 50, 0, 0, 1, 0, 1, 1, 1, 1⟩

/-- The output line of the window end of `example_window` under
`example_positive_logic`. -/
def example_positive_line : Record :=
  ⟨10, ⟨1000, 9⟩, 1000, 0, 499 / 50, 0, 0, 1, 0, 0, -1, 0, 0⟩

/-- The factor `(N − 1)/N` by which an amendment with `Δ = 0` scales the
noise floor. -/
def decay (P : Params) : ℚ :=
  ((P._n_amend_avgdiff - 1 : Int) : ℚ) / (P._n_amend_avgdiff : ℚ)

/-- The parameters `example_params` with the smoothing constant `N = 1`. -/
def example_params_n1 : Params := { example_params with _n_amend_avgdiff := 1 }

/-- Two samples that carry the same value. -/
def example_flat : List Sample := [sample_at 0 100, sample_at 1 100]

/-- The stream 100, 100, 100, 1000, 1000, 1000, 1000 of the single-spike
scenario. -/
def example_spike : List Sample :=
  [sample_at 0 100, sample_at 1 100, sample_at 2 100, sample_at 3 1000, sample_at 4 1000,
    sample_at 5 1000, sample_at 6 1000]

/-- A stream with three successive rises of 900 after three quiet samples. -/
def example_three_rises : List Sample :=
  [sample_at 0 100, sample_at 1 100, sample_at 2 100, sample_at 3 1000, sample_at 4 1900,
    sample_at 5 2800]

/-- The distances of `vw` to the positive fingerprints of a bank, in bank
order, as `_eucl_dist` hands them back. -/
def positive_entries (P : Params) (bank : List Fingerprint) (vw : List ℚ) : List DistVal :=
  (bank.filter is_positive).map (positive_distance P vw)

/-- The distances up to and including the first number within the
threshold. -/
def visited (thr : ℚ) : List DistVal → List DistVal
  | [] => []
  | .num d :: ds => if d ≤ thr then [.num d] else .num d :: visited thr ds
  | .nan :: ds => .nan :: visited thr ds
  | .oob :: ds => .oob :: visited thr ds

/-- The first distance within the threshold. -/
def first_hit (thr : ℚ) (ds : List ℚ) : Option ℚ := ds.find? (fun d => decide (d ≤ thr))

/-- The state after the scan of the positives at the end of the window that
`s` holds (lines 989-1104). -/
def positives_scanned (P : Params) (s : State) : State :=
  evaluate_positives P (clear_counts (run_transform P s))

/-- The indices `j` that the inner loop of `case 2` (lines 1585-1591) reads
from `v1` and from `v2`, over the levels `ls` of the outer loop: those of the
levels that lie fully inside `from_ .. to_`. -/
def level_reads (from_ to_ : Int) : List Int → List Int
  | [] => []
  | i :: ls =>
    (if level_from i ≥ from_ ∧ level_to i ≤ to_ then int_range (level_from i) (level_to i)
      else []) ++ level_reads from_ to_ ls

/-- The indices that `_eucl_dist` reads from `v1` and from `v2` in mode 2
(lines 1573-1600), with `clength = log2(flength)`. -/
def mode2_reads (from_ to_ flength : Int) : List Int :=
  level_reads from_ to_ (int_range 0 ((Nat.log2 flength.toNat : Nat) : Int))

/-- The reading of one fingerprint file of the bank (lines 807-854): every
line goes through `std::stod` (`none` stands for a line that it refuses,
which ends the program with `return 1`), and the file is accepted with as
many values as it has lines, whatever `_fingerprint_length` is: the only
test on the length (line 887) is a warning for a longer one. -/
def load_fingerprint (patname : List Char) (lines : List (Option ℚ)) : Option Fingerprint :=
  if lines.all Option.isSome then some ⟨patname, lines.filterMap id⟩ else none

/-- A fingerprint file of three values. -/
def example_short_file : List (Option ℚ) := [some 1, some 2, some 3]

/-- The fingerprint that `load_fingerprint` makes of `example_short_file`. -/
def example_short : Fingerprint := ⟨['p', '_', 's'], [1, 2, 3]⟩

/-- The parameters `example_params` (length 8, ranges `0 .. 7`, mode 1) under
logic 2 with the bank that holds `example_short` only. -/
def example_short_matcher : Params :=
  { example_params with _matches_evaluation_logic := 2, _fngpts := [example_short] }

/-- The amendment of `_fingerprint_length` (lines 637-644):
`if (l != pow(2, trunc(log2(l)))) l = pow(2, trunc(log2(l)))`.  For an `int`
`l ≥ 1` the `trunc(log2(l))` of the source is the integer logarithm: the
`double` nearest to `log2(l)` reaches the next integer for no `l < 2^31`. -/
def amend_fingerprint_length (l : Int) : Int :=
  if l ≠ 2 ^ Nat.log2 l.toNat then 2 ^ Nat.log2 l.toNat else l

/-- The tests of the option loop (lines 136-510) on the values that the
program starts with, each of which is either a default of lines 102-126
(all of which pass) or was read and tested by its `case`; a failed test is
`return 1`. -/
def options_valid (P : Params) : Bool :=
  decide ((P._distance_calculation_type = 1 ∨ P._distance_calculation_type = 2)
    ∧ (0 ≤ P._generate_fingerprints ∧ P._generate_fingerprints ≤ 2)
    ∧ (0 ≤ P._matches_evaluation_logic ∧ P._matches_evaluation_logic ≤ 4)
    ∧ 1 ≤ P._sample_each
    ∧ 0 < P._initial_avg_diff
    ∧ 1 ≤ P._n_amend_avgdiff
    ∧ 1 ≤ P._number_of_points_to_alarm
    ∧ 0 < P._multiplicator_to_detect
    ∧ 0 ≤ P._wait_state_usec
    ∧ 8 ≤ P._fingerprint_length
    ∧ 0 ≤ P._fingerprint_match_positives_from
    ∧ 0 < P._fingerprint_match_positives_to
    ∧ 0 ≤ P._fingerprint_match_negatives_from
    ∧ 0 < P._fingerprint_match_negatives_to
    ∧ 0 ≤ P._genpattern_hour_limit
    ∧ P._wavelet_function ∈ [2, 4, 6, 8, 10, 12, 14, 16, 18, 20]
    ∧ (0 ≤ P._matching_distance_positives_max ∧ P._matching_distance_positives_max ≤ 1)
    ∧ (0 ≤ P._matching_distance_negatives_max ∧ P._matching_distance_negatives_max ≤ 1))

/-- The "lightweight arguments logical validity evaluation" (lines 610-627);
when it fails the program ends with `return 1`. -/
def arguments_valid (P : Params) : Bool :=
  decide (¬ (P._sample_each ≤ 0 ∨ P._initial_avg_diff ≤ 0 ∨ P._n_amend_avgdiff ≤ 0
    ∨ P._number_of_points_to_alarm ≤ 0 ∨ P._multiplicator_to_detect ≤ 0
    ∨ P._wait_state_usec < 0 ∨ P._fingerprint_length ≤ 0
    ∨ P._fingerprint_match_positives_from < 0
    ∨ P._fingerprint_match_negatives_from < 0
    ∨ P._matching_distance_positives_max < 0
    ∨ P._matching_distance_negatives_max < 0))

/-- The amendments of lines 637-661: the length goes down to a power of two,
then each `.._to` above the amended length minus one is set to it. -/
def amend_arguments (P : Params) : Params :=
  { P with
    _fingerprint_length := amend_fingerprint_length P._fingerprint_length
    _fingerprint_match_positives_to :=
      if P._fingerprint_match_positives_to
          > amend_fingerprint_length P._fingerprint_length - 1
        then amend_fingerprint_length P._fingerprint_length - 1
        else P._fingerprint_match_positives_to
    _fingerprint_match_negatives_to :=
      if P._fingerprint_match_negatives_to
          > amend_fingerprint_length P._fingerprint_length - 1
        then amend_fingerprint_length P._fingerprint_length - 1
        else P._fingerprint_match_negatives_to }

/-- The start of `main` up to the loop (lines 102-661), `-h` not being given,
on the parameter values `P` that the option loop has put together: the
parameters that the loop runs with, or `none` for `return 1`. -/
def startup (P : Params) : Option Params :=
  if options_valid P = true ∧ arguments_valid P = true then some (amend_arguments P) else none

/-- The parameters `example_params` with the length 1000 and `.._to` values
above it. -/
def example_arguments : Params :=
  { example_params with
    _fingerprint_length := 1000
    _fingerprint_match_positives_to := 2000
    _fingerprint_match_negatives_to := 600 }

/-- The parameters `example_params` with a positive range whose start is
above its end and a negative range whose start is above the length. -/
def example_crossed : Params :=
  { example_params with
    _fingerprint_match_positives_from := 5
    _fingerprint_match_positives_to := 3
    _fingerprint_match_negatives_from := 2000 }

/-- The variables of the sampling cursor and of the hourly limit on
generated files. -/
structure Rate where
  cursample : Int
  time : Timeval
  count : Int
  files : List (Int × Timeval × List ℚ)

/-- The sampling cursor, the start and the count of the current hour, and
the files written so far. -/
def State.rate (s : State) : Rate :=
  ⟨s._cursample, s._genpattern_time, s._genpattern_count, s._outputfiles⟩

/-- What the head of the loop body (lines 919-964) sees of an input line:
whether it contains `_skip_if_contains`, whether it contains `;`, whether
`sscanf` finds the seven fields of the timestamp, the time that lines 952-959
make of the variables that `sscanf` has filled (it leaves alone those that
it does not reach), and what `std::stod` makes of the field after the `;`
(`none`: it throws). -/
structure Line where
  heading : Bool
  separator : Bool
  timestamp : Bool
  t : Timeval
  value : Option ℚ

/-- One pass of the `while` loop on an input line (lines 913-1521).  The
sampling test `_cursample-- > 1` comes first; then the two `continue` tests;
the result of `sscanf` is not looked at; `std::stod` is called outside any
`try`, so a value that it refuses ends the process with the uncaught
exception (`std::terminate`, shown as the exit code 134 of `abort`). -/
def line_body (P : Params) (s : State) (l : Line) : State :=
  and_then s fun s =>
    if s._cursample > 1 then { s with _cursample := s._cursample - 1 }
    else if l.heading = true ∨ l.separator = false then
      { s with _cursample := P._sample_each }
    else
      match l.value with
      | none =>
        { s with _cursample := P._sample_each, _curtime := l.t, _lasttime := l.t,
                 status := .exited 134 }
      | some v => loop_body P { s with _cursample := P._sample_each } ⟨l.t, v⟩

/-- The `while` loop over the input lines. -/
def lines_loop (P : Params) (s : State) (ls : List Line) : State :=
  ls.foldl (line_body P) s

/-- The input line that is parsed to the sample `x`. -/
def Sample.line (x : Sample) : Line := ⟨false, true, true, x.t, some x.v⟩

/-- A well-formed input line. -/
def line_at (u : Int) (v : ℚ) : Line := ⟨false, true, true, ⟨1000, u⟩, some v⟩

/-- A heading line: it contains `_skip_if_contains`. -/
def example_heading : Line := ⟨true, true, false, ⟨0, 0⟩, none⟩

/-- A line without `;`. -/
def example_no_separator : Line := ⟨false, false, false, ⟨0, 0⟩, none⟩

/-- A line `10-03-2016 15:19:20.729915;abc`: the value is no number. -/
def example_bad_value : Line := ⟨false, true, true, ⟨1000, 5⟩, none⟩

/-- A line `yesterday;1000`: `sscanf` finds no field, and the time is the
one of the line before. -/
def example_bad_timestamp : Line := ⟨false, true, false, ⟨1000, 0⟩, some 1000⟩

/-- The parameters `example_params` with one line of three taken. -/
def example_sampling : Params := { example_params with _sample_each := 3 }

/-- Five input lines of any kind. -/
def example_lines : List Line :=
  [example_heading, line_at 0 100, example_no_separator, line_at 1 100, line_at 2 100]

/-- The file generation reached at the time `T` (lines 1295-1378): what the
end of a window does to the hourly limit and to the files when the sample
that completes the window carries the time `T`. -/
def would_be_write (P : Params) (s : State) (T : Timeval) : State :=
  generate_fingerprint P { s with _curtime := T }

/-- The file generation reached at the times `ts`, one after the other. -/
def would_be_writes (P : Params) (s : State) (ts : List Timeval) : State :=
  ts.foldl (would_be_write P) s

/-- The test of line 1295: a file is to be written, the hourly limit
permitting. -/
def generating (P : Params) (s : State) : Prop :=
  P._generate_fingerprints = 1 ∨ (P._generate_fingerprints = 2 ∧ s._ismatch = 0)

/-- The file that the generation writes at the time `T`: pattern id, time,
and the first `_fingerprint_n` coefficients. -/
def file_at (P : Params) (s : State) (T : Timeval) : Int × Timeval × List ℚ :=
  (s._patternid, T, s._vw.take (_fingerprint_n P).toNat)

/-- The seconds at which the files were written. -/
def file_seconds (s : State) : List Int := s._outputfiles.map (fun f => f.2.1.tv_sec)

/-- The parameters `example_params` with a file for every window
(`_generate_fingerprints = 1`) and at most two files per hour. -/
def example_limited : Params :=
  { example_params with _generate_fingerprints := 1, _genpattern_hour_limit := 2 }

/-- Ten samples in the second `sec`: a quiet one, a jump that raises the
alarm, and eight more that complete the window. -/
def example_burst (sec : Int) : List Sample :=
  ⟨⟨sec, 0⟩, 100⟩ :: (List.range 9).map (fun (k : Nat) => ⟨⟨sec, (k : Int) + 1⟩, 1000⟩)

/-- Ten windows, three minutes apart, from the second `sec` on: all within
27 minutes. -/
def example_feed (sec : Int) : List Sample :=
  (List.range 10).flatMap (fun (i : Nat) => example_burst (sec + 180 * (i : Int)))

/-- The times `ts` do not go back, and none is before `a`. -/
def non_decreasing : Int → List Int → Bool
  | _, [] => true
  | a, t :: ts => decide (a ≤ t) && non_decreasing t ts

/-- The number of the times `F` that lie in the hour `a .. a + 3600`. -/
def within_hour (a : Int) (F : List Int) : Nat :=
  F.countP (fun t => decide (a ≤ t ∧ t ≤ a + 3600))

/-- What holds of the start `b` and the count `c` of the current hour and of
the seconds `F` of the files written so far, after a sample of the second
`l`, under the limit `H`. -/
structure Hourly (H l b c : Int) (F : List Int) : Prop where
  count_range : 0 ≤ c ∧ c ≤ H
  start_le : b ≤ l
  files_le : ∀ t ∈ F, t ≤ l ∧ t ≤ b + 60 * 60
  current : (F.countP (fun t => decide (b ≤ t)) : Int) ≤ c
  before : ∀ a : Int, b ≤ a + 60 * 60 →
    (F.countP (fun t => decide (a ≤ t ∧ t < b)) : Int) ≤ H
  rolling : ∀ a : Int, (within_hour a F : Int) ≤ 2 * H

/-- Four bursts: one that opens an hour, one at the end of that hour, and
two right after it. -/
def example_hour_edge : List Sample :=
  example_burst 10000 ++ example_burst 13599 ++ example_burst 13601 ++ example_burst 13602

/-- The hourly limit and the files of a state, after a sample of the second
`l`. -/
def State.hourly (H l : Int) (s : State) : Prop :=
  Hourly H l s._genpattern_time.tv_sec s._genpattern_count (file_seconds s)

/-- The search for a `k` with `n < 2^(2^k)`, counting up from `k`.  The first
argument bounds the number of steps; `n` itself is enough. -/
def log2_span (n : Nat) : Nat → Nat → Nat
  | 0, k => k
  | f + 1, k => if n < 2 ^ (2 ^ k) then k else log2_span n f (k + 1)

/-- The bisection that brings `2^lo ≤ n < 2^(lo + 2^k)` down to `2^lo ≤ n <
2^(lo + 1)`. -/
def log2_refine (n : Nat) : Nat → Nat → Nat
  | 0, lo => lo
  | k + 1, lo =>
    if 2 ^ (lo + 2 ^ k) ≤ n then log2_refine n k (lo + 2 ^ k) else log2_refine n k lo

/-- The binary exponent of `n ≥ 1`: the `e` with `2^e ≤ n < 2^(e + 1)`. -/
def nat_log2 (n : Nat) : Nat := log2_refine n (log2_span n n 0) 0

/-- The binary exponent of the positive rational `n / d`: the `e` with
`2^e ≤ n / d < 2^(e + 1)`. -/
def floor_log2 (n d : Nat) : Int :=
  if d * 2 ^ nat_log2 n ≤ n * 2 ^ nat_log2 d
  then (nat_log2 n : Int) - (nat_log2 d : Int)
  else (nat_log2 n : Int) - (nat_log2 d : Int) - 1

/-- The integer nearest to `n / d`, the even one of the two when `n / d`
lies half way. -/
def half_even (n d : Nat) : Nat :=
  if 2 * (n % d) < d then n / d
  else if d < 2 * (n % d) then n / d + 1
  else if (n / d) % 2 = 0 then n / d else n / d + 1

/-- The exponent of the spacing of a binary format with `p` significant bits
and the least normal exponent `emin` at `q ≠ 0`: `e − (p − 1)`, where `e` is
the binary exponent of `q`, taken as `emin` below the normal range (gradual
underflow). -/
def quantum (p : Nat) (emin : Int) (q : ℚ) : Int :=
  max (floor_log2 q.num.natAbs q.den) emin - ((p : Int) - 1)

/-- The rounding of IEEE 754 to a binary format with `p` significant bits and
the least normal exponent `emin`: to the nearest multiple of `2^quantum`,
ties to even, down to zero.  The format has no largest value here: what the
program has as infinity is left as a number. -/
def round_binary (p : Nat) (emin : Int) (q : ℚ) : ℚ :=
  if q = 0 then 0
  else if 0 ≤ quantum p emin q then
    ((q.num.sign * ((half_even q.num.natAbs (q.den * 2 ^ (quantum p emin q).toNat)
        * 2 ^ (quantum p emin q).toNat : Nat) : Int) : Int) : ℚ)
  else
    ((q.num.sign * ((half_even (q.num.natAbs * 2 ^ (-quantum p emin q).toNat) q.den
        : Nat) : Int) : Int) : ℚ) / ((2 ^ (-quantum p emin q).toNat : Nat) : ℚ)

/-- The value of a real number as a `float` (binary32), as the store into
`float _diffavg` (hpp line 137) and the conversion of an `int` operand of a
`float` product make it. -/
def to_float (q : ℚ) : ℚ := round_binary 24 (-126) q

/-- The value of a real number as a `double` (binary64): the result of a
`double` operation. -/
def to_double (q : ℚ) : ℚ := round_binary 53 (-1022) q

/-- The state in which the loop is entered, with `_diffavg =
_initial_avg_diff` (line 676) as the `float` that it is. -/
def init_float (P : Params) : State :=
  { init P with _diffavg := to_float P._initial_avg_diff }

/-- The wait state and the detector (lines 1403-1454) with the product
`_multiplicator_to_detect * _diffavg` of line 1424 as the `double` that it
is. -/
def wait_detector_float (P : Params) (s : State) : State :=
  if s._iswait = 1 then
    { s with _isalarm := 0, _iswait := next_iswait P s }
  else if s._diff < to_double (P._multiplicator_to_detect * s._diffavg) then
    { s with _numthresholded := P._number_of_points_to_alarm }
  else if s._numthresholded - 1 = 0 then
    { s with
      _isalarm := 1
      _alarmraisetime := s._curtime
      _iswait := 1
      _numthresholded := P._number_of_points_to_alarm
      _patternid := s._patternid + 1
      _ispattern := 1
      _patterncount := _fingerprint_n P
      _seqdata := s._seqdata ++ [pushed_value P s] }
  else
    { s with _numthresholded := s._numthresholded - 1 }

/-- The amendment of `_diffavg` (lines 1459-1461) in the arithmetic of its
operands: `_diffavg * (_n_amend_avgdiff - 1)` is a `float` product (the `int`
is converted to `float`), the sum with the `double` `_diff` and the quotient
by `_n_amend_avgdiff` are `double` operations, and the store into `_diffavg`
rounds to `float`. -/
def amend_diffavg_float (P : Params) (s : State) : State :=
  if s._iswait = 0 ∧ s._numthresholded = P._number_of_points_to_alarm then
    { s with _diffavg :=
        to_float (to_double (to_double
          (to_float (s._diffavg * to_float ((P._n_amend_avgdiff - 1 : Int) : ℚ)) + s._diff)
            / (P._n_amend_avgdiff : ℚ))) }
  else s

/-- The loop body up to the output line, as `process_sample`, with the
`float` variable `_diffavg` rounded as the program rounds it. -/
def process_sample_float (P : Params) (s : State) (x : Sample) : State :=
  and_then s fun s =>
    and_then (pattern_evaluation P (read_sample s x)) fun e =>
      set_output P (amend_diffavg_float P (wait_detector_float P e))

/-- One full pass of the loop body with the `float` variable `_diffavg`. -/
def loop_body_float (P : Params) (s : State) (x : Sample) : State :=
  and_then (process_sample_float P s x) reset_match

/-- The loop over a list of parsed samples with the `float` variable
`_diffavg`. -/
def main_loop_float (P : Params) (s : State) (xs : List Sample) : State :=
  xs.foldl (loop_body_float P) s

/-- The output lines of a run with the `float` variable `_diffavg`. -/
def records_float (P : Params) : State → List Sample → List Record
  | _, [] => []
  | s, x :: xs =>
    if (process_sample_float P s x).status ≠ .running then []
    else output_record P (process_sample_float P s x)
      :: records_float P (reset_match (process_sample_float P s x)) xs

/-- The parameters `example_params` with the smoothing constant `N = 2`:
`D0 = 10`, `A = 1`, `M = 2`. -/
def example_params_n2 : Params := { example_params with _n_amend_avgdiff := 2 }

/-- A stream of `n` samples that all carry the value 1000. -/
def example_quiescent (n : Nat) : List Sample := List.replicate n (sample_at 0 1000)

/-! ## Theorems -/

theorem match_positive_core (P : Params) (fp : Fingerprint) (s : State) :
    (match_positive P fp s).core = s.core := by
  unfold match_positive
  split_ifs
  · split <;> rfl
  · rfl

theorem scan_positives_core (P : Params) (l : List Fingerprint) (s : State) :
    (scan_positives P l s).core = s.core := by
  induction l generalizing s with
  | nil => rfl
  | cons fp rest ih =>
    unfold scan_positives
    split_ifs
    · exact match_positive_core P fp s
    · exact match_positive_core P fp s
    · rw [ih]; exact match_positive_core P fp s

theorem match_negative_core (P : Params) (fp : Fingerprint) (s : State) :
    (match_negative P fp s).core = s.core := by
  unfold match_negative
  split_ifs
  · split <;> rfl
  · rfl

theorem scan_negatives_core (P : Params) (l : List Fingerprint) (s : State) :
    (scan_negatives P l s).core = s.core := by
  induction l generalizing s with
  | nil => rfl
  | cons fp rest ih =>
    unfold scan_negatives
    split_ifs
    · exact match_negative_core P fp s
    · rw [ih]; exact match_negative_core P fp s

theorem final_evaluation_core (P : Params) (s : State) :
    (final_evaluation P s).core = s.core := by
  unfold final_evaluation
  split_ifs <;> rfl

theorem generate_fingerprint_core (P : Params) (s : State) :
    (generate_fingerprint P s).core = s.core := by
  unfold generate_fingerprint
  split_ifs <;> rfl

/-- A guarded stage that leaves the detector and collector variables alone. -/
theorem and_then_core (s : State) (f : State → State) (hf : ∀ t, (f t).core = t.core) :
    (and_then s f).core = s.core := by
  unfold and_then
  split_ifs
  · rfl
  · exact hf s

theorem match_bank_core (P : Params) (s : State) :
    (match_bank P s).core = s.core := by
  unfold match_bank
  rw [and_then_core]
  · unfold evaluate_positives
    split_ifs
    · rw [scan_positives_core]; rfl
    · rfl
  · intro t
    unfold evaluate_negatives
    split_ifs
    · rw [scan_negatives_core]
    · rfl

/-- The window end touches the detector and collector variables only through
`_dw`, `_vw` and the final clearing of `_seqdata` and `_ispattern`. -/
theorem pattern_end_core (P : Params) (s : State) :
    (pattern_end P s).core =
      { s.core with
        dw := s._seqdata
        vw := P._wav_func (_fingerprint_n P) s._seqdata
        ispattern := if (pattern_end P s).status = .running then 0 else s._ispattern
        seqdata := if (pattern_end P s).status = .running then [] else s._seqdata } := by
  have hc : (and_then (and_then (match_bank P (run_transform P s))
      (final_evaluation P)) (generate_fingerprint P)).core = (run_transform P s).core := by
    rw [and_then_core _ _ (generate_fingerprint_core P),
      and_then_core _ _ (final_evaluation_core P), match_bank_core]
  unfold pattern_end
  generalize and_then (and_then (match_bank P (run_transform P s))
      (final_evaluation P)) (generate_fingerprint P) = c at hc ⊢
  simp only [State.core, run_transform, Core.mk.injEq] at hc
  obtain ⟨c1, c2, c3, c4, c5, c6, c7, c8, c9, c10, c11, c12, c13, c14, c15, c16, c17⟩ := hc
  unfold and_then
  by_cases h : c.status = .running
  · simp [h, clear_pattern, State.core, *]
  · simp [h, State.core, *]

/-! ### The collector step -/

theorem pattern_evaluation_idle (P : Params) (s : State) (h : s._ispattern ≠ 1) :
    pattern_evaluation P s = s := by
  simp [pattern_evaluation, h]

theorem pattern_evaluation_collect (P : Params) (s : State) (h : s._ispattern = 1)
    (hc : 0 < s._patterncount - 1) :
    pattern_evaluation P s =
      { s with _seqdata := s._seqdata ++ [pushed_value P s],
               _patterncount := s._patterncount - 1 } := by
  simp [pattern_evaluation, push_sample, h, not_le.mpr hc]

theorem pattern_evaluation_end (P : Params) (s : State) (h : s._ispattern = 1)
    (hc : s._patterncount - 1 ≤ 0) :
    pattern_evaluation P s =
      pattern_end P { s with _seqdata := s._seqdata ++ [pushed_value P s],
                             _patterncount := s._patterncount - 1 } := by
  simp [pattern_evaluation, push_sample, h, hc]

/-- What the collector step does to the detector and collector variables. -/
theorem pattern_evaluation_core (P : Params) (s : State) :
    (pattern_evaluation P s).core =
      if s._ispattern = 1 then
        if s._patterncount - 1 ≤ 0 then
          { s.core with
            patterncount := s._patterncount - 1
            dw := s._seqdata ++ [pushed_value P s]
            vw := P._wav_func (_fingerprint_n P) (s._seqdata ++ [pushed_value P s])
            ispattern := if (pattern_evaluation P s).status = .running then 0 else 1
            seqdata := if (pattern_evaluation P s).status = .running then []
              else s._seqdata ++ [pushed_value P s] }
        else
          { s.core with
            patterncount := s._patterncount - 1
            seqdata := s._seqdata ++ [pushed_value P s] }
      else s.core := by
  by_cases h : s._ispattern = 1
  · by_cases hc : s._patterncount - 1 ≤ 0
    · rw [pattern_evaluation_end P s h hc, pattern_end_core]
      simp [h, hc, State.core]
    · rw [pattern_evaluation_collect P s h (not_le.mp hc)]
      simp [h, hc, State.core]
  · rw [pattern_evaluation_idle P s h]
    simp [h]

theorem pattern_evaluation_status (P : Params) (s : State)
    (h : ¬ (s._ispattern = 1 ∧ s._patterncount - 1 ≤ 0)) :
    (pattern_evaluation P s).status = s.status := by
  by_cases h1 : s._ispattern = 1
  · have hc : 0 < s._patterncount - 1 := by
      by_contra hc; exact h ⟨h1, not_lt.mp hc⟩
    rw [pattern_evaluation_collect P s h1 hc]
  · rw [pattern_evaluation_idle P s h1]

theorem read_sample_core (s : State) (x : Sample) :
    (read_sample s x).core =
      { s.core with
        curtime := x.t
        lineid := s._lineid + 1
        curval := x.v
        lastval := prev_value s x
        diffnoabs := x.v - prev_value s x
        diff := |x.v - prev_value s x| } := by
  rfl

theorem read_sample_status (s : State) (x : Sample) :
    (read_sample s x).status = s.status := by
  rfl

/-- The loop body on a process that has stopped. -/
theorem loop_body_stopped (P : Params) (s : State) (x : Sample)
    (h : s.status ≠ .running) : loop_body P s x = s := by
  simp [loop_body, process_sample, and_then, h]

/-- The loop body when the collector step lets the process run on. -/
theorem loop_body_running (P : Params) (s : State) (x : Sample)
    (h : s.status = .running)
    (he : (pattern_evaluation P (read_sample s x)).status = .running) :
    loop_body P s x = reset_match (set_output P (amend_diffavg P
      (wait_detector P (pattern_evaluation P (read_sample s x))))) := by
  have h1 : ∀ e : State, (reset_match e).status = e.status := fun e => rfl
  have h2 : ∀ e : State, (set_output P e).status = e.status := fun e => rfl
  have h3 : ∀ e : State, (amend_diffavg P e).status = e.status := by
    intro e; unfold amend_diffavg; split_ifs <;> rfl
  have h4 : ∀ e : State, (wait_detector P e).status = e.status := by
    intro e; unfold wait_detector; split_ifs <;> rfl
  simp [loop_body, process_sample, and_then, h, he, h1, h2, h3, h4]

/-- The loop body when the matcher stops the process at the end of a
window. -/
theorem loop_body_halts (P : Params) (s : State) (x : Sample)
    (h : s.status = .running)
    (he : (pattern_evaluation P (read_sample s x)).status ≠ .running) :
    loop_body P s x = pattern_evaluation P (read_sample s x) := by
  simp [loop_body, process_sample, and_then, h, he]

theorem inv_init (P : Params) : Inv (init P) := by
  constructor <;> simp [init]

/-- The detector and collector variables after the collector step, given
those before `read_sample`. -/
theorem collector_fields (P : Params) (s : State) (x : Sample) :
    let e := pattern_evaluation P (read_sample s x)
    e._diffavg = s._diffavg ∧ e._isalarm = s._isalarm ∧ e._iswait = s._iswait
    ∧ e._numthresholded = s._numthresholded ∧ e._curtime = x.t
    ∧ e._alarmraisetime = s._alarmraisetime ∧ e._lineid = s._lineid + 1
    ∧ e._curval = x.v ∧ e._diffnoabs = x.v - prev_value s x
    ∧ e._diff = |x.v - prev_value s x| ∧ e._patternid = s._patternid := by
  have h := pattern_evaluation_core P (read_sample s x)
  have hr := read_sample_core s x
  simp only [State.core, Core.mk.injEq] at hr
  obtain ⟨r1, r2, r3, r4, r5, r6, r7, r8, r9, r10, r11, r12, r13, r14, r15, r16, r17⟩ := hr
  intro e
  have hd := congrArg Core.diffavg h
  have h2 := congrArg Core.isalarm h
  have h3 := congrArg Core.iswait h
  have h4 := congrArg Core.numthresholded h
  have h5 := congrArg Core.curtime h
  have h6 := congrArg Core.alarmraisetime h
  have h7 := congrArg Core.lineid h
  have h8 := congrArg Core.curval h
  have h9 := congrArg Core.diffnoabs h
  have h10 := congrArg Core.diff h
  have h11 := congrArg Core.patternid h
  refine ⟨?_, ?_, ?_, ?_, ?_, ?_, ?_, ?_, ?_, ?_, ?_⟩
  · rw [← r1]; revert hd; simp only [State.core]; split_ifs <;> exact id
  · rw [← r2]; revert h2; simp only [State.core]; split_ifs <;> exact id
  · rw [← r3]; revert h3; simp only [State.core]; split_ifs <;> exact id
  · rw [← r4]; revert h4; simp only [State.core]; split_ifs <;> exact id
  · rw [← r5]; revert h5; simp only [State.core]; split_ifs <;> exact id
  · rw [← r6]; revert h6; simp only [State.core]; split_ifs <;> exact id
  · rw [← r7]; revert h7; simp only [State.core]; split_ifs <;> exact id
  · rw [← r8]; revert h8; simp only [State.core]; split_ifs <;> exact id
  · rw [← r11]; revert h9; simp only [State.core]; split_ifs <;> exact id
  · rw [← r10]; revert h10; simp only [State.core]; split_ifs <;> exact id
  · rw [← r12]; revert h11; simp only [State.core]; split_ifs <;> exact id

theorem pushed_value_read (P : Params) (s : State) (x : Sample) :
    pushed_value P (read_sample s x) = window_value P s x := by
  have hr := read_sample_core s x
  have h1 := congrArg Core.curval hr
  have h2 := congrArg Core.diffnoabs hr
  simp only [State.core] at h1 h2
  simp [pushed_value, window_value, h1, h2]

/-- The collector variables after the collector step: nothing happens
outside a window, a sample is added inside one, and the window ends when
the count reaches zero. -/
theorem collector_cases (P : Params) (s : State) (x : Sample) :
    let e := pattern_evaluation P (read_sample s x)
    (s._ispattern ≠ 1 ∧ e.status = s.status ∧ e._ispattern = s._ispattern
      ∧ e._patterncount = s._patterncount ∧ e._seqdata = s._seqdata
      ∧ e._dw = s._dw ∧ e._vw = s._vw)
    ∨ (s._ispattern = 1 ∧ 0 < s._patterncount - 1 ∧ e.status = s.status
      ∧ e._ispattern = 1 ∧ e._patterncount = s._patterncount - 1
      ∧ e._seqdata = s._seqdata ++ [window_value P s x]
      ∧ e._dw = s._dw ∧ e._vw = s._vw)
    ∨ (s._ispattern = 1 ∧ s._patterncount - 1 ≤ 0
      ∧ e._patterncount = s._patterncount - 1
      ∧ e._dw = s._seqdata ++ [window_value P s x]
      ∧ e._vw = P._wav_func (_fingerprint_n P) (s._seqdata ++ [window_value P s x])
      ∧ ((e.status = .running ∧ e._ispattern = 0 ∧ e._seqdata = [])
        ∨ (e.status ≠ .running ∧ e._ispattern = 1
          ∧ e._seqdata = s._seqdata ++ [window_value P s x]))) := by
  intro e
  have h := pattern_evaluation_core P (read_sample s x)
  have hst := pattern_evaluation_status P (read_sample s x)
  have hrs := read_sample_status s x
  have hr := read_sample_core s x
  have hp := pushed_value_read P s x
  simp only [State.core, Core.mk.injEq] at hr
  obtain ⟨r1, r2, r3, r4, r5, r6, r7, r8, r9, r10, r11, r12, r13, r14, r15, r16, r17⟩ := hr
  rw [r13, r14, r15, hp] at h
  rw [r13, r14, hrs] at hst
  have k1 := congrArg Core.ispattern h
  have k2 := congrArg Core.patterncount h
  have k3 := congrArg Core.seqdata h
  have k4 := congrArg Core.dw h
  have k5 := congrArg Core.vw h
  by_cases h1 : s._ispattern = 1
  · by_cases hc : s._patterncount - 1 ≤ 0
    · right; right
      simp only [h1, hc, if_true, State.core] at k1 k2 k3 k4 k5
      refine ⟨h1, hc, k2, k4, k5, ?_⟩
      by_cases hs : (pattern_evaluation P (read_sample s x)).status = .running
      · left
        rw [if_pos hs] at k1 k3
        exact ⟨hs, k1, k3⟩
      · right
        rw [if_neg hs] at k1 k3
        exact ⟨hs, k1, k3⟩
    · right; left
      simp only [h1, hc, if_true, if_false, State.core] at k1 k2 k3 k4 k5
      have := hst (fun hh => hc hh.2)
      exact ⟨h1, not_le.mp hc, this, k1.trans (r13.trans h1), k2, k3, k4.trans r16, k5.trans r17⟩
  · left
    simp only [h1, if_false, State.core] at k1 k2 k3 k4 k5
    have := hst (fun hh => h1 hh.1)
    exact ⟨h1, this, k1.trans r13, k2.trans r14, k3.trans r15, k4.trans r16, k5.trans r17⟩

theorem usec_sub (a b : Timeval) :
    (a.tv_sec - b.tv_sec) * 1000000 + a.tv_usec - b.tv_usec = a.usec - b.usec := by
  unfold Timeval.usec; ring

theorem wait_detector_frame (P : Params) (e : State) :
    (wait_detector P e).status = e.status ∧ (wait_detector P e)._curtime = e._curtime
    ∧ (wait_detector P e)._lineid = e._lineid ∧ (wait_detector P e)._curval = e._curval
    ∧ (wait_detector P e)._dw = e._dw ∧ (wait_detector P e)._vw = e._vw
    ∧ (wait_detector P e)._diffavg = e._diffavg ∧ (wait_detector P e)._diff = e._diff := by
  unfold wait_detector
  split_ifs <;> simp

theorem finish_common (P : Params) (e : State) :
    (finish_sample P e).status = e.status ∧ (finish_sample P e)._curtime = e._curtime
    ∧ (finish_sample P e)._lineid = e._lineid ∧ (finish_sample P e)._lastval = e._curval
    ∧ (finish_sample P e)._dw = e._dw ∧ (finish_sample P e)._vw = e._vw
    ∧ (finish_sample P e)._diffavg =
      if (finish_sample P e)._iswait = 0
          ∧ (finish_sample P e)._numthresholded = P._number_of_points_to_alarm
      then amended P e._diffavg e._diff else e._diffavg := by
  obtain ⟨w1, w2, w3, w4, w5, w6, w7, w8⟩ := wait_detector_frame P e
  unfold finish_sample
  generalize wait_detector P e = w at *
  rw [← w1, ← w2, ← w3, ← w4, ← w5, ← w6, ← w7, ← w8]
  unfold reset_match set_output amend_diffavg amended
  split_ifs <;> simp_all

theorem finish_wait (P : Params) (e : State) (h : e._iswait = 1) :
    (finish_sample P e)._isalarm = 0
    ∧ (finish_sample P e)._numthresholded = e._numthresholded
    ∧ (finish_sample P e)._alarmraisetime = e._alarmraisetime
    ∧ (finish_sample P e)._patternid = e._patternid
    ∧ (finish_sample P e)._ispattern = e._ispattern
    ∧ (finish_sample P e)._patterncount = e._patterncount
    ∧ (finish_sample P e)._seqdata = e._seqdata
    ∧ (finish_sample P e)._iswait =
      if e._ispattern ≠ 0 then 1
      else if e._curtime.usec - e._alarmraisetime.usec > P._wait_state_usec then 0 else 1 := by
  rw [← usec_sub]
  unfold finish_sample reset_match set_output amend_diffavg wait_detector next_iswait
  split_ifs <;> simp_all

theorem finish_below (P : Params) (e : State) (h : e._iswait ≠ 1)
    (hb : e._diff < P._multiplicator_to_detect * e._diffavg) :
    (finish_sample P e)._isalarm = e._isalarm
    ∧ (finish_sample P e)._iswait = e._iswait
    ∧ (finish_sample P e)._numthresholded = P._number_of_points_to_alarm
    ∧ (finish_sample P e)._alarmraisetime = e._alarmraisetime
    ∧ (finish_sample P e)._patternid = e._patternid
    ∧ (finish_sample P e)._ispattern = e._ispattern
    ∧ (finish_sample P e)._patterncount = e._patterncount
    ∧ (finish_sample P e)._seqdata = e._seqdata := by
  unfold finish_sample reset_match set_output amend_diffavg wait_detector next_iswait
  split_ifs <;> simp_all

theorem finish_count (P : Params) (e : State) (h : e._iswait ≠ 1)
    (hb : ¬ e._diff < P._multiplicator_to_detect * e._diffavg)
    (hn : e._numthresholded - 1 ≠ 0) :
    (finish_sample P e)._isalarm = e._isalarm
    ∧ (finish_sample P e)._iswait = e._iswait
    ∧ (finish_sample P e)._numthresholded = e._numthresholded - 1
    ∧ (finish_sample P e)._alarmraisetime = e._alarmraisetime
    ∧ (finish_sample P e)._patternid = e._patternid
    ∧ (finish_sample P e)._ispattern = e._ispattern
    ∧ (finish_sample P e)._patterncount = e._patterncount
    ∧ (finish_sample P e)._seqdata = e._seqdata := by
  unfold finish_sample reset_match set_output amend_diffavg wait_detector next_iswait
  split_ifs <;> simp_all

theorem finish_alarm (P : Params) (e : State) (h : e._iswait ≠ 1)
    (hb : ¬ e._diff < P._multiplicator_to_detect * e._diffavg)
    (hn : e._numthresholded - 1 = 0) :
    (finish_sample P e)._isalarm = 1
    ∧ (finish_sample P e)._iswait = 1
    ∧ (finish_sample P e)._numthresholded = P._number_of_points_to_alarm
    ∧ (finish_sample P e)._alarmraisetime = e._curtime
    ∧ (finish_sample P e)._patternid = e._patternid + 1
    ∧ (finish_sample P e)._ispattern = 1
    ∧ (finish_sample P e)._patterncount = _fingerprint_n P
    ∧ (finish_sample P e)._seqdata = e._seqdata ++ [pushed_value P e] := by
  unfold finish_sample reset_match set_output amend_diffavg wait_detector pushed_value
  split_ifs <;> simp_all

theorem loop_body_finish (P : Params) (s : State) (x : Sample)
    (h : s.status = .running)
    (he : (pattern_evaluation P (read_sample s x)).status = .running) :
    loop_body P s x = finish_sample P (pattern_evaluation P (read_sample s x)) :=
  loop_body_running P s x h he

/-- A step in which the matcher stops the process: this happens only at the
end of a window, and the detector variables stay as they were. -/
theorem step_halt (P : Params) (s : State) (x : Sample)
    (hrun : s.status = .running) (hstop : (loop_body P s x).status ≠ .running) :
    s._ispattern = 1 ∧ s._patterncount - 1 ≤ 0
    ∧ (loop_body P s x)._isalarm = s._isalarm
    ∧ (loop_body P s x)._iswait = s._iswait
    ∧ (loop_body P s x)._numthresholded = s._numthresholded
    ∧ (loop_body P s x)._diffavg = s._diffavg
    ∧ (loop_body P s x)._alarmraisetime = s._alarmraisetime
    ∧ (loop_body P s x)._patternid = s._patternid
    ∧ (loop_body P s x)._lineid = s._lineid + 1
    ∧ (loop_body P s x)._ispattern = 1
    ∧ (loop_body P s x)._patterncount = s._patterncount - 1
    ∧ (loop_body P s x)._seqdata = s._seqdata ++ [window_value P s x]
    ∧ (loop_body P s x)._dw = s._seqdata ++ [window_value P s x]
    ∧ (loop_body P s x)._vw
        = P._wav_func (_fingerprint_n P) (s._seqdata ++ [window_value P s x]) := by
  have he : (pattern_evaluation P (read_sample s x)).status ≠ .running := by
    intro he
    rw [loop_body_finish P s x hrun he, (finish_common P _).1] at hstop
    exact hstop he
  rw [loop_body_halts P s x hrun he]
  obtain ⟨f1, f2, f3, f4, f5, f6, f7, f8, f9, f10, f11⟩ := collector_fields P s x
  rcases collector_cases P s x with ⟨_, c2, _⟩ | ⟨_, _, c3, _⟩ | ⟨c1, c2, c3, c4, c5, c6⟩
  · exact absurd (c2.trans hrun) he
  · exact absurd (c3.trans hrun) he
  · rcases c6 with ⟨c6, _⟩ | ⟨_, c7, c8⟩
    · exact absurd c6 he
    · exact ⟨c1, c2, f2, f3, f4, f1, f6, f11, f7, c7, c3, c8, c4, c5⟩

/-- What every completed step does. -/
theorem step_common (P : Params) (s : State) (x : Sample)
    (hrun : s.status = .running) (hrun' : (loop_body P s x).status = .running) :
    (loop_body P s x)._curtime = x.t
    ∧ (loop_body P s x)._lineid = s._lineid + 1
    ∧ (loop_body P s x)._lastval = x.v
    ∧ (loop_body P s x)._diffavg =
      if (loop_body P s x)._iswait = 0
          ∧ (loop_body P s x)._numthresholded = P._number_of_points_to_alarm
      then amended P s._diffavg |x.v - prev_value s x| else s._diffavg := by
  have he : (pattern_evaluation P (read_sample s x)).status = .running := by
    by_contra he
    rw [loop_body_halts P s x hrun he] at hrun'
    exact he hrun'
  rw [loop_body_finish P s x hrun he]
  obtain ⟨f1, f2, f3, f4, f5, f6, f7, f8, f9, f10, f11⟩ := collector_fields P s x
  obtain ⟨g1, g2, g3, g4, g5, g6, g7⟩ :=
    finish_common P (pattern_evaluation P (read_sample s x))
  rw [f1, f10] at g7
  exact ⟨g2.trans f5, g3.trans f7, g4.trans f8, g7⟩

/-- A completed step that starts in the wait state: no alarm, the collector
moves on, and the wait flag is cleared only after the wait time and outside
a window. -/
theorem step_wait (P : Params) (s : State) (x : Sample)
    (hrun : s.status = .running) (hw : s._iswait = 1)
    (hrun' : (loop_body P s x).status = .running) :
    (loop_body P s x)._isalarm = 0
    ∧ (loop_body P s x)._numthresholded = s._numthresholded
    ∧ (loop_body P s x)._alarmraisetime = s._alarmraisetime
    ∧ (loop_body P s x)._patternid = s._patternid
    ∧ (loop_body P s x)._iswait =
      (if (loop_body P s x)._ispattern ≠ 0 then 1
       else if x.t.usec - s._alarmraisetime.usec > P._wait_state_usec then 0 else 1)
    ∧ ((s._ispattern ≠ 1 ∧ (loop_body P s x)._ispattern = s._ispattern
        ∧ (loop_body P s x)._patterncount = s._patterncount
        ∧ (loop_body P s x)._seqdata = s._seqdata
        ∧ (loop_body P s x)._dw = s._dw ∧ (loop_body P s x)._vw = s._vw)
      ∨ (s._ispattern = 1 ∧ 0 < s._patterncount - 1
        ∧ (loop_body P s x)._ispattern = 1
        ∧ (loop_body P s x)._patterncount = s._patterncount - 1
        ∧ (loop_body P s x)._seqdata = s._seqdata ++ [window_value P s x]
        ∧ (loop_body P s x)._dw = s._dw ∧ (loop_body P s x)._vw = s._vw)
      ∨ (s._ispattern = 1 ∧ s._patterncount - 1 ≤ 0
        ∧ (loop_body P s x)._ispattern = 0
        ∧ (loop_body P s x)._patterncount = s._patterncount - 1
        ∧ (loop_body P s x)._seqdata = []
        ∧ (loop_body P s x)._dw = s._seqdata ++ [window_value P s x]
        ∧ (loop_body P s x)._vw
          = P._wav_func (_fingerprint_n P) (s._seqdata ++ [window_value P s x]))) := by
  have he : (pattern_evaluation P (read_sample s x)).status = .running := by
    by_contra he
    rw [loop_body_halts P s x hrun he] at hrun'
    exact he hrun'
  rw [loop_body_finish P s x hrun he]
  obtain ⟨f1, f2, f3, f4, f5, f6, f7, f8, f9, f10, f11⟩ := collector_fields P s x
  obtain ⟨g1, g2, g3, g4, g5, g6, g7⟩ :=
    finish_common P (pattern_evaluation P (read_sample s x))
  obtain ⟨w1, w2, w3, w4, w5, w6, w7, w8⟩ :=
    finish_wait P (pattern_evaluation P (read_sample s x)) (f3.trans hw)
  have hc := collector_cases P s x
  generalize pattern_evaluation P (read_sample s x) = e at *
  generalize finish_sample P e = f at *
  refine ⟨w1, w2.trans f4, w3.trans f6, w4.trans f11, ?_, ?_⟩
  · rw [w8, w5, f5, f6]
  · rcases hc with ⟨c1, c2, c3, c4, c5, c6, c7⟩ | ⟨c1, c2, c3, c4, c5, c6, c7, c8⟩
        | ⟨c1, c2, c3, c4, c5, c6⟩
    · left
      exact ⟨c1, w5.trans c3, w6.trans c4, w7.trans c5, g5.trans c6, g6.trans c7⟩
    · right; left
      exact ⟨c1, c2, w5.trans c4, w6.trans c5, w7.trans c6, g5.trans c7, g6.trans c8⟩
    · right; right
      rcases c6 with ⟨_, c7, c8⟩ | ⟨c6, _⟩
      · exact ⟨c1, c2, w5.trans c7, w6.trans c3, w7.trans c8, g5.trans c4, g6.trans c5⟩
      · exact absurd he c6

/-- The collector step does nothing outside a window. -/
theorem collector_outside (P : Params) (s : State) (x : Sample) (hp : s._ispattern ≠ 1) :
    let e := pattern_evaluation P (read_sample s x)
    e.status = s.status ∧ e._ispattern = s._ispattern
    ∧ e._patterncount = s._patterncount ∧ e._seqdata = s._seqdata
    ∧ e._dw = s._dw ∧ e._vw = s._vw ∧ pushed_value P e = window_value P s x := by
  intro e
  have hp' : (read_sample s x)._ispattern ≠ 1 := by
    have := congrArg Core.ispattern (read_sample_core s x)
    simp only [State.core] at this
    rw [this]; exact hp
  have hpv : pushed_value P e = window_value P s x := by
    show pushed_value P (pattern_evaluation P (read_sample s x)) = _
    rw [pattern_evaluation_idle P _ hp', pushed_value_read]
  rcases collector_cases P s x with h | ⟨c1, _⟩ | ⟨c1, _⟩
  · exact ⟨h.2.1, h.2.2.1, h.2.2.2.1, h.2.2.2.2.1, h.2.2.2.2.2.1, h.2.2.2.2.2.2, hpv⟩
  · exact absurd c1 hp
  · exact absurd c1 hp

/-- What the three detector steps have in common: the process runs on and
the transform buffers are not touched. -/
theorem step_detect_common (P : Params) (s : State) (x : Sample)
    (hrun : s.status = .running) (hp : s._ispattern ≠ 1) :
    (loop_body P s x).status = .running
    ∧ loop_body P s x = finish_sample P (pattern_evaluation P (read_sample s x))
    ∧ (loop_body P s x)._dw = s._dw ∧ (loop_body P s x)._vw = s._vw := by
  obtain ⟨c1, c2, c3, c4, c5, c6, c7⟩ := collector_outside P s x hp
  have he : (pattern_evaluation P (read_sample s x)).status = .running := c1.trans hrun
  obtain ⟨g1, g2, g3, g4, g5, g6, g7⟩ :=
    finish_common P (pattern_evaluation P (read_sample s x))
  rw [loop_body_finish P s x hrun he]
  exact ⟨g1.trans he, rfl, g5.trans c5, g6.trans c6⟩

/-- A detector step below the threshold: the count is reset. -/
theorem step_below (P : Params) (s : State) (x : Sample)
    (hrun : s.status = .running) (hw : s._iswait ≠ 1) (hp : s._ispattern ≠ 1)
    (hb : |x.v - prev_value s x| < P._multiplicator_to_detect * s._diffavg) :
    (loop_body P s x)._isalarm = s._isalarm
    ∧ (loop_body P s x)._iswait = s._iswait
    ∧ (loop_body P s x)._numthresholded = P._number_of_points_to_alarm
    ∧ (loop_body P s x)._alarmraisetime = s._alarmraisetime
    ∧ (loop_body P s x)._patternid = s._patternid
    ∧ (loop_body P s x)._ispattern = s._ispattern
    ∧ (loop_body P s x)._patterncount = s._patterncount
    ∧ (loop_body P s x)._seqdata = s._seqdata := by
  obtain ⟨_, d2, _, _⟩ := step_detect_common P s x hrun hp
  rw [d2]
  obtain ⟨f1, f2, f3, f4, f5, f6, f7, f8, f9, f10, f11⟩ := collector_fields P s x
  obtain ⟨c1, c2, c3, c4, c5, c6, c7⟩ := collector_outside P s x hp
  obtain ⟨w1, w2, w3, w4, w5, w6, w7, w8⟩ :=
    finish_below P (pattern_evaluation P (read_sample s x)) (by rw [f3]; exact hw)
      (by rw [f10, f1]; exact hb)
  exact ⟨w1.trans f2, w2.trans f3, w3, w4.trans f6, w5.trans f11, w6.trans c2,
    w7.trans c3, w8.trans c4⟩

/-- A detector step at or above the threshold that does not yet complete
the run: the count goes down by one. -/
theorem step_count (P : Params) (s : State) (x : Sample)
    (hrun : s.status = .running) (hw : s._iswait ≠ 1) (hp : s._ispattern ≠ 1)
    (hb : ¬ |x.v - prev_value s x| < P._multiplicator_to_detect * s._diffavg)
    (hn : s._numthresholded - 1 ≠ 0) :
    (loop_body P s x)._isalarm = s._isalarm
    ∧ (loop_body P s x)._iswait = s._iswait
    ∧ (loop_body P s x)._numthresholded = s._numthresholded - 1
    ∧ (loop_body P s x)._alarmraisetime = s._alarmraisetime
    ∧ (loop_body P s x)._patternid = s._patternid
    ∧ (loop_body P s x)._ispattern = s._ispattern
    ∧ (loop_body P s x)._patterncount = s._patterncount
    ∧ (loop_body P s x)._seqdata = s._seqdata := by
  obtain ⟨_, d2, _, _⟩ := step_detect_common P s x hrun hp
  rw [d2]
  obtain ⟨f1, f2, f3, f4, f5, f6, f7, f8, f9, f10, f11⟩ := collector_fields P s x
  obtain ⟨c1, c2, c3, c4, c5, c6, c7⟩ := collector_outside P s x hp
  obtain ⟨w1, w2, w3, w4, w5, w6, w7, w8⟩ :=
    finish_count P (pattern_evaluation P (read_sample s x)) (by rw [f3]; exact hw)
      (by rw [f10, f1]; exact hb) (by rw [f4]; exact hn)
  exact ⟨w1.trans f2, w2.trans f3, w3.trans (by rw [f4]), w4.trans f6, w5.trans f11,
    w6.trans c2, w7.trans c3, w8.trans c4⟩

/-- The detector step that completes the run: the alarm is raised and a
window is started with the current sample. -/
theorem step_alarm (P : Params) (s : State) (x : Sample)
    (hrun : s.status = .running) (hw : s._iswait ≠ 1) (hp : s._ispattern ≠ 1)
    (hb : ¬ |x.v - prev_value s x| < P._multiplicator_to_detect * s._diffavg)
    (hn : s._numthresholded - 1 = 0) :
    (loop_body P s x)._isalarm = 1
    ∧ (loop_body P s x)._iswait = 1
    ∧ (loop_body P s x)._numthresholded = P._number_of_points_to_alarm
    ∧ (loop_body P s x)._alarmraisetime = x.t
    ∧ (loop_body P s x)._patternid = s._patternid + 1
    ∧ (loop_body P s x)._ispattern = 1
    ∧ (loop_body P s x)._patterncount = _fingerprint_n P
    ∧ (loop_body P s x)._seqdata = s._seqdata ++ [window_value P s x] := by
  obtain ⟨_, d2, _, _⟩ := step_detect_common P s x hrun hp
  rw [d2]
  obtain ⟨f1, f2, f3, f4, f5, f6, f7, f8, f9, f10, f11⟩ := collector_fields P s x
  obtain ⟨c1, c2, c3, c4, c5, c6, c7⟩ := collector_outside P s x hp
  obtain ⟨w1, w2, w3, w4, w5, w6, w7, w8⟩ :=
    finish_alarm P (pattern_evaluation P (read_sample s x)) (by rw [f3]; exact hw)
      (by rw [f10, f1]; exact hb) (by rw [f4]; exact hn)
  exact ⟨w1, w2, w3, w4.trans f5, w5.trans (by rw [f11]), w6, w7,
    w8.trans (by rw [c4, c7])⟩

theorem main_loop_nil (P : Params) (s : State) : main_loop P s [] = s := rfl

theorem main_loop_cons (P : Params) (s : State) (x : Sample) (xs : List Sample) :
    main_loop P s (x :: xs) = main_loop P (loop_body P s x) xs := rfl

theorem main_loop_append (P : Params) (s : State) (xs ys : List Sample) :
    main_loop P s (xs ++ ys) = main_loop P (main_loop P s xs) ys := by
  simp [main_loop, List.foldl_append]

theorem main_loop_snoc (P : Params) (s : State) (xs : List Sample) (x : Sample) :
    main_loop P s (xs ++ [x]) = loop_body P (main_loop P s xs) x := by
  rw [main_loop_append]; rfl

theorem main_loop_stopped (P : Params) (s : State) (xs : List Sample)
    (h : s.status ≠ .running) : main_loop P s xs = s := by
  induction xs with
  | nil => rfl
  | cons x xs ih => rw [main_loop_cons, loop_body_stopped P s x h, ih]

/-- A process that runs after a step ran before it. -/
theorem running_before (P : Params) (s : State) (x : Sample)
    (h : (loop_body P s x).status = .running) : s.status = .running := by
  by_contra hs
  rw [loop_body_stopped P s x hs] at h
  exact hs h

theorem running_before_loop (P : Params) (xs : List Sample) (s : State)
    (h : (main_loop P s xs).status = .running) : s.status = .running := by
  by_contra hs
  rw [main_loop_stopped P s xs hs] at h
  exact hs h

/-- The detector cases of a step that starts outside the wait state. -/
theorem inv_not_waiting {s : State} (h : Inv s) (hw : s._iswait ≠ 1) :
    s._iswait = 0 ∧ s._isalarm = 0 ∧ s._ispattern = 0 ∧ s._ispattern ≠ 1 := by
  obtain ⟨a, w, p, aw, pw, _⟩ := h
  refine ⟨?_, ?_, ?_, ?_⟩
  · rcases w with w | w
    · exact w
    · exact absurd w hw
  · rcases a with a | a
    · exact a
    · exact absurd (aw a) hw
  · rcases p with p | p
    · exact p
    · exact absurd (pw p) hw
  · intro p; exact hw (pw p)

theorem inv_loop_body (P : Params) (s : State) (x : Sample) (h : Inv s) :
    Inv (loop_body P s x) := by
  by_cases hrun : s.status = .running
  swap
  · rw [loop_body_stopped P s x hrun]; exact h
  by_cases hrun' : (loop_body P s x).status = .running
  swap
  · obtain ⟨k1, k2, k3, k4, k5, k6, k7, k8, k9, k10, _⟩ := step_halt P s x hrun hrun'
    obtain ⟨a, w, p, aw, pw, l⟩ := h
    constructor
    · rw [k3]; exact a
    · rw [k4]; exact w
    · right; exact k10
    · rw [k3, k4]; exact aw
    · intro _; rw [k4]; exact pw k1
    · rw [k9]; omega
  obtain ⟨_, c2, _, _⟩ := step_common P s x hrun hrun'
  have hl : 0 ≤ (loop_body P s x)._lineid := by rw [c2]; have := h.lineid_nonneg; omega
  by_cases hw : s._iswait = 1
  · obtain ⟨w1, w2, w3, w4, w5, w6⟩ := step_wait P s x hrun hw hrun'
    have hp : (loop_body P s x)._ispattern = 0 ∨ (loop_body P s x)._ispattern = 1 := by
      rcases w6 with ⟨c1, c2, _⟩ | ⟨_, _, c3, _⟩ | ⟨_, _, c3, _⟩
      · rw [c2]; exact h.pattern01
      · right; exact c3
      · left; exact c3
    constructor
    · left; exact w1
    · rw [w5]; split_ifs <;> simp
    · exact hp
    · intro ha; rw [w1] at ha; exact absurd ha (by decide)
    · intro hp1; rw [w5, if_pos (by rw [hp1]; decide)]
    · exact hl
  · obtain ⟨i1, i2, i3, i4⟩ := inv_not_waiting h hw
    by_cases hb : |x.v - prev_value s x| < P._multiplicator_to_detect * s._diffavg
    · obtain ⟨b1, b2, b3, b4, b5, b6, b7, b8⟩ := step_below P s x hrun hw i4 hb
      constructor
      · rw [b1]; exact h.alarm01
      · rw [b2]; exact h.wait01
      · rw [b6]; exact h.pattern01
      · rw [b1, b2]; exact h.alarm_wait
      · rw [b6, b2]; exact h.pattern_wait
      · exact hl
    · by_cases hn : s._numthresholded - 1 = 0
      · obtain ⟨b1, b2, b3, b4, b5, b6, b7, b8⟩ := step_alarm P s x hrun hw i4 hb hn
        constructor
        · right; exact b1
        · right; exact b2
        · right; exact b6
        · intro _; exact b2
        · intro _; exact b2
        · exact hl
      · obtain ⟨b1, b2, b3, b4, b5, b6, b7, b8⟩ := step_count P s x hrun hw i4 hb hn
        constructor
        · rw [b1]; exact h.alarm01
        · rw [b2]; exact h.wait01
        · rw [b6]; exact h.pattern01
        · rw [b1, b2]; exact h.alarm_wait
        · rw [b6, b2]; exact h.pattern_wait
        · exact hl

theorem inv_main_loop (P : Params) (xs : List Sample) (s : State) (h : Inv s) :
    Inv (main_loop P s xs) := by
  induction xs generalizing s with
  | nil => exact h
  | cons x xs ih => exact ih _ (inv_loop_body P s x h)

theorem inv_reachable (P : Params) (xs : List Sample) : Inv (main_loop P (init P) xs) :=
  inv_main_loop P xs _ (inv_init P)

/-! ### Output lines and states -/

theorem loop_body_eq_reset (P : Params) (s : State) (x : Sample)
    (h : (loop_body P s x).status = .running) :
    loop_body P s x = reset_match (process_sample P s x) := by
  unfold loop_body and_then at h ⊢
  by_cases hp : (process_sample P s x).status = .running
  · simp [hp]
  · simp only [ne_eq, hp, not_false_eq_true, if_true] at h

theorem process_sample_status (P : Params) (s : State) (x : Sample) :
    (process_sample P s x).status = (loop_body P s x).status := by
  unfold loop_body and_then
  by_cases hp : (process_sample P s x).status = .running
  · simp [hp, reset_match]
  · simp [hp]

theorem records_nil (P : Params) (s : State) : records P s [] = [] := rfl

theorem records_cons (P : Params) (s : State) (x : Sample) (xs : List Sample) :
    records P s (x :: xs) =
      if (loop_body P s x).status ≠ .running then []
      else output_record P (process_sample P s x) :: records P (loop_body P s x) xs := by
  by_cases h : (loop_body P s x).status = .running
  · have hp := (process_sample_status P s x).trans h
    rw [loop_body_eq_reset P s x h]
    simp [records, hp, reset_match]
  · have hp : (process_sample P s x).status ≠ .running := by
      rw [process_sample_status]; exact h
    simp [records, hp, h]

/-- The detector fields of the output line are those of the state after the
step. -/
theorem output_record_fields (P : Params) (s : State) (x : Sample)
    (h : (loop_body P s x).status = .running) :
    (output_record P (process_sample P s x)).isalarm = (loop_body P s x)._isalarm
    ∧ (output_record P (process_sample P s x)).iswait = (loop_body P s x)._iswait
    ∧ (output_record P (process_sample P s x)).timestamp = (loop_body P s x)._curtime
    ∧ (output_record P (process_sample P s x)).diffavg = (loop_body P s x)._diffavg
    ∧ (output_record P (process_sample P s x)).lineid = (loop_body P s x)._lineid := by
  rw [loop_body_eq_reset P s x h]
  simp [output_record, reset_match]

/-- Every output line of a run from a state with the invariant belongs to a
step that was completed from a running state with the invariant. -/
theorem mem_records (P : Params) (xs : List Sample) (s : State) (hs : Inv s) (r : Record)
    (hr : r ∈ records P s xs) :
    ∃ (s0 : State) (x : Sample), Inv s0 ∧ s0.status = .running
      ∧ (loop_body P s0 x).status = .running
      ∧ r = output_record P (process_sample P s0 x) := by
  induction xs generalizing s with
  | nil => simp [records] at hr
  | cons x xs ih =>
    rw [records_cons] at hr
    by_cases h : (loop_body P s x).status = .running
    · simp only [ne_eq, h, not_true_eq_false, if_false, List.mem_cons] at hr
      rcases hr with hr | hr
      · exact ⟨s, x, hs, running_before P s x h, h, hr⟩
      · exact ih _ (inv_loop_body P s x hs) hr
    · simp [h] at hr

theorem range_loop_body (P : Params) (hA : 1 ≤ P._number_of_points_to_alarm)
    (s : State) (x : Sample) (hi : Inv s)
    (h : 1 ≤ s._numthresholded ∧ s._numthresholded ≤ P._number_of_points_to_alarm) :
    1 ≤ (loop_body P s x)._numthresholded
      ∧ (loop_body P s x)._numthresholded ≤ P._number_of_points_to_alarm := by
  by_cases hrun : s.status = .running
  swap
  · rw [loop_body_stopped P s x hrun]; exact h
  by_cases hrun' : (loop_body P s x).status = .running
  swap
  · obtain ⟨_, _, _, _, k5, _⟩ := step_halt P s x hrun hrun'
    rw [k5]; exact h
  by_cases hw : s._iswait = 1
  · obtain ⟨_, w2, _⟩ := step_wait P s x hrun hw hrun'
    rw [w2]; exact h
  · obtain ⟨_, _, _, i4⟩ := inv_not_waiting hi hw
    by_cases hb : |x.v - prev_value s x| < P._multiplicator_to_detect * s._diffavg
    · obtain ⟨_, _, b3, _⟩ := step_below P s x hrun hw i4 hb
      rw [b3]; exact ⟨hA, le_refl _⟩
    · by_cases hn : s._numthresholded - 1 = 0
      · obtain ⟨_, _, b3, _⟩ := step_alarm P s x hrun hw i4 hb hn
        rw [b3]; exact ⟨hA, le_refl _⟩
      · obtain ⟨_, _, b3, _⟩ := step_count P s x hrun hw i4 hb hn
        rw [b3]; omega

theorem range_main_loop (P : Params) (hA : 1 ≤ P._number_of_points_to_alarm)
    (xs : List Sample) (s : State) (hi : Inv s)
    (h : 1 ≤ s._numthresholded ∧ s._numthresholded ≤ P._number_of_points_to_alarm) :
    1 ≤ (main_loop P s xs)._numthresholded
      ∧ (main_loop P s xs)._numthresholded ≤ P._number_of_points_to_alarm := by
  induction xs generalizing s with
  | nil => exact h
  | cons x xs ih =>
    exact ih _ (inv_loop_body P s x hi) (range_loop_body P hA s x hi h)

/-- C4. For every configuration with `number_of_points_to_alarm ≥ 1` and every
list of samples, after the run `_numthresholded` lies between 1 and
`number_of_points_to_alarm`; the list is arbitrary, so this holds after each
processed sample. -/
theorem numthresholded_in_range (P : Params) (hA : 1 ≤ P._number_of_points_to_alarm)
    (xs : List Sample) :
    1 ≤ (main_loop P (init P) xs)._numthresholded
      ∧ (main_loop P (init P) xs)._numthresholded ≤ P._number_of_points_to_alarm :=
  range_main_loop P hA xs (init P) (inv_init P) ⟨hA, le_refl _⟩

theorem numthresholded_in_range_witness :
    1 ≤ (main_loop example_params (init example_params) example_jump)._numthresholded
      ∧ (main_loop example_params (init example_params) example_jump)._numthresholded ≤ 1 :=
  numthresholded_in_range example_params (by decide) example_jump

/-- C5. In every output line of every run the alarm flag comes with the wait
flag: `isalarm = 1` implies `iswait = 1`. -/
theorem alarm_implies_wait (P : Params) (xs : List Sample) (r : Record)
    (hr : r ∈ records P (init P) xs) (ha : r.isalarm = 1) : r.iswait = 1 := by
  obtain ⟨s0, x, hi, _, hrun', rfl⟩ := mem_records P xs (init P) (inv_init P) r hr
  obtain ⟨f1, f2, _⟩ := output_record_fields P s0 x hrun'
  rw [f1] at ha
  rw [f2]
  exact (inv_loop_body P s0 x hi).alarm_wait ha

theorem alarm_implies_wait_witness :
    (⟨2, ⟨1000, 1⟩, 1000, 900, 499 / 50, 0, 1, 1, 1, 0, -1, 0, 0⟩ : Record).iswait = 1 :=
  alarm_implies_wait example_params example_jump
    ⟨2, ⟨1000, 1⟩, 1000, 900, 499 / 50, 0, 1, 1, 1, 0, -1, 0, 0⟩ (by decide!) (by decide)

/-- C6. After every run, a window in progress (`_ispattern = 1`) comes with
the wait flag, whatever time has passed since the alarm. -/
theorem collecting_implies_wait (P : Params) (xs : List Sample)
    (hp : (main_loop P (init P) xs)._ispattern = 1) :
    (main_loop P (init P) xs)._iswait = 1 :=
  (inv_reachable P xs).pattern_wait hp

theorem collecting_implies_wait_witness :
    (main_loop example_params (init example_params) example_late)._curtime.usec
        - (main_loop example_params (init example_params) example_late)._alarmraisetime.usec
      > example_params._wait_state_usec
    ∧ (main_loop example_params (init example_params) example_late)._iswait = 1 :=
  ⟨by decide!, collecting_implies_wait example_params example_late (by decide!)⟩

/-- C3. After every processed sample of a run, `_diffavg` is
`(diffavg·(N−1) + Δ)/N` if the step ends with `_iswait = 0` and
`_numthresholded = A`, and is unchanged otherwise; in particular it is
unchanged on a sample that raises the alarm, on a sample that ends in the
wait state, and on a sample that ends inside a count. -/
theorem noise_floor_update (P : Params) (pre : List Sample) (x : Sample)
    (hrun : (main_loop P (init P) (pre ++ [x])).status = .running) :
    (main_loop P (init P) (pre ++ [x]))._diffavg =
      (if (main_loop P (init P) (pre ++ [x]))._iswait = 0
          ∧ (main_loop P (init P) (pre ++ [x]))._numthresholded
            = P._number_of_points_to_alarm
        then ((main_loop P (init P) pre)._diffavg * ((P._n_amend_avgdiff - 1 : Int) : ℚ)
            + |x.v - prev_value (main_loop P (init P) pre) x|) / (P._n_amend_avgdiff : ℚ)
        else (main_loop P (init P) pre)._diffavg)
    ∧ ((main_loop P (init P) (pre ++ [x]))._isalarm = 1 →
        (main_loop P (init P) (pre ++ [x]))._diffavg = (main_loop P (init P) pre)._diffavg)
    ∧ ((main_loop P (init P) (pre ++ [x]))._iswait = 1 →
        (main_loop P (init P) (pre ++ [x]))._diffavg = (main_loop P (init P) pre)._diffavg)
    ∧ ((main_loop P (init P) (pre ++ [x]))._numthresholded ≠ P._number_of_points_to_alarm →
        (main_loop P (init P) (pre ++ [x]))._diffavg
          = (main_loop P (init P) pre)._diffavg) := by
  have hinv : Inv (main_loop P (init P) (pre ++ [x])) := inv_reachable P _
  rw [main_loop_snoc] at hrun hinv ⊢
  have h0 := running_before P _ x hrun
  obtain ⟨_, _, _, c4⟩ := step_common P _ x h0 hrun
  unfold amended at c4
  refine ⟨c4, ?_, ?_, ?_⟩
  · intro ha
    have hw := hinv.alarm_wait ha
    rw [c4, if_neg]
    rw [hw]; simp
  · intro hw
    rw [c4, if_neg]
    rw [hw]; simp
  · intro hn
    rw [c4, if_neg]
    exact fun h => hn h.2

theorem noise_floor_update_witness :
    (main_loop example_params (init example_params) ([sample_at 0 100] ++ [sample_at 1 1000]))._isalarm
        = 1
    ∧ (main_loop example_params (init example_params)
        ([sample_at 0 100] ++ [sample_at 1 1000]))._diffavg
      = (main_loop example_params (init example_params) [sample_at 0 100])._diffavg :=
  ⟨by decide!,
    (noise_floor_update example_params [sample_at 0 100] (sample_at 1 1000)
      (by decide!)).2.1 (by decide!)⟩

theorem deltas_cons (P : Params) (s : State) (x : Sample) (xs : List Sample)
    (hrun' : (loop_body P s x).status = .running) (hl : 0 ≤ s._lineid) :
    deltas s (x :: xs) = |x.v - prev_value s x| :: deltas (loop_body P s x) xs := by
  obtain ⟨_, c2, c3, _⟩ := step_common P s x (running_before P s x hrun') hrun'
  cases xs with
  | nil => rfl
  | cons y ys =>
    have hp : prev_value (loop_body P s x) y = x.v := by
      unfold prev_value
      rw [c2, c3, if_neg]
      omega
    simp only [deltas, abs_diffs, List.map_cons, hp]

/-- A run of samples at or above the threshold, started outside the wait
state with `n` points still to count: the count goes down by one per
sample, `_diffavg` stays, and the `n`-th sample raises the alarm. -/
theorem count_run (P : Params) (xs : List Sample) (s : State) (n : Int)
    (hi : Inv s) (hrun : s.status = .running) (hw : s._iswait = 0)
    (hn : s._numthresholded = n) (h1 : 1 ≤ n) (hA : n ≤ P._number_of_points_to_alarm)
    (hlen : (xs.length : Int) ≤ n)
    (habove : ∀ d ∈ deltas s xs, P._multiplicator_to_detect * s._diffavg ≤ d) :
    (main_loop P s xs).status = .running
    ∧ (main_loop P s xs)._diffavg = s._diffavg
    ∧ Inv (main_loop P s xs)
    ∧ ((xs.length : Int) = n →
        (main_loop P s xs)._isalarm = 1 ∧ (main_loop P s xs)._iswait = 1)
    ∧ ((xs.length : Int) < n →
        (main_loop P s xs)._isalarm = s._isalarm ∧ (main_loop P s xs)._iswait = 0
        ∧ (main_loop P s xs)._numthresholded = n - xs.length) := by
  induction xs generalizing s n with
  | nil =>
    refine ⟨hrun, rfl, hi, ?_, ?_⟩
    · intro h; simp at h; omega
    · intro _; exact ⟨rfl, hw, by simpa using hn⟩
  | cons x xs ih =>
    have hw1 : s._iswait ≠ 1 := by rw [hw]; decide
    obtain ⟨_, _, _, i4⟩ := inv_not_waiting hi hw1
    obtain ⟨d1, _, _, _⟩ := step_detect_common P s x hrun i4
    obtain ⟨_, _, _, c4⟩ := step_common P s x hrun d1
    have hd := deltas_cons P s x xs d1 hi.lineid_nonneg
    have hb : ¬ |x.v - prev_value s x| < P._multiplicator_to_detect * s._diffavg := by
      have := habove (|x.v - prev_value s x|) (by rw [hd]; exact List.mem_cons_self _ _)
      exact not_lt.mpr this
    have hinv' := inv_loop_body P s x hi
    rw [main_loop_cons]
    simp only [List.length_cons, Nat.cast_add, Nat.cast_one] at hlen ⊢
    by_cases hz : s._numthresholded - 1 = 0
    · obtain ⟨b1, b2, _⟩ := step_alarm P s x hrun hw1 i4 hb hz
      have hxs : xs = [] := by
        have : (xs.length : Int) ≤ 0 := by omega
        have : xs.length = 0 := by omega
        exact List.length_eq_zero.mp this
      subst hxs
      rw [main_loop_nil]
      refine ⟨d1, ?_, hinv', ?_, ?_⟩
      · rw [c4, if_neg]; rw [b2]; simp
      · intro _; exact ⟨b1, b2⟩
      · intro h; simp at h; omega
    · obtain ⟨b1, b2, b3, _⟩ := step_count P s x hrun hw1 i4 hb hz
      have hda : (loop_body P s x)._diffavg = s._diffavg := by
        rw [c4, if_neg]
        rw [b3]; intro h; omega
      have hab : ∀ d ∈ deltas (loop_body P s x) xs,
          P._multiplicator_to_detect * (loop_body P s x)._diffavg ≤ d := by
        intro d hdm
        rw [hda]
        exact habove d (by rw [hd]; exact List.mem_cons_of_mem _ hdm)
      obtain ⟨r1, r2, r3, r4, r5⟩ := ih (loop_body P s x) (n - 1) hinv' d1 (b2.trans hw)
        (by rw [b3, hn]) (by omega) (by omega) (by omega) hab
      refine ⟨r1, r2.trans hda, r3, ?_, ?_⟩
      · intro h; exact r4 (by omega)
      · intro h
        obtain ⟨q1, q2, q3⟩ := r5 (by omega)
        exact ⟨q1.trans b1, q2, by rw [q3]; omega⟩

/-- C1. From a reachable running state outside the wait state with the full
count `A` (`A ≥ 1`), let the next samples `xs` (at most `A` of them) all have
`Δ ≥ M·diffavg`.  Then `_diffavg` does not change; if `xs` has `A` samples
the last one raises the alarm; if it has fewer, no alarm is up, the count
stands at `A − |xs|`, and a next sample with `Δ < M·diffavg` resets the
count to `A` without an alarm. -/
theorem alarm_rule (P : Params) (hA : 1 ≤ P._number_of_points_to_alarm)
    (pre xs : List Sample)
    (hrun : (main_loop P (init P) pre).status = .running)
    (hw : (main_loop P (init P) pre)._iswait = 0)
    (hn : (main_loop P (init P) pre)._numthresholded = P._number_of_points_to_alarm)
    (hlen : (xs.length : Int) ≤ P._number_of_points_to_alarm)
    (habove : ∀ d ∈ deltas (main_loop P (init P) pre) xs,
      P._multiplicator_to_detect * (main_loop P (init P) pre)._diffavg ≤ d) :
    (main_loop P (init P) (pre ++ xs)).status = .running
    ∧ (main_loop P (init P) (pre ++ xs))._diffavg = (main_loop P (init P) pre)._diffavg
    ∧ ((xs.length : Int) = P._number_of_points_to_alarm →
        (main_loop P (init P) (pre ++ xs))._isalarm = 1)
    ∧ ((xs.length : Int) < P._number_of_points_to_alarm →
        (main_loop P (init P) (pre ++ xs))._isalarm = 0
        ∧ (main_loop P (init P) (pre ++ xs))._numthresholded
          = P._number_of_points_to_alarm - xs.length
        ∧ ∀ z : Sample,
          |z.v - prev_value (main_loop P (init P) (pre ++ xs)) z|
              < P._multiplicator_to_detect * (main_loop P (init P) pre)._diffavg →
            (main_loop P (init P) (pre ++ xs ++ [z]))._isalarm = 0
            ∧ (main_loop P (init P) (pre ++ xs ++ [z]))._numthresholded
              = P._number_of_points_to_alarm) := by
  have hi : Inv (main_loop P (init P) pre) := inv_reachable P pre
  have hw1 : (main_loop P (init P) pre)._iswait ≠ 1 := by rw [hw]; decide
  obtain ⟨_, i2, _, _⟩ := inv_not_waiting hi hw1
  obtain ⟨r1, r2, r3, r4, r5⟩ := count_run P xs (main_loop P (init P) pre)
    P._number_of_points_to_alarm hi hrun hw hn hA (le_refl _) hlen habove
  rw [main_loop_append]
  refine ⟨r1, r2, fun h => (r4 h).1, ?_⟩
  intro h
  obtain ⟨q1, q2, q3⟩ := r5 h
  refine ⟨q1.trans i2, q3, ?_⟩
  intro z hz
  rw [main_loop_snoc, main_loop_append]
  have hw2 : (main_loop P (main_loop P (init P) pre) xs)._iswait ≠ 1 := by
    rw [q2]; decide
  obtain ⟨_, _, _, j4⟩ := inv_not_waiting r3 hw2
  rw [← r2] at hz
  obtain ⟨b1, _, b3, _⟩ := step_below P _ z r1 hw2 j4 hz
  exact ⟨b1.trans (q1.trans i2), b3⟩

theorem alarm_rule_witness :
    (main_loop example_params3 (init example_params3)
      ([sample_at 0 100] ++ example_rise))._isalarm = 1 :=
  (alarm_rule example_params3 (by decide) [sample_at 0 100] example_rise
    (by decide!) (by decide!) (by decide!) (by decide!) (by decide!)).2.2.1 (by decide!)

/-- A completed step from a state with the invariant that ends with the
alarm flag set is a step that raised the alarm: it started outside the wait
state and outside a window, and it started a window with the sample. -/
theorem alarm_step (P : Params) (s : State) (x : Sample) (hi : Inv s)
    (hrun' : (loop_body P s x).status = .running)
    (ha : (loop_body P s x)._isalarm = 1) :
    s._iswait = 0 ∧ s._ispattern ≠ 1
    ∧ (loop_body P s x)._iswait = 1
    ∧ (loop_body P s x)._alarmraisetime = x.t
    ∧ (loop_body P s x)._patternid = s._patternid + 1
    ∧ (loop_body P s x)._ispattern = 1
    ∧ (loop_body P s x)._patterncount = _fingerprint_n P
    ∧ (loop_body P s x)._seqdata = s._seqdata ++ [window_value P s x] := by
  have hrun := running_before P s x hrun'
  by_cases hw : s._iswait = 1
  · obtain ⟨w1, _⟩ := step_wait P s x hrun hw hrun'
    rw [w1] at ha; exact absurd ha (by decide)
  · obtain ⟨i1, i2, i3, i4⟩ := inv_not_waiting hi hw
    by_cases hb : |x.v - prev_value s x| < P._multiplicator_to_detect * s._diffavg
    · obtain ⟨b1, _⟩ := step_below P s x hrun hw i4 hb
      rw [b1, i2] at ha; exact absurd ha (by decide)
    · by_cases hn : s._numthresholded - 1 = 0
      · obtain ⟨_, b2, _, b4, b5, b6, b7, b8⟩ := step_alarm P s x hrun hw i4 hb hn
        exact ⟨i1, i4, b2, b4, b5, b6, b7, b8⟩
      · obtain ⟨b1, _⟩ := step_count P s x hrun hw i4 hb hn
        rw [b1, i2] at ha; exact absurd ha (by decide)

/-- After an alarm at time `t1` no output line carries the alarm flag until
more than the wait time has passed: `s` is either still waiting for the
alarm of `t1`, or the last sample `x0` was already late enough. -/
theorem no_alarm_while_waiting (P : Params) (t1 : Int) (xs : List Sample) (s : State)
    (x0 : Sample) (hi : Inv s)
    (hk : (s._iswait = 1 ∧ s._alarmraisetime.usec = t1)
      ∨ x0.t.usec - t1 > P._wait_state_usec)
    (hs : List.Chain (fun a b : Sample => a.t.usec ≤ b.t.usec) x0 xs)
    (j : Nat) (rj : Record) (hj : (records P s xs)[j]? = some rj) (ha : rj.isalarm = 1) :
    rj.timestamp.usec - t1 > P._wait_state_usec := by
  induction xs generalizing s x0 j with
  | nil => simp [records] at hj
  | cons x xs ih =>
    rw [records_cons] at hj
    rw [List.chain_cons] at hs
    obtain ⟨h0x, hs'⟩ := hs
    by_cases hrun' : (loop_body P s x).status = .running
    swap
    · simp [hrun'] at hj
    simp only [ne_eq, hrun', not_true_eq_false, if_false] at hj
    have hrun := running_before P s x hrun'
    obtain ⟨f1, f2, f3, _⟩ := output_record_fields P s x hrun'
    obtain ⟨c1, _⟩ := step_common P s x hrun hrun'
    have hk' : ((loop_body P s x)._iswait = 1 ∧ (loop_body P s x)._alarmraisetime.usec = t1)
        ∨ x.t.usec - t1 > P._wait_state_usec := by
      rcases hk with ⟨hw, hart⟩ | hlate
      · obtain ⟨_, _, w3, _, w5, _⟩ := step_wait P s x hrun hw hrun'
        by_cases hp : (loop_body P s x)._ispattern ≠ 0
        · left; rw [w5, if_pos hp, w3]; exact ⟨rfl, hart⟩
        · by_cases ht : x.t.usec - s._alarmraisetime.usec > P._wait_state_usec
          · right; rw [← hart]; exact ht
          · left; rw [w5, if_neg hp, if_neg ht, w3]; exact ⟨rfl, hart⟩
      · right; omega
    cases j with
    | zero =>
      simp only [List.getElem?_cons_zero, Option.some.injEq] at hj
      subst hj
      rw [f1] at ha
      rw [f3, c1]
      rcases hk with ⟨hw, _⟩ | hlate
      · obtain ⟨w1, _⟩ := step_wait P s x hrun hw hrun'
        rw [w1] at ha; exact absurd ha (by decide)
      · omega
    | succ j =>
      simp only [List.getElem?_cons_succ] at hj
      exact ih (loop_body P s x) x (inv_loop_body P s x hi) hk' hs' j hj

theorem cool_down_from (P : Params) (xs : List Sample) (s : State) (hi : Inv s)
    (hs : List.Chain' (fun a b : Sample => a.t.usec ≤ b.t.usec) xs)
    (i j : Nat) (ri rj : Record) (hij : i < j)
    (hri : (records P s xs)[i]? = some ri) (hrj : (records P s xs)[j]? = some rj)
    (hai : ri.isalarm = 1) (haj : rj.isalarm = 1) :
    rj.timestamp.usec - ri.timestamp.usec > P._wait_state_usec := by
  induction xs generalizing s i j with
  | nil => simp [records] at hri
  | cons x xs ih =>
    rw [records_cons] at hri hrj
    by_cases hrun' : (loop_body P s x).status = .running
    swap
    · simp [hrun'] at hri
    simp only [ne_eq, hrun', not_true_eq_false, if_false] at hri hrj
    have hrun := running_before P s x hrun'
    obtain ⟨f1, f2, f3, _⟩ := output_record_fields P s x hrun'
    obtain ⟨c1, _⟩ := step_common P s x hrun hrun'
    cases j with
    | zero => omega
    | succ j =>
      simp only [List.getElem?_cons_succ] at hrj
      cases i with
      | zero =>
        simp only [List.getElem?_cons_zero, Option.some.injEq] at hri
        subst hri
        rw [f1] at hai
        obtain ⟨_, _, a3, a4, _⟩ := alarm_step P s x hi hrun' hai
        rw [f3, c1]
        exact no_alarm_while_waiting P x.t.usec xs (loop_body P s x) x
          (inv_loop_body P s x hi) (Or.inl ⟨a3, by rw [a4]⟩) hs j rj hrj haj
      | succ i =>
        simp only [List.getElem?_cons_succ] at hri
        exact ih (loop_body P s x) (inv_loop_body P s x hi) (List.Chain'.tail hs) i j
          (by omega) hri hrj

/-- C2. For every configuration and every list of samples with
non-decreasing timestamps, two output lines of the run that both carry the
alarm flag are more than `wait_state_usec` microseconds apart. -/
theorem cool_down (P : Params) (xs : List Sample)
    (hs : List.Chain' (fun a b : Sample => a.t.usec ≤ b.t.usec) xs)
    (i j : Nat) (ri rj : Record) (hij : i < j)
    (hri : (records P (init P) xs)[i]? = some ri)
    (hrj : (records P (init P) xs)[j]? = some rj)
    (hai : ri.isalarm = 1) (haj : rj.isalarm = 1) :
    rj.timestamp.usec - ri.timestamp.usec > P._wait_state_usec :=
  cool_down_from P xs (init P) (inv_init P) hs i j ri rj hij hri hrj hai haj

theorem cool_down_witness :
    example_second_alarm.timestamp.usec - example_first_alarm.timestamp.usec
      > example_params._wait_state_usec :=
  cool_down example_params example_two_alarms
    (by simp [example_two_alarms, example_window, example_jump, sample_at, Timeval.usec]) 1 11
    example_first_alarm example_second_alarm (by decide) (by decide!) (by decide!)
    (by decide) (by decide)

/-- After a step that starts inside a window, the alarm flag of a later
output line is at least as many steps away as the window still has to
collect, and at least one step. -/
theorem no_alarm_in_window (P : Params) (xs : List Sample) (s : State) (hi : Inv s)
    (hp : s._ispattern = 1) (j : Nat) (rj : Record)
    (hj : (records P s xs)[j]? = some rj) (ha : rj.isalarm = 1) :
    s._patterncount ≤ j ∧ 1 ≤ j := by
  induction xs generalizing s j with
  | nil => simp [records] at hj
  | cons x xs ih =>
    rw [records_cons] at hj
    by_cases hrun' : (loop_body P s x).status = .running
    swap
    · simp [hrun'] at hj
    simp only [ne_eq, hrun', not_true_eq_false, if_false] at hj
    have hrun := running_before P s x hrun'
    obtain ⟨f1, _⟩ := output_record_fields P s x hrun'
    have hw := hi.pattern_wait hp
    obtain ⟨w1, _, _, _, _, w6⟩ := step_wait P s x hrun hw hrun'
    cases j with
    | zero =>
      simp only [List.getElem?_cons_zero, Option.some.injEq] at hj
      subst hj
      rw [f1, w1] at ha
      exact absurd ha (by decide)
    | succ j =>
      simp only [List.getElem?_cons_succ] at hj
      rcases w6 with ⟨c1, _⟩ | ⟨_, _, c3, c4, _⟩ | ⟨_, c2, _⟩
      · exact absurd hp c1
      · obtain ⟨q1, q2⟩ := ih (loop_body P s x) (inv_loop_body P s x hi) c3 j hj
        rw [c4] at q1
        exact ⟨by push_cast; omega, by omega⟩
      · exact ⟨by push_cast; omega, by omega⟩

theorem alarms_apart_from (P : Params) (xs : List Sample) (s : State) (hi : Inv s)
    (i j : Nat) (ri rj : Record) (hij : i < j)
    (hri : (records P s xs)[i]? = some ri) (hrj : (records P s xs)[j]? = some rj)
    (hai : ri.isalarm = 1) (haj : rj.isalarm = 1) :
    _fingerprint_n P < (j : Int) - (i : Int) := by
  induction xs generalizing s i j with
  | nil => simp [records] at hri
  | cons x xs ih =>
    rw [records_cons] at hri hrj
    by_cases hrun' : (loop_body P s x).status = .running
    swap
    · simp [hrun'] at hri
    simp only [ne_eq, hrun', not_true_eq_false, if_false] at hri hrj
    obtain ⟨f1, _⟩ := output_record_fields P s x hrun'
    cases j with
    | zero => omega
    | succ j =>
      simp only [List.getElem?_cons_succ] at hrj
      cases i with
      | zero =>
        simp only [List.getElem?_cons_zero, Option.some.injEq] at hri
        subst hri
        rw [f1] at hai
        obtain ⟨_, _, _, _, _, a6, a7, _⟩ := alarm_step P s x hi hrun' hai
        obtain ⟨q1, q2⟩ := no_alarm_in_window P xs (loop_body P s x)
          (inv_loop_body P s x hi) a6 j rj hrj haj
        rw [a7] at q1
        push_cast
        omega
      | succ i =>
        simp only [List.getElem?_cons_succ] at hri
        have := ih (loop_body P s x) (inv_loop_body P s x hi) i j (by omega) hri hrj
        push_cast
        omega

/-- C8. In a run, a step that starts from a running state inside a window
(`_ispattern = 1`) leaves `_patternid` and `_alarmraisetime` as they are and,
if it is completed, ends with the alarm flag clear; and two output lines
that both carry the alarm flag are more than `fingerprint_length` lines
apart. -/
theorem no_nesting (P : Params) (xs : List Sample) :
    (∀ x : Sample, (main_loop P (init P) xs).status = .running →
      (main_loop P (init P) xs)._ispattern = 1 →
        (main_loop P (init P) (xs ++ [x]))._patternid = (main_loop P (init P) xs)._patternid
        ∧ (main_loop P (init P) (xs ++ [x]))._alarmraisetime
          = (main_loop P (init P) xs)._alarmraisetime
        ∧ ((main_loop P (init P) (xs ++ [x])).status = .running →
          (main_loop P (init P) (xs ++ [x]))._isalarm = 0))
    ∧ (∀ (i j : Nat) (ri rj : Record), i < j →
      (records P (init P) xs)[i]? = some ri → (records P (init P) xs)[j]? = some rj →
      ri.isalarm = 1 → rj.isalarm = 1 → P._fingerprint_length < (j : Int) - (i : Int)) := by
  constructor
  · intro x hrun hp
    have hi := inv_reachable P xs
    have hw := hi.pattern_wait hp
    rw [main_loop_snoc]
    by_cases hrun' : (loop_body P (main_loop P (init P) xs) x).status = .running
    · obtain ⟨w1, _, w3, w4, _⟩ := step_wait P _ x hrun hw hrun'
      exact ⟨w4, w3, fun _ => w1⟩
    · obtain ⟨_, _, _, _, _, _, k7, k8, _⟩ := step_halt P _ x hrun hrun'
      exact ⟨k8, k7, fun h => absurd h hrun'⟩
  · intro i j ri rj hij hri hrj hai haj
    exact alarms_apart_from P xs (init P) (inv_init P) i j ri rj hij hri hrj hai haj

theorem no_nesting_witness :
    (main_loop example_params (init example_params) (example_jump ++ [sample_at 2 5000]))._isalarm
        = 0
    ∧ example_params._fingerprint_length < ((11 : Nat) : Int) - ((1 : Nat) : Int) :=
  ⟨((no_nesting example_params example_jump).1 (sample_at 2 5000) (by decide!)
      (by decide!)).2.2 (by decide!),
    (no_nesting example_params example_two_alarms).2 1 11 example_first_alarm
      example_second_alarm (by decide) (by decide!) (by decide!) (by decide) (by decide)⟩

theorem collecting_init (P : Params) : Collecting P (init P) := by
  intro _
  simp [init]

theorem collecting_loop_body (P : Params) (hL : 1 ≤ P._fingerprint_length)
    (s : State) (x : Sample) (hi : Inv s) (hc : Collecting P s) :
    Collecting P (loop_body P s x) := by
  intro hrun'
  have hrun := running_before P s x hrun'
  obtain ⟨hc1, hc2⟩ := hc hrun
  by_cases hw : s._iswait = 1
  · obtain ⟨_, _, _, _, _, w6⟩ := step_wait P s x hrun hw hrun'
    rcases w6 with ⟨c1, c2, c3, c4, _⟩ | ⟨c1, c2, c3, c4, c5, _⟩ | ⟨c1, c2, c3, c4, c5, _⟩
    · constructor
      · intro h; rw [c2] at h; exact absurd h c1
      · intro _; rw [c4]; exact hc2 c1
    · obtain ⟨h1, h2, h3⟩ := hc1 c1
      constructor
      · intro _
        rw [c4, c5, List.length_append, List.length_singleton]
        push_cast
        refine ⟨by omega, by omega, by omega⟩
      · intro h; exact absurd c3 h
    · constructor
      · intro h; rw [c3] at h; exact absurd h (by decide)
      · intro _; exact c5
  · obtain ⟨_, _, _, i4⟩ := inv_not_waiting hi hw
    have hs := hc2 i4
    by_cases hb : |x.v - prev_value s x| < P._multiplicator_to_detect * s._diffavg
    · obtain ⟨_, _, _, _, _, b6, b7, b8⟩ := step_below P s x hrun hw i4 hb
      constructor
      · intro h; rw [b6] at h; exact absurd h i4
      · intro _; rw [b8]; exact hs
    · by_cases hn : s._numthresholded - 1 = 0
      · obtain ⟨_, _, _, _, _, b6, b7, b8⟩ := step_alarm P s x hrun hw i4 hb hn
        constructor
        · intro _
          rw [b7, b8, hs]
          unfold _fingerprint_n
          simp only [List.nil_append, List.length_singleton, Nat.cast_one]
          refine ⟨by omega, hL, le_refl _⟩
        · intro h; exact absurd b6 h
      · obtain ⟨_, _, _, _, _, b6, b7, b8⟩ := step_count P s x hrun hw i4 hb hn
        constructor
        · intro h; rw [b6] at h; exact absurd h i4
        · intro _; rw [b8]; exact hs

theorem collecting_main_loop (P : Params) (hL : 1 ≤ P._fingerprint_length)
    (xs : List Sample) (s : State) (hi : Inv s) (hc : Collecting P s) :
    Collecting P (main_loop P s xs) := by
  induction xs generalizing s with
  | nil => exact hc
  | cons x xs ih =>
    exact ih _ (inv_loop_body P s x hi) (collecting_loop_body P hL s x hi hc)

theorem collecting_reachable (P : Params) (hL : 1 ≤ P._fingerprint_length)
    (xs : List Sample) : Collecting P (main_loop P (init P) xs) :=
  collecting_main_loop P hL xs _ (inv_init P) (collecting_init P)

/-- The end of a window, whether or not the matcher lets the process run
on: `_dw` is the buffer with the last sample added, `_vw` its transform. -/
theorem step_window_end (P : Params) (s : State) (x : Sample) (hi : Inv s)
    (hrun : s.status = .running) (hp : s._ispattern = 1) (hc : s._patterncount - 1 ≤ 0) :
    (loop_body P s x)._dw = s._seqdata ++ [window_value P s x]
    ∧ (loop_body P s x)._vw
      = P._wav_func (_fingerprint_n P) (s._seqdata ++ [window_value P s x])
    ∧ ((loop_body P s x).status = .running →
      (loop_body P s x)._ispattern = 0 ∧ (loop_body P s x)._seqdata = []) := by
  by_cases hrun' : (loop_body P s x).status = .running
  · obtain ⟨_, _, _, _, _, w6⟩ := step_wait P s x hrun (hi.pattern_wait hp) hrun'
    rcases w6 with ⟨c1, _⟩ | ⟨_, c2, _⟩ | ⟨_, _, c3, _, c5, c6, c7⟩
    · exact absurd hp c1
    · omega
    · exact ⟨c6, c7, fun _ => ⟨c3, c5⟩⟩
  · obtain ⟨_, _, _, _, _, _, _, _, _, _, _, _, k13, k14⟩ := step_halt P s x hrun hrun'
    exact ⟨k13, k14, fun h => absurd h hrun'⟩

/-- C9, amended. For every configuration with `fingerprint_length ≥ 1` and
every run that is still running: inside a window `_seqdata` has length
`L − patterncount + 1` with `1 ≤ patterncount ≤ L`, outside a window it is
empty; and the step that brings `patterncount` to 0 hands a buffer of `L + 1`
values to the transform, which is told to use `L` of them. -/
theorem collector_buffer (P : Params) (hL : 1 ≤ P._fingerprint_length)
    (xs : List Sample) (hrun : (main_loop P (init P) xs).status = .running) :
    ((main_loop P (init P) xs)._ispattern = 1 →
      ((main_loop P (init P) xs)._seqdata.length : Int)
          = P._fingerprint_length - (main_loop P (init P) xs)._patterncount + 1
      ∧ 1 ≤ (main_loop P (init P) xs)._patterncount
      ∧ (main_loop P (init P) xs)._patterncount ≤ P._fingerprint_length)
    ∧ ((main_loop P (init P) xs)._ispattern ≠ 1 → (main_loop P (init P) xs)._seqdata = [])
    ∧ (∀ x : Sample, (main_loop P (init P) xs)._ispattern = 1 →
        (main_loop P (init P) xs)._patterncount = 1 →
          ((main_loop P (init P) (xs ++ [x]))._dw.length : Int) = P._fingerprint_length + 1
          ∧ (main_loop P (init P) (xs ++ [x]))._vw
            = P._wav_func P._fingerprint_length (main_loop P (init P) (xs ++ [x]))._dw) := by
  obtain ⟨h1, h2⟩ := collecting_reachable P hL xs hrun
  refine ⟨h1, h2, ?_⟩
  intro x hp hc
  obtain ⟨q1, _, _⟩ := h1 hp
  rw [main_loop_snoc]
  obtain ⟨e1, e2, _⟩ := step_window_end P _ x (inv_reachable P xs) hrun hp (by omega)
  rw [e1, e2]
  refine ⟨?_, rfl⟩
  rw [List.length_append, List.length_singleton]
  push_cast
  omega

theorem collector_buffer_witness :
    ((main_loop example_params (init example_params) example_jump)._seqdata.length : Int)
      = example_params._fingerprint_length
        - (main_loop example_params (init example_params) example_jump)._patterncount + 1 :=
  ((collector_buffer example_params (by decide) example_jump (by decide!)).1
    (by decide!)).1

/-- C9 as stated fails.  Right after the alarm of `example_jump` the buffer
holds one value while `L − patterncount` is 0, and when the window of
`example_window` is complete the buffer handed to the transform holds 9
values for `L = 8`. -/
theorem buffer_length_counterexample :
    ((main_loop example_params (init example_params) example_jump)._seqdata.length : Int)
      ≠ example_params._fingerprint_length
        - (main_loop example_params (init example_params) example_jump)._patterncount
    ∧ (main_loop example_params (init example_params) example_window)._patterncount = 0
    ∧ (main_loop example_params (init example_params) example_window)._dw.length = 9
    ∧ example_params._fingerprint_length = 8 := by
  decide!

theorem first_differences_take (n : Nat) (prev : ℚ) (vs : List ℚ) :
    (first_differences prev vs).take n = first_differences prev (vs.take n) := by
  induction vs generalizing n prev with
  | nil => simp [first_differences]
  | cons v vs ih =>
    cases n with
    | zero => simp [first_differences]
    | succ n => simp [first_differences, ih]

theorem window_values_take (P : Params) (n : Nat) (prev : ℚ) (vs : List ℚ) :
    (window_values P prev vs).take n = window_values P prev (vs.take n) := by
  unfold window_values
  split_ifs
  · exact first_differences_take n prev vs
  · rfl

theorem window_values_nil (P : Params) (prev : ℚ) : window_values P prev [] = [] := by
  unfold window_values
  split_ifs <;> rfl

theorem window_values_cons (P : Params) (s : State) (x : Sample) (vs : List ℚ) :
    window_values P (prev_value s x) (x.v :: vs)
      = window_value P s x :: window_values P x.v vs := by
  unfold window_values window_value
  split_ifs <;> rfl

theorem prev_value_later (s : State) (x : Sample) (h : 0 < s._lineid) :
    prev_value s x = s._lastval := by
  unfold prev_value
  rw [if_neg]
  omega

/-- The collection of a window from a state inside it with `k` samples to
go: the samples are added in order, and the `k`-th one ends the window. -/
theorem collect_run (P : Params) (ys : List Sample) (s : State) (k : Int)
    (hi : Inv s) (hrun : s.status = .running) (hp : s._ispattern = 1)
    (hk : s._patterncount = k) (hl : 0 < s._lineid) (h1 : 1 ≤ k)
    (hlen : (ys.length : Int) ≤ k) :
    ((ys.length : Int) < k →
      (main_loop P s ys).status = .running ∧ (main_loop P s ys)._ispattern = 1
      ∧ (main_loop P s ys)._dw = s._dw ∧ (main_loop P s ys)._vw = s._vw
      ∧ (main_loop P s ys)._seqdata
        = s._seqdata ++ window_values P s._lastval (ys.map fun y => y.v))
    ∧ ((ys.length : Int) = k →
      (main_loop P s ys)._dw
        = s._seqdata ++ window_values P s._lastval (ys.map fun y => y.v)
      ∧ (main_loop P s ys)._vw = P._wav_func (_fingerprint_n P) (main_loop P s ys)._dw) := by
  induction ys generalizing s k with
  | nil =>
    constructor
    · intro _
      simp [main_loop_nil, hrun, hp, window_values_nil]
    · intro h; simp at h; omega
  | cons x ys ih =>
    simp only [List.length_cons, Nat.cast_add, Nat.cast_one] at hlen ⊢
    rw [main_loop_cons]
    have hwv : window_values P s._lastval ((x :: ys).map fun y => y.v)
        = window_value P s x :: window_values P x.v (ys.map fun y => y.v) := by
      rw [← prev_value_later s x hl, List.map_cons, window_values_cons]
    rw [hwv]
    by_cases hc : s._patterncount - 1 ≤ 0
    · have hys : ys = [] := by
        have : ys.length = 0 := by omega
        exact List.length_eq_zero.mp this
      subst hys
      obtain ⟨e1, e2, _⟩ := step_window_end P s x hi hrun hp hc
      constructor
      · intro h; simp at h; omega
      · intro _
        rw [main_loop_nil, e2, e1]
        simp [window_values_nil]
    · have hrun' : (loop_body P s x).status = .running := by
        by_contra hh
        exact hc (step_halt P s x hrun hh).2.1
      obtain ⟨_, _, _, _, _, w6⟩ := step_wait P s x hrun (hi.pattern_wait hp) hrun'
      obtain ⟨_, c2, c3, _⟩ := step_common P s x hrun hrun'
      rcases w6 with ⟨d1, _⟩ | ⟨_, _, d3, d4, d5, d6, d7⟩ | ⟨_, d2, _⟩
      · exact absurd hp d1
      · obtain ⟨r1, r2⟩ := ih (loop_body P s x) (k - 1) (inv_loop_body P s x hi) hrun' d3
          (by rw [d4, hk]) (by rw [c2]; omega) (by omega) (by omega)
        rw [d5, d6, d7, c3] at r1
        rw [d5, c3] at r2
        constructor
        · intro h
          obtain ⟨q1, q2, q3, q4, q5⟩ := r1 (by omega)
          exact ⟨q1, q2, q3, q4, by rw [q5]; simp⟩
        · intro h
          obtain ⟨q1, q2⟩ := r2 (by omega)
          exact ⟨by rw [q1]; simp, q2⟩
      · exact absurd d2 hc

/-- C10. Let the sample `a` raise an alarm in a run (`fingerprint_length ≥ 1`)
and let `L` further samples `ys` follow.  Then the window is still being
collected before the last of them, and on the last one the transform is
called on a buffer whose first `L` values are, in order, the window values
of `a` and of the next `L − 1` samples: their measurements, or their signed
first differences when `use_diff_value` is set. -/
theorem window_content (P : Params) (hL : 1 ≤ P._fingerprint_length)
    (pre : List Sample) (a : Sample) (ys : List Sample)
    (hrun : (main_loop P (init P) (pre ++ [a])).status = .running)
    (ha : (main_loop P (init P) (pre ++ [a]))._isalarm = 1)
    (hlen : (ys.length : Int) = P._fingerprint_length) :
    (main_loop P (init P) (pre ++ [a] ++ ys))._dw.take P._fingerprint_length.toNat
      = window_values P (prev_value (main_loop P (init P) pre) a)
          (((a :: ys).take P._fingerprint_length.toNat).map fun y => y.v)
    ∧ (main_loop P (init P) (pre ++ [a] ++ ys))._vw
      = P._wav_func P._fingerprint_length (main_loop P (init P) (pre ++ [a] ++ ys))._dw
    ∧ ∀ k : Nat, k < ys.length →
      (main_loop P (init P) (pre ++ [a] ++ ys.take k)).status = .running
      ∧ (main_loop P (init P) (pre ++ [a] ++ ys.take k))._ispattern = 1
      ∧ (main_loop P (init P) (pre ++ [a] ++ ys.take k))._dw
        = (main_loop P (init P) pre)._dw := by
  have hi0 := inv_reachable P pre
  have hi1 := inv_reachable P (pre ++ [a])
  rw [main_loop_snoc] at hrun ha hi1
  have hrun0 := running_before P _ a hrun
  obtain ⟨a1, a2, a3, a4, a5, a6, a7, a8⟩ := alarm_step P _ a hi0 hrun ha
  obtain ⟨_, c2, c3, _⟩ := step_common P _ a hrun0 hrun
  obtain ⟨_, _, d2, _⟩ := step_detect_common P _ a hrun0 a2
  have hseq0 := (collecting_reachable P hL pre hrun0).2 a2
  rw [hseq0, List.nil_append] at a8
  have hl1 : 0 < (loop_body P (main_loop P (init P) pre) a)._lineid := by
    rw [c2]; have := hi0.lineid_nonneg; omega
  have hdw : ∀ zs : List Sample,
      main_loop P (init P) (pre ++ [a] ++ zs)
        = main_loop P (loop_body P (main_loop P (init P) pre) a) zs := by
    intro zs; rw [main_loop_append, main_loop_snoc]
  refine ⟨?_, ?_, ?_⟩
  · obtain ⟨_, r2⟩ := collect_run P ys _ P._fingerprint_length hi1 hrun a6 a7 hl1 hL
      (le_of_eq hlen)
    obtain ⟨q1, _⟩ := r2 hlen
    rw [hdw, q1, a8, c3, List.singleton_append, ← window_values_cons, window_values_take,
      ← List.map_cons, List.map_take]
  · obtain ⟨_, r2⟩ := collect_run P ys _ P._fingerprint_length hi1 hrun a6 a7 hl1 hL
      (le_of_eq hlen)
    obtain ⟨_, q2⟩ := r2 hlen
    rw [hdw]; exact q2
  · intro k hk
    have hlk : ((ys.take k).length : Int) < P._fingerprint_length := by
      rw [List.length_take, ← hlen]
      have : min k ys.length = k := by omega
      rw [this]; exact_mod_cast hk
    obtain ⟨r1, _⟩ := collect_run P (ys.take k) _ P._fingerprint_length hi1 hrun a6 a7 hl1
      hL (le_of_lt hlk)
    obtain ⟨q1, q2, q3, _⟩ := r1 hlk
    rw [hdw]
    exact ⟨q1, q2, q3.trans d2⟩

theorem window_content_witness :
    (main_loop example_params (init example_params)
        ([sample_at 0 100] ++ [sample_at 1 1000] ++ example_tail))._dw.take
        example_params._fingerprint_length.toNat
      = window_values example_params
          (prev_value (main_loop example_params (init example_params) [sample_at 0 100])
            (sample_at 1 1000))
          (((sample_at 1 1000 :: example_tail).take
            example_params._fingerprint_length.toNat).map fun y => y.v) :=
  (window_content example_params (by decide) [sample_at 0 100] (sample_at 1 1000)
    example_tail (by decide!) (by decide!) (by decide!)).1

theorem wait_flag_step (P : Params) (s : State) (x x0 : Sample) (hi : Inv s)
    (hst : stopped_in_window s)
    (hpre : s._iswait ≠ 1 →
      x0.t.usec - s._alarmraisetime.usec > P._wait_state_usec)
    (h0 : x0.t.usec ≤ x.t.usec) :
    wait_flag_explained P (loop_body P s x) x.t.usec
    ∧ stopped_in_window (loop_body P s x) := by
  have hi' := inv_loop_body P s x hi
  by_cases hrun : s.status = .running
  swap
  · rw [loop_body_stopped P s x hrun]
    have hp := hst hrun
    exact ⟨⟨fun _ => Or.inr hp, fun _ => hi.pattern_wait hp⟩, hst⟩
  by_cases hrun' : (loop_body P s x).status = .running
  swap
  · obtain ⟨_, _, _, _, _, _, _, _, _, k10, _⟩ := step_halt P s x hrun hrun'
    exact ⟨⟨fun _ => Or.inr k10, fun _ => hi'.pattern_wait k10⟩, fun _ => k10⟩
  refine ⟨?_, fun h => absurd hrun' h⟩
  unfold wait_flag_explained
  by_cases hw : s._iswait = 1
  · obtain ⟨_, _, w3, _, w5, _⟩ := step_wait P s x hrun hw hrun'
    rw [w3]
    rcases hi'.pattern01 with hp | hp
    · rw [w5, hp]
      by_cases ht : x.t.usec - s._alarmraisetime.usec > P._wait_state_usec
      · rw [if_neg (by decide), if_pos ht]
        constructor
        · intro h; exact absurd h (by decide)
        · rintro (h | h)
          · omega
          · exact absurd h (by decide)
      · rw [if_neg (by decide), if_neg ht]
        exact ⟨fun _ => Or.inl (by omega), fun _ => rfl⟩
    · rw [w5, hp, if_pos (by decide)]
      exact ⟨fun _ => Or.inr rfl, fun _ => rfl⟩
  · obtain ⟨i1, i2, i3, i4⟩ := inv_not_waiting hi hw
    have hlate := hpre hw
    by_cases hb : |x.v - prev_value s x| < P._multiplicator_to_detect * s._diffavg
    · obtain ⟨_, b2, _, b4, _, b6, _⟩ := step_below P s x hrun hw i4 hb
      rw [b2, b4, b6, i1, i3]
      constructor
      · intro h; exact absurd h (by decide)
      · rintro (h | h)
        · omega
        · exact absurd h (by decide)
    · by_cases hn : s._numthresholded - 1 = 0
      · obtain ⟨_, b2, _, _, _, b6, _⟩ := step_alarm P s x hrun hw i4 hb hn
        exact ⟨fun _ => Or.inr b6, fun _ => b2⟩
      · obtain ⟨_, b2, _, b4, _, b6, _⟩ := step_count P s x hrun hw i4 hb hn
        rw [b2, b4, b6, i1, i3]
        constructor
        · intro h; exact absurd h (by decide)
        · rintro (h | h)
          · omega
          · exact absurd h (by decide)

theorem wait_flag_run (P : Params) (xs : List Sample) (s : State) (x0 x : Sample)
    (hi : Inv s) (hst : stopped_in_window s)
    (hpre : s._iswait ≠ 1 →
      x0.t.usec - s._alarmraisetime.usec > P._wait_state_usec)
    (hs : List.Chain (fun a b : Sample => a.t.usec ≤ b.t.usec) x0 (xs ++ [x])) :
    wait_flag_explained P (main_loop P s (xs ++ [x])) x.t.usec := by
  induction xs generalizing s x0 with
  | nil =>
    rw [List.nil_append, List.chain_cons] at hs
    rw [List.nil_append, main_loop_cons, main_loop_nil]
    exact (wait_flag_step P s x x0 hi hst hpre hs.1).1
  | cons y ys ih =>
    rw [List.cons_append, List.chain_cons] at hs
    rw [List.cons_append, main_loop_cons]
    obtain ⟨e1, e2⟩ := wait_flag_step P s y x0 hi hst hpre hs.1
    refine ih (loop_body P s y) y (inv_loop_body P s y hi) e2 ?_ hs.2
    intro hw
    unfold wait_flag_explained at e1
    by_contra hlate
    exact hw (e1.mpr (Or.inl (by omega)))

/-- C7, amended. For every configuration and every run over samples with
non-decreasing timestamps that all lie more than `wait_state_usec` after
the epoch (where `_alarmraisetime` starts), after the sample of time `now`
the wait flag is set if and only if `now − alarmraisetime ≤ wait_state_usec`
or a window is being collected. -/
theorem wait_flag_characterisation (P : Params) (pre : List Sample) (x : Sample)
    (hs : List.Chain' (fun a b : Sample => a.t.usec ≤ b.t.usec) (pre ++ [x]))
    (hfirst : ∀ y ∈ pre ++ [x], P._wait_state_usec < y.t.usec) :
    (main_loop P (init P) (pre ++ [x]))._iswait = 1 ↔
      (x.t.usec - (main_loop P (init P) (pre ++ [x]))._alarmraisetime.usec
          ≤ P._wait_state_usec
        ∨ (main_loop P (init P) (pre ++ [x]))._ispattern = 1) := by
  have hne : pre ++ [x] ≠ [] := by simp
  obtain ⟨h, hh⟩ : ∃ h, (pre ++ [x]).head? = some h := by
    cases hpx : pre ++ [x] with
    | nil => exact absurd hpx hne
    | cons h t => exact ⟨h, rfl⟩
  have hmem : h ∈ pre ++ [x] := List.mem_of_mem_head? hh
  have hchain : List.Chain (fun a b : Sample => a.t.usec ≤ b.t.usec) h (pre ++ [x]) := by
    cases hpx : pre ++ [x] with
    | nil => exact absurd hpx hne
    | cons h' t =>
      rw [hpx] at hh hs
      simp only [List.head?_cons, Option.some.injEq] at hh
      subst hh
      exact List.Chain.cons (le_refl _) hs
  refine wait_flag_run P pre (init P) h x (inv_init P) (fun hr => absurd rfl hr) ?_ hchain
  intro _
  have := hfirst h hmem
  simp only [init, Timeval.usec] at this ⊢
  omega

theorem wait_flag_characterisation_witness :
    (main_loop example_params (init example_params) (example_jump ++ [sample_at 501 1000]))._iswait
        = 1
    ∧ (main_loop example_params (init example_params)
        (example_jump ++ [sample_at 501 1000]))._ispattern = 1 :=
  ⟨(wait_flag_characterisation example_params example_jump (sample_at 501 1000)
      (by simp [example_jump, sample_at, Timeval.usec])
      (by simp [example_jump, sample_at, Timeval.usec, example_params])).mpr
      (Or.inr (by decide!)),
    by decide!⟩

/-- C7 as stated fails in both directions.  In `example_boundary` the last
sample comes exactly `wait_state_usec` after the alarm, with the window
complete: the wait flag is still set although `now − alarmraisetime < W`
does not hold and no window is being collected.  In `example_early` no
alarm has been raised and the wait flag is clear although
`now − alarmraisetime < W` holds. -/
theorem wait_flag_counterexample :
    ¬ ((main_loop example_params (init example_params) example_boundary)._iswait = 1 ↔
        ((main_loop example_params (init example_params) example_boundary)._curtime.usec
            - (main_loop example_params (init example_params)
                example_boundary)._alarmraisetime.usec
            < example_params._wait_state_usec
          ∨ (main_loop example_params (init example_params) example_boundary)._ispattern = 1))
    ∧ ¬ ((main_loop example_params (init example_params) example_early)._iswait = 1 ↔
        ((main_loop example_params (init example_params) example_early)._curtime.usec
            - (main_loop example_params (init example_params)
                example_early)._alarmraisetime.usec
            < example_params._wait_state_usec
          ∨ (main_loop example_params (init example_params) example_early)._ispattern = 1)) := by
  decide!

theorem eucl_dist_eq (v1 v2 : List ℚ) (from_ to_ flength c : Int) :
    _eucl_dist v1 v2 from_ to_ flength c
      = match dist_sums v1 v2 from_ to_ flength c with
        | none => .oob
        | some s => normalise s := by
  unfold _eucl_dist normalise
  cases dist_sums v1 v2 from_ to_ flength c <;> rfl

theorem eucl_dist_of_sums (v1 v2 : List ℚ) (from_ to_ flength c : Int) (s : Sums)
    (h : dist_sums v1 v2 from_ to_ flength c = some s) :
    _eucl_dist v1 v2 from_ to_ flength c = normalise s := by
  rw [eucl_dist_eq, h]

theorem eucl_dist_oob_iff (v1 v2 : List ℚ) (from_ to_ flength c : Int) :
    _eucl_dist v1 v2 from_ to_ flength c = .oob
      ↔ dist_sums v1 v2 from_ to_ flength c = none := by
  rw [eucl_dist_eq]
  cases dist_sums v1 v2 from_ to_ flength c with
  | none => simp
  | some s =>
    simp only [reduceCtorEq, iff_false]
    unfold normalise
    split_ifs <;> simp

/-- A distance that is a number lies between 0 and 1. -/
theorem normalise_range (s : Sums) (d : ℚ) (h : normalise s = .num d) : 0 ≤ d ∧ d ≤ 1 := by
  unfold normalise at h
  split_ifs at h with h0 h1 h2 h3
  all_goals simp only [DistVal.num.injEq, reduceCtorEq] at h
  all_goals subst h
  · exact ⟨le_refl _, zero_le_one⟩
  · exact ⟨zero_le_one, le_refl _⟩
  · exact ⟨le_refl _, zero_le_one⟩
  · exact ⟨not_lt.mp h3, not_lt.mp h1⟩

theorem eucl_dist_num_range (v1 v2 : List ℚ) (from_ to_ flength c : Int) (d : ℚ)
    (h : _eucl_dist v1 v2 from_ to_ flength c = .num d) : 0 ≤ d ∧ d ≤ 1 := by
  rw [eucl_dist_eq] at h
  cases hs : dist_sums v1 v2 from_ to_ flength c with
  | none => rw [hs] at h; simp at h
  | some s => rw [hs] at h; exact normalise_range s d h

theorem sums_add_swap (s : Sums) (a b : ℚ) : (s.add a b).swap = s.swap.add b a := by
  unfold Sums.add Sums.swap
  simp only [Sums.mk.injEq, and_true, add_right_inj]
  ring

theorem sum_items_swap (v1 v2 : List ℚ) (is : List Int) (s : Sums) :
    sum_items v2 v1 is s.swap = (sum_items v1 v2 is s).map Sums.swap := by
  induction is generalizing s with
  | nil => rfl
  | cons i is ih =>
    unfold sum_items
    cases h1 : rd v1 i <;> cases h2 : rd v2 i <;> simp only [Option.map_none']
    rw [← sums_add_swap, ih]

theorem level_avg_swap (v1 v2 : List ℚ) (w : ℚ) (js : List Int) (acc : ℚ × ℚ) :
    level_avg v2 v1 w js acc.swap = (level_avg v1 v2 w js acc).map Prod.swap := by
  induction js generalizing acc with
  | nil => rfl
  | cons j js ih =>
    unfold level_avg
    cases h1 : rd v1 j <;> cases h2 : rd v2 j <;> simp only [Option.map_none']
    exact ih (acc.1 + _ / w, acc.2 + _ / w)

theorem level_avgs_nil (v1 v2 : List ℚ) (from_ to_ : Int) (acc : List (ℚ × ℚ)) :
    level_avgs v1 v2 from_ to_ [] acc = some acc := rfl

theorem level_avgs_cons (v1 v2 : List ℚ) (from_ to_ : Int) (i : Int) (ls : List Int)
    (acc : List (ℚ × ℚ)) :
    level_avgs v1 v2 from_ to_ (i :: ls) acc
      = if level_from i ≥ from_ ∧ level_to i ≤ to_ then
          match level_avg v1 v2 ((level_to i - level_from i + 1 : Int) : ℚ)
              (int_range (level_from i) (level_to i)) (0, 0) with
          | some a => level_avgs v1 v2 from_ to_ ls (acc ++ [a])
          | none => none
        else level_avgs v1 v2 from_ to_ ls acc := rfl

theorem level_avgs_swap (v1 v2 : List ℚ) (from_ to_ : Int) (ls : List Int)
    (acc : List (ℚ × ℚ)) :
    level_avgs v2 v1 from_ to_ ls (acc.map Prod.swap)
      = (level_avgs v1 v2 from_ to_ ls acc).map (List.map Prod.swap) := by
  induction ls generalizing acc with
  | nil => rfl
  | cons i ls ih =>
    rw [level_avgs_cons, level_avgs_cons]
    by_cases hk : level_from i ≥ from_ ∧ level_to i ≤ to_
    · rw [if_pos hk, if_pos hk]
      have h := level_avg_swap v1 v2 ((level_to i - level_from i + 1 : Int) : ℚ)
        (int_range (level_from i) (level_to i)) (0, 0)
      simp only [Prod.swap_prod_mk] at h
      rw [h]
      cases level_avg v1 v2 _ _ (0, 0) with
      | none => rfl
      | some a =>
        simp only [Option.map_some']
        rw [← ih (acc ++ [a])]
        simp
    · rw [if_neg hk, if_neg hk]
      exact ih acc

theorem fold_swap (a : List (ℚ × ℚ)) (s : Sums) :
    (a.map Prod.swap).foldl (fun s p => s.add p.1 p.2) s.swap
      = (a.foldl (fun s p => s.add p.1 p.2) s).swap := by
  induction a generalizing s with
  | nil => rfl
  | cons p a ih =>
    simp only [List.map_cons, List.foldl_cons, Prod.fst_swap, Prod.snd_swap]
    rw [← sums_add_swap, ih]

theorem dist_sums_swap (v1 v2 : List ℚ) (from_ to_ flength c : Int) :
    dist_sums v2 v1 from_ to_ flength c
      = (dist_sums v1 v2 from_ to_ flength c).map Sums.swap := by
  unfold dist_sums
  simp only []
  split_ifs with h2 h1
  · have h := level_avgs_swap v1 v2 from_ to_ (int_range 0 ((Nat.log2 flength.toNat : Nat) : Int)) []
    simp only [List.map_nil] at h
    rw [h]
    cases level_avgs v1 v2 from_ to_ _ [] with
    | none => rfl
    | some a =>
      simp only [Option.map_some']
      exact congrArg some (fold_swap a ⟨0, 0, 0⟩)
  · exact sum_items_swap v1 v2 _ ⟨0, 0, 0⟩
  · rfl

theorem normalise_swap (s : Sums) : normalise s.swap = normalise s := by
  unfold normalise Sums.swap
  simp only [add_comm s.yy s.xx]

/-- C15. For all vectors `a`, `b`, every `from`, `to`, `L` and every mode,
`_eucl_dist(a, b, from, to, L, c) = _eucl_dist(b, a, from, to, L, c)`. -/
theorem eucl_dist_symmetric (a b : List ℚ) (from_ to_ flength c : Int) :
    _eucl_dist a b from_ to_ flength c = _eucl_dist b a from_ to_ flength c := by
  rw [eucl_dist_eq, eucl_dist_eq, dist_sums_swap a b]
  cases dist_sums a b from_ to_ flength c with
  | none => rfl
  | some s => exact (normalise_swap s).symm

theorem sum_Icc_eq (f : Int → ℚ) (a b : Int) :
    ∑ i in Finset.Icc a b, f i = ((int_range a b).map f).sum := by
  rw [Int.Icc_eq_finset_map, Finset.sum_map]
  unfold int_range
  have hm : (b + 1 - a).toNat = (b - a + 1).toNat := by congr 1; ring
  rw [hm]
  generalize (b - a + 1).toNat = m
  induction m with
  | zero => simp
  | succ m ih =>
    rw [Finset.sum_range_succ, ih, List.range_succ]
    simp [add_comm]

theorem mem_int_range (a b i : Int) : i ∈ int_range a b ↔ a ≤ i ∧ i ≤ b := by
  unfold int_range
  simp only [List.mem_map, List.mem_range]
  constructor
  · rintro ⟨k, hk, rfl⟩
    omega
  · rintro ⟨h1, h2⟩
    exact ⟨(i - a).toNat, by omega, by omega⟩

/-- A read inside the stored values gives the item. -/
theorem rd_inside (v : List ℚ) (i : Int) (h0 : 0 ≤ i) (h1 : i < v.length) :
    rd v i = some (item v i) := by
  unfold item rd
  rw [if_pos h0]
  have : i.toNat < v.length := by omega
  rw [List.get?_eq_get this]
  rfl

/-- The summing loop of mode 1 over indices inside both vectors. -/
theorem sum_items_inside (v1 v2 : List ℚ) (is : List Int) (s : Sums)
    (h : ∀ i ∈ is, 0 ≤ i ∧ i < v1.length ∧ i < v2.length) :
    sum_items v1 v2 is s
      = some ⟨s.cc + (is.map fun i => (item v1 i - item v2 i) ^ 2).sum,
          s.xx + (is.map fun i => item v1 i ^ 2).sum,
          s.yy + (is.map fun i => item v2 i ^ 2).sum⟩ := by
  induction is generalizing s with
  | nil => simp [sum_items]
  | cons i is ih =>
    obtain ⟨h0, h1, h2⟩ := h i (List.mem_cons_self _ _)
    unfold sum_items
    rw [rd_inside v1 i h0 h1, rd_inside v2 i h0 h2]
    simp only []
    rw [ih _ (fun j hj => h j (List.mem_cons_of_mem _ hj))]
    simp only [Sums.add, List.map_cons, List.sum_cons, Option.some.injEq, Sums.mk.injEq]
    refine ⟨by ring, by ring, by ring⟩

theorem dist_sums_mode1 (v1 v2 : List ℚ) (from_ to_ flength : Int) (hfrom : 0 ≤ from_)
    (h1 : to_ < v1.length) (h2 : to_ < v2.length) :
    dist_sums v1 v2 from_ to_ flength 1
      = some ⟨window_num v1 v2 from_ to_, ∑ i in Finset.Icc from_ to_, item v1 i ^ 2,
          ∑ i in Finset.Icc from_ to_, item v2 i ^ 2⟩ := by
  unfold dist_sums window_num
  simp only [show ¬ ((1 : Int) = 2) by decide, if_false, if_true]
  rw [sum_items_inside v1 v2 _ _ (fun i hi => by
    rw [mem_int_range] at hi
    exact ⟨by omega, by omega, by omega⟩)]
  simp only [sum_Icc_eq, zero_add]

theorem normalise_clamp (s : Sums) (h : s.xx + s.yy ≠ 0) :
    normalise s = .num (clamp01 (s.cc / (s.xx + s.yy))) := by
  unfold normalise clamp01
  rw [if_neg h]
  congr 1
  split_ifs with a b c
  · exact absurd b (by norm_num)
  · rw [min_eq_right (le_of_lt a), max_eq_right zero_le_one]
  · rw [min_eq_left (not_lt.mp a), max_eq_left (le_of_lt c)]
  · rw [min_eq_left (not_lt.mp a), max_eq_right (not_lt.mp c)]

/-- C12. In mode 1, for a window `0 ≤ from`, `to` inside both vectors and a
non-zero denominator, `_eucl_dist` is `clamp(num/den, 0, 1)` with
`num = Σ (v1[i] − v2[i])²` and `den = Σ v1[i]² + Σ v2[i]²` over
`i = from .. to`; vectors that agree with `v1`, `v2` on the window give the
same result. -/
theorem mode1_reference (v1 v2 : List ℚ) (from_ to_ flength : Int) (hfrom : 0 ≤ from_)
    (h1 : to_ < v1.length) (h2 : to_ < v2.length)
    (hden : window_den v1 v2 from_ to_ ≠ 0) :
    _eucl_dist v1 v2 from_ to_ flength 1
      = .num (clamp01 (window_num v1 v2 from_ to_ / window_den v1 v2 from_ to_))
    ∧ ∀ w1 w2 : List ℚ, to_ < w1.length → to_ < w2.length →
      (∀ i : Int, from_ ≤ i → i ≤ to_ → item w1 i = item v1 i ∧ item w2 i = item v2 i) →
      _eucl_dist w1 w2 from_ to_ flength 1 = _eucl_dist v1 v2 from_ to_ flength 1 := by
  have key : ∀ u1 u2 : List ℚ, to_ < u1.length → to_ < u2.length →
      window_den u1 u2 from_ to_ ≠ 0 →
      _eucl_dist u1 u2 from_ to_ flength 1
        = .num (clamp01 (window_num u1 u2 from_ to_ / window_den u1 u2 from_ to_)) := by
    intro u1 u2 k1 k2 kd
    rw [eucl_dist_of_sums _ _ _ _ _ _ _ (dist_sums_mode1 u1 u2 from_ to_ flength hfrom k1 k2)]
    exact normalise_clamp _ kd
  refine ⟨key v1 v2 h1 h2 hden, ?_⟩
  intro w1 w2 k1 k2 hw
  have hn : window_num w1 w2 from_ to_ = window_num v1 v2 from_ to_ := by
    unfold window_num
    refine Finset.sum_congr rfl (fun i hi => ?_)
    rw [Finset.mem_Icc] at hi
    rw [(hw i hi.1 hi.2).1, (hw i hi.1 hi.2).2]
  have hd : window_den w1 w2 from_ to_ = window_den v1 v2 from_ to_ := by
    unfold window_den
    congr 1
    · refine Finset.sum_congr rfl (fun i hi => ?_)
      rw [Finset.mem_Icc] at hi
      rw [(hw i hi.1 hi.2).1]
    · refine Finset.sum_congr rfl (fun i hi => ?_)
      rw [Finset.mem_Icc] at hi
      rw [(hw i hi.1 hi.2).2]
  rw [key w1 w2 k1 k2 (by rw [hd]; exact hden), key v1 v2 h1 h2 hden, hn, hd]

theorem mode1_reference_witness :
    _eucl_dist [1, 2, 3, 4] [1, 2, 3, 0] 1 3 4 1
      = .num (clamp01 (window_num [1, 2, 3, 4] [1, 2, 3, 0] 1 3
          / window_den [1, 2, 3, 4] [1, 2, 3, 0] 1 3)) :=
  (mode1_reference [1, 2, 3, 4] [1, 2, 3, 0] 1 3 4 (by decide) (by decide) (by decide)
    (by decide!)).1

theorem rd_map (f : ℚ → ℚ) (v : List ℚ) (i : Int) : rd (v.map f) i = (rd v i).map f := by
  unfold rd
  split_ifs
  · simp [List.get?_eq_getElem?, List.getElem?_map]
  · rfl

theorem scaled_add (k : ℚ) (s : Sums) (a : ℚ) (h : Scaled k s) :
    Scaled k (s.add a (k * a)) := by
  obtain ⟨h1, h2⟩ := h
  unfold Scaled Sums.add
  simp only
  rw [h1, h2]
  constructor <;> ring

theorem sum_items_scaled (k : ℚ) (v : List ℚ) (is : List Int) (s t : Sums)
    (h : sum_items v (v.map (k * ·)) is s = some t) (hs : Scaled k s) : Scaled k t := by
  induction is generalizing s with
  | nil =>
    simp only [sum_items, Option.some.injEq] at h
    rw [← h]; exact hs
  | cons i is ih =>
    unfold sum_items at h
    rw [rd_map] at h
    cases hr : rd v i with
    | none => rw [hr] at h; simp at h
    | some a =>
      rw [hr] at h
      simp only [Option.map_some'] at h
      exact ih _ h (scaled_add k s a hs)

theorem level_avg_scaled (k : ℚ) (v : List ℚ) (w : ℚ) (js : List Int) (acc r : ℚ × ℚ)
    (h : level_avg v (v.map (k * ·)) w js acc = some r) (ha : acc.2 = k * acc.1) :
    r.2 = k * r.1 := by
  induction js generalizing acc with
  | nil =>
    simp only [level_avg, Option.some.injEq] at h
    rw [← h]; exact ha
  | cons j js ih =>
    unfold level_avg at h
    rw [rd_map] at h
    cases hr : rd v j with
    | none => rw [hr] at h; simp at h
    | some a =>
      rw [hr] at h
      simp only [Option.map_some'] at h
      refine ih _ h ?_
      simp only
      rw [ha]; ring

theorem level_avgs_scaled (k : ℚ) (v : List ℚ) (from_ to_ : Int) (ls : List Int)
    (acc r : List (ℚ × ℚ))
    (h : level_avgs v (v.map (k * ·)) from_ to_ ls acc = some r)
    (ha : ∀ p ∈ acc, p.2 = k * p.1) : ∀ p ∈ r, p.2 = k * p.1 := by
  induction ls generalizing acc with
  | nil =>
    simp only [level_avgs, Option.some.injEq] at h
    rw [← h]; exact ha
  | cons i ls ih =>
    rw [level_avgs_cons] at h
    split_ifs at h with hk
    · cases hl : level_avg v (v.map (k * ·)) ((level_to i - level_from i + 1 : Int) : ℚ)
          (int_range (level_from i) (level_to i)) (0, 0) with
      | none => rw [hl] at h; simp at h
      | some a =>
        rw [hl] at h
        refine ih _ h ?_
        intro p hp
        rw [List.mem_append, List.mem_singleton] at hp
        rcases hp with hp | hp
        · exact ha p hp
        · rw [hp]
          exact level_avg_scaled k v _ _ (0, 0) a hl (by simp)
    · exact ih _ h ha

theorem fold_scaled (k : ℚ) (a : List (ℚ × ℚ)) (s : Sums)
    (ha : ∀ p ∈ a, p.2 = k * p.1) (hs : Scaled k s) :
    Scaled k (a.foldl (fun s p => s.add p.1 p.2) s) := by
  induction a generalizing s with
  | nil => exact hs
  | cons p a ih =>
    simp only [List.foldl_cons]
    refine ih _ (fun q hq => ha q (List.mem_cons_of_mem _ hq)) ?_
    rw [ha p (List.mem_cons_self _ _)]
    exact scaled_add k s p.1 hs

theorem dist_sums_scaled (k : ℚ) (v : List ℚ) (from_ to_ flength c : Int) (s : Sums)
    (h : dist_sums v (v.map (k * ·)) from_ to_ flength c = some s) : Scaled k s := by
  have h0 : Scaled k ⟨0, 0, 0⟩ := by unfold Scaled; simp
  unfold dist_sums at h
  simp only [] at h
  split_ifs at h with h2 h1
  · cases hl : level_avgs v (v.map (k * ·)) from_ to_
        (int_range 0 ((Nat.log2 flength.toNat : Nat) : Int)) [] with
    | none => rw [hl] at h; simp at h
    | some a =>
      rw [hl] at h
      simp only [Option.some.injEq] at h
      rw [← h]
      exact fold_scaled k a _ (level_avgs_scaled k v from_ to_ _ [] a hl (by simp)) h0
  · exact sum_items_scaled k v _ _ s h h0
  · simp only [Option.some.injEq] at h
    rw [← h]; exact h0

/-- The normalised sums of a vector and its `k`-fold, `k ≥ 0`. -/
theorem normalise_scaled (k : ℚ) (hk : 0 ≤ k) (s : Sums) (hs : Scaled k s) (d : ℚ)
    (h : normalise s = .num d) : d = (1 - k) ^ 2 / (1 + k ^ 2) := by
  obtain ⟨h1, h2⟩ := hs
  have hden : s.xx + s.yy ≠ 0 := by
    intro h0
    unfold normalise at h
    rw [if_pos h0] at h
    simp at h
  rw [normalise_clamp s hden] at h
  simp only [DistVal.num.injEq] at h
  have hx : s.xx ≠ 0 := by
    intro hx
    apply hden
    rw [h2, hx]; ring
  have hk2 : (1 + k ^ 2 : ℚ) ≠ 0 := by positivity
  have hq : s.cc / (s.xx + s.yy) = (1 - k) ^ 2 / (1 + k ^ 2) := by
    have hd2 : s.xx + k ^ 2 * s.xx ≠ 0 := by rw [← h2]; exact hden
    rw [h1, h2, div_eq_div_iff hd2 hk2]
    ring
  rw [hq] at h
  rw [← h]
  unfold clamp01
  have hle : (1 - k) ^ 2 / (1 + k ^ 2) ≤ 1 := by
    rw [div_le_one (by positivity)]
    nlinarith
  rw [min_eq_left hle, max_eq_right (by positivity)]

theorem scaled_distance_num (v : List ℚ) (k : ℚ) (hk : 0 ≤ k) (from_ to_ flength c : Int)
    (d : ℚ) (h : _eucl_dist v (v.map (k * ·)) from_ to_ flength c = .num d) :
    d = (1 - k) ^ 2 / (1 + k ^ 2) := by
  rw [eucl_dist_eq] at h
  cases hs : dist_sums v (v.map (k * ·)) from_ to_ flength c with
  | none => rw [hs] at h; simp at h
  | some s =>
    rw [hs] at h
    exact normalise_scaled k hk s (dist_sums_scaled k v from_ to_ flength c s hs) d h

/-- The distance of a vector to itself, when it is a number, is 0. -/
theorem self_distance_num (v : List ℚ) (from_ to_ flength c : Int) (d : ℚ)
    (h : _eucl_dist v v from_ to_ flength c = .num d) : d = 0 := by
  have hv : v.map ((1 : ℚ) * ·) = v := by simp
  have := scaled_distance_num v 1 zero_le_one from_ to_ flength c d (by rw [hv]; exact h)
  rw [this]; norm_num

/-- C11, the failing input.  In mode 2 with `from = to = 5` and `L = 8` no
level lies inside the window, all three sums stay zero, and `_eucl_dist`
returns the not-a-number of `0/0` for the length-8 vectors, which is not a
value between 0 and 1; the same happens in mode 1 for two zero vectors. -/
theorem eucl_dist_range_fails :
    _eucl_dist example_vector example_vector.reverse 5 5 8 2 = .nan
    ∧ _eucl_dist zero_vector zero_vector 0 7 8 1 = .nan := by
  decide!

/-- C14, the failing input.  The distance of the zero vector to itself is
the not-a-number of `0/0` in both modes, not 0. -/
theorem self_distance_fails :
    _eucl_dist zero_vector zero_vector 0 7 8 1 = .nan
    ∧ _eucl_dist zero_vector zero_vector 0 7 8 2 = .nan := by
  decide!

/-- C16, the failing input.  Whenever the denominator `xx + yy` is zero,
`_eucl_dist` returns the not-a-number of `0/0` and not 0: in mode 1 for two
vectors that are zero on the window `1 .. 7`, in mode 2 for band means that
are all zero, and in mode 2 when no level lies inside the window. -/
theorem zero_denominator_fails :
    (∀ (v1 v2 : List ℚ) (from_ to_ flength c : Int) (s : Sums),
      dist_sums v1 v2 from_ to_ flength c = some s → s.xx + s.yy = 0 →
        _eucl_dist v1 v2 from_ to_ flength c = .nan)
    ∧ _eucl_dist [1, 0, 0, 0, 0, 0, 0, 0] [2, 0, 0, 0, 0, 0, 0, 0] 1 7 8 1 = .nan
    ∧ _eucl_dist [0, 0, 1, -1, 0, 0, 0, 0] zero_vector 2 7 8 2 = .nan
    ∧ _eucl_dist example_vector example_vector 5 5 8 2 = .nan := by
  refine ⟨?_, by decide!, by decide!, by decide!⟩
  intro v1 v2 from_ to_ flength c s hs h0
  rw [eucl_dist_of_sums _ _ _ _ _ _ s hs]
  unfold normalise
  rw [if_pos h0]

/-- C17 as stated fails.  The distance of `example_vector` to its double is
`1/5` in both modes, not 0. -/
theorem scaled_distance_counterexample :
    _eucl_dist example_vector (example_vector.map (2 * ·)) 0 7 8 1 = .num (1 / 5)
    ∧ _eucl_dist example_vector (example_vector.map (2 * ·)) 0 7 8 2 = .num (1 / 5)
    ∧ _eucl_dist example_vector (example_vector.map (2 * ·)) 0 7 8 1 ≠ .num 0
    ∧ _eucl_dist example_vector (example_vector.map (2 * ·)) 0 7 8 2 ≠ .num 0 := by
  decide!

theorem sum_sq_pos (v : List ℚ) (from_ to_ : Int)
    (h : ∃ i : Int, from_ ≤ i ∧ i ≤ to_ ∧ item v i ≠ 0) :
    0 < ∑ i in Finset.Icc from_ to_, item v i ^ 2 := by
  obtain ⟨i, h1, h2, h3⟩ := h
  have hi : i ∈ Finset.Icc from_ to_ := Finset.mem_Icc.mpr ⟨h1, h2⟩
  have hle := Finset.single_le_sum (f := fun j => item v j ^ 2)
    (fun j _ => sq_nonneg (item v j)) hi
  have hpos : 0 < item v i ^ 2 := by positivity
  exact lt_of_lt_of_le hpos hle

/-- C17, amended. For every vector `v`, every scalar `k > 0` and every mode:
whenever `_eucl_dist(v, k·v, from, to, L, c)` is a number, it is
`(1 − k)² / (1 + k²)`; in mode 1 it is that number for every window
`0 ≤ from`, `to` inside the vector on which `v` is non-zero somewhere; and
that number is 0 only for `k = 1`, that is for equal vectors. -/
theorem scaled_distance (v : List ℚ) (k : ℚ) (hk : 0 < k) (from_ to_ flength c : Int) :
    (∀ d : ℚ, _eucl_dist v (v.map (k * ·)) from_ to_ flength c = .num d →
      d = (1 - k) ^ 2 / (1 + k ^ 2))
    ∧ (0 ≤ from_ → to_ < v.length → (∃ i : Int, from_ ≤ i ∧ i ≤ to_ ∧ item v i ≠ 0) →
      _eucl_dist v (v.map (k * ·)) from_ to_ flength 1 = .num ((1 - k) ^ 2 / (1 + k ^ 2)))
    ∧ ((1 - k) ^ 2 / (1 + k ^ 2) = 0 ↔ k = 1) := by
  refine ⟨fun d h => scaled_distance_num v k (le_of_lt hk) from_ to_ flength c d h, ?_, ?_⟩
  · intro hfrom hto hnz
    have hlen : to_ < ((v.map (k * ·)).length : Int) := by rw [List.length_map]; exact hto
    have hs := dist_sums_mode1 v (v.map (k * ·)) from_ to_ flength hfrom hto hlen
    have hxx := sum_sq_pos v from_ to_ hnz
    have hyy : 0 ≤ ∑ i in Finset.Icc from_ to_, item (v.map (k * ·)) i ^ 2 :=
      Finset.sum_nonneg (fun j _ => sq_nonneg _)
    have hden : (∑ i in Finset.Icc from_ to_, item v i ^ 2)
        + ∑ i in Finset.Icc from_ to_, item (v.map (k * ·)) i ^ 2 ≠ 0 := by
      intro h0; linarith
    have he := eucl_dist_of_sums _ _ _ _ _ _ _ hs
    rw [normalise_clamp _ hden] at he
    rw [he]
    congr 1
    exact scaled_distance_num v k (le_of_lt hk) from_ to_ flength 1 _ he
  · have hk2 : (1 + k ^ 2 : ℚ) ≠ 0 := by positivity
    rw [div_eq_zero_iff]
    constructor
    · rintro (h | h)
      · have : 1 - k = 0 := by
          rcases pow_eq_zero_iff (n := 2) (by decide) |>.mp h with h'
          exact h'
        linarith
      · exact absurd h hk2
    · intro h
      left
      rw [h]; norm_num

theorem scaled_distance_witness :
    _eucl_dist example_vector (example_vector.map ((3 : ℚ) * ·)) 0 7 8 1
      = .num ((1 - 3) ^ 2 / (1 + 3 ^ 2)) :=
  (scaled_distance example_vector 3 (by norm_num) 0 7 8 1).2.1 (by decide) (by decide)
    ⟨0, by decide, by decide, by decide!⟩

theorem bands_eq (flength : Int) :
    bands flength = (int_range 0 ((Nat.log2 flength.toNat : Nat) : Int)).map
      (fun i => (level_from i, level_to i)) := by
  unfold bands int_range
  generalize Nat.log2 flength.toNat = k
  have hk : ((k : Int) - 0 + 1).toNat = k + 1 := by omega
  rw [hk, List.range_succ_eq_map]
  simp only [List.map_cons, List.map_map]
  congr 1
  apply List.map_congr_left
  intro j _
  simp only [Function.comp, level_from, level_to]
  have h1 : ((0 : Int) + ((j + 1 : Nat) : Int)) ≠ 0 := by omega
  have h2 : ((0 : Int) + ((j + 1 : Nat) : Int) - 1).toNat = j := by omega
  have h3 : ((0 : Int) + ((j + 1 : Nat) : Int)).toNat = j + 1 := by omega
  rw [if_neg h1, h2, h3]

theorem level_avg_inside (v1 v2 : List ℚ) (w : ℚ) (js : List Int) (acc : ℚ × ℚ)
    (h : ∀ j ∈ js, 0 ≤ j ∧ j < v1.length ∧ j < v2.length) :
    level_avg v1 v2 w js acc
      = some (acc.1 + (js.map fun j => item v1 j / w).sum,
          acc.2 + (js.map fun j => item v2 j / w).sum) := by
  induction js generalizing acc with
  | nil => simp [level_avg]
  | cons j js ih =>
    obtain ⟨h0, h1, h2⟩ := h j (List.mem_cons_self _ _)
    unfold level_avg
    rw [rd_inside v1 j h0 h1, rd_inside v2 j h0 h2]
    simp only []
    rw [ih _ (fun i hi => h i (List.mem_cons_of_mem _ hi))]
    simp only [List.map_cons, List.sum_cons, Option.some.injEq, Prod.mk.injEq]
    exact ⟨by ring, by ring⟩

theorem level_avg_band (v1 v2 : List ℚ) (a b : Int) (h0 : 0 ≤ a)
    (h1 : b < v1.length) (h2 : b < v2.length) :
    level_avg v1 v2 ((b - a + 1 : Int) : ℚ) (int_range a b) (0, 0)
      = some (band_mean v1 (a, b), band_mean v2 (a, b)) := by
  rw [level_avg_inside v1 v2 _ _ _ (fun j hj => by
    rw [mem_int_range] at hj
    exact ⟨by omega, by omega, by omega⟩)]
  unfold band_mean
  simp only [zero_add]
  rw [Finset.sum_div, Finset.sum_div, sum_Icc_eq, sum_Icc_eq]

theorem level_avgs_inside (v1 v2 : List ℚ) (from_ to_ : Int) (ls : List Int)
    (acc : List (ℚ × ℚ))
    (h : ∀ i ∈ ls, 0 ≤ level_from i ∧ level_to i < v1.length ∧ level_to i < v2.length) :
    level_avgs v1 v2 from_ to_ ls acc
      = some (acc ++ (((ls.map fun i => (level_from i, level_to i)).filter
          (fun b => decide (from_ ≤ b.1 ∧ b.2 ≤ to_))).map
            fun b => (band_mean v1 b, band_mean v2 b))) := by
  induction ls generalizing acc with
  | nil => simp [level_avgs_nil]
  | cons i ls ih =>
    obtain ⟨h0, h1, h2⟩ := h i (List.mem_cons_self _ _)
    have ih2 := fun acc => ih acc (fun j hj => h j (List.mem_cons_of_mem _ hj))
    rw [level_avgs_cons]
    by_cases hk : level_from i ≥ from_ ∧ level_to i ≤ to_
    · rw [if_pos hk, level_avg_band v1 v2 _ _ h0 h1 h2]
      simp only []
      rw [ih2]
      have hd : decide (from_ ≤ level_from i ∧ level_to i ≤ to_) = true :=
        decide_eq_true ⟨hk.1, hk.2⟩
      simp only [List.map_cons, List.filter_cons, hd, if_true, List.append_assoc,
        List.singleton_append]
    · rw [if_neg hk, ih2]
      have hd : decide (from_ ≤ level_from i ∧ level_to i ≤ to_) = false :=
        decide_eq_false (fun hh => hk ⟨hh.1, hh.2⟩)
      simp only [List.map_cons, List.filter_cons, hd]
      rfl

theorem level_inside (flength : Int) (i : Int) (hL : 1 ≤ flength)
    (hi : i ∈ int_range 0 ((Nat.log2 flength.toNat : Nat) : Int)) :
    0 ≤ level_from i ∧ level_to i < flength := by
  rw [mem_int_range] at hi
  obtain ⟨hi0, hi1⟩ := hi
  constructor
  · unfold level_from
    split_ifs
    · exact le_refl _
    · positivity
  · unfold level_to
    have hn : flength.toNat ≠ 0 := by omega
    have hle := Nat.log2_self_le hn
    have hi2 : i.toNat ≤ Nat.log2 flength.toNat := by omega
    have hp : 2 ^ i.toNat ≤ 2 ^ Nat.log2 flength.toNat :=
      Nat.pow_le_pow_right (by decide) hi2
    have hc : ((2 : Int) ^ i.toNat) = ((2 ^ i.toNat : Nat) : Int) := by push_cast; rfl
    rw [hc]
    omega

theorem fold_sums (a : List (ℚ × ℚ)) (s : Sums) :
    a.foldl (fun s p => s.add p.1 p.2) s
      = ⟨s.cc + (a.map fun p => (p.1 - p.2) ^ 2).sum, s.xx + (a.map fun p => p.1 ^ 2).sum,
          s.yy + (a.map fun p => p.2 ^ 2).sum⟩ := by
  induction a generalizing s with
  | nil => simp
  | cons p a ih =>
    rw [List.foldl_cons, ih]
    simp only [Sums.add, List.map_cons, List.sum_cons, Sums.mk.injEq]
    exact ⟨by ring, by ring, by ring⟩

theorem item_map_cast (a : List (ℚ × ℚ)) (f : ℚ × ℚ → ℚ) (k : Nat) (hk : k < a.length) :
    item (a.map f) ((0 : Int) + (k : Int)) = f (a.get ⟨k, hk⟩) := by
  unfold item rd
  have h0 : (0 : Int) ≤ 0 + (k : Int) := by omega
  have h1 : ((0 : Int) + (k : Int)).toNat = k := by omega
  rw [if_pos h0, h1]
  simp [List.get?_eq_getElem?, List.getElem?_map, List.getElem?_eq_getElem hk]

theorem index_map (a : List (ℚ × ℚ)) (g : ℚ → ℚ → ℚ) :
    (int_range 0 ((a.length : Int) - 1)).map
        (fun i => g (item (a.map Prod.fst) i) (item (a.map Prod.snd) i))
      = a.map fun p => g p.1 p.2 := by
  unfold int_range
  have hn : ((a.length : Int) - 1 - 0 + 1).toNat = a.length := by omega
  rw [hn]
  apply List.ext_getElem
  · simp
  · intro k h1 h2
    have hk : k < a.length := by simpa using h2
    simp only [List.getElem_map, List.getElem_range]
    rw [item_map_cast a Prod.fst k hk, item_map_cast a Prod.snd k hk]
    rfl

theorem sum_items_pairs (a : List (ℚ × ℚ)) (s : Sums) :
    sum_items (a.map Prod.fst) (a.map Prod.snd) (int_range 0 ((a.length : Int) - 1)) s
      = some (a.foldl (fun s p => s.add p.1 p.2) s) := by
  rw [sum_items_inside _ _ _ _ (fun i hi => by
    rw [mem_int_range] at hi
    simp only [List.length_map]
    exact ⟨by omega, by omega, by omega⟩)]
  rw [fold_sums, index_map a (fun x y => (x - y) ^ 2), index_map a (fun x _ => x ^ 2),
    index_map a (fun _ y => y ^ 2)]

theorem dist_sums_mode2 (v1 v2 : List ℚ) (from_ to_ flength : Int) (hL : 1 ≤ flength)
    (h1 : flength ≤ v1.length) (h2 : flength ≤ v2.length) :
    dist_sums v1 v2 from_ to_ flength 2
      = dist_sums (band_means v1 from_ to_ flength) (band_means v2 from_ to_ flength) 0
          (((kept_bands from_ to_ flength).length : Int) - 1) flength 1 := by
  have hm1 : band_means v1 from_ to_ flength
      = ((kept_bands from_ to_ flength).map
          fun b => (band_mean v1 b, band_mean v2 b)).map Prod.fst := by
    unfold band_means; rw [List.map_map]; rfl
  have hm2 : band_means v2 from_ to_ flength
      = ((kept_bands from_ to_ flength).map
          fun b => (band_mean v1 b, band_mean v2 b)).map Prod.snd := by
    unfold band_means; rw [List.map_map]; rfl
  have hlen : ((kept_bands from_ to_ flength).length : Int)
      = ((((kept_bands from_ to_ flength).map
          fun b => (band_mean v1 b, band_mean v2 b)).length : Nat) : Int) := by
    rw [List.length_map]
  rw [hm1, hm2, hlen]
  unfold dist_sums
  simp only [show ¬ ((1 : Int) = 2) by decide, if_false, if_true]
  rw [sum_items_pairs]
  rw [level_avgs_inside v1 v2 from_ to_ _ [] (fun i hi => by
    have := level_inside flength i hL hi
    exact ⟨this.1, by omega, by omega⟩)]
  simp only [List.nil_append]
  rw [← bands_eq]
  rfl

theorem mode1_formula (u1 u2 : List ℚ) (from_ to_ flength : Int) (hfrom : 0 ≤ from_)
    (k1 : to_ < u1.length) (k2 : to_ < u2.length) (kd : window_den u1 u2 from_ to_ ≠ 0) :
    _eucl_dist u1 u2 from_ to_ flength 1
      = .num (clamp01 (window_num u1 u2 from_ to_ / window_den u1 u2 from_ to_)) := by
  rw [eucl_dist_of_sums _ _ _ _ _ _ _ (dist_sums_mode1 u1 u2 from_ to_ flength hfrom k1 k2)]
  exact normalise_clamp _ kd

/-- C13. In mode 2, for `L ≥ 1` (a power of two in particular) and vectors
that hold `L` items, `_eucl_dist` is the mode 1 distance of the two vectors
of band means: the bands are `[0, 0]` and `[2^(i−1), 2^i − 1]` for
`i = 1 .. log2 L`, exactly those with `from ≤ first` and `last ≤ to` are
kept, and each kept band is replaced by the arithmetic mean of each vector
over it; with a non-zero denominator the result is `clamp(num/den, 0, 1)`
of the two vectors of means. -/
theorem mode2_reference (v1 v2 : List ℚ) (from_ to_ flength : Int) (hL : 1 ≤ flength)
    (h1 : flength ≤ v1.length) (h2 : flength ≤ v2.length) :
    _eucl_dist v1 v2 from_ to_ flength 2
      = _eucl_dist (band_means v1 from_ to_ flength) (band_means v2 from_ to_ flength) 0
          (((kept_bands from_ to_ flength).length : Int) - 1) flength 1
    ∧ (window_den (band_means v1 from_ to_ flength) (band_means v2 from_ to_ flength) 0
          (((kept_bands from_ to_ flength).length : Int) - 1) ≠ 0 →
        _eucl_dist v1 v2 from_ to_ flength 2
          = .num (clamp01
              (window_num (band_means v1 from_ to_ flength) (band_means v2 from_ to_ flength)
                  0 (((kept_bands from_ to_ flength).length : Int) - 1)
                / window_den (band_means v1 from_ to_ flength)
                    (band_means v2 from_ to_ flength) 0
                    (((kept_bands from_ to_ flength).length : Int) - 1)))) := by
  have he : _eucl_dist v1 v2 from_ to_ flength 2
      = _eucl_dist (band_means v1 from_ to_ flength) (band_means v2 from_ to_ flength) 0
          (((kept_bands from_ to_ flength).length : Int) - 1) flength 1 := by
    rw [eucl_dist_eq, eucl_dist_eq, dist_sums_mode2 v1 v2 from_ to_ flength hL h1 h2]
  refine ⟨he, fun hden => ?_⟩
  rw [he]
  refine (mode1_formula _ _ 0 _ flength (le_refl _) ?_ ?_ hden)
  · unfold band_means; rw [List.length_map]; omega
  · unfold band_means; rw [List.length_map]; omega

theorem mode2_reference_witness :
    kept_bands 1 6 8 = [(1, 1), (2, 3)]
    ∧ _eucl_dist example_vector example_vector.reverse 1 6 8 2 = .num (58 / 191)
    ∧ _eucl_dist example_vector example_vector.reverse 1 6 8 2
        = _eucl_dist (band_means example_vector 1 6 8)
            (band_means example_vector.reverse 1 6 8) 0
            (((kept_bands 1 6 8).length : Int) - 1) 8 1 :=
  ⟨by decide!, by decide!,
    (mode2_reference example_vector example_vector.reverse 1 6 8 (by decide) (by decide)
      (by decide)).1⟩

theorem amend_min (d m : ℚ) : (if d < m then d else m) = min m d := by
  rw [min_def]
  split_ifs with h1 h2 h2
  · exact absurd h1 (not_lt.mpr h2)
  · rfl
  · rfl
  · exact le_antisymm (not_lt.mp h1) (le_of_lt (not_le.mp h2))

theorem hits_nil (thr : ℚ) : hits thr [] = 0 := rfl

theorem hits_cons (thr d : ℚ) (ds : List ℚ) :
    hits thr (d :: ds) = (if d ≤ thr then 1 else 0) + hits thr ds := by
  unfold hits
  rw [List.countP_cons]
  by_cases h : d ≤ thr
  · simp only [h, decide_True, if_true]; push_cast; ring
  · simp only [h, decide_False, if_false]; simp

theorem hits_nonneg (thr : ℚ) (ds : List ℚ) : 0 ≤ hits thr ds := by
  unfold hits; exact Int.natCast_nonneg _

theorem hits_eq_zero (thr : ℚ) (ds : List ℚ) :
    hits thr ds = 0 ↔ ∀ d ∈ ds, ¬ d ≤ thr := by
  unfold hits
  rw [Int.natCast_eq_zero, List.countP_eq_zero]
  simp

theorem hits_ne_zero (thr : ℚ) (ds : List ℚ) :
    hits thr ds ≠ 0 ↔ ∃ d ∈ ds, d ≤ thr := by
  rw [Ne, hits_eq_zero]
  push_neg
  rfl

theorem match_negative_skip (P : Params) (fp : Fingerprint) (s : State)
    (h : is_negative fp = false) : match_negative P fp s = s := by
  unfold match_negative
  rw [if_neg (of_decide_eq_false h)]

theorem match_negative_nan (P : Params) (fp : Fingerprint) (s : State)
    (h : is_negative fp = true) (hd : negative_distance P s._vw fp = .nan) :
    (match_negative P fp s).tally = s.tally := by
  unfold match_negative
  unfold negative_distance at hd
  rw [if_pos (of_decide_eq_true h), hd]
  rfl

theorem match_negative_num (P : Params) (fp : Fingerprint) (s : State) (d : ℚ)
    (h : is_negative fp = true) (hd : negative_distance P s._vw fp = .num d) :
    (match_negative P fp s).tally
      = ⟨s.status, s._vw, s._matchpos_count,
          s._matchneg_count + (if d ≤ P._matching_distance_negatives_max then 1 else 0),
          s._matchdistance_pos_min, min s._matchdistance_neg_min d⟩ := by
  unfold match_negative
  unfold negative_distance at hd
  rw [if_pos (of_decide_eq_true h), hd]
  simp only [State.tally, amend_min, Tally.mk.injEq, true_and, and_true]
  split_ifs <;> simp

theorem scan_negatives_nil (P : Params) (s : State) : scan_negatives P [] s = s := rfl

theorem scan_negatives_cons (P : Params) (fp : Fingerprint) (rest : List Fingerprint)
    (s : State) :
    scan_negatives P (fp :: rest) s
      = if (match_negative P fp s).status ≠ .running then match_negative P fp s
        else scan_negatives P rest (match_negative P fp s) := rfl

theorem negative_distances_cons (P : Params) (fp : Fingerprint) (rest : List Fingerprint)
    (vw : List ℚ) :
    negative_distances P (fp :: rest) vw
      = if is_negative fp = true then
          match negative_distance P vw fp with
          | .num d => d :: negative_distances P rest vw
          | _ => negative_distances P rest vw
        else negative_distances P rest vw := by
  unfold negative_distances
  by_cases h : is_negative fp = true
  · rw [if_pos h, List.filter_cons_of_pos h, List.map_cons]
    cases negative_distance P vw fp <;> rfl
  · rw [if_neg h, List.filter_cons_of_neg h]

/-- The negatives loop over a bank none of whose negative fingerprints is read
outside its values: it ends running, has counted the distances within the
threshold and holds the minimum of the distances. -/
theorem scan_negatives_tally (P : Params) (bank : List Fingerprint) (s : State)
    (hs : s.status = .running)
    (hb : ∀ fp ∈ bank, is_negative fp = true → negative_distance P s._vw fp ≠ .oob) :
    (scan_negatives P bank s).tally
      = ⟨.running, s._vw, s._matchpos_count,
          s._matchneg_count
            + hits P._matching_distance_negatives_max (negative_distances P bank s._vw),
          s._matchdistance_pos_min,
          (negative_distances P bank s._vw).foldl min s._matchdistance_neg_min⟩ := by
  induction bank generalizing s with
  | nil =>
    rw [scan_negatives_nil]
    simp [State.tally, negative_distances, numbers, hits_nil, hs]
  | cons fp rest ih =>
    rw [scan_negatives_cons, negative_distances_cons]
    by_cases hn : is_negative fp = true
    · rw [if_pos hn]
      have hoob := hb fp (List.mem_cons_self _ _) hn
      cases hd : negative_distance P s._vw fp with
      | oob => exact absurd hd hoob
      | nan =>
        have ht := match_negative_nan P fp s hn hd
        simp only [State.tally, Tally.mk.injEq] at ht
        obtain ⟨t1, t2, t3, t4, t5, t6⟩ := ht
        rw [if_neg (by rw [t1, hs]; simp)]
        rw [ih _ (by rw [t1, hs]) (fun g hg hgn => by
          rw [t2]; exact hb g (List.mem_cons_of_mem _ hg) hgn)]
        simp only [t2, t3, t4, t5, t6]
      | num d =>
        have ht := match_negative_num P fp s d hn hd
        simp only [State.tally, Tally.mk.injEq] at ht
        obtain ⟨t1, t2, t3, t4, t5, t6⟩ := ht
        rw [if_neg (by rw [t1, hs]; simp)]
        rw [ih _ (by rw [t1, hs]) (fun g hg hgn => by
          rw [t2]; exact hb g (List.mem_cons_of_mem _ hg) hgn)]
        simp only [t2, t3, t4, t5, t6, hits_cons, List.foldl_cons, Tally.mk.injEq, true_and,
          and_true]
        ring
    · rw [if_neg hn]
      have hf : is_negative fp = false := by simpa using hn
      rw [match_negative_skip P fp s hf, if_neg (by rw [hs]; simp)]
      exact ih s hs (fun g hg hgn => hb g (List.mem_cons_of_mem _ hg) hgn)

theorem match_positive_skip (P : Params) (fp : Fingerprint) (s : State)
    (h : is_positive fp = false) : match_positive P fp s = s := by
  unfold match_positive
  rw [if_neg (of_decide_eq_false h)]

theorem match_positive_nan (P : Params) (fp : Fingerprint) (s : State)
    (h : is_positive fp = true) (hd : positive_distance P s._vw fp = .nan) :
    (match_positive P fp s).tally = s.tally := by
  unfold match_positive
  unfold positive_distance at hd
  rw [if_pos (of_decide_eq_true h), hd]
  rfl

theorem match_positive_num (P : Params) (fp : Fingerprint) (s : State) (d : ℚ)
    (h : is_positive fp = true) (hd : positive_distance P s._vw fp = .num d) :
    (match_positive P fp s).tally
      = ⟨s.status, s._vw,
          s._matchpos_count + (if d ≤ P._matching_distance_positives_max then 1 else 0),
          s._matchneg_count, min s._matchdistance_pos_min d, s._matchdistance_neg_min⟩ := by
  unfold match_positive
  unfold positive_distance at hd
  rw [if_pos (of_decide_eq_true h), hd]
  simp only [State.tally, amend_min, Tally.mk.injEq, true_and, and_true]
  split_ifs <;> simp

theorem scan_positives_nil (P : Params) (s : State) : scan_positives P [] s = s := rfl

theorem scan_positives_cons (P : Params) (fp : Fingerprint) (rest : List Fingerprint)
    (s : State) :
    scan_positives P (fp :: rest) s
      = if (match_positive P fp s).status ≠ .running then match_positive P fp s
        else if (match_positive P fp s)._matchpos_count ≠ 0 ∧
            (P._matches_evaluation_logic = 2 ∨ P._matches_evaluation_logic = 3) then
          match_positive P fp s
        else scan_positives P rest (match_positive P fp s) := rfl

theorem positive_distances_cons (P : Params) (fp : Fingerprint) (rest : List Fingerprint)
    (vw : List ℚ) :
    positive_distances P (fp :: rest) vw
      = if is_positive fp = true then
          match positive_distance P vw fp with
          | .num d => d :: positive_distances P rest vw
          | _ => positive_distances P rest vw
        else positive_distances P rest vw := by
  unfold positive_distances
  by_cases h : is_positive fp = true
  · rw [if_pos h, List.filter_cons_of_pos h, List.map_cons]
    cases positive_distance P vw fp <;> rfl
  · rw [if_neg h, List.filter_cons_of_neg h]

/-- The positives loop without `break` (logic 4): it ends running, has
counted the distances within the threshold and holds the minimum of all
distances. -/
theorem scan_positives_all (P : Params) (bank : List Fingerprint) (s : State)
    (hR : ¬ (P._matches_evaluation_logic = 2 ∨ P._matches_evaluation_logic = 3))
    (hs : s.status = .running)
    (hb : ∀ fp ∈ bank, is_positive fp = true → positive_distance P s._vw fp ≠ .oob) :
    (scan_positives P bank s).tally
      = ⟨.running, s._vw,
          s._matchpos_count
            + hits P._matching_distance_positives_max (positive_distances P bank s._vw),
          s._matchneg_count,
          (positive_distances P bank s._vw).foldl min s._matchdistance_pos_min,
          s._matchdistance_neg_min⟩ := by
  induction bank generalizing s with
  | nil =>
    rw [scan_positives_nil]
    simp [State.tally, positive_distances, numbers, hits_nil, hs]
  | cons fp rest ih =>
    rw [scan_positives_cons, positive_distances_cons]
    have hbreak : ∀ t : State, ¬ (t._matchpos_count ≠ 0 ∧
        (P._matches_evaluation_logic = 2 ∨ P._matches_evaluation_logic = 3)) :=
      fun t h => hR h.2
    rw [if_neg (hbreak _)]
    by_cases hn : is_positive fp = true
    · rw [if_pos hn]
      have hoob := hb fp (List.mem_cons_self _ _) hn
      cases hd : positive_distance P s._vw fp with
      | oob => exact absurd hd hoob
      | nan =>
        have ht := match_positive_nan P fp s hn hd
        simp only [State.tally, Tally.mk.injEq] at ht
        obtain ⟨t1, t2, t3, t4, t5, t6⟩ := ht
        rw [if_neg (by rw [t1, hs]; simp)]
        rw [ih _ (by rw [t1, hs]) (fun g hg hgn => by
          rw [t2]; exact hb g (List.mem_cons_of_mem _ hg) hgn)]
        simp only [t2, t3, t4, t5, t6]
      | num d =>
        have ht := match_positive_num P fp s d hn hd
        simp only [State.tally, Tally.mk.injEq] at ht
        obtain ⟨t1, t2, t3, t4, t5, t6⟩ := ht
        rw [if_neg (by rw [t1, hs]; simp)]
        rw [ih _ (by rw [t1, hs]) (fun g hg hgn => by
          rw [t2]; exact hb g (List.mem_cons_of_mem _ hg) hgn)]
        simp only [t2, t3, t4, t5, t6, hits_cons, List.foldl_cons, Tally.mk.injEq, true_and,
          and_true]
        ring
    · rw [if_neg hn]
      have hf : is_positive fp = false := by simpa using hn
      rw [match_positive_skip P fp s hf, if_neg (by rw [hs]; simp)]
      exact ih s hs (fun g hg hgn => hb g (List.mem_cons_of_mem _ hg) hgn)

/-- The positives loop with its `break` (logic 2 and 3), entered with no
match counted: it ends running, has counted the first hit only and holds
the minimum of the distances up to that hit. -/
theorem scan_positives_first (P : Params) (bank : List Fingerprint) (s : State)
    (hR : P._matches_evaluation_logic = 2 ∨ P._matches_evaluation_logic = 3)
    (hs : s.status = .running) (h0 : s._matchpos_count = 0)
    (hb : ∀ fp ∈ bank, is_positive fp = true → positive_distance P s._vw fp ≠ .oob) :
    (scan_positives P bank s).tally
      = ⟨.running, s._vw,
          hits P._matching_distance_positives_max
            (up_to_first_hit P._matching_distance_positives_max
              (positive_distances P bank s._vw)),
          s._matchneg_count,
          (up_to_first_hit P._matching_distance_positives_max
            (positive_distances P bank s._vw)).foldl min s._matchdistance_pos_min,
          s._matchdistance_neg_min⟩ := by
  induction bank generalizing s with
  | nil =>
    rw [scan_positives_nil]
    simp [State.tally, positive_distances, numbers, up_to_first_hit, hits_nil, hs, h0]
  | cons fp rest ih =>
    rw [scan_positives_cons, positive_distances_cons]
    by_cases hn : is_positive fp = true
    · rw [if_pos hn]
      have hoob := hb fp (List.mem_cons_self _ _) hn
      cases hd : positive_distance P s._vw fp with
      | oob => exact absurd hd hoob
      | nan =>
        have ht := match_positive_nan P fp s hn hd
        simp only [State.tally, Tally.mk.injEq] at ht
        obtain ⟨t1, t2, t3, t4, t5, t6⟩ := ht
        rw [if_neg (by rw [t1, hs]; simp), if_neg (by rw [t3, h0]; simp)]
        rw [ih _ (by rw [t1, hs]) (by rw [t3, h0]) (fun g hg hgn => by
          rw [t2]; exact hb g (List.mem_cons_of_mem _ hg) hgn)]
        simp only [t2, t3, t4, t5, t6]
      | num d =>
        have ht := match_positive_num P fp s d hn hd
        simp only [State.tally, Tally.mk.injEq] at ht
        obtain ⟨t1, t2, t3, t4, t5, t6⟩ := ht
        rw [if_neg (by rw [t1, hs]; simp)]
        by_cases hhit : d ≤ P._matching_distance_positives_max
        · rw [if_pos hhit, h0] at t3
          rw [if_pos ⟨by rw [t3]; decide, hR⟩]
          simp only [State.tally, up_to_first_hit, if_pos hhit, hits_cons, hits_nil,
            List.foldl_cons, List.foldl_nil, t1, t2, t3, t4, t5, t6, hs]
          rfl
        · rw [if_neg hhit, h0] at t3
          rw [if_neg (by rw [t3]; simp)]
          rw [ih _ (by rw [t1, hs]) (by rw [t3]; rfl) (fun g hg hgn => by
            rw [t2]; exact hb g (List.mem_cons_of_mem _ hg) hgn)]
          simp only [t2, t4, t5, t6, up_to_first_hit, if_neg hhit, hits_cons,
            List.foldl_cons, Tally.mk.injEq, true_and, and_true]
          ring
    · rw [if_neg hn]
      have hf : is_positive fp = false := by simpa using hn
      rw [match_positive_skip P fp s hf, if_neg (by rw [hs]; simp),
        if_neg (by rw [h0]; simp)]
      exact ih s hs h0 (fun g hg hgn => hb g (List.mem_cons_of_mem _ hg) hgn)

theorem up_to_first_hit_hit (thr : ℚ) (ds : List ℚ) :
    (∃ d ∈ up_to_first_hit thr ds, d ≤ thr) ↔ ∃ d ∈ ds, d ≤ thr := by
  induction ds with
  | nil => simp [up_to_first_hit]
  | cons d ds ih =>
    unfold up_to_first_hit
    by_cases h : d ≤ thr
    · rw [if_pos h]
      simp [h]
    · rw [if_neg h]
      simp only [List.mem_cons, exists_eq_or_imp, h, false_or]
      exact ih

/-- The positives loop entered with no match counted, under every logic:
in terms of the distances it takes. -/
theorem scan_positives_tally (P : Params) (bank : List Fingerprint) (s : State)
    (hs : s.status = .running) (h0 : s._matchpos_count = 0)
    (hb : ∀ fp ∈ bank, is_positive fp = true → positive_distance P s._vw fp ≠ .oob) :
    (scan_positives P bank s).tally
      = ⟨.running, s._vw,
          hits P._matching_distance_positives_max
            (scanned P._matches_evaluation_logic P._matching_distance_positives_max
              (positive_distances P bank s._vw)),
          s._matchneg_count,
          (scanned P._matches_evaluation_logic P._matching_distance_positives_max
            (positive_distances P bank s._vw)).foldl min s._matchdistance_pos_min,
          s._matchdistance_neg_min⟩ := by
  unfold scanned
  by_cases hR : P._matches_evaluation_logic = 2 ∨ P._matches_evaluation_logic = 3
  · rw [if_pos hR]
    exact scan_positives_first P bank s hR hs h0 hb
  · rw [if_neg hR, scan_positives_all P bank s hR hs hb, h0, zero_add]

theorem scanned_hit (R : Int) (thr : ℚ) (ds : List ℚ) :
    (∃ d ∈ scanned R thr ds, d ≤ thr) ↔ ∃ d ∈ ds, d ≤ thr := by
  unfold scanned
  split_ifs
  · exact up_to_first_hit_hit thr ds
  · rfl

/-! ### The minimum of a list of distances -/

theorem foldl_min_le (ds : List ℚ) (m : ℚ) :
    ds.foldl min m ≤ m ∧ ∀ d ∈ ds, ds.foldl min m ≤ d := by
  induction ds generalizing m with
  | nil => simp
  | cons d ds ih =>
    rw [List.foldl_cons]
    obtain ⟨h1, h2⟩ := ih (min m d)
    refine ⟨le_trans h1 (min_le_left _ _), ?_⟩
    intro e he
    rcases List.mem_cons.mp he with rfl | he
    · exact le_trans h1 (min_le_right _ _)
    · exact h2 e he

theorem foldl_min_mem (ds : List ℚ) (m : ℚ) :
    ds.foldl min m = m ∨ ds.foldl min m ∈ ds := by
  induction ds generalizing m with
  | nil => simp
  | cons d ds ih =>
    rw [List.foldl_cons]
    rcases ih (min m d) with h | h
    · rcases min_choice m d with h' | h'
      · left; rw [h, h']
      · right; rw [h, h']; exact List.mem_cons_self _ _
    · right; exact List.mem_cons_of_mem _ h

theorem least_le (ds : List ℚ) : ∀ d ∈ ds, least ds ≤ d := (foldl_min_le ds 1).2

theorem least_nil : least [] = 1 := rfl

theorem least_mem (ds : List ℚ) (h1 : ∀ d ∈ ds, d ≤ 1) (hne : ds ≠ []) : least ds ∈ ds := by
  rcases foldl_min_mem ds 1 with h | h
  · obtain ⟨d, hd⟩ := List.exists_mem_of_ne_nil ds hne
    have hle := least_le ds d hd
    have : d = least ds := le_antisymm (by unfold least; rw [h]; exact h1 d hd) hle
    rw [← this]; exact hd
  · exact h

theorem mem_numbers (l : List DistVal) (d : ℚ) : d ∈ numbers l ↔ .num d ∈ l := by
  induction l with
  | nil => simp [numbers]
  | cons x l ih =>
    cases x <;> simp [numbers, ih]

theorem negative_distances_range (P : Params) (bank : List Fingerprint) (vw : List ℚ) :
    ∀ d ∈ negative_distances P bank vw, 0 ≤ d ∧ d ≤ 1 := by
  intro d hd
  unfold negative_distances at hd
  rw [mem_numbers, List.mem_map] at hd
  obtain ⟨fp, _, hfp⟩ := hd
  exact eucl_dist_num_range _ _ _ _ _ _ d hfp

theorem positive_distances_range (P : Params) (bank : List Fingerprint) (vw : List ℚ) :
    ∀ d ∈ positive_distances P bank vw, 0 ≤ d ∧ d ≤ 1 := by
  intro d hd
  unfold positive_distances at hd
  rw [mem_numbers, List.mem_map] at hd
  obtain ⟨fp, _, hfp⟩ := hd
  exact eucl_dist_num_range _ _ _ _ _ _ d hfp

theorem negative_distances_filter (P : Params) (bank bank2 : List Fingerprint) (vw : List ℚ)
    (h : bank2.filter is_negative = bank.filter is_negative) :
    negative_distances P bank2 vw = negative_distances P bank vw := by
  unfold negative_distances; rw [h]

theorem positive_distances_filter (P : Params) (bank bank2 : List Fingerprint) (vw : List ℚ)
    (h : bank2.filter is_positive = bank.filter is_positive) :
    positive_distances P bank2 vw = positive_distances P bank vw := by
  unfold positive_distances; rw [h]

/-! ### The tallies after the bank is scanned -/

/-- The tallies when the bank has been scanned (lines 1032-1164), for a bank
none of whose scanned fingerprints is read outside its values. -/
theorem match_bank_tally (P : Params) (s : State) (hs : s.status = .running)
    (hp : P._matches_evaluation_logic = 2 ∨ P._matches_evaluation_logic = 3
        ∨ P._matches_evaluation_logic = 4 →
      ∀ fp ∈ P._fngpts, is_positive fp = true →
        positive_distance P (coefficients P s) fp ≠ .oob)
    (hn : P._matches_evaluation_logic = 1 ∨ P._matches_evaluation_logic = 3 →
      ∀ fp ∈ P._fngpts, is_negative fp = true →
        negative_distance P (coefficients P s) fp ≠ .oob) :
    (match_bank P (run_transform P s)).tally
      = ⟨.running, coefficients P s,
          if P._matches_evaluation_logic = 2 ∨ P._matches_evaluation_logic = 3
              ∨ P._matches_evaluation_logic = 4 then
            hits P._matching_distance_positives_max
              (scanned P._matches_evaluation_logic P._matching_distance_positives_max
                (positive_distances P P._fngpts (coefficients P s)))
          else 0,
          if P._matches_evaluation_logic = 1 ∨ P._matches_evaluation_logic = 3 then
            hits P._matching_distance_negatives_max
              (negative_distances P P._fngpts (coefficients P s))
          else 0,
          if P._matches_evaluation_logic = 2 ∨ P._matches_evaluation_logic = 3
              ∨ P._matches_evaluation_logic = 4 then
            least (scanned P._matches_evaluation_logic P._matching_distance_positives_max
              (positive_distances P P._fngpts (coefficients P s)))
          else 1,
          if P._matches_evaluation_logic = 1 ∨ P._matches_evaluation_logic = 3 then
            least (negative_distances P P._fngpts (coefficients P s))
          else 1⟩ := by
  have hc : (clear_counts (run_transform P s)).tally
      = ⟨.running, coefficients P s, 0, 0, 1, 1⟩ := by
    simp [State.tally, clear_counts, run_transform, coefficients, hs]
  have hpos : (evaluate_positives P (clear_counts (run_transform P s))).tally
      = ⟨.running, coefficients P s,
          if P._matches_evaluation_logic = 2 ∨ P._matches_evaluation_logic = 3
              ∨ P._matches_evaluation_logic = 4 then
            hits P._matching_distance_positives_max
              (scanned P._matches_evaluation_logic P._matching_distance_positives_max
                (positive_distances P P._fngpts (coefficients P s)))
          else 0, 0,
          if P._matches_evaluation_logic = 2 ∨ P._matches_evaluation_logic = 3
              ∨ P._matches_evaluation_logic = 4 then
            least (scanned P._matches_evaluation_logic P._matching_distance_positives_max
              (positive_distances P P._fngpts (coefficients P s)))
          else 1, 1⟩ := by
    unfold evaluate_positives
    by_cases hR : P._matches_evaluation_logic = 2 ∨ P._matches_evaluation_logic = 3
        ∨ P._matches_evaluation_logic = 4
    · rw [if_pos hR, if_pos hR, if_pos hR]
      simp only [State.tally, Tally.mk.injEq] at hc
      obtain ⟨c1, c2, c3, c4, c5, c6⟩ := hc
      rw [scan_positives_tally P P._fngpts _ c1 c3 (by rw [c2]; exact hp hR)]
      rw [c2, c4, c5, c6]
      rfl
    · rw [if_neg hR, if_neg hR, if_neg hR]
      exact hc
  unfold match_bank and_then
  generalize evaluate_positives P (clear_counts (run_transform P s)) = t at hpos ⊢
  simp only [State.tally, Tally.mk.injEq] at hpos
  obtain ⟨t1, t2, t3, t4, t5, t6⟩ := hpos
  rw [if_neg (by rw [t1]; simp)]
  unfold evaluate_negatives
  by_cases hR : P._matches_evaluation_logic = 1 ∨ P._matches_evaluation_logic = 3
  · rw [if_pos hR, if_pos hR, if_pos hR]
    rw [scan_negatives_tally P P._fngpts t t1 (by rw [t2]; exact hn hR)]
    rw [t2, t3, t4, t5, t6, zero_add]
    rfl
  · rw [if_neg hR, if_neg hR, if_neg hR]
    simp only [State.tally, t1, t2, t3, t4, t5, t6]

/-! ### From the tallies to the results of the window end -/

theorem generate_fingerprint_verdict (P : Params) (s : State) :
    (generate_fingerprint P s).verdict = s.verdict := by
  unfold generate_fingerprint
  split_ifs <;> rfl

/-- The three results after a window end are those of the final evaluation,
when the bank scan ends running. -/
theorem pattern_end_verdict (P : Params) (s : State)
    (hm : (match_bank P (run_transform P s)).status = .running) :
    (pattern_end P s).verdict
      = (final_evaluation P (match_bank P (run_transform P s))).verdict := by
  unfold pattern_end
  generalize match_bank P (run_transform P s) = m at hm ⊢
  have h1 : and_then m (final_evaluation P) = final_evaluation P m := by
    unfold and_then; rw [if_neg (by rw [hm]; simp)]
  rw [h1]
  generalize final_evaluation P m = f
  have h2 : (and_then f (generate_fingerprint P)).verdict = f.verdict := by
    unfold and_then; split_ifs
    · rfl
    · exact generate_fingerprint_verdict P f
  generalize and_then f (generate_fingerprint P) = g at h2 ⊢
  rw [← h2]
  unfold and_then
  split_ifs <;> rfl

theorem final_evaluation_status (P : Params) (s : State)
    (hR : P._matches_evaluation_logic = 0 ∨ P._matches_evaluation_logic = 1
      ∨ P._matches_evaluation_logic = 2 ∨ P._matches_evaluation_logic = 3
      ∨ P._matches_evaluation_logic = 4) :
    (final_evaluation P s).status = s.status := by
  unfold final_evaluation
  split_ifs with h0 _ h1 _ h2 _ h3 _ h4 <;> first | rfl | omega

/-- The window end leaves the loop running when the bank scan does, the
logic is one of 0 to 4 and the transform has returned `_fingerprint_n`
coefficients. -/
theorem pattern_end_running (P : Params) (s : State)
    (hm : (match_bank P (run_transform P s)).status = .running)
    (hR : P._matches_evaluation_logic = 0 ∨ P._matches_evaluation_logic = 1
      ∨ P._matches_evaluation_logic = 2 ∨ P._matches_evaluation_logic = 3
      ∨ P._matches_evaluation_logic = 4)
    (hvw : _fingerprint_n P ≤ (coefficients P s).length) :
    (pattern_end P s).status = .running := by
  have hcore : (final_evaluation P (match_bank P (run_transform P s))).core
      = (run_transform P s).core := by
    rw [final_evaluation_core, match_bank_core]
  have hv : (final_evaluation P (match_bank P (run_transform P s)))._vw
      = coefficients P s := by
    have := congrArg Core.vw hcore
    simpa [State.core, run_transform, coefficients] using this
  have hst := final_evaluation_status P (match_bank P (run_transform P s)) hR
  rw [hm] at hst
  unfold pattern_end
  generalize match_bank P (run_transform P s) = m at hm hv hst ⊢
  have h1 : and_then m (final_evaluation P) = final_evaluation P m := by
    unfold and_then; rw [if_neg (by rw [hm]; simp)]
  rw [h1]
  generalize final_evaluation P m = f at hv hst ⊢
  have h2 : (and_then f (generate_fingerprint P)).status = .running := by
    unfold and_then
    rw [if_neg (by rw [hst]; simp)]
    unfold generate_fingerprint
    have hlen : ¬ ((f._vw.length : Int) < _fingerprint_n P) := by rw [hv]; omega
    split_ifs <;> exact hst
  generalize and_then f (generate_fingerprint P) = g at h2 ⊢
  unfold and_then
  rw [if_neg (by rw [h2]; simp)]
  exact h2

theorem final_evaluation_verdict1 (P : Params) (s : State)
    (hR : P._matches_evaluation_logic = 1) :
    (final_evaluation P s).verdict
      = (if s._matchneg_count = 0 then 1 else 0,
          if s._matchneg_count = 0 then s._matchdistance_neg_min else -1,
          s._matchdistance_neg_min) := by
  unfold final_evaluation
  rw [if_neg (by omega), if_pos hR]
  split_ifs <;> rfl

theorem final_evaluation_verdict24 (P : Params) (s : State)
    (hR : P._matches_evaluation_logic = 2 ∨ P._matches_evaluation_logic = 4) :
    (final_evaluation P s).verdict
      = (if s._matchpos_count ≠ 0 then 1 else 0,
          if s._matchpos_count ≠ 0 then s._matchdistance_pos_min else -1,
          1 - s._matchdistance_pos_min) := by
  unfold final_evaluation
  rcases hR with hR | hR
  · rw [if_neg (by omega), if_neg (by omega), if_pos hR]
    split_ifs <;> rfl
  · rw [if_neg (by omega), if_neg (by omega), if_neg (by omega), if_neg (by omega), if_pos hR]
    split_ifs <;> rfl

theorem min_distance_eq (s : State) :
    min_distance s = min s._matchdistance_pos_min s._matchdistance_neg_min := by
  unfold min_distance
  rw [amend_min, min_comm]

theorem final_evaluation_verdict3 (P : Params) (s : State)
    (hR : P._matches_evaluation_logic = 3) :
    (final_evaluation P s).verdict
      = (if s._matchneg_count = 0 ∧ s._matchpos_count > 0 then 1 else 0,
          if s._matchneg_count = 0 ∧ s._matchpos_count > 0 then
            min s._matchdistance_pos_min s._matchdistance_neg_min else -1,
          1 - min s._matchdistance_pos_min s._matchdistance_neg_min) := by
  unfold final_evaluation
  rw [if_neg (by omega), if_neg (by omega), if_neg (by omega), if_pos hR, min_distance_eq]
  split_ifs <;> rfl

/-- The results of a window end under logic 1. -/
theorem policy1_verdict (P : Params) (s : State) (hs : s.status = .running)
    (hR : P._matches_evaluation_logic = 1)
    (hb : ∀ fp ∈ P._fngpts, is_negative fp = true →
      negative_distance P (coefficients P s) fp ≠ .oob) :
    (pattern_end P s).verdict
      = (if hits P._matching_distance_negatives_max
            (negative_distances P P._fngpts (coefficients P s)) = 0 then 1 else 0,
          if hits P._matching_distance_negatives_max
            (negative_distances P P._fngpts (coefficients P s)) = 0
          then least (negative_distances P P._fngpts (coefficients P s)) else -1,
          least (negative_distances P P._fngpts (coefficients P s))) := by
  have ht := match_bank_tally P s hs (fun h => by omega) (fun _ => hb)
  rw [if_pos (Or.inl hR), if_pos (Or.inl hR)] at ht
  simp only [State.tally, Tally.mk.injEq] at ht
  obtain ⟨t1, _, _, t4, _, t6⟩ := ht
  rw [pattern_end_verdict P s t1, final_evaluation_verdict1 P _ hR, t4, t6]

/-- The results of a window end under logic 2 and 4. -/
theorem policy24_verdict (P : Params) (s : State) (hs : s.status = .running)
    (hR : P._matches_evaluation_logic = 2 ∨ P._matches_evaluation_logic = 4)
    (hb : ∀ fp ∈ P._fngpts, is_positive fp = true →
      positive_distance P (coefficients P s) fp ≠ .oob) :
    (pattern_end P s).verdict
      = (if hits P._matching_distance_positives_max
            (positive_distances P P._fngpts (coefficients P s)) ≠ 0 then 1 else 0,
          if hits P._matching_distance_positives_max
            (positive_distances P P._fngpts (coefficients P s)) ≠ 0
          then least (scanned P._matches_evaluation_logic P._matching_distance_positives_max
            (positive_distances P P._fngpts (coefficients P s))) else -1,
          1 - least (scanned P._matches_evaluation_logic P._matching_distance_positives_max
            (positive_distances P P._fngpts (coefficients P s)))) := by
  have hR3 : P._matches_evaluation_logic = 2 ∨ P._matches_evaluation_logic = 3
      ∨ P._matches_evaluation_logic = 4 := by omega
  have ht := match_bank_tally P s hs (fun _ => hb) (fun h => by omega)
  rw [if_pos hR3, if_pos hR3] at ht
  simp only [State.tally, Tally.mk.injEq] at ht
  obtain ⟨t1, _, t3, _, t5, _⟩ := ht
  have hh : (hits P._matching_distance_positives_max
        (scanned P._matches_evaluation_logic P._matching_distance_positives_max
          (positive_distances P P._fngpts (coefficients P s))) ≠ 0)
      = (hits P._matching_distance_positives_max
        (positive_distances P P._fngpts (coefficients P s)) ≠ 0) := by
    rw [hits_ne_zero, hits_ne_zero, scanned_hit]
  rw [pattern_end_verdict P s t1, final_evaluation_verdict24 P _ hR, t3, t5]
  simp only [hh]

/-- The results of a window end under logic 3. -/
theorem policy3_verdict (P : Params) (s : State) (hs : s.status = .running)
    (hR : P._matches_evaluation_logic = 3)
    (hp : ∀ fp ∈ P._fngpts, is_positive fp = true →
      positive_distance P (coefficients P s) fp ≠ .oob)
    (hn : ∀ fp ∈ P._fngpts, is_negative fp = true →
      negative_distance P (coefficients P s) fp ≠ .oob) :
    (pattern_end P s).verdict
      = (if hits P._matching_distance_negatives_max
              (negative_distances P P._fngpts (coefficients P s)) = 0
            ∧ hits P._matching_distance_positives_max
              (positive_distances P P._fngpts (coefficients P s)) ≠ 0 then 1 else 0,
          if hits P._matching_distance_negatives_max
              (negative_distances P P._fngpts (coefficients P s)) = 0
            ∧ hits P._matching_distance_positives_max
              (positive_distances P P._fngpts (coefficients P s)) ≠ 0
          then min (least (up_to_first_hit P._matching_distance_positives_max
              (positive_distances P P._fngpts (coefficients P s))))
            (least (negative_distances P P._fngpts (coefficients P s))) else -1,
          1 - min (least (up_to_first_hit P._matching_distance_positives_max
              (positive_distances P P._fngpts (coefficients P s))))
            (least (negative_distances P P._fngpts (coefficients P s)))) := by
  have hR3 : P._matches_evaluation_logic = 2 ∨ P._matches_evaluation_logic = 3
      ∨ P._matches_evaluation_logic = 4 := by omega
  have hR1 : P._matches_evaluation_logic = 1 ∨ P._matches_evaluation_logic = 3 := by omega
  have ht := match_bank_tally P s hs (fun _ => hp) (fun _ => hn)
  rw [if_pos hR3, if_pos hR3, if_pos hR1, if_pos hR1] at ht
  simp only [State.tally, Tally.mk.injEq] at ht
  obtain ⟨t1, _, t3, t4, t5, t6⟩ := ht
  have hsc : scanned P._matches_evaluation_logic P._matching_distance_positives_max
        (positive_distances P P._fngpts (coefficients P s))
      = up_to_first_hit P._matching_distance_positives_max
        (positive_distances P P._fngpts (coefficients P s)) := by
    unfold scanned; rw [if_pos (Or.inr hR)]
  have hh : (hits P._matching_distance_positives_max
        (up_to_first_hit P._matching_distance_positives_max
          (positive_distances P P._fngpts (coefficients P s))) > 0)
      = (hits P._matching_distance_positives_max
        (positive_distances P P._fngpts (coefficients P s)) ≠ 0) := by
    apply propext
    have h0 := hits_nonneg P._matching_distance_positives_max
      (up_to_first_hit P._matching_distance_positives_max
        (positive_distances P P._fngpts (coefficients P s)))
    rw [hits_ne_zero, ← up_to_first_hit_hit, ← hits_ne_zero]
    constructor
    · intro h; omega
    · intro h; omega
  rw [pattern_end_verdict P s t1, final_evaluation_verdict3 P _ hR, t3, t4, t5, t6, hsc]
  simp only [hh]

theorem mem_filter_of_eq (bank bank2 : List Fingerprint) (p : Fingerprint → Bool)
    (h : bank2.filter p = bank.filter p) (fp : Fingerprint) (hfp : fp ∈ bank2)
    (hp : p fp = true) : fp ∈ bank := by
  have : fp ∈ bank2.filter p := List.mem_filter.mpr ⟨hfp, hp⟩
  rw [h] at this
  exact (List.mem_filter.mp this).1

/-- C18. Under logic 1, for every bank (none of whose negative fingerprints
is read outside its values) and every completed window: `_ismatch = 1` if
and only if no negative fingerprint has a distance `≤
_matching_distance_negatives_max`; `_contivalue` is the minimum of the
distances to the negative fingerprints (1 when there is none), match or not;
`_matchdistance_out` is that minimum when `_ismatch = 1` and `−1` otherwise;
a bank with the same negative fingerprints gives the same three results;
and the loop keeps running when the transform has returned `_fingerprint_n`
coefficients. -/
theorem policy_negatives (P : Params) (s : State) (hs : s.status = .running)
    (hR : P._matches_evaluation_logic = 1)
    (hb : ∀ fp ∈ P._fngpts, is_negative fp = true →
      negative_distance P (coefficients P s) fp ≠ .oob) :
    ((pattern_end P s)._ismatch = 1 ↔
        ∀ d ∈ negative_distances P P._fngpts (coefficients P s),
          ¬ d ≤ P._matching_distance_negatives_max)
    ∧ ((pattern_end P s)._ismatch = 0 ∨ (pattern_end P s)._ismatch = 1)
    ∧ (pattern_end P s)._contivalue
        = least (negative_distances P P._fngpts (coefficients P s))
    ∧ (pattern_end P s)._matchdistance_out
        = (if (pattern_end P s)._ismatch = 1
            then least (negative_distances P P._fngpts (coefficients P s)) else -1)
    ∧ (∀ d ∈ negative_distances P P._fngpts (coefficients P s),
        least (negative_distances P P._fngpts (coefficients P s)) ≤ d)
    ∧ (negative_distances P P._fngpts (coefficients P s) = [] →
        least (negative_distances P P._fngpts (coefficients P s)) = 1)
    ∧ (negative_distances P P._fngpts (coefficients P s) ≠ [] →
        least (negative_distances P P._fngpts (coefficients P s))
          ∈ negative_distances P P._fngpts (coefficients P s))
    ∧ (∀ bank : List Fingerprint, bank.filter is_negative = P._fngpts.filter is_negative →
        (pattern_end { P with _fngpts := bank } s).verdict = (pattern_end P s).verdict)
    ∧ (_fingerprint_n P ≤ (coefficients P s).length →
        (pattern_end P s).status = .running) := by
  have hv := policy1_verdict P s hs hR hb
  have hv0 := hv
  simp only [State.verdict, Prod.mk.injEq] at hv
  obtain ⟨v1, v2, v3⟩ := hv
  refine ⟨?_, ?_, v3, ?_, least_le _, fun h => by rw [h]; rfl,
    least_mem _ (fun d hd => (negative_distances_range P _ _ d hd).2), ?_, ?_⟩
  · rw [v1, ← hits_eq_zero]
    split_ifs with h <;> simp [h]
  · rw [v1]; split_ifs
    · right; rfl
    · left; rfl
  · rw [v2, v1]
    split_ifs with h1 h2 h2
    · rfl
    · exact absurd rfl h2
    · exact absurd h2 (by decide)
    · rfl
  · intro bank hbank
    have hb2 : ∀ fp ∈ bank, is_negative fp = true →
        negative_distance P (coefficients P s) fp ≠ .oob :=
      fun fp hfp hn => hb fp (mem_filter_of_eq _ _ _ hbank fp hfp hn) hn
    have hv2 := policy1_verdict { P with _fngpts := bank } s hs hR hb2
    rw [hv2, hv0]
    have hd : negative_distances { P with _fngpts := bank } bank
          (coefficients { P with _fngpts := bank } s)
        = negative_distances P P._fngpts (coefficients P s) :=
      negative_distances_filter P P._fngpts bank (coefficients P s) hbank
    simp only [hd]
  · intro hvw
    have ht := match_bank_tally P s hs (fun h => by omega) (fun _ => hb)
    exact pattern_end_running P s (congrArg Tally.status ht) (by omega) hvw

theorem policy_negatives_witness :
    negative_distances (example_matcher 1) (example_matcher 1)._fngpts
        (coefficients (example_matcher 1) example_collected) = [7 / 17, 8 / 43]
    ∧ (pattern_end (example_matcher 1) example_collected).verdict = (1, 8 / 43, 8 / 43)
    ∧ (pattern_end (example_matcher 1) example_collected)._contivalue
        = least (negative_distances (example_matcher 1) (example_matcher 1)._fngpts
            (coefficients (example_matcher 1) example_collected)) :=
  ⟨by decide!, by decide!,
    (policy_negatives (example_matcher 1) example_collected rfl rfl (by decide!)).2.2.1⟩

/-- C19. Under logic 2 and under logic 4, for every bank (none of whose
positive fingerprints is read outside its values) and every completed
window: `_ismatch = 1` if and only if at least one positive fingerprint has
a distance `≤ _matching_distance_positives_max`; the two logics give the
same `_ismatch`; a bank with the same positive fingerprints gives the same
`_ismatch`; and the loop keeps running when the transform has returned
`_fingerprint_n` coefficients. -/
theorem policy_positives (P : Params) (s : State) (hs : s.status = .running)
    (hR : P._matches_evaluation_logic = 2 ∨ P._matches_evaluation_logic = 4)
    (hb : ∀ fp ∈ P._fngpts, is_positive fp = true →
      positive_distance P (coefficients P s) fp ≠ .oob) :
    ((pattern_end P s)._ismatch = 1 ↔
        ∃ d ∈ positive_distances P P._fngpts (coefficients P s),
          d ≤ P._matching_distance_positives_max)
    ∧ ((pattern_end P s)._ismatch = 0 ∨ (pattern_end P s)._ismatch = 1)
    ∧ (pattern_end { P with _matches_evaluation_logic := 2 } s)._ismatch
        = (pattern_end { P with _matches_evaluation_logic := 4 } s)._ismatch
    ∧ (∀ bank : List Fingerprint, bank.filter is_positive = P._fngpts.filter is_positive →
        (pattern_end { P with _fngpts := bank } s)._ismatch = (pattern_end P s)._ismatch)
    ∧ (_fingerprint_n P ≤ (coefficients P s).length →
        (pattern_end P s).status = .running) := by
  have hv := policy24_verdict P s hs hR hb
  have v1 := congrArg Prod.fst hv
  simp only [State.verdict] at v1
  refine ⟨?_, ?_, ?_, ?_, ?_⟩
  · rw [v1, ← hits_ne_zero]
    split_ifs with h <;> simp [h]
  · rw [v1]; split_ifs
    · right; rfl
    · left; rfl
  · have h2 := congrArg Prod.fst
      (policy24_verdict { P with _matches_evaluation_logic := 2 } s hs (Or.inl rfl) hb)
    have h4 := congrArg Prod.fst
      (policy24_verdict { P with _matches_evaluation_logic := 4 } s hs (Or.inr rfl) hb)
    simp only [State.verdict] at h2 h4
    rw [h2, h4]
    rfl
  · intro bank hbank
    have hb2 : ∀ fp ∈ bank, is_positive fp = true →
        positive_distance P (coefficients P s) fp ≠ .oob :=
      fun fp hfp hn => hb fp (mem_filter_of_eq _ _ _ hbank fp hfp hn) hn
    have h2 := congrArg Prod.fst (policy24_verdict { P with _fngpts := bank } s hs hR hb2)
    simp only [State.verdict] at h2
    rw [h2, v1]
    have hd : positive_distances { P with _fngpts := bank } bank
          (coefficients { P with _fngpts := bank } s)
        = positive_distances P P._fngpts (coefficients P s) :=
      positive_distances_filter P P._fngpts bank (coefficients P s) hbank
    simp only [hd]
  · intro hvw
    have ht := match_bank_tally P s hs (fun _ => hb) (fun h => by omega)
    exact pattern_end_running P s (congrArg Tally.status ht) (by omega) hvw

theorem policy_positives_witness :
    positive_distances (example_matcher 2) (example_matcher 2)._fngpts
        (coefficients (example_matcher 2) example_collected) = [1 / 425, 0]
    ∧ (pattern_end (example_matcher 2) example_collected).verdict = (1, 1 / 425, 424 / 425)
    ∧ (pattern_end (example_matcher 4) example_collected).verdict = (1, 0, 1)
    ∧ ((pattern_end (example_matcher 4) example_collected)._ismatch = 1 ↔
        ∃ d ∈ positive_distances (example_matcher 4) (example_matcher 4)._fngpts
            (coefficients (example_matcher 4) example_collected),
          d ≤ (example_matcher 4)._matching_distance_positives_max) :=
  ⟨by decide!, by decide!, by decide!,
    (policy_positives (example_matcher 4) example_collected rfl (Or.inr rfl)
      (by decide!)).1⟩

/-- C20. Under logic 3, for every bank (none of whose fingerprints is read
outside its values) and every completed window: `_ismatch = 1` if and only
if no negative fingerprint has a distance `≤ _matching_distance_negatives_max`
and at least one positive fingerprint has a distance `≤
_matching_distance_positives_max`; `_contivalue = 1 − min(min_pos, min_neg)`
always, and `_matchdistance_out = min(min_pos, min_neg)` when `_ismatch = 1`
and `−1` otherwise, where `min_neg` is the minimum over the negative
fingerprints and `min_pos` the minimum over the positive fingerprints that
the loop takes, those up to the first hit; the loop keeps running when the
transform has returned `_fingerprint_n` coefficients. -/
theorem policy_strict (P : Params) (s : State) (hs : s.status = .running)
    (hR : P._matches_evaluation_logic = 3)
    (hp : ∀ fp ∈ P._fngpts, is_positive fp = true →
      positive_distance P (coefficients P s) fp ≠ .oob)
    (hn : ∀ fp ∈ P._fngpts, is_negative fp = true →
      negative_distance P (coefficients P s) fp ≠ .oob) :
    ((pattern_end P s)._ismatch = 1 ↔
        (∀ d ∈ negative_distances P P._fngpts (coefficients P s),
          ¬ d ≤ P._matching_distance_negatives_max)
        ∧ ∃ d ∈ positive_distances P P._fngpts (coefficients P s),
          d ≤ P._matching_distance_positives_max)
    ∧ ((pattern_end P s)._ismatch = 0 ∨ (pattern_end P s)._ismatch = 1)
    ∧ (pattern_end P s)._contivalue
        = 1 - min (least (up_to_first_hit P._matching_distance_positives_max
              (positive_distances P P._fngpts (coefficients P s))))
            (least (negative_distances P P._fngpts (coefficients P s)))
    ∧ (pattern_end P s)._matchdistance_out
        = (if (pattern_end P s)._ismatch = 1
            then min (least (up_to_first_hit P._matching_distance_positives_max
                (positive_distances P P._fngpts (coefficients P s))))
              (least (negative_distances P P._fngpts (coefficients P s)))
            else -1)
    ∧ (_fingerprint_n P ≤ (coefficients P s).length →
        (pattern_end P s).status = .running) := by
  have hv := policy3_verdict P s hs hR hp hn
  simp only [State.verdict, Prod.mk.injEq] at hv
  obtain ⟨v1, v2, v3⟩ := hv
  refine ⟨?_, ?_, v3, ?_, ?_⟩
  · rw [v1, ← hits_eq_zero, ← hits_ne_zero]
    split_ifs with h <;> simp [h]
  · rw [v1]; split_ifs
    · right; rfl
    · left; rfl
  · rw [v2, v1]
    split_ifs with h1 h2 h2
    · rfl
    · exact absurd rfl h2
    · exact absurd h2 (by decide)
    · rfl
  · intro hvw
    have ht := match_bank_tally P s hs (fun _ => hp) (fun _ => hn)
    exact pattern_end_running P s (congrArg Tally.status ht) (by omega) hvw

theorem policy_strict_witness :
    (pattern_end (example_matcher 3) example_collected).verdict = (1, 1 / 425, 424 / 425)
    ∧ (pattern_end (example_matcher 3) example_collected)._contivalue
        = 1 - min (least (up_to_first_hit (example_matcher 3)._matching_distance_positives_max
              (positive_distances (example_matcher 3) (example_matcher 3)._fngpts
                (coefficients (example_matcher 3) example_collected))))
            (least (negative_distances (example_matcher 3) (example_matcher 3)._fngpts
              (coefficients (example_matcher 3) example_collected))) :=
  ⟨by decide!,
    (policy_strict (example_matcher 3) example_collected rfl rfl (by decide!)
      (by decide!)).2.2.1⟩

/-! ### The match variables in a step -/

theorem finish_verdict (P : Params) (e : State) :
    (set_output P (amend_diffavg P (wait_detector P e))).verdict = e.verdict := by
  unfold set_output amend_diffavg wait_detector
  split_ifs <;> rfl

theorem pattern_evaluation_verdict (P : Params) (t : State) :
    (pattern_evaluation P t).verdict
      = if t._ispattern = 1 ∧ t._patterncount - 1 ≤ 0
        then (pattern_end P (push_sample P t)).verdict else t.verdict := by
  unfold pattern_evaluation
  by_cases h1 : t._ispattern = 1
  · by_cases h2 : t._patterncount - 1 ≤ 0
    · have h3 : (push_sample P t)._patterncount ≤ 0 := h2
      rw [if_pos h1, if_pos h3, if_pos ⟨h1, h2⟩]
    · have h3 : ¬ (push_sample P t)._patterncount ≤ 0 := h2
      rw [if_pos h1, if_neg h3, if_neg (fun h => h2 h.2)]
      rfl
  · rw [if_neg h1, if_neg (fun h => h1 h.1)]

/-- The match variables at the output line: those of the window end when
the step completes a window, those at the top of the loop body otherwise. -/
theorem step_verdict (P : Params) (s : State) (x : Sample) (hrun : s.status = .running) :
    (process_sample P s x).verdict
      = if s._ispattern = 1 ∧ s._patterncount - 1 ≤ 0
        then (pattern_end P (window_state P s x)).verdict else s.verdict := by
  have h := pattern_evaluation_verdict P (read_sample s x)
  have hp : (process_sample P s x).verdict
      = (pattern_evaluation P (read_sample s x)).verdict := by
    unfold process_sample and_then
    rw [if_neg (by rw [hrun]; simp)]
    simp only []
    split_ifs
    · rfl
    · exact finish_verdict P _
  rw [hp, h]
  rfl

/-- The status at the output line of a step that completes a window is that
of the window end. -/
theorem step_status (P : Params) (s : State) (x : Sample) (hrun : s.status = .running)
    (hp : s._ispattern = 1) (hc : s._patterncount - 1 ≤ 0) :
    (process_sample P s x).status = (pattern_end P (window_state P s x)).status := by
  have he : pattern_evaluation P (read_sample s x) = pattern_end P (window_state P s x) :=
    pattern_evaluation_end P (read_sample s x) hp hc
  unfold process_sample and_then
  rw [if_neg (by rw [hrun]; simp)]
  simp only []
  rw [he]
  split_ifs with h
  · rfl
  · unfold set_output amend_diffavg wait_detector
    split_ifs <;> rfl

theorem cleared_init (P : Params) : Cleared (init P) := fun _ => rfl

theorem cleared_loop_body (P : Params) (s : State) (x : Sample) :
    Cleared (loop_body P s x) := by
  intro h
  rw [loop_body_eq_reset P s x h]
  rfl

theorem cleared_main_loop (P : Params) (xs : List Sample) (s : State) (h : Cleared s) :
    Cleared (main_loop P s xs) := by
  induction xs generalizing s with
  | nil => exact h
  | cons x xs ih => exact ih _ (cleared_loop_body P s x)

theorem cleared_reachable (P : Params) (xs : List Sample) :
    Cleared (main_loop P (init P) xs) :=
  cleared_main_loop P xs _ (cleared_init P)

/-! ### Output lines by index -/

/-- The output line with index `j` of a run belongs to the step on the
sample with index `j`, and the process has run up to there. -/
theorem records_get (P : Params) (xs : List Sample) (s : State) (j : Nat) (r : Record)
    (h : (records P s xs)[j]? = some r) :
    ∃ x, xs[j]? = some x ∧ (main_loop P s (xs.take (j + 1))).status = .running
      ∧ r = output_record P (process_sample P (main_loop P s (xs.take j)) x) := by
  induction xs generalizing s j with
  | nil => simp [records] at h
  | cons x xs ih =>
    rw [records_cons] at h
    by_cases hrun' : (loop_body P s x).status = .running
    swap
    · simp [hrun'] at h
    simp only [ne_eq, hrun', not_true_eq_false, if_false] at h
    cases j with
    | zero =>
      simp only [List.getElem?_cons_zero, Option.some.injEq] at h
      refine ⟨x, List.getElem?_cons_zero, ?_, ?_⟩
      · simpa [main_loop] using hrun'
      · simp [main_loop, h]
    | succ j =>
      simp only [List.getElem?_cons_succ] at h
      obtain ⟨y, h1, h2, h3⟩ := ih _ j h
      exact ⟨y, by simpa using h1, by simpa [main_loop] using h2,
        by simpa [main_loop] using h3⟩

theorem records_get_of (P : Params) (xs : List Sample) (s : State) (j : Nat) (x : Sample)
    (hx : xs[j]? = some x) (hrun : (main_loop P s (xs.take (j + 1))).status = .running) :
    (records P s xs)[j]?
      = some (output_record P (process_sample P (main_loop P s (xs.take j)) x)) := by
  induction xs generalizing s j with
  | nil => simp at hx
  | cons y xs ih =>
    have hrun' : (loop_body P s y).status = .running := by
      rw [List.take_succ_cons, main_loop_cons] at hrun
      exact running_before_loop P _ _ hrun
    rw [records_cons]
    simp only [ne_eq, hrun', not_true_eq_false, if_false]
    cases j with
    | zero =>
      simp only [List.getElem?_cons_zero, Option.some.injEq] at hx
      subst hx
      simp [main_loop]
    | succ j =>
      simp only [List.getElem?_cons_succ] at hx ⊢
      rw [List.take_succ_cons, main_loop_cons] at hrun
      rw [ih _ j hx hrun]
      simp [main_loop]

/-- A process that runs after a prefix of the samples ran after every
shorter prefix. -/
theorem running_take (P : Params) (xs : List Sample) (s : State) (i j : Nat) (hij : i ≤ j)
    (h : (main_loop P s (xs.take j)).status = .running) :
    (main_loop P s (xs.take i)).status = .running := by
  have ht : xs.take j = xs.take i ++ (xs.take j).drop i := by
    have := List.take_append_drop i (xs.take j)
    rw [List.take_take, min_eq_left hij] at this
    exact this.symm
  rw [ht, main_loop_append] at h
  exact running_before_loop P _ _ h

theorem take_succ_snoc (xs : List Sample) (j : Nat) (x : Sample) (hx : xs[j]? = some x) :
    xs.take (j + 1) = xs.take j ++ [x] := by
  rw [List.take_succ, hx]
  rfl

/-! ### When a window is complete -/

/-- After a completed step a window has `m ≥ 1` samples to go exactly when
it had `m + 1` to go before the step or the step raised the alarm and
`m` is the fingerprint length. -/
theorem window_progress (P : Params) (s : State) (x : Sample) (m : Int) (hi : Inv s)
    (hrun' : (loop_body P s x).status = .running) (hm : 1 ≤ m) :
    ((loop_body P s x)._ispattern = 1 ∧ (loop_body P s x)._patterncount = m)
      ↔ (s._ispattern = 1 ∧ s._patterncount = m + 1)
        ∨ (m = _fingerprint_n P ∧ (loop_body P s x)._isalarm = 1) := by
  have hrun := running_before P s x hrun'
  constructor
  · rintro ⟨h1, h2⟩
    by_cases hw : s._iswait = 1
    · obtain ⟨_, _, _, _, _, w6⟩ := step_wait P s x hrun hw hrun'
      rcases w6 with ⟨c1, c2, _⟩ | ⟨c1, _, _, c4, _⟩ | ⟨_, _, c3, _⟩
      · rw [c2] at h1; exact absurd h1 c1
      · left; exact ⟨c1, by omega⟩
      · rw [c3] at h1; exact absurd h1 (by decide)
    · obtain ⟨_, _, n3, n4⟩ := inv_not_waiting hi hw
      by_cases hb : |x.v - prev_value s x| < P._multiplicator_to_detect * s._diffavg
      · obtain ⟨_, _, _, _, _, b6, _⟩ := step_below P s x hrun hw n4 hb
        rw [b6, n3] at h1; exact absurd h1 (by decide)
      · by_cases hn : s._numthresholded - 1 = 0
        · obtain ⟨a1, _, _, _, _, _, a7, _⟩ := step_alarm P s x hrun hw n4 hb hn
          right; exact ⟨by rw [← h2, a7], a1⟩
        · obtain ⟨_, _, _, _, _, b6, _⟩ := step_count P s x hrun hw n4 hb hn
          rw [b6, n3] at h1; exact absurd h1 (by decide)
  · rintro (⟨h1, h2⟩ | ⟨h1, h2⟩)
    · obtain ⟨_, _, _, _, _, w6⟩ := step_wait P s x hrun (hi.pattern_wait h1) hrun'
      rcases w6 with ⟨c1, _⟩ | ⟨_, _, c3, c4, _⟩ | ⟨_, c2, _⟩
      · exact absurd h1 c1
      · exact ⟨c3, by omega⟩
      · omega
    · obtain ⟨_, _, _, _, _, a6, a7, _⟩ := alarm_step P s x hi hrun' h2
      exact ⟨a6, by rw [a7, h1]⟩

/-- In a run from a state `s`, the step on the sample with index `j` starts
with one sample of a window to go exactly when `s` was inside a window with
`j + 1` to go, or the alarm was raised `_fingerprint_n` samples earlier. -/
theorem window_due_from (P : Params) (hL : 1 ≤ _fingerprint_n P) (xs : List Sample)
    (s : State) (j : Nat) (hi : Inv s)
    (hrun : (main_loop P s (xs.take (j + 1))).status = .running) (hj : j < xs.length) :
    ((main_loop P s (xs.take j))._ispattern = 1
        ∧ (main_loop P s (xs.take j))._patterncount = 1)
      ↔ (s._ispattern = 1 ∧ s._patterncount = (j : Int) + 1)
        ∨ ∃ i : Nat, (i : Int) + _fingerprint_n P = j
          ∧ (main_loop P s (xs.take (i + 1)))._isalarm = 1 := by
  induction xs generalizing s j with
  | nil => simp at hj
  | cons x xs ih =>
    cases j with
    | zero =>
      simp only [List.take_zero, main_loop_nil, Nat.cast_zero, zero_add]
      constructor
      · intro h; exact Or.inl h
      · rintro (h | ⟨i, h1, _⟩)
        · exact h
        · omega
    | succ j =>
      rw [List.take_succ_cons, main_loop_cons] at hrun
      have hrun' : (loop_body P s x).status = .running := running_before_loop P _ _ hrun
      have hj' : j < xs.length := by simpa using hj
      rw [List.take_succ_cons, main_loop_cons,
        ih (loop_body P s x) j (inv_loop_body P s x hi) hrun hj',
        window_progress P s x ((j : Int) + 1) hi hrun' (by omega)]
      constructor
      · rintro ((h | ⟨h1, h2⟩) | ⟨i, h1, h2⟩)
        · left; exact ⟨h.1, by push_cast; omega⟩
        · right; exact ⟨0, by push_cast; omega, by simpa [main_loop] using h2⟩
        · right
          exact ⟨i + 1, by push_cast; omega, by
            rw [List.take_succ_cons, main_loop_cons]; exact h2⟩
      · rintro (h | ⟨i, h1, h2⟩)
        · left; left; exact ⟨h.1, by have := h.2; push_cast at this; omega⟩
        · cases i with
          | zero =>
            left; right
            exact ⟨by push_cast at h1; omega, by simpa [main_loop] using h2⟩
          | succ i =>
            right
            refine ⟨i, by push_cast at h1; omega, ?_⟩
            rw [List.take_succ_cons, main_loop_cons] at h2
            exact h2

/-- In a run, the step that gives the output line `j` completes a window
exactly when the output line `_fingerprint_length` lines earlier carries
the alarm flag. -/
theorem completes_window_iff (P : Params) (hL : 1 ≤ P._fingerprint_length)
    (xs : List Sample) (j : Nat) (r : Record) (hr : (records P (init P) xs)[j]? = some r) :
    completes_window P xs j
      ↔ ∃ (i : Nat) (ri : Record), (i : Int) + P._fingerprint_length = j
          ∧ (records P (init P) xs)[i]? = some ri ∧ ri.isalarm = 1 := by
  obtain ⟨x, hx, hrun, _⟩ := records_get P xs (init P) j r hr
  have hj : j < xs.length := by
    rcases lt_or_ge j xs.length with h | h
    · exact h
    · rw [List.getElem?_eq_none h] at hx; simp at hx
  have hrunj := running_take P xs (init P) j (j + 1) (by omega) hrun
  have hcol := collecting_reachable P hL (xs.take j) hrunj
  have hdue := window_due_from P hL xs (init P) j (inv_init P) hrun hj
  have h0 : ¬ ((init P)._ispattern = 1 ∧ (init P)._patterncount = (j : Int) + 1) := by
    simp [init]
  unfold completes_window
  constructor
  · rintro ⟨h1, h2⟩
    have hpc := (hcol.1 h1).2.1
    rcases hdue.mp ⟨h1, by omega⟩ with h | ⟨i, hi1, hi2⟩
    · exact absurd h h0
    · have hij : i + 1 ≤ j + 1 := by
        have : _fingerprint_n P = P._fingerprint_length := rfl
        omega
      have hxi : i < xs.length := by omega
      have hruni := running_take P xs (init P) (i + 1) (j + 1) hij hrun
      have hgi := records_get_of P xs (init P) i (xs.get ⟨i, hxi⟩)
        (List.getElem?_eq_getElem hxi) hruni
      refine ⟨i, _, hi1, hgi, ?_⟩
      rw [take_succ_snoc xs i _ (List.getElem?_eq_getElem hxi), main_loop_snoc] at hi2 hruni
      exact ((output_record_fields P _ _ hruni).1).trans hi2
  · rintro ⟨i, ri, hi1, hri, hai⟩
    obtain ⟨y, hy, hruni, hri2⟩ := records_get P xs (init P) i ri hri
    have h2 : (main_loop P (init P) (xs.take (i + 1)))._isalarm = 1 := by
      rw [take_succ_snoc xs i y hy, main_loop_snoc] at hruni ⊢
      rw [← (output_record_fields P _ _ hruni).1, ← hri2]
      exact hai
    have := hdue.mpr (Or.inr ⟨i, hi1, h2⟩)
    exact ⟨this.1, by omega⟩

/-! ### The minimum distances and the match variables through the bank scan -/

theorem match_positive_range (P : Params) (fp : Fingerprint) (s : State) (h : MinRange s) :
    MinRange (match_positive P fp s) ∧ (match_positive P fp s).verdict = s.verdict := by
  unfold match_positive
  split_ifs
  · cases hd : _eucl_dist s._vw fp.values P._fingerprint_match_positives_from
        P._fingerprint_match_positives_to P._fingerprint_length
        P._distance_calculation_type with
    | oob => exact ⟨h, rfl⟩
    | nan => exact ⟨h, rfl⟩
    | num d =>
      have hr := eucl_dist_num_range _ _ _ _ _ _ d hd
      refine ⟨⟨?_, h.2⟩, rfl⟩
      show 0 ≤ (if d < s._matchdistance_pos_min then d else s._matchdistance_pos_min)
        ∧ (if d < s._matchdistance_pos_min then d else s._matchdistance_pos_min) ≤ 1
      split_ifs
      · exact hr
      · exact h.1
  · exact ⟨h, rfl⟩

theorem scan_positives_range (P : Params) (bank : List Fingerprint) (s : State)
    (h : MinRange s) :
    MinRange (scan_positives P bank s) ∧ (scan_positives P bank s).verdict = s.verdict := by
  induction bank generalizing s with
  | nil => exact ⟨h, rfl⟩
  | cons fp rest ih =>
    have hm := match_positive_range P fp s h
    rw [scan_positives_cons]
    split_ifs
    · exact hm
    · exact hm
    · obtain ⟨i1, i2⟩ := ih _ hm.1
      exact ⟨i1, i2.trans hm.2⟩

theorem match_negative_range (P : Params) (fp : Fingerprint) (s : State) (h : MinRange s) :
    MinRange (match_negative P fp s) ∧ (match_negative P fp s).verdict = s.verdict := by
  unfold match_negative
  split_ifs
  · cases hd : _eucl_dist s._vw fp.values P._fingerprint_match_negatives_from
        P._fingerprint_match_negatives_to P._fingerprint_length
        P._distance_calculation_type with
    | oob => exact ⟨h, rfl⟩
    | nan => exact ⟨h, rfl⟩
    | num d =>
      have hr := eucl_dist_num_range _ _ _ _ _ _ d hd
      refine ⟨⟨h.1, ?_⟩, rfl⟩
      show 0 ≤ (if d < s._matchdistance_neg_min then d else s._matchdistance_neg_min)
        ∧ (if d < s._matchdistance_neg_min then d else s._matchdistance_neg_min) ≤ 1
      split_ifs
      · exact hr
      · exact h.2
  · exact ⟨h, rfl⟩

theorem scan_negatives_range (P : Params) (bank : List Fingerprint) (s : State)
    (h : MinRange s) :
    MinRange (scan_negatives P bank s) ∧ (scan_negatives P bank s).verdict = s.verdict := by
  induction bank generalizing s with
  | nil => exact ⟨h, rfl⟩
  | cons fp rest ih =>
    have hm := match_negative_range P fp s h
    rw [scan_negatives_cons]
    split_ifs
    · exact hm
    · obtain ⟨i1, i2⟩ := ih _ hm.1
      exact ⟨i1, i2.trans hm.2⟩

/-- After the bank scan both minimum distances lie between 0 and 1, and the
match variables are untouched. -/
theorem match_bank_range (P : Params) (s : State) :
    MinRange (match_bank P s) ∧ (match_bank P s).verdict = s.verdict := by
  have hc : MinRange (clear_counts s) ∧ (clear_counts s).verdict = s.verdict :=
    ⟨⟨⟨zero_le_one, le_refl _⟩, ⟨zero_le_one, le_refl _⟩⟩, rfl⟩
  have hp : MinRange (evaluate_positives P (clear_counts s))
      ∧ (evaluate_positives P (clear_counts s)).verdict = s.verdict := by
    unfold evaluate_positives
    split_ifs
    · obtain ⟨i1, i2⟩ := scan_positives_range P P._fngpts _ hc.1
      exact ⟨i1, i2.trans hc.2⟩
    · exact hc
  unfold match_bank and_then
  split_ifs
  · exact hp
  · unfold evaluate_negatives
    split_ifs
    · obtain ⟨i1, i2⟩ := scan_negatives_range P P._fngpts _ hp.1
      exact ⟨i1, i2.trans hp.2⟩
    · exact hp

/-! ### The window end, case by case -/

/-- A window end whose bank scan stops is that stopped state. -/
theorem pattern_end_stopped (P : Params) (s : State)
    (hm : (match_bank P (run_transform P s)).status ≠ .running) :
    pattern_end P s = match_bank P (run_transform P s) := by
  unfold pattern_end
  generalize match_bank P (run_transform P s) = m at hm ⊢
  unfold and_then
  simp [hm]

theorem final_evaluation_exits (P : Params) (s : State)
    (hR : ¬ (P._matches_evaluation_logic = 0 ∨ P._matches_evaluation_logic = 1
      ∨ P._matches_evaluation_logic = 2 ∨ P._matches_evaluation_logic = 3
      ∨ P._matches_evaluation_logic = 4)) :
    (final_evaluation P s).status = .exited 1 := by
  unfold final_evaluation
  split_ifs with h0 _ h1 _ h2 _ h3 _ h4 <;> first | rfl | (exfalso; omega)

/-- A window end that leaves the process running has scanned the bank to
the end and evaluated one of the logics 0 to 4. -/
theorem pattern_end_running_inv (P : Params) (s : State)
    (h : (pattern_end P s).status = .running) :
    (match_bank P (run_transform P s)).status = .running
    ∧ (P._matches_evaluation_logic = 0 ∨ P._matches_evaluation_logic = 1
      ∨ P._matches_evaluation_logic = 2 ∨ P._matches_evaluation_logic = 3
      ∨ P._matches_evaluation_logic = 4) := by
  by_cases hm : (match_bank P (run_transform P s)).status = .running
  · refine ⟨hm, ?_⟩
    by_contra hR
    have he := final_evaluation_exits P (match_bank P (run_transform P s)) hR
    unfold pattern_end at h
    generalize match_bank P (run_transform P s) = m at hm he h
    have h1 : and_then m (final_evaluation P) = final_evaluation P m := by
      unfold and_then; rw [if_neg (by rw [hm]; simp)]
    rw [h1] at h
    generalize final_evaluation P m = f at he h
    unfold and_then at h
    simp [he] at h
  · rw [pattern_end_stopped P s hm] at h
    exact absurd h hm

/-- The three results of the final evaluation, given minimum distances
between 0 and 1. -/
theorem final_evaluation_range (P : Params) (m : State) (h : MinRange m) :
    (0 ≤ (final_evaluation P m)._contivalue ∧ (final_evaluation P m)._contivalue ≤ 1)
    ∧ ((final_evaluation P m)._matchdistance_out = -1
      ∨ (0 ≤ (final_evaluation P m)._matchdistance_out
        ∧ (final_evaluation P m)._matchdistance_out ≤ 1))
    ∧ ((final_evaluation P m)._ismatch = 0 ∨ (final_evaluation P m)._ismatch = 1)
    ∧ ((final_evaluation P m)._ismatch = 1 → P._matches_evaluation_logic ≠ 0 →
      0 ≤ (final_evaluation P m)._matchdistance_out
        ∧ (final_evaluation P m)._matchdistance_out ≤ 1)
    ∧ ((final_evaluation P m)._ismatch = 0 → (final_evaluation P m)._matchdistance_out = -1)
    ∧ (P._matches_evaluation_logic = 0 → (final_evaluation P m).verdict = (1, -1, 1)) := by
  obtain ⟨⟨p0, p1⟩, ⟨n0, n1⟩⟩ := h
  have hmin : 0 ≤ min_distance m ∧ min_distance m ≤ 1 := by
    unfold min_distance; split_ifs
    · exact ⟨p0, p1⟩
    · exact ⟨n0, n1⟩
  obtain ⟨d0, d1⟩ := hmin
  unfold final_evaluation
  split_ifs with h0 h1 c1 h2 c2 h3 c3 h4 c4
  all_goals refine ⟨⟨?_, ?_⟩, ?_, ?_, ?_, ?_, ?_⟩
  all_goals simp only [State.verdict]
  all_goals first
    | linarith
    | exact Or.inl rfl
    | exact Or.inr rfl
    | exact Or.inl trivial
    | exact Or.inr trivial
    | exact Or.inr ⟨by linarith, by linarith⟩
    | (intro _ _; exact ⟨by linarith, by linarith⟩)
    | (intro h; exact absurd h (by decide))
    | (intro _ h; exact absurd h0 h)
    | (intro h; exact absurd h (by assumption))
    | (intro h; exfalso; omega)
    | simp

/-! ### The match variables of an output line -/

/-- Every output line of a run from the initial state belongs to a completed
step from a state of that run. -/
theorem mem_records_reach (P : Params) (xs : List Sample) (r : Record)
    (hr : r ∈ records P (init P) xs) :
    ∃ (pre : List Sample) (x : Sample),
      (loop_body P (main_loop P (init P) pre) x).status = .running
      ∧ r = output_record P (process_sample P (main_loop P (init P) pre) x) := by
  obtain ⟨j, hj⟩ := List.getElem?_of_mem hr
  obtain ⟨x, hx, hrun, hrx⟩ := records_get P xs (init P) j r hj
  refine ⟨xs.take j, x, ?_, hrx⟩
  rw [take_succ_snoc xs j x hx, main_loop_snoc] at hrun
  exact hrun

/-- The match variables of the output line of a completed step: the cleared
values when no window is completed, those of the final evaluation after a
full bank scan otherwise. -/
theorem step_record (P : Params) (s : State) (x : Sample) (hc : Cleared s)
    (hrun' : (loop_body P s x).status = .running) :
    (¬ (s._ispattern = 1 ∧ s._patterncount - 1 ≤ 0)
      ∧ (process_sample P s x).verdict = (0, -1, 0))
    ∨ ((s._ispattern = 1 ∧ s._patterncount - 1 ≤ 0)
      ∧ (match_bank P (run_transform P (window_state P s x))).status = .running
      ∧ (P._matches_evaluation_logic = 0 ∨ P._matches_evaluation_logic = 1
        ∨ P._matches_evaluation_logic = 2 ∨ P._matches_evaluation_logic = 3
        ∨ P._matches_evaluation_logic = 4)
      ∧ (process_sample P s x).verdict
        = (final_evaluation P (match_bank P (run_transform P (window_state P s x)))).verdict) := by
  have hrun := running_before P s x hrun'
  have hv := step_verdict P s x hrun
  by_cases hw : s._ispattern = 1 ∧ s._patterncount - 1 ≤ 0
  · right
    rw [if_pos hw] at hv
    have hst := step_status P s x hrun hw.1 hw.2
    rw [process_sample_status, hrun'] at hst
    obtain ⟨hm, hR⟩ := pattern_end_running_inv P _ hst.symm
    exact ⟨hw, hm, hR, by rw [hv, pattern_end_verdict P _ hm]⟩
  · left
    rw [if_neg hw] at hv
    exact ⟨hw, by rw [hv]; exact hc hrun⟩

/-- C24. For every configuration, every bank and every list of samples, each
output line of the run has `contivalue` between 0 and 1 and `matchdistance`
either `−1` or between 0 and 1. -/
theorem output_ranges (P : Params) (xs : List Sample) (r : Record)
    (hr : r ∈ records P (init P) xs) :
    (0 ≤ r.contivalue ∧ r.contivalue ≤ 1)
    ∧ (r.matchdistance = -1 ∨ (0 ≤ r.matchdistance ∧ r.matchdistance ≤ 1)) := by
  obtain ⟨pre, x, hrun', rfl⟩ := mem_records_reach P xs r hr
  rcases step_record P _ x (cleared_reachable P pre) hrun' with ⟨_, hv⟩ | ⟨_, _, _, hv⟩
  · simp only [State.verdict, Prod.mk.injEq] at hv
    obtain ⟨_, v2, v3⟩ := hv
    refine ⟨?_, Or.inl v2⟩
    show 0 ≤ (process_sample P _ x)._contivalue ∧ (process_sample P _ x)._contivalue ≤ 1
    rw [v3]
    exact ⟨le_refl _, zero_le_one⟩
  · have hf := final_evaluation_range P _ (match_bank_range P
      (run_transform P (window_state P (main_loop P (init P) pre) x))).1
    simp only [State.verdict, Prod.mk.injEq] at hv
    obtain ⟨_, v2, v3⟩ := hv
    refine ⟨?_, ?_⟩
    · show 0 ≤ (process_sample P _ x)._contivalue ∧ (process_sample P _ x)._contivalue ≤ 1
      rw [v3]; exact hf.1
    · show (process_sample P _ x)._matchdistance_out = -1
        ∨ (0 ≤ (process_sample P _ x)._matchdistance_out
          ∧ (process_sample P _ x)._matchdistance_out ≤ 1)
      rw [v2]; exact hf.2.1

theorem output_ranges_witness :
    (0 ≤ example_match_line.contivalue ∧ example_match_line.contivalue ≤ 1)
    ∧ (example_match_line.matchdistance = -1
      ∨ (0 ≤ example_match_line.matchdistance ∧ example_match_line.matchdistance ≤ 1)) :=
  output_ranges (example_matcher 1) example_window example_match_line (by decide!)

/-- C25 as stated fails.  Under logic 0 the output line of the window end of
`example_window` carries the match flag together with `matchdistance = −1`. -/
theorem no_match_value_counterexample :
    example_params._matches_evaluation_logic = 0
    ∧ (records example_params (init example_params) example_window)[9]?
      = some example_plain_line
    ∧ example_plain_line.isfinalmatch = 1
    ∧ example_plain_line.matchdistance = -1 := by
  decide!

/-- C25, amended. For every configuration and every output line of a run
that carries the match flag: `contivalue` is not `−1`; under the logics other
than 0 `matchdistance` lies between 0 and 1 and so is not `−1`; under logic 0
`matchdistance` is `−1` and `contivalue` is 1. -/
theorem no_match_value (P : Params) (xs : List Sample) (r : Record)
    (hr : r ∈ records P (init P) xs) (hm : r.isfinalmatch = 1) :
    r.contivalue ≠ -1
    ∧ (P._matches_evaluation_logic ≠ 0 →
      0 ≤ r.matchdistance ∧ r.matchdistance ≤ 1 ∧ r.matchdistance ≠ -1)
    ∧ (P._matches_evaluation_logic = 0 → r.matchdistance = -1 ∧ r.contivalue = 1) := by
  obtain ⟨pre, x, hrun', rfl⟩ := mem_records_reach P xs r hr
  have hm' : (process_sample P (main_loop P (init P) pre) x)._ismatch = 1 := hm
  rcases step_record P _ x (cleared_reachable P pre) hrun' with ⟨_, hv⟩ | ⟨_, _, _, hv⟩
  · simp only [State.verdict, Prod.mk.injEq] at hv
    rw [hv.1] at hm'
    exact absurd hm' (by decide)
  · have hf := final_evaluation_range P _ (match_bank_range P
      (run_transform P (window_state P (main_loop P (init P) pre) x))).1
    have hv0 := hv
    simp only [State.verdict, Prod.mk.injEq] at hv
    obtain ⟨v1, v2, v3⟩ := hv
    obtain ⟨f1, _, _, f4, _, f6⟩ := hf
    refine ⟨?_, ?_, ?_⟩
    · show (process_sample P _ x)._contivalue ≠ -1
      rw [v3]; intro h; rw [h] at f1; linarith [f1.1]
    · intro hR
      show 0 ≤ (process_sample P _ x)._matchdistance_out
        ∧ (process_sample P _ x)._matchdistance_out ≤ 1
        ∧ (process_sample P _ x)._matchdistance_out ≠ -1
      rw [v2]
      have h4 := f4 (by rw [← v1]; exact hm') hR
      exact ⟨h4.1, h4.2, by intro h; rw [h] at h4; linarith [h4.1]⟩
    · intro hR
      have h6 := f6 hR
      rw [← hv0] at h6
      simp only [State.verdict, Prod.mk.injEq] at h6
      exact ⟨h6.2.1, h6.2.2⟩

theorem no_match_value_witness :
    0 ≤ example_match_line.matchdistance ∧ example_match_line.matchdistance ≤ 1
      ∧ example_match_line.matchdistance ≠ -1 :=
  (no_match_value (example_matcher 1) example_window example_match_line (by decide!)
    (by decide)).2.1 (by decide)

theorem window_state_status (P : Params) (s : State) (x : Sample) :
    (window_state P s x).status = s.status := rfl

theorem least_singleton (d : ℚ) (h : d ≤ 1) : least [d] = d := by
  unfold least
  simp only [List.foldl_cons, List.foldl_nil]
  exact min_eq_right h

theorem up_to_first_hit_sublist (thr : ℚ) (ds : List ℚ) :
    ∀ d ∈ up_to_first_hit thr ds, d ∈ ds := by
  induction ds with
  | nil => simp [up_to_first_hit]
  | cons e ds ih =>
    unfold up_to_first_hit
    split_ifs
    · intro d hd
      rw [List.mem_singleton] at hd
      rw [hd]; exact List.mem_cons_self _ _
    · intro d hd
      rcases List.mem_cons.mp hd with h | h
      · rw [h]; exact List.mem_cons_self _ _
      · exact List.mem_cons_of_mem _ (ih d h)

theorem up_to_first_hit_ne_nil (thr : ℚ) (ds : List ℚ) (h : ds ≠ []) :
    up_to_first_hit thr ds ≠ [] := by
  cases ds with
  | nil => exact absurd rfl h
  | cons e ds =>
    unfold up_to_first_hit
    split_ifs <;> simp

/-- C21 as stated fails.  Under logic 2 the window of `example_window` hits
the first positive fingerprint of `example_known` at distance `1/1581` and
the scan stops there; the output line has `matchdistance = 1/1581`, while the
minimum over the positive fingerprints of the bank is 0. -/
theorem known_positive_counterexample :
    example_known._matches_evaluation_logic = 2
    ∧ (records example_known (init example_known) example_window)[9]?
      = some example_known_line
    ∧ example_known_line.isfinalmatch = 1
    ∧ example_known_line.matchdistance = 1 / 1581
    ∧ positive_distances example_known example_known._fngpts
        (window_coefficients example_known example_window 9 (sample_at 9 1000)) = [1 / 1581, 0]
    ∧ least (positive_distances example_known example_known._fngpts
        (window_coefficients example_known example_window 9 (sample_at 9 1000))) = 0
    ∧ example_known_line.matchdistance
      ≠ least (positive_distances example_known example_known._fngpts
        (window_coefficients example_known example_window 9 (sample_at 9 1000))) := by
  decide!

/-- C21, amended. Under logic 2, for every run and every output line of a
step that completes a window, with a bank none of whose positive
fingerprints is read outside its values and in which some positive
fingerprint is within the threshold: the line has `isfinalmatch = 1`,
`matchdistance` is the minimum of the distances to the positive
fingerprints up to and including the first one within the threshold, in
bank order, and `contivalue = 1 − matchdistance`; that minimum is one of
those distances, and for a bank with a single positive fingerprint it is
the distance to that fingerprint. -/
theorem known_positive (P : Params) (xs : List Sample) (j : Nat) (x : Sample) (r : Record)
    (hx : xs[j]? = some x) (hr : (records P (init P) xs)[j]? = some r)
    (hw : completes_window P xs j) (hR : P._matches_evaluation_logic = 2)
    (hb : ∀ fp ∈ P._fngpts, is_positive fp = true →
      positive_distance P (window_coefficients P xs j x) fp ≠ .oob)
    (hit : ∃ d ∈ positive_distances P P._fngpts (window_coefficients P xs j x),
      d ≤ P._matching_distance_positives_max) :
    r.isfinalmatch = 1
    ∧ r.matchdistance = least (up_to_first_hit P._matching_distance_positives_max
        (positive_distances P P._fngpts (window_coefficients P xs j x)))
    ∧ r.contivalue = 1 - r.matchdistance
    ∧ r.matchdistance ∈ up_to_first_hit P._matching_distance_positives_max
        (positive_distances P P._fngpts (window_coefficients P xs j x))
    ∧ (∀ d ∈ up_to_first_hit P._matching_distance_positives_max
        (positive_distances P P._fngpts (window_coefficients P xs j x)), r.matchdistance ≤ d)
    ∧ (∀ d : ℚ, positive_distances P P._fngpts (window_coefficients P xs j x) = [d] →
      r.matchdistance = d ∧ r.contivalue = 1 - d) := by
  obtain ⟨y, hy, hrun, hry⟩ := records_get P xs (init P) j r hr
  rw [hx, Option.some.injEq] at hy
  subst hy
  have hrunj := running_take P xs (init P) j (j + 1) (by omega) hrun
  have hv := step_verdict P (main_loop P (init P) (xs.take j)) x hrunj
  have hw' : (main_loop P (init P) (xs.take j))._ispattern = 1
      ∧ (main_loop P (init P) (xs.take j))._patterncount - 1 ≤ 0 := hw
  have hwc : coefficients P (window_state P (main_loop P (init P) (xs.take j)) x)
      = window_coefficients P xs j x := rfl
  rw [if_pos hw', policy24_verdict P (window_state P _ x) hrunj (Or.inl hR) hb, hwc,
    if_pos ((hits_ne_zero _ _).mpr hit), if_pos ((hits_ne_zero _ _).mpr hit)] at hv
  have hsc : scanned P._matches_evaluation_logic P._matching_distance_positives_max
        (positive_distances P P._fngpts (window_coefficients P xs j x))
      = up_to_first_hit P._matching_distance_positives_max
        (positive_distances P P._fngpts (window_coefficients P xs j x)) := by
    unfold scanned; rw [if_pos (Or.inl hR)]
  have hv' : (r.isfinalmatch, r.matchdistance, r.contivalue)
      = (1, least (up_to_first_hit P._matching_distance_positives_max
          (positive_distances P P._fngpts (window_coefficients P xs j x))),
        1 - least (up_to_first_hit P._matching_distance_positives_max
          (positive_distances P P._fngpts (window_coefficients P xs j x)))) := by
    rw [hry, ← hsc]; exact hv
  simp only [Prod.mk.injEq] at hv'
  obtain ⟨v1, v2, v3⟩ := hv'
  have hne : positive_distances P P._fngpts (window_coefficients P xs j x) ≠ [] := by
    obtain ⟨d, hd, _⟩ := hit
    exact List.ne_nil_of_mem hd
  have hrange : ∀ d ∈ up_to_first_hit P._matching_distance_positives_max
      (positive_distances P P._fngpts (window_coefficients P xs j x)), d ≤ 1 :=
    fun d hd => (positive_distances_range P _ _ d (up_to_first_hit_sublist _ _ d hd)).2
  refine ⟨v1, v2, by rw [v3, v2], ?_, ?_, ?_⟩
  · rw [v2]
    exact least_mem _ hrange (up_to_first_hit_ne_nil _ _ hne)
  · rw [v2]
    exact least_le _
  · intro d hd
    have hd1 : d ≤ 1 := (positive_distances_range P P._fngpts
      (window_coefficients P xs j x) d (by rw [hd]; exact List.mem_singleton_self d)).2
    have hu : up_to_first_hit P._matching_distance_positives_max [d] = [d] := by
      unfold up_to_first_hit
      split_ifs
      · rfl
      · rfl
    have hm : r.matchdistance = d := by
      rw [v2, hd, hu, least_singleton d hd1]
    exact ⟨hm, by rw [v3, ← v2, hm]⟩

theorem known_positive_witness :
    example_known_line.isfinalmatch = 1
    ∧ example_known_line.matchdistance
      = least (up_to_first_hit example_known._matching_distance_positives_max
        (positive_distances example_known example_known._fngpts
          (window_coefficients example_known example_window 9 (sample_at 9 1000))))
    ∧ example_known_line.contivalue = 1 - example_known_line.matchdistance :=
  have h := known_positive example_known example_window 9 (sample_at 9 1000)
    example_known_line (by decide!) (by decide!) (by unfold completes_window; decide!) rfl
    (by decide!) (by decide!)
  ⟨h.1, h.2.1, h.2.2.1⟩

/-! ### Logic 0 -/

theorem match_bank_none (P : Params) (s : State) (hR : P._matches_evaluation_logic = 0) :
    match_bank P s = clear_counts s := by
  have h1 : ¬ (P._matches_evaluation_logic = 2 ∨ P._matches_evaluation_logic = 3
      ∨ P._matches_evaluation_logic = 4) := by omega
  have h2 : ¬ (P._matches_evaluation_logic = 1 ∨ P._matches_evaluation_logic = 3) := by omega
  unfold match_bank evaluate_positives evaluate_negatives and_then
  simp only [if_neg h1, if_neg h2, ite_self]

/-- Under logic 0 the window end does not look at the bank. -/
theorem pattern_end_bank (P : Params) (bank : List Fingerprint) (s : State)
    (hR : P._matches_evaluation_logic = 0) :
    pattern_end { P with _fngpts := bank } s = pattern_end P s := by
  unfold pattern_end
  rw [match_bank_none P _ hR, match_bank_none { P with _fngpts := bank } _ hR]
  rfl

theorem process_sample_bank (P : Params) (bank : List Fingerprint) (s : State) (x : Sample)
    (hR : P._matches_evaluation_logic = 0) :
    process_sample { P with _fngpts := bank } s x = process_sample P s x := by
  have he : ∀ t : State, pattern_evaluation { P with _fngpts := bank } t
      = pattern_evaluation P t := by
    intro t
    unfold pattern_evaluation
    have hp : push_sample { P with _fngpts := bank } t = push_sample P t := rfl
    rw [hp, pattern_end_bank P bank _ hR]
  unfold process_sample
  simp only [he]
  rfl

theorem records_bank (P : Params) (bank : List Fingerprint) (xs : List Sample) (s : State)
    (hR : P._matches_evaluation_logic = 0) :
    records { P with _fngpts := bank } s xs = records P s xs := by
  induction xs generalizing s with
  | nil => rfl
  | cons x xs ih =>
    unfold records
    rw [process_sample_bank P bank s x hR, ih]
    rfl

theorem and_then_counts (s : State) (f : State → State)
    (hf : ∀ t, (f t).counts = t.counts) : (and_then s f).counts = s.counts := by
  unfold and_then
  split_ifs
  · rfl
  · exact hf s

theorem pattern_end_counts (P : Params) (s : State) (hR : P._matches_evaluation_logic = 0) :
    (pattern_end P s).counts = (0, 0) := by
  unfold pattern_end
  rw [match_bank_none P _ hR, and_then_counts _ clear_pattern (fun t => rfl),
    and_then_counts _ (generate_fingerprint P)
      (fun t => by unfold generate_fingerprint; split_ifs <;> rfl),
    and_then_counts _ (final_evaluation P)
      (fun t => by unfold final_evaluation; rw [if_pos hR]; rfl)]
  rfl

/-- Under logic 0 a step leaves the counters of computed distances as they
are or at zero. -/
theorem loop_body_counts (P : Params) (s : State) (x : Sample)
    (hR : P._matches_evaluation_logic = 0) :
    (loop_body P s x).counts = s.counts ∨ (loop_body P s x).counts = (0, 0) := by
  have he : (pattern_evaluation P (read_sample s x)).counts = s.counts
      ∨ (pattern_evaluation P (read_sample s x)).counts = (0, 0) := by
    unfold pattern_evaluation
    split_ifs
    · right; exact pattern_end_counts P _ hR
    · left; rfl
    · left; rfl
  have hf : ∀ e : State,
      (set_output P (amend_diffavg P (wait_detector P e))).counts = e.counts := by
    intro e
    unfold set_output amend_diffavg wait_detector
    split_ifs <;> rfl
  have hp : (process_sample P s x).counts = s.counts
      ∨ (process_sample P s x).counts = (0, 0) := by
    unfold process_sample and_then
    simp only []
    split_ifs
    · left; rfl
    · exact he
    · rw [hf]; exact he
  unfold loop_body
  rw [and_then_counts _ reset_match (fun t => rfl)]
  exact hp

theorem main_loop_counts (P : Params) (xs : List Sample) (s : State)
    (hR : P._matches_evaluation_logic = 0) (h : s.counts = (0, 0)) :
    (main_loop P s xs).counts = (0, 0) := by
  induction xs generalizing s with
  | nil => exact h
  | cons x xs ih =>
    rw [main_loop_cons]
    apply ih
    rcases loop_body_counts P s x hR with h1 | h1
    · rw [h1, h]
    · exact h1

/-- C22. Under logic 0, for every bank and every list of samples
(`fingerprint_length ≥ 1`): an output line has `isfinalmatch = 1` exactly
when the output line `fingerprint_length` lines earlier carries the alarm
flag, that is when its sample completes a window; such a line has
`contivalue = 1` (and `matchdistance = −1`), every other line has
`isfinalmatch = 0`; the output lines are the same for every bank, and no
distance is computed in the run. -/
theorem policy_none (P : Params) (hR : P._matches_evaluation_logic = 0)
    (hL : 1 ≤ P._fingerprint_length) (xs : List Sample) (j : Nat) (r : Record)
    (hr : (records P (init P) xs)[j]? = some r) :
    (r.isfinalmatch = 1 ↔
        ∃ (i : Nat) (ri : Record), (i : Int) + P._fingerprint_length = j
          ∧ (records P (init P) xs)[i]? = some ri ∧ ri.isalarm = 1)
    ∧ (r.isfinalmatch = 1 ↔ completes_window P xs j)
    ∧ (r.isfinalmatch = 0 ∨ r.isfinalmatch = 1)
    ∧ (r.isfinalmatch = 1 → r.contivalue = 1 ∧ r.matchdistance = -1)
    ∧ (∀ bank : List Fingerprint,
        records { P with _fngpts := bank } (init { P with _fngpts := bank }) xs
          = records P (init P) xs)
    ∧ (main_loop P (init P) xs)._pos_count = 0 ∧ (main_loop P (init P) xs)._neg_count = 0 := by
  have hiff := completes_window_iff P hL xs j r hr
  obtain ⟨x, hx, hrun, hrx⟩ := records_get P xs (init P) j r hr
  have hrun' := hrun
  rw [take_succ_snoc xs j x hx, main_loop_snoc] at hrun'
  have hcases := step_record P _ x (cleared_reachable P (xs.take j)) hrun'
  have hv : (r.isfinalmatch, r.matchdistance, r.contivalue)
      = (process_sample P (main_loop P (init P) (xs.take j)) x).verdict := by
    rw [hrx]; rfl
  have hkey : (¬ completes_window P xs j ∧ r.isfinalmatch = 0)
      ∨ (completes_window P xs j ∧ r.isfinalmatch = 1 ∧ r.matchdistance = -1
        ∧ r.contivalue = 1) := by
    rcases hcases with ⟨c1, c2⟩ | ⟨c1, _, _, c4⟩
    · left
      rw [c2, Prod.mk.injEq] at hv
      exact ⟨c1, hv.1⟩
    · right
      have hf := (final_evaluation_range P _ (match_bank_range P
        (run_transform P (window_state P (main_loop P (init P) (xs.take j)) x))).1).2.2.2.2.2 hR
      rw [c4, hf] at hv
      simp only [Prod.mk.injEq] at hv
      exact ⟨c1, hv.1, hv.2.1, hv.2.2⟩
  have hcw : r.isfinalmatch = 1 ↔ completes_window P xs j := by
    rcases hkey with ⟨k1, k2⟩ | ⟨k1, k2, _⟩
    · rw [k2]; exact ⟨fun h => absurd h (by decide), fun h => absurd h k1⟩
    · exact ⟨fun _ => k1, fun _ => k2⟩
  have hc := main_loop_counts P xs (init P) hR rfl
  simp only [State.counts, Prod.mk.injEq] at hc
  refine ⟨hcw.trans hiff, hcw, ?_, ?_, fun bank => records_bank P bank xs _ hR, hc.1, hc.2⟩
  · rcases hkey with ⟨_, k2⟩ | ⟨_, k2, _⟩
    · exact Or.inl k2
    · exact Or.inr k2
  · intro h
    rcases hkey with ⟨_, k2⟩ | ⟨_, _, k3, k4⟩
    · rw [k2] at h; exact absurd h (by decide)
    · exact ⟨k4, k3⟩

theorem policy_none_witness :
    (records example_params (init example_params) example_window)[9]?
      = some example_plain_line
    ∧ (records example_params (init example_params) example_window)[1]?
      = some example_first_alarm
    ∧ (example_plain_line.isfinalmatch = 1 ↔
        ∃ (i : Nat) (ri : Record), (i : Int) + example_params._fingerprint_length = (9 : Nat)
          ∧ (records example_params (init example_params) example_window)[i]? = some ri
          ∧ ri.isalarm = 1) :=
  ⟨by decide!, by decide!,
    (policy_none example_params rfl (by decide) example_window 9 example_plain_line
      (by decide!)).1⟩

/-! ### The empty bank -/

/-- The tallies after the scan of an empty bank. -/
theorem empty_bank_tally (P : Params) (s : State) (hs : s.status = .running)
    (hb : P._fngpts = []) :
    (match_bank P (run_transform P s)).tally = ⟨.running, coefficients P s, 0, 0, 1, 1⟩ := by
  have h := match_bank_tally P s hs
    (fun _ fp hfp => by rw [hb] at hfp; simp at hfp)
    (fun _ fp hfp => by rw [hb] at hfp; simp at hfp)
  rw [h, hb]
  simp [positive_distances, negative_distances, numbers, scanned, up_to_first_hit, hits,
    least]

theorem pattern_end_running_plain (P : Params) (s : State)
    (hm : (match_bank P (run_transform P s)).status = .running)
    (hR : P._matches_evaluation_logic = 0 ∨ P._matches_evaluation_logic = 1
      ∨ P._matches_evaluation_logic = 2 ∨ P._matches_evaluation_logic = 3
      ∨ P._matches_evaluation_logic = 4)
    (hg : P._generate_fingerprints = 0) :
    (pattern_end P s).status = .running := by
  have hst := final_evaluation_status P (match_bank P (run_transform P s)) hR
  rw [hm] at hst
  unfold pattern_end
  generalize match_bank P (run_transform P s) = m at hm hst ⊢
  have h1 : and_then m (final_evaluation P) = final_evaluation P m := by
    unfold and_then; rw [if_neg (by rw [hm]; simp)]
  rw [h1]
  generalize final_evaluation P m = f at hst ⊢
  have h2 : and_then f (generate_fingerprint P) = f := by
    unfold and_then generate_fingerprint
    rw [if_neg (by rw [hst]; simp), if_neg (by omega)]
  rw [h2]
  unfold and_then
  rw [if_neg (by rw [hst]; simp)]
  exact hst

/-- The status after a step from a running state is that of the collector
step. -/
theorem loop_body_status (P : Params) (s : State) (x : Sample) (h : s.status = .running) :
    (loop_body P s x).status = (pattern_evaluation P (read_sample s x)).status := by
  by_cases he : (pattern_evaluation P (read_sample s x)).status = .running
  · rw [loop_body_finish P s x h he, (finish_common P _).1]
  · rw [loop_body_halts P s x h he]

/-- With an empty bank, a logic from 0 to 4 and no fingerprint files to
write, a running process keeps running. -/
theorem empty_bank_step (P : Params) (hb : P._fngpts = [])
    (hR : P._matches_evaluation_logic = 0 ∨ P._matches_evaluation_logic = 1
      ∨ P._matches_evaluation_logic = 2 ∨ P._matches_evaluation_logic = 3
      ∨ P._matches_evaluation_logic = 4)
    (hg : P._generate_fingerprints = 0) (s : State) (x : Sample)
    (h : s.status = .running) : (loop_body P s x).status = .running := by
  rw [loop_body_status P s x h]
  by_cases hw : (read_sample s x)._ispattern = 1 ∧ (read_sample s x)._patterncount - 1 ≤ 0
  · rw [pattern_evaluation_end P _ hw.1 hw.2]
    have ht := empty_bank_tally P (push_sample P (read_sample s x)) h hb
    exact pattern_end_running_plain P _ (congrArg Tally.status ht) hR hg
  · rw [pattern_evaluation_status P _ hw]
    exact h

theorem empty_bank_runs (P : Params) (hb : P._fngpts = [])
    (hR : P._matches_evaluation_logic = 0 ∨ P._matches_evaluation_logic = 1
      ∨ P._matches_evaluation_logic = 2 ∨ P._matches_evaluation_logic = 3
      ∨ P._matches_evaluation_logic = 4)
    (hg : P._generate_fingerprints = 0) (xs : List Sample) (s : State)
    (h : s.status = .running) : (main_loop P s xs).status = .running := by
  induction xs generalizing s with
  | nil => exact h
  | cons x xs ih => exact ih _ (empty_bank_step P hb hR hg s x h)

/-- A run that is still running has given one output line per sample. -/
theorem records_length (P : Params) (xs : List Sample) (s : State)
    (h : (main_loop P s xs).status = .running) : (records P s xs).length = xs.length := by
  induction xs generalizing s with
  | nil => rfl
  | cons x xs ih =>
    rw [main_loop_cons] at h
    have hrun' := running_before_loop P _ _ h
    rw [records_cons]
    simp only [ne_eq, hrun', not_true_eq_false, if_false, List.length_cons]
    rw [ih _ h]

/-- The three results of the final evaluation after the scan of an empty
bank. -/
theorem empty_bank_verdict (P : Params) (s : State) (hs : s.status = .running)
    (hb : P._fngpts = []) :
    (P._matches_evaluation_logic = 2 ∨ P._matches_evaluation_logic = 3
        ∨ P._matches_evaluation_logic = 4 →
      (final_evaluation P (match_bank P (run_transform P s))).verdict = (0, -1, 0))
    ∧ (P._matches_evaluation_logic = 1 →
      (final_evaluation P (match_bank P (run_transform P s))).verdict = (1, 1, 1))
    ∧ (P._matches_evaluation_logic = 0 →
      (final_evaluation P (match_bank P (run_transform P s))).verdict = (1, -1, 1)) := by
  have ht := empty_bank_tally P s hs hb
  simp only [State.tally, Tally.mk.injEq] at ht
  obtain ⟨_, _, t3, t4, t5, t6⟩ := ht
  refine ⟨?_, ?_, ?_⟩
  · rintro (hR | hR | hR)
    · rw [final_evaluation_verdict24 P _ (Or.inl hR), t3, t5]; norm_num
    · rw [final_evaluation_verdict3 P _ hR, t3, t4, t5, t6]; norm_num
    · rw [final_evaluation_verdict24 P _ (Or.inr hR), t3, t5]; norm_num
  · intro hR
    rw [final_evaluation_verdict1 P _ hR, t4, t6]; norm_num
  · intro hR
    exact (final_evaluation_range P _ (match_bank_range P _).1).2.2.2.2.2 hR

/-- C23 as stated fails.  Under the default logic 1 with an empty bank
(`fingerprint_length = 8`) the window of `example_window` is completed, and
its output line carries a match with `contivalue = 1`. -/
theorem empty_bank_counterexample :
    example_default_logic._fngpts = []
    ∧ example_default_logic._matches_evaluation_logic = 1
    ∧ example_default_logic._fingerprint_length = 8
    ∧ (records example_default_logic (init example_default_logic) example_window)[9]?
      = some example_default_line
    ∧ example_default_line.isfinalmatch = 1
    ∧ example_default_line.contivalue = 1 := by
  decide!

/-- C23, amended. With an empty bank, a logic from 0 to 4, no fingerprint
files to write and `fingerprint_length ≥ 1`, the run never stops and gives
one output line per sample; a window is completed exactly
`fingerprint_length` lines after each line that carries the alarm flag; and
the line of a completed window is a non-match with `contivalue = 0` under
the logics 2, 3 and 4, but a match with `contivalue = 1` under the logics 0
and 1. -/
theorem empty_bank (P : Params) (hb : P._fngpts = []) (hL : 1 ≤ P._fingerprint_length)
    (hR : 0 ≤ P._matches_evaluation_logic ∧ P._matches_evaluation_logic ≤ 4)
    (hg : P._generate_fingerprints = 0) (xs : List Sample) :
    (main_loop P (init P) xs).status = .running
    ∧ (records P (init P) xs).length = xs.length
    ∧ ∀ (j : Nat) (r : Record), (records P (init P) xs)[j]? = some r →
      (completes_window P xs j ↔
        ∃ (i : Nat) (ri : Record), (i : Int) + P._fingerprint_length = j
          ∧ (records P (init P) xs)[i]? = some ri ∧ ri.isalarm = 1)
      ∧ (¬ completes_window P xs j →
        r.isfinalmatch = 0 ∧ r.contivalue = 0 ∧ r.matchdistance = -1)
      ∧ (completes_window P xs j →
        (P._matches_evaluation_logic = 2 ∨ P._matches_evaluation_logic = 3
            ∨ P._matches_evaluation_logic = 4 →
          r.isfinalmatch = 0 ∧ r.contivalue = 0 ∧ r.matchdistance = -1)
        ∧ (P._matches_evaluation_logic = 1 →
          r.isfinalmatch = 1 ∧ r.contivalue = 1 ∧ r.matchdistance = 1)
        ∧ (P._matches_evaluation_logic = 0 →
          r.isfinalmatch = 1 ∧ r.contivalue = 1 ∧ r.matchdistance = -1)) := by
  have hR' : P._matches_evaluation_logic = 0 ∨ P._matches_evaluation_logic = 1
      ∨ P._matches_evaluation_logic = 2 ∨ P._matches_evaluation_logic = 3
      ∨ P._matches_evaluation_logic = 4 := by omega
  have hrun := empty_bank_runs P hb hR' hg xs (init P) rfl
  refine ⟨hrun, records_length P xs _ hrun, ?_⟩
  intro j r hr
  obtain ⟨x, hx, hrunj1, hrx⟩ := records_get P xs (init P) j r hr
  have hrun' := hrunj1
  rw [take_succ_snoc xs j x hx, main_loop_snoc] at hrun'
  have hrunj := running_before P _ x hrun'
  have hv : (r.isfinalmatch, r.matchdistance, r.contivalue)
      = (process_sample P (main_loop P (init P) (xs.take j)) x).verdict := by
    rw [hrx]; rfl
  refine ⟨completes_window_iff P hL xs j r hr, ?_, ?_⟩
  · intro hn
    rcases step_record P _ x (cleared_reachable P (xs.take j)) hrun' with ⟨_, c2⟩ | ⟨c1, _⟩
    · rw [c2, Prod.mk.injEq, Prod.mk.injEq] at hv
      exact ⟨hv.1, hv.2.2, hv.2.1⟩
    · exact absurd c1 hn
  · intro hw
    rcases step_record P _ x (cleared_reachable P (xs.take j)) hrun' with ⟨c1, _⟩ | ⟨_, _, _, c4⟩
    · exact absurd hw c1
    · obtain ⟨e1, e2, e3⟩ := empty_bank_verdict P
        (window_state P (main_loop P (init P) (xs.take j)) x) hrunj hb
      rw [c4] at hv
      refine ⟨fun h => ?_, fun h => ?_, fun h => ?_⟩
      · rw [e1 h, Prod.mk.injEq, Prod.mk.injEq] at hv
        exact ⟨hv.1, hv.2.2, hv.2.1⟩
      · rw [e2 h, Prod.mk.injEq, Prod.mk.injEq] at hv
        exact ⟨hv.1, hv.2.2, hv.2.1⟩
      · rw [e3 h, Prod.mk.injEq, Prod.mk.injEq] at hv
        exact ⟨hv.1, hv.2.2, hv.2.1⟩

theorem empty_bank_witness :
    (records example_positive_logic (init example_positive_logic) example_window).length
      = example_window.length
    ∧ (records example_positive_logic (init example_positive_logic) example_window)[9]?
      = some example_positive_line
    ∧ (completes_window example_positive_logic example_window 9 →
        (example_positive_logic._matches_evaluation_logic = 2
            ∨ example_positive_logic._matches_evaluation_logic = 3
            ∨ example_positive_logic._matches_evaluation_logic = 4 →
          example_positive_line.isfinalmatch = 0 ∧ example_positive_line.contivalue = 0
            ∧ example_positive_line.matchdistance = -1)
        ∧ (example_positive_logic._matches_evaluation_logic = 1 →
          example_positive_line.isfinalmatch = 1 ∧ example_positive_line.contivalue = 1
            ∧ example_positive_line.matchdistance = 1)
        ∧ (example_positive_logic._matches_evaluation_logic = 0 →
          example_positive_line.isfinalmatch = 1 ∧ example_positive_line.contivalue = 1
            ∧ example_positive_line.matchdistance = -1)) :=
  have h := empty_bank example_positive_logic rfl (by decide) (by decide) rfl example_window
  ⟨h.2.1, by decide!, ((h.2.2 9 example_positive_line (by decide!)).2.2)⟩

/-! ### More fields of the output line -/

theorem finish_diffnoabs (P : Params) (e : State) :
    (finish_sample P e)._diffnoabs = e._diffnoabs ∧ (finish_sample P e)._curval = e._curval := by
  unfold finish_sample reset_match set_output amend_diffavg wait_detector
  split_ifs <;> exact ⟨rfl, rfl⟩

/-- The signed difference after a completed step. -/
theorem step_diffnoabs (P : Params) (s : State) (x : Sample)
    (hrun' : (loop_body P s x).status = .running) :
    (loop_body P s x)._diffnoabs = x.v - prev_value s x := by
  have hrun := running_before P s x hrun'
  have he : (pattern_evaluation P (read_sample s x)).status = .running := by
    rw [← loop_body_status P s x hrun]; exact hrun'
  rw [loop_body_finish P s x hrun he, (finish_diffnoabs P _).1]
  exact (collector_fields P s x).2.2.2.2.2.2.2.2.1

theorem output_record_more (P : Params) (s : State) (x : Sample)
    (h : (loop_body P s x).status = .running) :
    (output_record P (process_sample P s x)).isdetect
      = (if (loop_body P s x)._numthresholded = P._number_of_points_to_alarm then 0 else 1)
    ∧ (output_record P (process_sample P s x)).patternid
      = (if (loop_body P s x)._ispattern ≠ 0 then (loop_body P s x)._patternid else 0)
    ∧ (output_record P (process_sample P s x)).diff = (loop_body P s x)._diffnoabs
    ∧ (output_record P (process_sample P s x)).isfinalmatch = (process_sample P s x)._ismatch := by
  rw [loop_body_eq_reset P s x h]
  simp [output_record, reset_match]

/-! ### Steps below the threshold -/

theorem amended_zero (P : Params) (d : ℚ) : amended P d 0 = d * decay P := by
  unfold amended decay
  rw [add_zero, mul_div_assoc]

theorem decay_range (P : Params) (hN : 2 ≤ P._n_amend_avgdiff) :
    0 < decay P ∧ decay P < 1 := by
  unfold decay
  have h1 : (0 : ℚ) < (P._n_amend_avgdiff : ℚ) := by exact_mod_cast (by omega : 0 < P._n_amend_avgdiff)
  have h2 : (0 : ℚ) < ((P._n_amend_avgdiff - 1 : Int) : ℚ) := by
    exact_mod_cast (by omega : 0 < P._n_amend_avgdiff - 1)
  have h3 : ((P._n_amend_avgdiff - 1 : Int) : ℚ) < (P._n_amend_avgdiff : ℚ) := by
    exact_mod_cast (by omega : P._n_amend_avgdiff - 1 < P._n_amend_avgdiff)
  exact ⟨div_pos h2 h1, (div_lt_one h1).mpr h3⟩

theorem amended_pos (P : Params) (hN : 2 ≤ P._n_amend_avgdiff) (d a : ℚ) (hd : 0 < d)
    (ha : 0 ≤ a) : 0 < amended P d a := by
  unfold amended
  have h1 : (0 : ℚ) < (P._n_amend_avgdiff : ℚ) := by exact_mod_cast (by omega : 0 < P._n_amend_avgdiff)
  have h2 : (0 : ℚ) < ((P._n_amend_avgdiff - 1 : Int) : ℚ) := by
    exact_mod_cast (by omega : 0 < P._n_amend_avgdiff - 1)
  exact div_pos (by positivity) h1

/-- A sample that repeats the previous value, outside the wait state and
with a positive noise floor: the step is completed below the threshold, the
count is reset, the noise floor is scaled by `(N − 1)/N`, and the output
line carries no alarm, no pattern and no match. -/
theorem quiet_step (P : Params) (hM : 0 < P._multiplicator_to_detect) (s : State)
    (x : Sample) (hi : Inv s) (hc : Cleared s) (hrun : s.status = .running)
    (hw : s._iswait ≠ 1) (hd : 0 < s._diffavg) (hx : x.v = prev_value s x) :
    (loop_body P s x).status = .running
    ∧ (loop_body P s x)._iswait = 0
    ∧ (loop_body P s x)._isalarm = 0
    ∧ (loop_body P s x)._ispattern = 0
    ∧ (loop_body P s x)._patternid = s._patternid
    ∧ (loop_body P s x)._numthresholded = P._number_of_points_to_alarm
    ∧ (loop_body P s x)._diffavg = s._diffavg * decay P
    ∧ (loop_body P s x)._lastval = x.v
    ∧ (loop_body P s x)._lineid = s._lineid + 1
    ∧ (output_record P (process_sample P s x)).isalarm = 0
    ∧ (output_record P (process_sample P s x)).iswait = 0
    ∧ (output_record P (process_sample P s x)).patternid = 0
    ∧ (output_record P (process_sample P s x)).isfinalmatch = 0
    ∧ (output_record P (process_sample P s x)).isdetect = 0
    ∧ (output_record P (process_sample P s x)).diff = 0
    ∧ (output_record P (process_sample P s x)).diffavg = s._diffavg * decay P := by
  obtain ⟨n1, n2, n3, n4⟩ := inv_not_waiting hi hw
  have hz : |x.v - prev_value s x| = 0 := by rw [hx, sub_self, abs_zero]
  have hb : |x.v - prev_value s x| < P._multiplicator_to_detect * s._diffavg := by
    rw [hz]; exact mul_pos hM hd
  obtain ⟨hrun', _, _, _⟩ := step_detect_common P s x hrun n4
  obtain ⟨b1, b2, b3, _, b5, b6, _, _⟩ := step_below P s x hrun hw n4 hb
  obtain ⟨_, c2, c3, c4⟩ := step_common P s x hrun hrun'
  rw [if_pos ⟨by rw [b2, n1], b3⟩, hz, amended_zero] at c4
  obtain ⟨f1, f2, _, f4, _⟩ := output_record_fields P s x hrun'
  obtain ⟨g1, g2, g3, g4⟩ := output_record_more P s x hrun'
  have hv := step_verdict P s x hrun
  rw [if_neg (fun h => n4 h.1), hc hrun] at hv
  simp only [State.verdict, Prod.mk.injEq] at hv
  refine ⟨hrun', by rw [b2, n1], by rw [b1, n2], by rw [b6, n3], b5, b3, c4, c3, c2,
    by rw [f1, b1, n2], by rw [f2, b2, n1], ?_, by rw [g4, hv.1], ?_, ?_, by rw [f4, c4]⟩
  · rw [g2, b6, n3]; rfl
  · rw [g1, if_pos b3]
  · rw [g3, step_diffnoabs P s x hrun', hx, sub_self]

/-- A run of samples that all carry the value `v`, from a state outside the
wait state with a positive noise floor whose last value is `v` (or that has
not read a sample yet). -/
theorem quiet_run (P : Params) (hM : 0 < P._multiplicator_to_detect)
    (hN : 2 ≤ P._n_amend_avgdiff) (v : ℚ) (xs : List Sample) (s : State)
    (hv : ∀ x ∈ xs, x.v = v) (hi : Inv s) (hc : Cleared s) (hrun : s.status = .running)
    (hw : s._iswait ≠ 1) (hd : 0 < s._diffavg) (hp : s._lineid = 0 ∨ s._lastval = v) :
    ((main_loop P s xs).status = .running
      ∧ (main_loop P s xs)._iswait ≠ 1
      ∧ (main_loop P s xs)._diffavg = s._diffavg * decay P ^ xs.length
      ∧ (xs ≠ [] → (main_loop P s xs)._lastval = v
        ∧ (main_loop P s xs)._numthresholded = P._number_of_points_to_alarm))
    ∧ ∀ (j : Nat) (r : Record), (records P s xs)[j]? = some r →
      r.isalarm = 0 ∧ r.iswait = 0 ∧ r.patternid = 0 ∧ r.isfinalmatch = 0 ∧ r.isdetect = 0
      ∧ r.diff = 0 ∧ r.diffavg = s._diffavg * decay P ^ (j + 1) := by
  induction xs generalizing s with
  | nil =>
    refine ⟨⟨hrun, hw, by simp [main_loop], fun h => absurd rfl h⟩, ?_⟩
    intro j r hr
    simp [records] at hr
  | cons x xs ih =>
    have hxv : x.v = v := hv x (List.mem_cons_self _ _)
    have hx : x.v = prev_value s x := by
      unfold prev_value
      split_ifs
      · rfl
      · rcases hp with h | h
        · contradiction
        · rw [h, hxv]
    obtain ⟨q1, q2, q3, q4, q5, q6, q7, q8, q9, r1, r2, r3, r4, r5, r6, r7⟩ :=
      quiet_step P hM s x hi hc hrun hw hd hx
    have hd' : 0 < (loop_body P s x)._diffavg := by
      rw [q7]; exact mul_pos hd (decay_range P hN).1
    obtain ⟨⟨i1, i2, i3, i4⟩, i5⟩ := ih (loop_body P s x)
      (fun y hy => hv y (List.mem_cons_of_mem _ hy)) (inv_loop_body P s x hi)
      (cleared_loop_body P s x) q1 (by rw [q2]; decide) hd' (Or.inr (by rw [q8, hxv]))
    refine ⟨⟨by rw [main_loop_cons]; exact i1, by rw [main_loop_cons]; exact i2, ?_, ?_⟩, ?_⟩
    · rw [main_loop_cons, i3, q7, List.length_cons, pow_succ]; ring
    · intro _
      rw [main_loop_cons]
      cases xs with
      | nil => exact ⟨by rw [main_loop_nil, q8, hxv], by rw [main_loop_nil, q6]⟩
      | cons y ys => exact i4 (by simp)
    · intro j r hr
      rw [records_cons] at hr
      simp only [ne_eq, q1, not_true_eq_false, if_false] at hr
      cases j with
      | zero =>
        simp only [List.getElem?_cons_zero, Option.some.injEq] at hr
        subst hr
        exact ⟨r1, r2, r3, r4, r5, r6, by rw [r7]; ring⟩
      | succ j =>
        simp only [List.getElem?_cons_succ] at hr
        obtain ⟨k1, k2, k3, k4, k5, k6, k7⟩ := i5 j r hr
        exact ⟨k1, k2, k3, k4, k5, k6, by rw [k7, q7, pow_succ]; ring⟩

/-- C30 as stated fails.  Under `example_params` (`D0 = 10`, `N = 500`) the
output line of the first sample has `diffavg = 499/50`, not `D0`: the line is
written after the amendment of `diffavg`. -/
theorem first_sample_counterexample :
    example_params._initial_avg_diff = 10
    ∧ (records example_params (init example_params) [sample_at 0 100]).map
        (fun r => (r.diff, r.isdetect, r.diffavg)) = [(0, 0, 499 / 50)]
    ∧ (499 / 50 : ℚ) ≠ example_params._initial_avg_diff := by
  decide!

/-- C30, amended. For every configuration with `D0 > 0` and `M > 0` and
every non-empty list of samples, the first output line exists and has
`diff = 0`, `isdetect = 0` and `diffavg = D0·(N − 1)/N`, the noise floor
after its first amendment; for `N ≥ 1` that is less than `D0`. -/
theorem first_sample (P : Params) (hD : 0 < P._initial_avg_diff)
    (hM : 0 < P._multiplicator_to_detect) (x : Sample) (xs : List Sample) :
    ∃ r : Record, (records P (init P) (x :: xs))[0]? = some r
      ∧ r.diff = 0 ∧ r.isdetect = 0
      ∧ r.diffavg = P._initial_avg_diff * ((P._n_amend_avgdiff - 1 : Int) : ℚ)
          / (P._n_amend_avgdiff : ℚ)
      ∧ (1 ≤ P._n_amend_avgdiff → r.diffavg < P._initial_avg_diff) := by
  have hx : x.v = prev_value (init P) x := by simp [prev_value, init]
  obtain ⟨q1, _, _, _, _, _, _, _, _, _, _, _, _, r5, r6, r7⟩ :=
    quiet_step P hM (init P) x (inv_init P) (cleared_init P) rfl (by simp [init]) hD hx
  have hd : (output_record P (process_sample P (init P) x)).diffavg
      = P._initial_avg_diff * ((P._n_amend_avgdiff - 1 : Int) : ℚ)
          / (P._n_amend_avgdiff : ℚ) := by
    rw [r7, decay, mul_div_assoc]; rfl
  refine ⟨output_record P (process_sample P (init P) x), ?_, r6, r5, hd, ?_⟩
  · rw [records_cons]
    simp [q1]
  · intro hN
    rw [hd]
    have h1 : (0 : ℚ) < (P._n_amend_avgdiff : ℚ) := by
      exact_mod_cast (by omega : 0 < P._n_amend_avgdiff)
    rw [div_lt_iff₀ h1]
    have h3 : ((P._n_amend_avgdiff - 1 : Int) : ℚ) < (P._n_amend_avgdiff : ℚ) := by
      exact_mod_cast (by omega : P._n_amend_avgdiff - 1 < P._n_amend_avgdiff)
    exact mul_lt_mul_of_pos_left h3 hD

theorem first_sample_witness :
    ∃ r : Record, (records example_params (init example_params) example_window)[0]? = some r
      ∧ r.diff = 0 ∧ r.isdetect = 0
      ∧ r.diffavg = example_params._initial_avg_diff
          * ((example_params._n_amend_avgdiff - 1 : Int) : ℚ)
          / (example_params._n_amend_avgdiff : ℚ)
      ∧ (1 ≤ example_params._n_amend_avgdiff →
        r.diffavg < example_params._initial_avg_diff) :=
  first_sample example_params (by decide!) (by decide!) (sample_at 0 100)
    ([sample_at 1 1000] ++ [sample_at 2 1000, sample_at 3 1000, sample_at 4 1000,
      sample_at 5 1000, sample_at 6 1000, sample_at 7 1000, sample_at 8 1000,
      sample_at 9 1000])

/-! ### Runs in two parts -/

theorem records_stopped (P : Params) (s : State) (xs : List Sample)
    (h : s.status ≠ .running) : records P s xs = [] := by
  cases xs with
  | nil => rfl
  | cons x xs =>
    rw [records_cons, loop_body_stopped P s x h]
    simp [h]

theorem records_append (P : Params) (xs ys : List Sample) (s : State) :
    records P s (xs ++ ys)
      = records P s xs
        ++ (if (main_loop P s xs).status = .running then records P (main_loop P s xs) ys
            else []) := by
  induction xs generalizing s with
  | nil =>
    by_cases h : s.status = .running
    · simp [records, main_loop, h]
    · simp [records, main_loop, h, records_stopped P s ys h]
  | cons x xs ih =>
    rw [List.cons_append, records_cons, records_cons, main_loop_cons]
    by_cases h : (loop_body P s x).status = .running
    · simp only [ne_eq, h, not_true_eq_false, if_false, List.cons_append]
      rw [ih]
    · have : (main_loop P (loop_body P s x) xs).status ≠ .running := by
        rw [main_loop_stopped P _ xs h]; exact h
      simp [h, this]

theorem main_loop_lineid (P : Params) (xs : List Sample) (s : State)
    (h : (main_loop P s xs).status = .running) :
    (main_loop P s xs)._lineid = s._lineid + xs.length := by
  induction xs generalizing s with
  | nil => simp [main_loop]
  | cons x xs ih =>
    rw [main_loop_cons] at h ⊢
    have hrun' := running_before_loop P _ _ h
    have hrun := running_before P s x hrun'
    rw [ih _ h, (step_common P s x hrun hrun').2.1, List.length_cons]
    push_cast; ring

/-- C28 as stated fails.  Under `A = 3`, `M = 2`, `D0 = 10`, `N = 500` the
stream 100, 100, 100, 1000, 1000, 1000, 1000 raises no alarm: the fourth
sample counts (`isdetect = 1`), the fifth has `Δ = 0` and resets the count,
and the sixth output line has `isalarm = 0`, `iswait = 0`, `patternid = 0`. -/
theorem single_spike_counterexample :
    (records example_params3 (init example_params3) example_spike).map
        (fun r => (r.diff, r.isdetect, r.isalarm, r.iswait, r.patternid))
      = [(0, 0, 0, 0, 0), (0, 0, 0, 0, 0), (0, 0, 0, 0, 0), (900, 1, 0, 0, 0),
          (0, 0, 0, 0, 0), (0, 0, 0, 0, 0), (0, 0, 0, 0, 0)]
    ∧ (main_loop example_params3 (init example_params3) (example_spike.take 4))._numthresholded
      = 2
    ∧ (main_loop example_params3 (init example_params3) (example_spike.take 6))._numthresholded
      = 3 := by
  decide!

/-- C28, amended. Under `A = 3`, `M = 2`, `D0 = 10`, `N = 500`, a stream
of the values 100, 100, 100 followed by any number of samples of 1000 (at
any timestamps) gives one output line per sample and raises no alarm: every
output line has `isalarm = 0`, `iswait = 0`, `patternid = 0` and
`isfinalmatch = 0`.  Three successive rises are needed: on the stream 100,
100, 100, 1000, 1900, 2800 the sixth output line has `isalarm = 1`,
`iswait = 1` and `patternid = 1`. -/
theorem single_spike (xs : List Sample) (n : Nat)
    (hv : xs.map (fun x => x.v) = [100, 100, 100] ++ List.replicate n 1000) :
    (records example_params3 (init example_params3) xs).length = xs.length
    ∧ (∀ r ∈ records example_params3 (init example_params3) xs,
      r.isalarm = 0 ∧ r.iswait = 0 ∧ r.patternid = 0 ∧ r.isfinalmatch = 0)
    ∧ ((records example_params3 (init example_params3) example_three_rises)[5]?).map
        (fun r => (r.isalarm, r.iswait, r.patternid)) = some (1, 1, 1) := by
  have hM : 0 < example_params3._multiplicator_to_detect := by decide!
  have hN : 2 ≤ example_params3._n_amend_avgdiff := by decide
  have hD : 0 < (init example_params3)._diffavg := by decide!
  have hsplit : xs = xs.take 3 ++ xs.drop 3 := (List.take_append_drop 3 xs).symm
  have hlen : xs.length = 3 + n := by
    have := congrArg List.length hv
    simp only [List.length_map, List.length_append, List.length_cons, List.length_nil,
      List.length_replicate] at this
    omega
  have hpre : (xs.take 3).map (fun x => x.v) = [100, 100, 100] := by
    rw [List.map_take, hv]; simp
  have hpost : (xs.drop 3).map (fun x => x.v) = List.replicate n 1000 := by
    rw [List.map_drop, hv]; simp
  have hprev : ∀ x ∈ xs.take 3, x.v = 100 := by
    intro x hx
    have : x.v ∈ (xs.take 3).map (fun x => x.v) := List.mem_map_of_mem _ hx
    rw [hpre] at this
    simpa using this
  have hpostv : ∀ x ∈ xs.drop 3, x.v = 1000 := by
    intro x hx
    have : x.v ∈ (xs.drop 3).map (fun x => x.v) := List.mem_map_of_mem _ hx
    rw [hpost] at this
    exact List.eq_of_mem_replicate this
  have hlen3 : (xs.take 3).length = 3 := by rw [List.length_take]; omega
  obtain ⟨⟨p1, p2, p3, p4⟩, p5⟩ := quiet_run example_params3 hM hN 100 (xs.take 3)
    (init example_params3) hprev (inv_init _) (cleared_init _) rfl (by decide!) hD (Or.inl rfl)
  have hne : xs.take 3 ≠ [] := by
    intro h; rw [h] at hlen3; simp at hlen3
  obtain ⟨p6, p7⟩ := p4 hne
  have hi3 := inv_reachable example_params3 (xs.take 3)
  have hc3 := cleared_reachable example_params3 (xs.take 3)
  have hpre_rec : ∀ r ∈ records example_params3 (init example_params3) (xs.take 3),
      r.isalarm = 0 ∧ r.iswait = 0 ∧ r.patternid = 0 ∧ r.isfinalmatch = 0 := by
    intro r hr
    obtain ⟨j, hj⟩ := List.getElem?_of_mem hr
    obtain ⟨k1, k2, k3, k4, _⟩ := p5 j r hj
    exact ⟨k1, k2, k3, k4⟩
  generalize hS : main_loop example_params3 (init example_params3) (xs.take 3) = S
    at p1 p2 p3 p6 p7 hi3 hc3
  have hrec := records_append example_params3 (xs.take 3) (xs.drop 3) (init example_params3)
  rw [← hsplit, hS, if_pos p1] at hrec
  have hmain : main_loop example_params3 (init example_params3) xs
      = main_loop example_params3 S (xs.drop 3) := by
    conv_lhs => rw [hsplit]
    rw [main_loop_append, hS]
  have hpost_all : (main_loop example_params3 S (xs.drop 3)).status = .running
      ∧ ∀ r ∈ records example_params3 S (xs.drop 3),
        r.isalarm = 0 ∧ r.iswait = 0 ∧ r.patternid = 0 ∧ r.isfinalmatch = 0 := by
    cases hdrop : xs.drop 3 with
    | nil => exact ⟨by rw [main_loop_nil]; exact p1, by simp [records]⟩
    | cons x4 rest =>
      rw [hdrop] at hpostv
      have hx4 : x4.v = 1000 := hpostv x4 (List.mem_cons_self _ _)
      obtain ⟨n1, n2, n3, n4⟩ := inv_not_waiting hi3 p2
      have hlid : 0 < S._lineid := by
        have := main_loop_lineid example_params3 (xs.take 3) (init example_params3)
          (by rw [hS]; exact p1)
        rw [hS, hlen3] at this
        rw [this]
        simp [init]
      have hpv : prev_value S x4 = 100 := by
        rw [prev_value_later S x4 hlid, p6]
      have hdec : decay example_params3 = 499 / 500 := by decide!
      have hMv : example_params3._multiplicator_to_detect = 2 := by decide!
      have hDv : (init example_params3)._diffavg = 10 := by decide!
      have hb : ¬ |x4.v - prev_value S x4|
          < example_params3._multiplicator_to_detect * S._diffavg := by
        rw [hx4, hpv, p3, hlen3, hdec, hMv, hDv]
        norm_num
      have hn : S._numthresholded - 1 ≠ 0 := by
        rw [p7]; decide
      obtain ⟨hrun4, _, _, _⟩ := step_detect_common example_params3 S x4 p1 n4
      obtain ⟨c1, c2, c3, _, _, c6, _, _⟩ := step_count example_params3 S x4 p1 p2 n4 hb hn
      obtain ⟨_, _, d3, d4⟩ := step_common example_params3 S x4 p1 hrun4
      have hnA : (loop_body example_params3 S x4)._numthresholded
          ≠ example_params3._number_of_points_to_alarm := by
        rw [c3, p7]; decide
      rw [if_neg (fun h => hnA h.2)] at d4
      have hd4 : 0 < (loop_body example_params3 S x4)._diffavg := by
        rw [d4, p3]
        exact mul_pos hD (pow_pos (decay_range example_params3 hN).1 _)
      obtain ⟨⟨q1, _⟩, q5⟩ := quiet_run example_params3 hM hN 1000 rest
        (loop_body example_params3 S x4)
        (fun y hy => hpostv y (List.mem_cons_of_mem _ hy))
        (inv_loop_body example_params3 S x4 hi3) (cleared_loop_body example_params3 S x4)
        hrun4 (by rw [c2, n1]; decide) hd4 (Or.inr (by rw [d3, hx4]))
      refine ⟨by rw [main_loop_cons]; exact q1, ?_⟩
      intro r hr
      rw [records_cons] at hr
      simp only [ne_eq, hrun4, not_true_eq_false, if_false, List.mem_cons] at hr
      rcases hr with hr | hr
      · obtain ⟨f1, f2, _⟩ := output_record_fields example_params3 S x4 hrun4
        obtain ⟨_, g2, _, g4⟩ := output_record_more example_params3 S x4 hrun4
        have hvd := step_verdict example_params3 S x4 p1
        rw [if_neg (fun h => n4 h.1), hc3 p1] at hvd
        simp only [State.verdict, Prod.mk.injEq] at hvd
        rw [hr]
        refine ⟨by rw [f1, c1, n2], by rw [f2, c2, n1], ?_, by rw [g4, hvd.1]⟩
        rw [g2, c6, n3]; rfl
      · obtain ⟨j, hj⟩ := List.getElem?_of_mem hr
        obtain ⟨k1, k2, k3, k4, _⟩ := q5 j r hj
        exact ⟨k1, k2, k3, k4⟩
  refine ⟨records_length example_params3 xs _ (by rw [hmain]; exact hpost_all.1), ?_,
    by decide!⟩
  intro r hr
  rw [hrec, List.mem_append] at hr
  rcases hr with hr | hr
  · exact hpre_rec r hr
  · exact hpost_all.2 r hr

theorem single_spike_witness :
    (records example_params3 (init example_params3) example_spike).length
      = example_spike.length
    ∧ ∀ r ∈ records example_params3 (init example_params3) example_spike,
      r.isalarm = 0 ∧ r.iswait = 0 ∧ r.patternid = 0 ∧ r.isfinalmatch = 0 :=
  have h := single_spike example_spike 4 (by decide!)
  ⟨h.1, h.2.1⟩

/-! ### The scan of the positives, entry by entry -/

theorem match_positive_pos_count (P : Params) (fp : Fingerprint) (s : State) :
    (match_positive P fp s)._pos_count
      = s._pos_count + (if is_positive fp = true then 1 else 0) := by
  unfold match_positive is_positive
  by_cases h : fp.name.take 1 = ['p']
  · rw [if_pos h, if_pos (decide_eq_true h)]
    split <;> rfl
  · rw [if_neg h, if_neg (by simp [h])]
    simp

theorem positive_entries_cons (P : Params) (fp : Fingerprint) (rest : List Fingerprint)
    (vw : List ℚ) :
    positive_entries P (fp :: rest) vw
      = if is_positive fp = true then positive_distance P vw fp :: positive_entries P rest vw
        else positive_entries P rest vw := by
  unfold positive_entries
  by_cases h : is_positive fp = true
  · rw [if_pos h, List.filter_cons_of_pos h, List.map_cons]
  · rw [if_neg h, List.filter_cons_of_neg h]

theorem numbers_positive_entries (P : Params) (bank : List Fingerprint) (vw : List ℚ) :
    numbers (positive_entries P bank vw) = positive_distances P bank vw := rfl

theorem numbers_visited (thr : ℚ) (ds : List DistVal) :
    numbers (visited thr ds) = up_to_first_hit thr (numbers ds) := by
  induction ds with
  | nil => rfl
  | cons x ds ih =>
    cases x with
    | num d =>
      simp only [visited, numbers, up_to_first_hit]
      split_ifs
      · rfl
      · simp only [numbers, ih]
    | nan => simp only [visited, numbers, ih]
    | oob => simp only [visited, numbers, ih]

/-- The number of positives that the loop with `break` takes. -/
theorem scan_positives_first_count (P : Params) (bank : List Fingerprint) (s : State)
    (hR : P._matches_evaluation_logic = 2 ∨ P._matches_evaluation_logic = 3)
    (hs : s.status = .running) (h0 : s._matchpos_count = 0)
    (hb : ∀ fp ∈ bank, is_positive fp = true → positive_distance P s._vw fp ≠ .oob) :
    (scan_positives P bank s)._pos_count
      = s._pos_count
        + ((visited P._matching_distance_positives_max
            (positive_entries P bank s._vw)).length : Nat) := by
  induction bank generalizing s with
  | nil => simp [scan_positives_nil, positive_entries, visited]
  | cons fp rest ih =>
    have hc := match_positive_pos_count P fp s
    rw [scan_positives_cons, positive_entries_cons]
    by_cases hn : is_positive fp = true
    · rw [if_pos hn] at hc ⊢
      have hoob := hb fp (List.mem_cons_self _ _) hn
      cases hd : positive_distance P s._vw fp with
      | oob => exact absurd hd hoob
      | nan =>
        have ht := match_positive_nan P fp s hn hd
        simp only [State.tally, Tally.mk.injEq] at ht
        obtain ⟨t1, t2, t3, _, _, _⟩ := ht
        rw [if_neg (by rw [t1, hs]; simp), if_neg (by rw [t3, h0]; simp)]
        rw [ih _ (by rw [t1, hs]) (by rw [t3, h0]) (fun g hg hgn => by
          rw [t2]; exact hb g (List.mem_cons_of_mem _ hg) hgn), hc, t2]
        simp only [visited, List.length_cons]
        push_cast; ring
      | num d =>
        have ht := match_positive_num P fp s d hn hd
        simp only [State.tally, Tally.mk.injEq] at ht
        obtain ⟨t1, t2, t3, _, _, _⟩ := ht
        rw [if_neg (by rw [t1, hs]; simp)]
        by_cases hhit : d ≤ P._matching_distance_positives_max
        · rw [if_pos hhit, h0] at t3
          rw [if_pos ⟨by rw [t3]; decide, hR⟩, hc]
          simp only [visited, if_pos hhit, List.length_singleton]
          push_cast; ring
        · rw [if_neg hhit, h0] at t3
          rw [if_neg (by rw [t3]; simp)]
          rw [ih _ (by rw [t1, hs]) (by rw [t3]; rfl) (fun g hg hgn => by
            rw [t2]; exact hb g (List.mem_cons_of_mem _ hg) hgn), hc, t2]
          simp only [visited, if_neg hhit, List.length_cons]
          push_cast; ring
    · rw [if_neg hn] at hc ⊢
      have hf : is_positive fp = false := by simpa using hn
      rw [match_positive_skip P fp s hf, if_neg (by rw [hs]; simp),
        if_neg (by rw [h0]; simp)]
      exact ih s hs h0 (fun g hg hgn => hb g (List.mem_cons_of_mem _ hg) hgn)

/-- The number of positives that the loop without `break` takes. -/
theorem scan_positives_all_count (P : Params) (bank : List Fingerprint) (s : State)
    (hR : ¬ (P._matches_evaluation_logic = 2 ∨ P._matches_evaluation_logic = 3))
    (hs : s.status = .running)
    (hb : ∀ fp ∈ bank, is_positive fp = true → positive_distance P s._vw fp ≠ .oob) :
    (scan_positives P bank s)._pos_count
      = s._pos_count + ((positive_entries P bank s._vw).length : Nat) := by
  induction bank generalizing s with
  | nil => simp [scan_positives_nil, positive_entries]
  | cons fp rest ih =>
    have hc := match_positive_pos_count P fp s
    have hcore := match_positive_core P fp s
    have hvw : (match_positive P fp s)._vw = s._vw := congrArg Core.vw hcore
    have hst : (match_positive P fp s).status = .running := by
      by_cases hn : is_positive fp = true
      · cases hd : positive_distance P s._vw fp with
        | oob => exact absurd hd (hb fp (List.mem_cons_self _ _) hn)
        | nan =>
          have ht := match_positive_nan P fp s hn hd
          exact (congrArg Tally.status ht).trans hs
        | num d =>
          have ht := match_positive_num P fp s d hn hd
          exact (congrArg Tally.status ht).trans hs
      · have hf : is_positive fp = false := by simpa using hn
        rw [match_positive_skip P fp s hf]; exact hs
    rw [scan_positives_cons, positive_entries_cons, if_neg (by rw [hst]; simp),
      if_neg (fun h => hR h.2),
      ih _ hst (fun g hg hgn => by rw [hvw]; exact hb g (List.mem_cons_of_mem _ hg) hgn),
      hc, hvw]
    split_ifs
    · simp only [List.length_cons]; push_cast; ring
    · simp

/-! ### The first hit -/

theorem first_hit_some (thr d : ℚ) (ds : List ℚ) (h : first_hit thr ds = some d) :
    d ∈ ds ∧ d ≤ thr := by
  unfold first_hit at h
  exact ⟨List.mem_of_find?_eq_some h, by simpa using List.find?_some h⟩

theorem first_hit_none (thr : ℚ) (ds : List ℚ) :
    first_hit thr ds = none ↔ ∀ d ∈ ds, ¬ d ≤ thr := by
  unfold first_hit
  rw [List.find?_eq_none]
  simp

theorem foldl_min_first_hit (thr d : ℚ) (ds : List ℚ) (m : ℚ)
    (h : first_hit thr ds = some d) (hm : d ≤ m) :
    (up_to_first_hit thr ds).foldl min m = d := by
  induction ds generalizing m with
  | nil => simp [first_hit] at h
  | cons e ds ih =>
    unfold up_to_first_hit
    unfold first_hit at h
    by_cases he : e ≤ thr
    · rw [List.find?_cons_of_pos _ (by simpa using he)] at h
      rw [Option.some.injEq] at h
      subst h
      rw [if_pos he]
      simp only [List.foldl_cons, List.foldl_nil]
      exact min_eq_right hm
    · rw [List.find?_cons_of_neg _ (by simpa using he)] at h
      have hd := (first_hit_some thr d ds h).2
      rw [if_neg he, List.foldl_cons]
      exact ih _ h (le_min hm (le_of_lt (lt_of_le_of_lt hd (not_le.mp he))))

/-- The minimum up to the first hit is the distance of the first hit. -/
theorem least_first_hit (thr d : ℚ) (ds : List ℚ) (h : first_hit thr ds = some d)
    (h1 : d ≤ 1) : least (up_to_first_hit thr ds) = d :=
  foldl_min_first_hit thr d ds 1 h h1

theorem hits_up_to_first_hit (thr : ℚ) (ds : List ℚ) :
    hits thr (up_to_first_hit thr ds) = if (first_hit thr ds).isSome then 1 else 0 := by
  induction ds with
  | nil => simp [up_to_first_hit, first_hit, hits_nil]
  | cons e ds ih =>
    unfold up_to_first_hit first_hit
    by_cases he : e ≤ thr
    · rw [if_pos he, List.find?_cons_of_pos _ (by simpa using he), hits_cons, if_pos he,
        hits_nil]
      simp
    · rw [if_neg he, List.find?_cons_of_neg _ (by simpa using he), hits_cons, if_neg he,
        zero_add]
      exact ih

theorem positives_scanned_eq (P : Params) (s : State)
    (hR : P._matches_evaluation_logic = 2 ∨ P._matches_evaluation_logic = 3
      ∨ P._matches_evaluation_logic = 4) :
    positives_scanned P s = scan_positives P P._fngpts (clear_counts (run_transform P s)) := by
  unfold positives_scanned evaluate_positives
  rw [if_pos hR]

/-- C37. The scan of the positives at the end of a window, for every bank
none of whose positive fingerprints is read outside its values. Under logic
2 and 3 the loop takes the positives in bank order up to and including the
first one whose distance is `≤ _matching_distance_positives_max` and no
further: `_pos_count` is the number of those, `_matchpos_count` is 0 or 1,
it is 1 exactly when some positive is within the threshold, and then
`_matchdistance_pos_min` is the distance of the first positive within the
threshold. Under logic 4 the loop takes every positive: `_pos_count` is the
number of positives, `_matchpos_count` the number of positives within the
threshold, and `_matchdistance_pos_min` the minimum distance over all
positives (1 when there is none). A distance that is not a number is neither
a hit nor a minimum. -/
theorem first_hit_semantics (P : Params) (s : State) (hs : s.status = .running)
    (hp : ∀ fp ∈ P._fngpts, is_positive fp = true →
      positive_distance P (coefficients P s) fp ≠ .oob) :
    (P._matches_evaluation_logic = 2 ∨ P._matches_evaluation_logic = 3 →
      (positives_scanned P s)._pos_count
          = ((visited P._matching_distance_positives_max
              (positive_entries P P._fngpts (coefficients P s))).length : Nat)
        ∧ ((positives_scanned P s)._matchpos_count = 0
            ∨ (positives_scanned P s)._matchpos_count = 1)
        ∧ ((positives_scanned P s)._matchpos_count = 1 ↔
            ∃ d ∈ positive_distances P P._fngpts (coefficients P s),
              d ≤ P._matching_distance_positives_max)
        ∧ ∀ d, first_hit P._matching_distance_positives_max
              (positive_distances P P._fngpts (coefficients P s)) = some d →
            (positives_scanned P s)._matchpos_count = 1
              ∧ (positives_scanned P s)._matchdistance_pos_min = d)
    ∧ (P._matches_evaluation_logic = 4 →
      (positives_scanned P s)._pos_count
          = ((positive_entries P P._fngpts (coefficients P s)).length : Nat)
        ∧ (positives_scanned P s)._matchpos_count
            = ((positive_distances P P._fngpts (coefficients P s)).countP
                (fun d => decide (d ≤ P._matching_distance_positives_max)) : Nat)
        ∧ (positives_scanned P s)._matchdistance_pos_min
            = least (positive_distances P P._fngpts (coefficients P s))) := by
  have hs0 : (clear_counts (run_transform P s)).status = .running := hs
  have hvw : (clear_counts (run_transform P s))._vw = coefficients P s := rfl
  have hp0 : ∀ fp ∈ P._fngpts, is_positive fp = true →
      positive_distance P (clear_counts (run_transform P s))._vw fp ≠ .oob := hp
  constructor
  · intro hR
    have hR3 : P._matches_evaluation_logic = 2 ∨ P._matches_evaluation_logic = 3
        ∨ P._matches_evaluation_logic = 4 := by omega
    have hc := scan_positives_first_count P P._fngpts _ hR hs0 rfl hp0
    have ht := scan_positives_first P P._fngpts _ hR hs0 rfl hp0
    simp only [State.tally, Tally.mk.injEq] at ht
    obtain ⟨_, _, t3, _, t5, _⟩ := ht
    rw [hvw] at hc t3 t5
    rw [positives_scanned_eq P s hR3]
    rw [hits_up_to_first_hit] at t3
    refine ⟨?_, ?_, ?_, ?_⟩
    · rw [hc]; exact zero_add _
    · rw [t3]; split_ifs
      · right; rfl
      · left; rfl
    · rw [t3]
      cases hf : first_hit P._matching_distance_positives_max
          (positive_distances P P._fngpts (coefficients P s)) with
      | none =>
        simp only [Option.isSome_none, Bool.false_eq_true, if_false]
        constructor
        · intro h; exact absurd h (by decide)
        · rintro ⟨d, hd, hle⟩
          exact absurd hle ((first_hit_none _ _).1 hf d hd)
      | some d =>
        simp only [Option.isSome_some, if_true, true_iff]
        exact ⟨d, (first_hit_some _ _ _ hf).1, (first_hit_some _ _ _ hf).2⟩
    · intro d hd
      constructor
      · rw [t3, hd]; rfl
      · rw [t5]
        exact least_first_hit _ d _ hd
          (positive_distances_range P P._fngpts (coefficients P s) d
            (first_hit_some _ _ _ hd).1).2
  · intro hR
    have hR3 : P._matches_evaluation_logic = 2 ∨ P._matches_evaluation_logic = 3
        ∨ P._matches_evaluation_logic = 4 := by omega
    have hR23 : ¬ (P._matches_evaluation_logic = 2 ∨ P._matches_evaluation_logic = 3) := by
      omega
    have hc := scan_positives_all_count P P._fngpts _ hR23 hs0 hp0
    have ht := scan_positives_all P P._fngpts _ hR23 hs0 hp0
    simp only [State.tally, Tally.mk.injEq] at ht
    obtain ⟨_, _, t3, _, t5, _⟩ := ht
    rw [hvw] at hc t3 t5
    rw [positives_scanned_eq P s hR3]
    refine ⟨?_, ?_, ?_⟩
    · rw [hc]; exact zero_add _
    · rw [t3]; exact zero_add _
    · rw [t5]; rfl

theorem first_hit_semantics_witness :
    (positives_scanned (example_matcher 2) example_collected)._pos_count = 1
    ∧ positive_distances (example_matcher 2) (example_matcher 2)._fngpts
        (coefficients (example_matcher 2) example_collected) = [1 / 425, 0]
    ∧ (positives_scanned (example_matcher 2) example_collected)._matchpos_count = 1
    ∧ (positives_scanned (example_matcher 2) example_collected)._matchdistance_pos_min
        = 1 / 425
    ∧ (positives_scanned (example_matcher 4) example_collected)._matchpos_count = 2
    ∧ (positives_scanned (example_matcher 4) example_collected)._matchdistance_pos_min = 0 :=
  ⟨by decide!, by decide!,
    (((first_hit_semantics (example_matcher 2) example_collected rfl (by decide!)).1
      (Or.inl rfl)).2.2.2 (1 / 425) (by decide!)).1,
    (((first_hit_semantics (example_matcher 2) example_collected rfl (by decide!)).1
      (Or.inl rfl)).2.2.2 (1 / 425) (by decide!)).2,
    by decide!, by decide!⟩

/-! ### The reads of mode 2 -/

theorem rd_isSome (v : List ℚ) (i : Int) : (rd v i).isSome ↔ 0 ≤ i ∧ i < v.length := by
  unfold rd
  split_ifs with h
  · rw [List.get?_eq_getElem?, Option.isSome_iff_exists]
    constructor
    · rintro ⟨a, ha⟩
      have := (List.getElem?_eq_some_iff.1 ha).1
      exact ⟨h, by omega⟩
    · rintro ⟨_, h2⟩
      exact ⟨_, List.getElem?_eq_getElem (by omega)⟩
  · simp only [Option.isSome_none, Bool.false_eq_true, false_iff]
    intro h2; exact h h2.1

theorem level_avg_isSome (v1 v2 : List ℚ) (w : ℚ) (js : List Int) (acc : ℚ × ℚ) :
    (level_avg v1 v2 w js acc).isSome
      ↔ ∀ j ∈ js, (rd v1 j).isSome ∧ (rd v2 j).isSome := by
  induction js generalizing acc with
  | nil => simp [level_avg]
  | cons j js ih =>
    unfold level_avg
    cases h1 : rd v1 j with
    | none => simp [h1]
    | some a =>
      cases h2 : rd v2 j with
      | none => simp [h2]
      | some b =>
        simp only [ih, List.mem_cons, forall_eq_or_imp, h1, h2, Option.isSome_some,
          and_self, true_and]

theorem level_avgs_isSome (v1 v2 : List ℚ) (from_ to_ : Int) (ls : List Int)
    (acc : List (ℚ × ℚ)) :
    (level_avgs v1 v2 from_ to_ ls acc).isSome
      ↔ ∀ j ∈ level_reads from_ to_ ls, (rd v1 j).isSome ∧ (rd v2 j).isSome := by
  induction ls generalizing acc with
  | nil => simp [level_avgs_nil, level_reads]
  | cons i ls ih =>
    rw [level_avgs_cons]
    unfold level_reads
    by_cases hc : level_from i ≥ from_ ∧ level_to i ≤ to_
    · rw [if_pos hc, if_pos hc]
      have hl := level_avg_isSome v1 v2 ((level_to i - level_from i + 1 : Int) : ℚ)
        (int_range (level_from i) (level_to i)) (0, 0)
      cases ha : level_avg v1 v2 ((level_to i - level_from i + 1 : Int) : ℚ)
          (int_range (level_from i) (level_to i)) (0, 0) with
      | none =>
        rw [ha] at hl
        simp only [Option.isSome_none, Bool.false_eq_true, false_iff] at hl ⊢
        intro h
        exact hl (fun j hj => h j (List.mem_append_left _ hj))
      | some a =>
        rw [ha] at hl
        simp only [Option.isSome_some, true_iff] at hl
        simp only [ih, List.mem_append]
        constructor
        · intro h j hj
          rcases hj with hj | hj
          · exact hl j hj
          · exact h j hj
        · intro h j hj
          exact h j (Or.inr hj)
    · rw [if_neg hc, if_neg hc, List.nil_append]
      exact ih acc

theorem mem_level_reads (from_ to_ : Int) (ls : List Int) (j : Int) :
    j ∈ level_reads from_ to_ ls
      ↔ ∃ i ∈ ls, (from_ ≤ level_from i ∧ level_to i ≤ to_)
          ∧ level_from i ≤ j ∧ j ≤ level_to i := by
  induction ls with
  | nil => simp [level_reads]
  | cons i ls ih =>
    unfold level_reads
    rw [List.mem_append, ih]
    by_cases hc : level_from i ≥ from_ ∧ level_to i ≤ to_
    · rw [if_pos hc, mem_int_range]
      simp only [List.mem_cons, exists_eq_or_imp]
      constructor
      · rintro (h | h)
        · exact Or.inl ⟨⟨hc.1, hc.2⟩, h⟩
        · exact Or.inr h
      · rintro (h | h)
        · exact Or.inl h.2
        · exact Or.inr h
    · rw [if_neg hc]
      simp only [List.not_mem_nil, false_or, List.mem_cons, exists_eq_or_imp]
      constructor
      · intro h; exact Or.inr h
      · rintro (h | h)
        · exact absurd ⟨h.1.1, h.1.2⟩ hc
        · exact h

/-- Every index read in mode 2 lies in `[0, flength − 1] ∩ [from_, to_]`. -/
theorem mode2_reads_inside (from_ to_ flength : Int) (hL : 1 ≤ flength) :
    ∀ j ∈ mode2_reads from_ to_ flength,
      (0 ≤ j ∧ j ≤ flength - 1) ∧ from_ ≤ j ∧ j ≤ to_ := by
  intro j hj
  unfold mode2_reads at hj
  rw [mem_level_reads] at hj
  obtain ⟨i, hi, ⟨h1, h2⟩, h3, h4⟩ := hj
  have := level_inside flength i hL hi
  exact ⟨⟨by omega, by omega⟩, by omega, by omega⟩

/-- Mode 2 is defined exactly when every index of `mode2_reads` is inside
both vectors. -/
theorem eucl_dist_mode2_defined (v1 v2 : List ℚ) (from_ to_ flength : Int) :
    _eucl_dist v1 v2 from_ to_ flength 2 ≠ .oob
      ↔ ∀ j ∈ mode2_reads from_ to_ flength,
          (0 ≤ j ∧ j < v1.length) ∧ 0 ≤ j ∧ j < v2.length := by
  have h := level_avgs_isSome v1 v2 from_ to_
    (int_range 0 ((Nat.log2 flength.toNat : Nat) : Int)) []
  simp only [rd_isSome] at h
  unfold mode2_reads
  rw [← h]
  unfold _eucl_dist dist_sums
  simp only [if_true]
  cases level_avgs v1 v2 from_ to_ (int_range 0 ((Nat.log2 flength.toNat : Nat) : Int)) [] with
  | none => simp
  | some a =>
    simp only [Option.isSome_some, iff_true]
    split_ifs <;> simp

/-! ### The bands of a power of two -/

theorem log2_two_pow_int (k : Nat) : Nat.log2 (((2 : Int) ^ k).toNat) = k := by
  have h : ((2 : Int) ^ k).toNat = 2 ^ k := by
    have : ((2 : Int) ^ k) = ((2 ^ k : Nat) : Int) := by push_cast; rfl
    rw [this]; rfl
  rw [h, Nat.log2_two_pow]

theorem bands_two_pow (k : Nat) :
    bands ((2 : Int) ^ k)
      = (0, 0) :: (List.range k).map
          (fun (j : Nat) => ((2 : Int) ^ j, (2 : Int) ^ (j + 1) - 1)) := by
  unfold bands
  rw [log2_two_pow_int]

theorem bands_disjoint (k : Nat) :
    (bands ((2 : Int) ^ k)).Pairwise
      (fun a b => ∀ j : Int, ¬ ((a.1 ≤ j ∧ j ≤ a.2) ∧ b.1 ≤ j ∧ j ≤ b.2)) := by
  rw [bands_two_pow, List.pairwise_cons]
  constructor
  · intro b hb j hj
    rw [List.mem_map] at hb
    obtain ⟨i, _, rfl⟩ := hb
    have : (0 : Int) < 2 ^ i := by positivity
    simp only at hj
    omega
  · rw [List.pairwise_map]
    refine List.Pairwise.imp ?_ (List.pairwise_lt_range k)
    intro a b hab j hj
    simp only at hj
    have hp : (2 : Int) ^ (a + 1) ≤ 2 ^ b :=
      pow_le_pow_right₀ (by norm_num) (by omega)
    omega

theorem bands_cover (k : Nat) (j : Int) :
    (∃ b ∈ bands ((2 : Int) ^ k), b.1 ≤ j ∧ j ≤ b.2) ↔ 0 ≤ j ∧ j ≤ 2 ^ k - 1 := by
  rw [bands_two_pow]
  simp only [List.mem_cons, List.mem_map, List.mem_range, exists_eq_or_imp]
  constructor
  · rintro (h | ⟨b, ⟨i, hi, rfl⟩, h⟩)
    · have : (0 : Int) < 2 ^ k := by positivity
      omega
    · simp only at h
      have h0 : (0 : Int) < 2 ^ i := by positivity
      have hp : (2 : Int) ^ (i + 1) ≤ 2 ^ k :=
        pow_le_pow_right₀ (by norm_num) (by omega)
      omega
  · rintro ⟨h0, h1⟩
    by_cases hj : j = 0
    · left; subst hj; exact ⟨le_refl _, le_refl _⟩
    · right
      obtain ⟨n, rfl⟩ := Int.eq_ofNat_of_zero_le h0
      have hn : n ≠ 0 := by omega
      have hlo := Nat.log2_self_le hn
      have hhi := @Nat.lt_log2_self n
      have hk : n < 2 ^ k := by
        have : ((n : Int)) < ((2 ^ k : Nat) : Int) := by push_cast; omega
        exact_mod_cast this
      have hik : Nat.log2 n < k := (Nat.log2_lt hn).2 hk
      refine ⟨_, ⟨Nat.log2 n, hik, rfl⟩, ?_, ?_⟩
      · simp only
        exact_mod_cast hlo
      · simp only
        have : ((n : Int)) < ((2 ^ (Nat.log2 n + 1) : Nat) : Int) := by exact_mod_cast hhi
        push_cast at this
        omega

/-- C38. For every `L = 2^k` (in particular `k ≥ 3`): the bands of mode 2,
`[0, 0]` and `[2^(i−1), 2^i − 1]` for `i = 1 .. k`, are the index ranges
`ifrom .. ito` of the levels `i = 0 .. clength` of `_eucl_dist`; they are
pairwise disjoint and their union is exactly `[0, L − 1]`; for all `from_`
and `to_` every index that `_eucl_dist` reads from either vector in mode 2
lies in `[0, L − 1] ∩ [from_, to_]`, these reads being the ones that decide
whether the call is defined, so that it is defined on any two vectors of at
least `L` values. -/
theorem mode2_index_safety (k : Nat) :
    bands ((2 : Int) ^ k)
        = (int_range 0 ((Nat.log2 ((2 : Int) ^ k).toNat : Nat) : Int)).map
            (fun i => (level_from i, level_to i))
    ∧ (bands ((2 : Int) ^ k)).Pairwise
        (fun a b => ∀ j : Int, ¬ ((a.1 ≤ j ∧ j ≤ a.2) ∧ b.1 ≤ j ∧ j ≤ b.2))
    ∧ (∀ j : Int, (∃ b ∈ bands ((2 : Int) ^ k), b.1 ≤ j ∧ j ≤ b.2)
        ↔ 0 ≤ j ∧ j ≤ 2 ^ k - 1)
    ∧ (∀ from_ to_ : Int, ∀ j ∈ mode2_reads from_ to_ ((2 : Int) ^ k),
        (0 ≤ j ∧ j ≤ 2 ^ k - 1) ∧ from_ ≤ j ∧ j ≤ to_)
    ∧ (∀ (v1 v2 : List ℚ) (from_ to_ : Int),
        _eucl_dist v1 v2 from_ to_ ((2 : Int) ^ k) 2 ≠ .oob
          ↔ ∀ j ∈ mode2_reads from_ to_ ((2 : Int) ^ k),
              (0 ≤ j ∧ j < v1.length) ∧ 0 ≤ j ∧ j < v2.length)
    ∧ (∀ (v1 v2 : List ℚ) (from_ to_ : Int),
        (2 : Int) ^ k ≤ v1.length → (2 : Int) ^ k ≤ v2.length →
          _eucl_dist v1 v2 from_ to_ ((2 : Int) ^ k) 2 ≠ .oob) := by
  have hL : (1 : Int) ≤ 2 ^ k := by
    have : (0 : Int) < 2 ^ k := by positivity
    omega
  refine ⟨bands_eq _, bands_disjoint k, bands_cover k,
    fun from_ to_ => mode2_reads_inside from_ to_ _ hL,
    fun v1 v2 from_ to_ => eucl_dist_mode2_defined v1 v2 from_ to_ _, ?_⟩
  intro v1 v2 from_ to_ h1 h2
  rw [eucl_dist_mode2_defined]
  intro j hj
  have := (mode2_reads_inside from_ to_ _ hL j hj).1
  exact ⟨⟨this.1, by omega⟩, this.1, by omega⟩

/-- C39. A bank file of three values is accepted by the loader; with
`_fingerprint_length = 8`, the range `0 .. 7` and mode 1 the distance
computation reads the indices `0 .. 7` of it, of which `3 .. 7` are outside
its stored values: `_eucl_dist` has no defined result, and the end of a
window against this bank leaves the program in an undefined state. -/
theorem bank_bounds_fail :
    load_fingerprint ['p', '_', 's'] example_short_file = some example_short
    ∧ example_short ∈ example_short_matcher._fngpts
    ∧ (0 ≤ example_short_matcher._fingerprint_match_positives_from
        ∧ example_short_matcher._fingerprint_match_positives_from
            ≤ example_short_matcher._fingerprint_match_positives_to
        ∧ example_short_matcher._fingerprint_match_positives_to
            ≤ example_short_matcher._fingerprint_length - 1)
    ∧ (coefficients example_short_matcher example_collected).length = 8
    ∧ (∀ i ∈ int_range 3 7, rd example_short.values i = none)
    ∧ positive_distance example_short_matcher
        (coefficients example_short_matcher example_collected) example_short = .oob
    ∧ (pattern_end example_short_matcher example_collected).status = .undefined := by
  refine ⟨by decide!, by decide!, by decide!, by decide!, by decide!, by decide!, by decide!⟩

/-! ### The amended length -/

theorem amend_fingerprint_length_eq (l : Int) :
    amend_fingerprint_length l = 2 ^ Nat.log2 l.toNat := by
  unfold amend_fingerprint_length
  split_ifs with h
  · rfl
  · exact not_not.1 h

theorem amend_fingerprint_length_bounds (l : Int) (hl : 1 ≤ l) :
    amend_fingerprint_length l ≤ l ∧ l < 2 * amend_fingerprint_length l := by
  rw [amend_fingerprint_length_eq]
  have hn : l.toNat ≠ 0 := by omega
  have h1 := Nat.log2_self_le hn
  have h2 := @Nat.lt_log2_self l.toNat
  have hc : ((2 : Int) ^ Nat.log2 l.toNat) = ((2 ^ Nat.log2 l.toNat : Nat) : Int) := by
    push_cast; rfl
  rw [hc]
  rw [pow_succ] at h2
  omega

theorem amend_fingerprint_length_largest (l : Int) (hl : 1 ≤ l) (k : Nat)
    (hk : (2 : Int) ^ k ≤ l) : (2 : Int) ^ k ≤ amend_fingerprint_length l := by
  rw [amend_fingerprint_length_eq]
  have hn : l.toNat ≠ 0 := by omega
  have hk2 : 2 ^ k ≤ l.toNat := by
    have : ((2 ^ k : Nat) : Int) ≤ l := by push_cast; exact hk
    omega
  have := (Nat.le_log2 hn).2 hk2
  exact pow_le_pow_right₀ (by norm_num) this

theorem amend_fingerprint_length_1000 : amend_fingerprint_length 1000 = 512 := by
  rw [amend_fingerprint_length_eq]
  have hn : (1000 : Int).toNat ≠ 0 := by decide
  have h1 : 9 ≤ Nat.log2 (1000 : Int).toNat := (Nat.le_log2 hn).2 (by decide)
  have h2 : Nat.log2 (1000 : Int).toNat < 10 := (Nat.log2_lt hn).2 (by decide)
  have h : Nat.log2 (1000 : Int).toNat = 9 := by omega
  rw [h]
  norm_num

theorem startup_example_arguments :
    startup example_arguments = some (amend_arguments example_arguments)
    ∧ (amend_arguments example_arguments)._fingerprint_length = 512
    ∧ (amend_arguments example_arguments)._fingerprint_match_positives_to = 511
    ∧ (amend_arguments example_arguments)._fingerprint_match_negatives_to = 511 := by
  refine ⟨?_, amend_fingerprint_length_1000, ?_, ?_⟩
  · unfold startup
    rw [if_pos ⟨by decide!, by decide!⟩]
  · show (if (2000 : Int) > amend_fingerprint_length 1000 - 1
      then amend_fingerprint_length 1000 - 1 else 2000) = 511
    rw [amend_fingerprint_length_1000]
    decide
  · show (if (600 : Int) > amend_fingerprint_length 1000 - 1
      then amend_fingerprint_length 1000 - 1 else 600) = 511
    rw [amend_fingerprint_length_1000]
    decide

theorem startup_some (P Q : Params) (h : startup P = some Q) :
    options_valid P = true ∧ arguments_valid P = true ∧ Q = amend_arguments P := by
  unfold startup at h
  split_ifs at h with hc
  exact ⟨hc.1, hc.2, (Option.some.inj h).symm⟩

/-- C33. For every supplied `_fingerprint_length` `l ≥ 8` the amended length
is a power of two `2^k` with `k ≥ 3`, it is `≤ l`, `l` is below its double,
no power of two `≤ l` is larger, a power of two is left as it is, 1000
becomes 512, and the amended length is the `_fingerprint_length` that the
loop runs with whenever the start of the program succeeds (which it does for
no `l < 8`). -/
theorem length_coercion (l : Int) (hl : 8 ≤ l) :
    (∃ k : Nat, 3 ≤ k ∧ amend_fingerprint_length l = 2 ^ k)
    ∧ amend_fingerprint_length l ≤ l
    ∧ l < 2 * amend_fingerprint_length l
    ∧ (∀ k : Nat, (2 : Int) ^ k ≤ l → (2 : Int) ^ k ≤ amend_fingerprint_length l)
    ∧ (∀ k : Nat, l = 2 ^ k → amend_fingerprint_length l = l)
    ∧ amend_fingerprint_length 1000 = 512
    ∧ (∀ P Q : Params, P._fingerprint_length = l → startup P = some Q →
        Q._fingerprint_length = amend_fingerprint_length l)
    ∧ (∀ P : Params, P._fingerprint_length < 8 → startup P = none) := by
  have hb := amend_fingerprint_length_bounds l (by omega)
  refine ⟨⟨Nat.log2 l.toNat, ?_, amend_fingerprint_length_eq l⟩, hb.1, hb.2,
    amend_fingerprint_length_largest l (by omega), ?_, amend_fingerprint_length_1000, ?_, ?_⟩
  · have hn : l.toNat ≠ 0 := by omega
    exact (Nat.le_log2 hn).2 (by omega)
  · intro k hk
    exact le_antisymm hb.1 (by
      have := amend_fingerprint_length_largest l (by omega) k (le_of_eq hk.symm)
      rw [← hk] at this
      exact this)
  · intro P Q hP hQ
    rw [(startup_some P Q hQ).2.2, ← hP]
    rfl
  · intro P hP
    unfold startup
    rw [if_neg]
    intro hc
    have := hc.1
    unfold options_valid at this
    rw [decide_eq_true_iff] at this
    omega

theorem length_coercion_witness :
    (8 : Int) ≤ 1000
    ∧ amend_fingerprint_length 1000 ≤ 1000
    ∧ amend_fingerprint_length 1000 = 512
    ∧ startup example_arguments = some (amend_arguments example_arguments)
    ∧ (amend_arguments example_arguments)._fingerprint_length
        = amend_fingerprint_length 1000 :=
  ⟨by decide, (length_coercion 1000 (by decide)).2.1,
    (length_coercion 1000 (by decide)).2.2.2.2.2.1,
    startup_example_arguments.1,
    (length_coercion 1000 (by decide)).2.2.2.2.2.2.1
      example_arguments (amend_arguments example_arguments) rfl
      startup_example_arguments.1⟩

/-- C34, the claim as it stands fails: the start of the program accepts a
positive range `5 .. 3` and a negative range `2000 .. 7` with the length 8,
and the loop runs with them. -/
theorem validated_ranges_counterexample :
    (startup example_crossed).map (fun Q =>
        (Q._fingerprint_length, Q._fingerprint_match_positives_from,
          Q._fingerprint_match_positives_to, Q._fingerprint_match_negatives_from,
          Q._fingerprint_match_negatives_to))
      = some (8, 5, 3, 2000, 7)
    ∧ ¬ (∀ Q, startup example_crossed = some Q →
          Q._fingerprint_match_positives_from ≤ Q._fingerprint_match_positives_to)
    ∧ ¬ (∀ Q, startup example_crossed = some Q →
          Q._fingerprint_match_negatives_from ≤ Q._fingerprint_match_negatives_to) := by
  have hs : startup example_crossed = some (amend_arguments example_crossed) := by
    unfold startup
    rw [if_pos ⟨by decide!, by decide!⟩]
  refine ⟨by decide!, ?_, ?_⟩
  · intro h
    have := h _ hs
    revert this
    decide!
  · intro h
    have := h _ hs
    revert this
    decide!

/-- C34, amended. Whenever the start of the program succeeds, the ranges
that the loop runs with satisfy `0 ≤ from`, `1 ≤ to ≤ L − 1` for the
positive and for the negative bank, `L ≥ 8` being the amended length; each
`from` is the supplied one and each `to` is the smaller of the supplied one
and `L − 1`.  Nothing relates `from` to `to`, nor `from` to `L − 1`: `from ≤
to` holds after the start exactly when the supplied `from` is at most the
supplied `to` and at most `L − 1`. -/
theorem validated_ranges (P Q : Params) (h : startup P = some Q) :
    8 ≤ Q._fingerprint_length
    ∧ (0 ≤ Q._fingerprint_match_positives_from
        ∧ 1 ≤ Q._fingerprint_match_positives_to
        ∧ Q._fingerprint_match_positives_to ≤ Q._fingerprint_length - 1)
    ∧ (0 ≤ Q._fingerprint_match_negatives_from
        ∧ 1 ≤ Q._fingerprint_match_negatives_to
        ∧ Q._fingerprint_match_negatives_to ≤ Q._fingerprint_length - 1)
    ∧ Q._fingerprint_match_positives_from = P._fingerprint_match_positives_from
    ∧ Q._fingerprint_match_negatives_from = P._fingerprint_match_negatives_from
    ∧ Q._fingerprint_match_positives_to
        = min P._fingerprint_match_positives_to (Q._fingerprint_length - 1)
    ∧ Q._fingerprint_match_negatives_to
        = min P._fingerprint_match_negatives_to (Q._fingerprint_length - 1)
    ∧ (Q._fingerprint_match_positives_from ≤ Q._fingerprint_match_positives_to
        ↔ P._fingerprint_match_positives_from ≤ P._fingerprint_match_positives_to
          ∧ P._fingerprint_match_positives_from ≤ Q._fingerprint_length - 1)
    ∧ (Q._fingerprint_match_negatives_from ≤ Q._fingerprint_match_negatives_to
        ↔ P._fingerprint_match_negatives_from ≤ P._fingerprint_match_negatives_to
          ∧ P._fingerprint_match_negatives_from ≤ Q._fingerprint_length - 1) := by
  obtain ⟨ho, _, hQ⟩ := startup_some P Q h
  unfold options_valid at ho
  rw [decide_eq_true_iff] at ho
  obtain ⟨_, _, _, _, _, _, _, _, _, hl, hpf, hpt, hnf, hnt, _⟩ := ho
  have hL : 8 ≤ amend_fingerprint_length P._fingerprint_length := by
    have := amend_fingerprint_length_largest P._fingerprint_length (by omega) 3
      (by norm_num; exact hl)
    norm_num at this
    exact this
  subst hQ
  simp only [amend_arguments]
  generalize amend_fingerprint_length P._fingerprint_length = L at hL ⊢
  refine ⟨hL, ⟨hpf, ?_, ?_⟩, ⟨hnf, ?_, ?_⟩, trivial, trivial, ?_, ?_, ?_, ?_⟩
  all_goals (split_ifs <;> omega)

theorem validated_ranges_witness :
    startup example_arguments = some (amend_arguments example_arguments)
    ∧ (amend_arguments example_arguments)._fingerprint_length = 512
    ∧ (amend_arguments example_arguments)._fingerprint_match_positives_to = 511
    ∧ (amend_arguments example_arguments)._fingerprint_match_negatives_to = 511
    ∧ (1 ≤ (amend_arguments example_arguments)._fingerprint_match_positives_to
        ∧ (amend_arguments example_arguments)._fingerprint_match_positives_to
            ≤ (amend_arguments example_arguments)._fingerprint_length - 1) :=
  ⟨startup_example_arguments.1, startup_example_arguments.2.1,
    startup_example_arguments.2.2.1, startup_example_arguments.2.2.2,
    (validated_ranges example_arguments (amend_arguments example_arguments)
      startup_example_arguments.1).2.1.2⟩

/-! ### What touches the cursor and the hourly limit -/

theorem match_positive_rate (P : Params) (fp : Fingerprint) (s : State) :
    (match_positive P fp s).rate = s.rate := by
  unfold match_positive
  split_ifs
  · split <;> rfl
  · rfl

theorem scan_positives_rate (P : Params) (l : List Fingerprint) (s : State) :
    (scan_positives P l s).rate = s.rate := by
  induction l generalizing s with
  | nil => rfl
  | cons fp rest ih =>
    unfold scan_positives
    split_ifs
    · exact match_positive_rate P fp s
    · exact match_positive_rate P fp s
    · rw [ih]; exact match_positive_rate P fp s

theorem match_negative_rate (P : Params) (fp : Fingerprint) (s : State) :
    (match_negative P fp s).rate = s.rate := by
  unfold match_negative
  split_ifs
  · split <;> rfl
  · rfl

theorem scan_negatives_rate (P : Params) (l : List Fingerprint) (s : State) :
    (scan_negatives P l s).rate = s.rate := by
  induction l generalizing s with
  | nil => rfl
  | cons fp rest ih =>
    unfold scan_negatives
    split_ifs
    · exact match_negative_rate P fp s
    · rw [ih]; exact match_negative_rate P fp s

theorem final_evaluation_rate (P : Params) (s : State) :
    (final_evaluation P s).rate = s.rate := by
  unfold final_evaluation
  split_ifs <;> rfl

theorem and_then_rate (s : State) (f : State → State) (hf : ∀ t, (f t).rate = t.rate) :
    (and_then s f).rate = s.rate := by
  unfold and_then
  split_ifs
  · rfl
  · exact hf s

theorem match_bank_rate (P : Params) (s : State) : (match_bank P s).rate = s.rate := by
  unfold match_bank
  rw [and_then_rate]
  · unfold evaluate_positives
    split_ifs
    · rw [scan_positives_rate]; rfl
    · rfl
  · intro t
    unfold evaluate_negatives
    split_ifs
    · rw [scan_negatives_rate]
    · rfl

theorem generate_fingerprint_cursample (P : Params) (s : State) :
    (generate_fingerprint P s)._cursample = s._cursample := by
  unfold generate_fingerprint
  split_ifs <;> rfl

/-- The state in which the end of a window reaches the file generation: the
one after the matching and the final evaluation. -/
theorem pattern_end_rate (P : Params) (s : State) :
    (pattern_end P s).rate = s.rate
      ∨ ∃ m : State, m.rate = s.rate ∧ m._curtime = s._curtime ∧ m.status = .running
          ∧ (pattern_end P s).rate = (generate_fingerprint P m).rate := by
  have hm : (and_then (match_bank P (run_transform P s)) (final_evaluation P)).rate
      = s.rate := by
    rw [and_then_rate _ _ (final_evaluation_rate P), match_bank_rate]; rfl
  have hc : (and_then (match_bank P (run_transform P s)) (final_evaluation P))._curtime
      = s._curtime := by
    have h : (and_then (match_bank P (run_transform P s)) (final_evaluation P)).core
        = (run_transform P s).core := by
      rw [and_then_core _ _ (final_evaluation_core P), match_bank_core]
    exact congrArg Core.curtime h
  unfold pattern_end
  generalize and_then (match_bank P (run_transform P s)) (final_evaluation P) = m at hm hc
  by_cases hs : m.status = .running
  · right
    refine ⟨m, hm, hc, hs, ?_⟩
    rw [and_then_rate _ clear_pattern (fun t => rfl)]
    unfold and_then
    rw [if_neg (by rw [hs]; simp)]
  · left
    rw [and_then_rate _ clear_pattern (fun t => rfl)]
    unfold and_then
    rw [if_pos hs]
    exact hm

theorem pattern_evaluation_rate (P : Params) (s : State) :
    (pattern_evaluation P s).rate = s.rate
      ∨ ∃ m : State, m.rate = s.rate ∧ m._curtime = s._curtime ∧ m.status = .running
          ∧ (pattern_evaluation P s).rate = (generate_fingerprint P m).rate := by
  unfold pattern_evaluation
  split_ifs
  · exact pattern_end_rate P (push_sample P s)
  · left; rfl
  · left; rfl

theorem detector_rate (P : Params) (e : State) :
    (set_output P (amend_diffavg P (wait_detector P e))).rate = e.rate := by
  have h1 : (wait_detector P e).rate = e.rate := by
    unfold wait_detector; split_ifs <;> rfl
  have h2 : ∀ t, (amend_diffavg P t).rate = t.rate := by
    intro t; unfold amend_diffavg; split_ifs <;> rfl
  have h3 : ∀ t, (set_output P t).rate = t.rate := fun t => rfl
  rw [h3, h2, h1]

/-- One pass of the loop body leaves the cursor and the hourly limit alone,
or changes them as `generate_fingerprint` does at the time of the sample. -/
theorem loop_body_rate (P : Params) (s : State) (x : Sample) :
    (loop_body P s x).rate = s.rate
      ∨ ∃ m : State, m.rate = s.rate ∧ m._curtime = x.t ∧ m.status = .running
          ∧ (loop_body P s x).rate = (generate_fingerprint P m).rate := by
  unfold loop_body
  rw [and_then_rate _ reset_match (fun t => rfl)]
  unfold process_sample
  by_cases hs : s.status = .running
  · have h0 : and_then s (fun s => and_then (pattern_evaluation P (read_sample s x))
        fun e => set_output P (amend_diffavg P (wait_detector P e)))
        = and_then (pattern_evaluation P (read_sample s x))
            fun e => set_output P (amend_diffavg P (wait_detector P e)) := by
      unfold and_then
      simp only [hs, ne_eq, not_true_eq_false, if_false]
    rw [h0, and_then_rate _ _ (detector_rate P)]
    exact pattern_evaluation_rate P (read_sample s x)
  · left
    unfold and_then
    rw [if_pos hs]

theorem loop_body_cursample (P : Params) (s : State) (x : Sample) :
    (loop_body P s x)._cursample = s._cursample := by
  rcases loop_body_rate P s x with h | ⟨m, hm, _, _, h⟩
  · exact congrArg Rate.cursample h
  · have h1 := congrArg Rate.cursample h
    have h2 := congrArg Rate.cursample hm
    exact h1.trans ((generate_fingerprint_cursample P m).trans h2)

/-! ### The sampling cursor -/

theorem succ_emod (n S : Int) (hS : 1 ≤ S) :
    (n + 1) % S = if n % S + 1 = S then 0 else n % S + 1 := by
  have h0 := Int.emod_nonneg n (show S ≠ 0 by omega)
  have h1 := Int.emod_lt_of_pos n (show 0 < S by omega)
  have hd := Int.emod_add_ediv n S
  have hn : n + 1 = (n % S + 1) + S * (n / S) := by linarith
  conv_lhs => rw [hn, Int.add_mul_emod_self_left]
  split_ifs with hc
  · rw [hc, Int.emod_self]
  · exact Int.emod_eq_of_lt (by omega) (by omega)

theorem line_body_stopped (P : Params) (s : State) (l : Line) (h : s.status ≠ .running) :
    line_body P s l = s := by
  unfold line_body and_then
  rw [if_pos h]

theorem line_body_running (P : Params) (s : State) (l : Line) (h : s.status = .running) :
    line_body P s l
      = if s._cursample > 1 then { s with _cursample := s._cursample - 1 }
        else if l.heading = true ∨ l.separator = false then
          { s with _cursample := P._sample_each }
        else
          match l.value with
          | none =>
            { s with _cursample := P._sample_each, _curtime := l.t, _lasttime := l.t,
                     status := .exited 134 }
          | some v => loop_body P { s with _cursample := P._sample_each } ⟨l.t, v⟩ := by
  unfold line_body and_then
  rw [if_neg (by rw [h]; simp)]

theorem line_body_cursample (P : Params) (s : State) (l : Line) (h : s.status = .running) :
    (line_body P s l)._cursample
      = if s._cursample > 1 then s._cursample - 1 else P._sample_each := by
  rw [line_body_running P s l h]
  split_ifs
  · rfl
  · rfl
  · cases l.value with
    | none => rfl
    | some v => exact loop_body_cursample P _ _

theorem lines_loop_snoc (P : Params) (s : State) (ls : List Line) (l : Line) :
    lines_loop P s (ls ++ [l]) = line_body P (lines_loop P s ls) l := by
  unfold lines_loop
  rw [List.foldl_append]
  rfl

/-- After `j` lines of a running process the cursor is `S − (j mod S)`. -/
theorem lines_loop_cursample (P : Params) (hS : 1 ≤ P._sample_each) (ls : List Line)
    (h : (lines_loop P (init P) ls).status = .running) :
    (lines_loop P (init P) ls)._cursample
      = P._sample_each - (ls.length : Int) % P._sample_each := by
  induction ls using List.reverseRecOn with
  | nil =>
    show P._sample_each = P._sample_each - ((0 : Nat) : Int) % P._sample_each
    simp
  | append_singleton ls l ih =>
    rw [lines_loop_snoc] at h ⊢
    have hr : (lines_loop P (init P) ls).status = .running := by
      by_contra hn
      rw [line_body_stopped P _ l hn] at h
      exact hn h
    rw [line_body_cursample P _ l hr, ih hr]
    have hlen : ((ls ++ [l]).length : Int) = (ls.length : Int) + 1 := by
      rw [List.length_append, List.length_singleton]; push_cast; rfl
    rw [hlen]
    have h0 : 0 ≤ (ls.length : Int) % P._sample_each :=
      Int.emod_nonneg _ (by omega)
    have h1 : (ls.length : Int) % P._sample_each < P._sample_each :=
      Int.emod_lt_of_pos _ (by omega)
    rw [succ_emod _ _ hS]
    split_ifs <;> omega

/-- With `_sample_each = 1` the loop over well-formed lines is the loop over
their samples. -/
theorem lines_loop_samples (P : Params) (hS : P._sample_each = 1) (xs : List Sample)
    (s : State) (hc : s._cursample = 1) :
    lines_loop P s (xs.map Sample.line) = main_loop P s xs := by
  induction xs generalizing s with
  | nil => rfl
  | cons x xs ih =>
    have hl : lines_loop P s ((x :: xs).map Sample.line)
        = lines_loop P (line_body P s x.line) (xs.map Sample.line) := rfl
    have hb : line_body P s x.line = loop_body P s x := by
      by_cases hr : s.status = .running
      · rw [line_body_running P s _ hr, if_neg (by rw [hc]; decide),
          if_neg (by simp [Sample.line])]
        show loop_body P { s with _cursample := P._sample_each } ⟨x.t, x.v⟩ = loop_body P s x
        rw [hS, ← hc]
      · rw [line_body_stopped P s _ hr, loop_body_stopped P s x hr]
    rw [hl, main_loop_cons, hb]
    exact ih _ ((loop_body_cursample P s x).trans hc)

/-- C35. For every `S = _sample_each ≥ 1` and every input, whatever its
lines hold: when the process is still running after the first `k − 1`
lines, the `k`-th line passes the sampling test of line 919 (`_cursample--
> 1` is false) if and only if `S` divides `k`; a line that does not pass
changes nothing but the cursor, whatever it holds; a line that passes and is
well formed is the next sample of the loop body. -/
theorem sample_decimation (P : Params) (hS : 1 ≤ P._sample_each) (pre : List Line)
    (l : Line) (hrun : (lines_loop P (init P) pre).status = .running) :
    (¬ (lines_loop P (init P) pre)._cursample > 1
        ↔ P._sample_each ∣ ((pre.length + 1 : Nat) : Int))
    ∧ ((lines_loop P (init P) pre)._cursample > 1 →
        lines_loop P (init P) (pre ++ [l])
          = { lines_loop P (init P) pre with
              _cursample := (lines_loop P (init P) pre)._cursample - 1 })
    ∧ (∀ v, ¬ (lines_loop P (init P) pre)._cursample > 1 → l.heading = false →
        l.separator = true → l.value = some v →
        lines_loop P (init P) (pre ++ [l])
          = loop_body P { lines_loop P (init P) pre with _cursample := P._sample_each }
              ⟨l.t, v⟩) := by
  have hc := lines_loop_cursample P hS pre hrun
  refine ⟨?_, ?_, ?_⟩
  · rw [hc, Int.dvd_iff_emod_eq_zero]
    have h0 : 0 ≤ (pre.length : Int) % P._sample_each := Int.emod_nonneg _ (by omega)
    have h1 : (pre.length : Int) % P._sample_each < P._sample_each :=
      Int.emod_lt_of_pos _ (by omega)
    have hk : ((pre.length + 1 : Nat) : Int) = (pre.length : Int) + 1 := by push_cast; rfl
    rw [hk, succ_emod _ _ hS]
    split_ifs <;> constructor <;> intro h <;> omega
  · intro h
    rw [lines_loop_snoc, line_body_running P _ l hrun, if_pos h]
  · intro v h hh hsep hv
    rw [lines_loop_snoc, line_body_running P _ l hrun, if_neg h,
      if_neg (by rw [hh, hsep]; simp), hv]

theorem sample_decimation_witness :
    (lines_loop example_sampling (init example_sampling) example_lines).status = .running
    ∧ (¬ (lines_loop example_sampling (init example_sampling) example_lines)._cursample > 1
        ↔ example_sampling._sample_each ∣ ((example_lines.length + 1 : Nat) : Int))
    ∧ (lines_loop example_sampling (init example_sampling) example_lines)._cursample = 1
    ∧ (lines_loop example_sampling (init example_sampling)
        (example_lines ++ [line_at 3 100]))._lineid = 1 :=
  ⟨by decide!,
    (sample_decimation example_sampling (by decide) example_lines (line_at 3 100)
      (by decide!)).1,
    by decide!, by decide!⟩

/-- C36. A line whose value is no number ends the process: `std::stod`
throws outside any `try`, and the lines after it are not read.  A line whose
timestamp does not parse is processed as any other, with the time left from
the line before: the line counter moves, the value enters the detector, and
here it raises the alarm and starts a pattern. -/
theorem parse_errors_fail :
    (line_body example_params (init example_params) example_bad_value).status
        = .exited 134
    ∧ (lines_loop example_params (init example_params)
        [example_bad_value, line_at 6 100, line_at 7 100])._lineid = 0
    ∧ (lines_loop example_params (init example_params)
        [line_at 0 100, line_at 1 100])._lineid = 2
    ∧ (lines_loop example_params (init example_params) [line_at 0 100])._lineid = 1
    ∧ (lines_loop example_params (init example_params)
        [line_at 0 100, example_bad_timestamp]).status = .running
    ∧ (lines_loop example_params (init example_params)
        [line_at 0 100, example_bad_timestamp])._lineid = 2
    ∧ (lines_loop example_params (init example_params)
        [line_at 0 100, example_bad_timestamp])._ispattern = 1
    ∧ (lines_loop example_params (init example_params)
        [line_at 0 100, example_bad_timestamp])._seqdata = [1000] := by
  refine ⟨by decide!, by decide!, by decide!, by decide!, by decide!, by decide!,
    by decide!, by decide!⟩

/-! ### One would-be write -/

theorem generate_fingerprint_keeps (P : Params) (m : State) :
    (generate_fingerprint P m)._ismatch = m._ismatch
      ∧ (generate_fingerprint P m)._vw = m._vw
      ∧ (generate_fingerprint P m)._patternid = m._patternid := by
  unfold generate_fingerprint
  split_ifs <;> exact ⟨rfl, rfl, rfl⟩

theorem would_be_write_keeps (P : Params) (s : State) (T : Timeval) :
    (would_be_write P s T)._ismatch = s._ismatch
      ∧ (would_be_write P s T)._vw = s._vw
      ∧ (would_be_write P s T)._patternid = s._patternid :=
  generate_fingerprint_keeps P { s with _curtime := T }

/-- The generation more than 3600 s after the start of the hour opens a new
hour and writes the file. -/
theorem generate_fingerprint_open (P : Params) (m : State)
    (hH : 0 < P._genpattern_hour_limit) (hg : generating P m)
    (hv : _fingerprint_n P ≤ m._vw.length)
    (ht : m._curtime.tv_sec - m._genpattern_time.tv_sec > 60 * 60) :
    (generate_fingerprint P m)._genpattern_time = m._curtime
      ∧ (generate_fingerprint P m)._genpattern_count = 1
      ∧ (generate_fingerprint P m)._outputfiles
          = m._outputfiles ++ [file_at P m m._curtime] := by
  have hthr : throttle m = (m._curtime, 0) := by
    unfold throttle
    rw [if_pos ht]
  have hg2 : P._generate_fingerprints = 1 ∨ (P._generate_fingerprints = 2 ∧ m._ismatch = 0) :=
    hg
  unfold generate_fingerprint
  rw [if_pos hg2, hthr, if_pos (Or.inr hH), if_neg (by simpa using hv)]
  exact ⟨rfl, rfl, rfl⟩

/-- The generation inside the hour, with room under the limit or with no
limit, writes the file. -/
theorem generate_fingerprint_room (P : Params) (m : State)
    (hg : generating P m) (hv : _fingerprint_n P ≤ m._vw.length)
    (ht : ¬ m._curtime.tv_sec - m._genpattern_time.tv_sec > 60 * 60)
    (hc : P._genpattern_hour_limit = 0 ∨ m._genpattern_count < P._genpattern_hour_limit) :
    (generate_fingerprint P m)._genpattern_time = m._genpattern_time
      ∧ (generate_fingerprint P m)._genpattern_count = m._genpattern_count + 1
      ∧ (generate_fingerprint P m)._outputfiles
          = m._outputfiles ++ [file_at P m m._curtime] := by
  have hthr : throttle m = (m._genpattern_time, m._genpattern_count) := by
    unfold throttle
    rw [if_neg ht]
  have hg2 : P._generate_fingerprints = 1 ∨ (P._generate_fingerprints = 2 ∧ m._ismatch = 0) :=
    hg
  unfold generate_fingerprint
  rw [if_pos hg2, hthr, if_pos hc, if_neg (by simpa using hv)]
  exact ⟨rfl, rfl, rfl⟩

/-- The generation inside the hour when the limit is reached changes
nothing. -/
theorem generate_fingerprint_full (P : Params) (m : State)
    (ht : ¬ m._curtime.tv_sec - m._genpattern_time.tv_sec > 60 * 60)
    (hc : ¬ (P._genpattern_hour_limit = 0 ∨ m._genpattern_count < P._genpattern_hour_limit)) :
    generate_fingerprint P m = m := by
  have hthr : throttle m = (m._genpattern_time, m._genpattern_count) := by
    unfold throttle
    rw [if_neg ht]
  unfold generate_fingerprint
  rw [hthr, if_neg hc]
  split_ifs <;> rfl

/-- The generation with no limit writes the file. -/
theorem generate_fingerprint_unlimited (P : Params) (m : State)
    (hH : P._genpattern_hour_limit = 0) (hg : generating P m)
    (hv : _fingerprint_n P ≤ m._vw.length) :
    (generate_fingerprint P m)._outputfiles
      = m._outputfiles ++ [file_at P m m._curtime] := by
  have hg2 : P._generate_fingerprints = 1 ∨ (P._generate_fingerprints = 2 ∧ m._ismatch = 0) :=
    hg
  unfold generate_fingerprint
  rw [if_pos hg2, if_pos (Or.inl hH), if_neg (by simpa using hv)]
  rfl

theorem would_be_write_open (P : Params) (s : State) (T : Timeval)
    (hH : 0 < P._genpattern_hour_limit) (hg : generating P s)
    (hv : _fingerprint_n P ≤ s._vw.length)
    (ht : T.tv_sec - s._genpattern_time.tv_sec > 60 * 60) :
    (would_be_write P s T)._genpattern_time = T
      ∧ (would_be_write P s T)._genpattern_count = 1
      ∧ (would_be_write P s T)._outputfiles = s._outputfiles ++ [file_at P s T] :=
  generate_fingerprint_open P { s with _curtime := T } hH hg hv ht

theorem would_be_write_room (P : Params) (s : State) (T : Timeval)
    (hg : generating P s) (hv : _fingerprint_n P ≤ s._vw.length)
    (ht : ¬ T.tv_sec - s._genpattern_time.tv_sec > 60 * 60)
    (hc : P._genpattern_hour_limit = 0 ∨ s._genpattern_count < P._genpattern_hour_limit) :
    (would_be_write P s T)._genpattern_time = s._genpattern_time
      ∧ (would_be_write P s T)._genpattern_count = s._genpattern_count + 1
      ∧ (would_be_write P s T)._outputfiles = s._outputfiles ++ [file_at P s T] :=
  generate_fingerprint_room P { s with _curtime := T } hg hv ht hc

theorem would_be_write_full (P : Params) (s : State) (T : Timeval)
    (ht : ¬ T.tv_sec - s._genpattern_time.tv_sec > 60 * 60)
    (hc : ¬ (P._genpattern_hour_limit = 0 ∨ s._genpattern_count < P._genpattern_hour_limit)) :
    would_be_write P s T = { s with _curtime := T } :=
  generate_fingerprint_full P { s with _curtime := T } ht hc

theorem would_be_write_unlimited (P : Params) (s : State) (T : Timeval)
    (hH : P._genpattern_hour_limit = 0) (hg : generating P s)
    (hv : _fingerprint_n P ≤ s._vw.length) :
    (would_be_write P s T)._outputfiles = s._outputfiles ++ [file_at P s T] :=
  generate_fingerprint_unlimited P { s with _curtime := T } hH hg hv

theorem would_be_writes_cons (P : Params) (s : State) (T : Timeval) (ts : List Timeval) :
    would_be_writes P s (T :: ts) = would_be_writes P (would_be_write P s T) ts := rfl

theorem file_at_congr (P : Params) (s r : State) (h1 : r._vw = s._vw)
    (h2 : r._patternid = s._patternid) : file_at P r = file_at P s := by
  funext T
  unfold file_at
  rw [h1, h2]

/-! ### The would-be writes of one hour -/

/-- Inside one hour exactly the first `H − count` would-be writes are
written. -/
theorem would_be_writes_bucket (P : Params) (hH : 0 < P._genpattern_hour_limit)
    (ts : List Timeval) (s : State) (hg : generating P s)
    (hv : _fingerprint_n P ≤ s._vw.length)
    (hc : 0 ≤ s._genpattern_count ∧ s._genpattern_count ≤ P._genpattern_hour_limit)
    (ht : ∀ T ∈ ts, ¬ T.tv_sec - s._genpattern_time.tv_sec > 60 * 60) :
    (would_be_writes P s ts)._outputfiles
        = s._outputfiles
          ++ (ts.take (P._genpattern_hour_limit - s._genpattern_count).toNat).map (file_at P s)
      ∧ (would_be_writes P s ts)._genpattern_count
          = min P._genpattern_hour_limit (s._genpattern_count + (ts.length : Nat))
      ∧ (would_be_writes P s ts)._genpattern_time = s._genpattern_time := by
  induction ts generalizing s with
  | nil =>
    refine ⟨by simp [would_be_writes], ?_, rfl⟩
    show s._genpattern_count = _
    simp only [List.length_nil, Nat.cast_zero, add_zero]
    omega
  | cons T ts ih =>
    have hk := would_be_write_keeps P s T
    have hT := ht T (List.mem_cons_self _ _)
    rw [would_be_writes_cons]
    by_cases hroom : s._genpattern_count < P._genpattern_hour_limit
    · obtain ⟨w1, w2, w3⟩ := would_be_write_room P s T hg hv hT (Or.inr hroom)
      have hg2 : generating P (would_be_write P s T) := by
        unfold generating at hg ⊢; rw [hk.1]; exact hg
      obtain ⟨i1, i2, i3⟩ := ih (would_be_write P s T) hg2 (by rw [hk.2.1]; exact hv)
        (by rw [w2]; omega)
        (fun U hU => by rw [w1]; exact ht U (List.mem_cons_of_mem _ hU))
      refine ⟨?_, ?_, ?_⟩
      · rw [i1, w3, w2, file_at_congr P s _ hk.2.1 hk.2.2]
        have hn : (P._genpattern_hour_limit - s._genpattern_count).toNat
            = (P._genpattern_hour_limit - (s._genpattern_count + 1)).toNat + 1 := by omega
        rw [hn, List.take_succ_cons, List.map_cons, List.append_assoc]
        rfl
      · rw [i2, w2, List.length_cons]
        push_cast
        congr 1
        ring
      · rw [i3, w1]
    · have hfull := would_be_write_full P s T hT (by omega)
      rw [hfull]
      obtain ⟨i1, i2, i3⟩ := ih { s with _curtime := T } hg hv hc
        (fun U hU => ht U (List.mem_cons_of_mem _ hU))
      refine ⟨?_, ?_, i3⟩
      · rw [i1]
        have hn : (P._genpattern_hour_limit - s._genpattern_count).toNat = 0 := by omega
        show s._outputfiles ++ _ = s._outputfiles ++ _
        rw [hn]
        simp
      · rw [i2]
        show min _ (s._genpattern_count + _) = min _ (s._genpattern_count + _)
        rw [List.length_cons]
        push_cast
        omega

/-- The first would-be write more than 3600 s after the start of the hour
opens a new hour, in which exactly the first `H` would-be writes are
written. -/
theorem would_be_writes_open (P : Params) (hH : 0 < P._genpattern_hour_limit)
    (T0 : Timeval) (ts : List Timeval) (s : State) (hg : generating P s)
    (hv : _fingerprint_n P ≤ s._vw.length)
    (h0 : T0.tv_sec - s._genpattern_time.tv_sec > 60 * 60)
    (ht : ∀ T ∈ ts, ¬ T.tv_sec - T0.tv_sec > 60 * 60) :
    (would_be_writes P s (T0 :: ts))._outputfiles
        = s._outputfiles
          ++ ((T0 :: ts).take P._genpattern_hour_limit.toNat).map (file_at P s)
      ∧ (would_be_writes P s (T0 :: ts))._genpattern_count
          = min P._genpattern_hour_limit (1 + (ts.length : Nat))
      ∧ (would_be_writes P s (T0 :: ts))._genpattern_time = T0 := by
  have hk := would_be_write_keeps P s T0
  obtain ⟨w1, w2, w3⟩ := would_be_write_open P s T0 hH hg hv h0
  have hg2 : generating P (would_be_write P s T0) := by
    unfold generating at hg ⊢; rw [hk.1]; exact hg
  obtain ⟨i1, i2, i3⟩ := would_be_writes_bucket P hH ts (would_be_write P s T0) hg2
    (by rw [hk.2.1]; exact hv) (by rw [w2]; omega) (fun U hU => by rw [w1]; exact ht U hU)
  rw [would_be_writes_cons]
  refine ⟨?_, ?_, ?_⟩
  · rw [i1, w3, w2, file_at_congr P s _ hk.2.1 hk.2.2]
    have hn : P._genpattern_hour_limit.toNat = (P._genpattern_hour_limit - 1).toNat + 1 := by
      omega
    rw [hn, List.take_succ_cons, List.map_cons, List.append_assoc]
    rfl
  · rw [i2, w2]
  · rw [i3, w1]

/-- With no limit every would-be write is written. -/
theorem would_be_writes_unlimited (P : Params) (hH : P._genpattern_hour_limit = 0)
    (ts : List Timeval) (s : State) (hg : generating P s)
    (hv : _fingerprint_n P ≤ s._vw.length) :
    (would_be_writes P s ts)._outputfiles = s._outputfiles ++ ts.map (file_at P s) := by
  induction ts generalizing s with
  | nil => simp [would_be_writes]
  | cons T ts ih =>
    have hk := would_be_write_keeps P s T
    have hg2 : generating P (would_be_write P s T) := by
      unfold generating at hg ⊢; rw [hk.1]; exact hg
    rw [would_be_writes_cons, ih _ hg2 (by rw [hk.2.1]; exact hv),
      would_be_write_unlimited P s T hH hg hv, file_at_congr P s _ hk.2.1 hk.2.2,
      List.map_cons, List.append_assoc]
    rfl

/-! ### The counter in a run -/

theorem generate_fingerprint_count (P : Params) (hH : 0 < P._genpattern_hour_limit)
    (m : State)
    (hc : 0 ≤ m._genpattern_count ∧ m._genpattern_count ≤ P._genpattern_hour_limit) :
    0 ≤ (generate_fingerprint P m)._genpattern_count
      ∧ (generate_fingerprint P m)._genpattern_count ≤ P._genpattern_hour_limit := by
  have hthr : 0 ≤ (throttle m).2 ∧ (throttle m).2 ≤ P._genpattern_hour_limit := by
    unfold throttle
    split_ifs
    · exact ⟨le_refl _, by omega⟩
    · exact hc
  unfold generate_fingerprint
  split_ifs with h1 h2 h3
  · show 0 ≤ (throttle m).2 + 1 ∧ (throttle m).2 + 1 ≤ _
    omega
  · show 0 ≤ (throttle m).2 + 1 ∧ (throttle m).2 + 1 ≤ _
    omega
  · exact hthr
  · exact hc

theorem loop_body_count (P : Params) (hH : 0 < P._genpattern_hour_limit) (s : State)
    (x : Sample)
    (hc : 0 ≤ s._genpattern_count ∧ s._genpattern_count ≤ P._genpattern_hour_limit) :
    0 ≤ (loop_body P s x)._genpattern_count
      ∧ (loop_body P s x)._genpattern_count ≤ P._genpattern_hour_limit := by
  rcases loop_body_rate P s x with h | ⟨m, hm, _, _, h⟩
  · have := congrArg Rate.count h
    simp only [State.rate] at this
    rw [this]; exact hc
  · have h1 := congrArg Rate.count h
    have h2 := congrArg Rate.count hm
    simp only [State.rate] at h1 h2
    rw [h1]
    exact generate_fingerprint_count P hH m (by rw [h2]; exact hc)

theorem main_loop_count (P : Params) (hH : 0 < P._genpattern_hour_limit) (xs : List Sample)
    (s : State)
    (hc : 0 ≤ s._genpattern_count ∧ s._genpattern_count ≤ P._genpattern_hour_limit) :
    0 ≤ (main_loop P s xs)._genpattern_count
      ∧ (main_loop P s xs)._genpattern_count ≤ P._genpattern_hour_limit := by
  induction xs generalizing s with
  | nil => exact hc
  | cons x xs ih =>
    rw [main_loop_cons]
    exact ih _ (loop_body_count P hH s x hc)

/-- C32. With `H = _genpattern_hour_limit > 0`: in every run
`_genpattern_count` stays between 0 and `H`; of the would-be writes (windows
that end with `_generate_fingerprints` asking for a file) that come no more
than 3600 s after the start of the hour exactly the first `H − count` are
written and the others are dropped, so the first `H` of an hour that starts
with the count 0; the first would-be write more than 3600 s after the start
of the hour is written and starts a new hour at its own time, with the count
1, so that exactly the first `H` would-be writes from it on are written while
they come no more than 3600 s after it.  With `H = 0` every would-be write
is written.  In a run the hourly limit and the files change through
`generate_fingerprint` only, at the time of the sample that completes a
window. -/
theorem rate_bucket (P : Params) :
    (0 < P._genpattern_hour_limit →
      (∀ xs : List Sample,
        0 ≤ (main_loop P (init P) xs)._genpattern_count
          ∧ (main_loop P (init P) xs)._genpattern_count ≤ P._genpattern_hour_limit)
      ∧ (∀ (s : State) (ts : List Timeval), generating P s →
          _fingerprint_n P ≤ s._vw.length →
          0 ≤ s._genpattern_count → s._genpattern_count ≤ P._genpattern_hour_limit →
          (∀ T ∈ ts, ¬ T.tv_sec - s._genpattern_time.tv_sec > 60 * 60) →
          (would_be_writes P s ts)._outputfiles
              = s._outputfiles
                ++ (ts.take (P._genpattern_hour_limit - s._genpattern_count).toNat).map
                    (file_at P s)
            ∧ (would_be_writes P s ts)._genpattern_count
                = min P._genpattern_hour_limit (s._genpattern_count + (ts.length : Nat))
            ∧ (would_be_writes P s ts)._genpattern_time = s._genpattern_time)
      ∧ (∀ (s : State) (T0 : Timeval) (ts : List Timeval), generating P s →
          _fingerprint_n P ≤ s._vw.length →
          T0.tv_sec - s._genpattern_time.tv_sec > 60 * 60 →
          (∀ T ∈ ts, ¬ T.tv_sec - T0.tv_sec > 60 * 60) →
          (would_be_writes P s (T0 :: ts))._outputfiles
              = s._outputfiles
                ++ ((T0 :: ts).take P._genpattern_hour_limit.toNat).map (file_at P s)
            ∧ (would_be_writes P s (T0 :: ts))._genpattern_count
                = min P._genpattern_hour_limit (1 + (ts.length : Nat))
            ∧ (would_be_writes P s (T0 :: ts))._genpattern_time = T0))
    ∧ (P._genpattern_hour_limit = 0 →
        ∀ (s : State) (ts : List Timeval), generating P s →
          _fingerprint_n P ≤ s._vw.length →
          (would_be_writes P s ts)._outputfiles = s._outputfiles ++ ts.map (file_at P s))
    ∧ (∀ (s : State) (x : Sample),
        (loop_body P s x).rate = s.rate
          ∨ ∃ m : State, m.rate = s.rate ∧ m._curtime = x.t ∧ m.status = .running
              ∧ (loop_body P s x).rate = (generate_fingerprint P m).rate) := by
  refine ⟨fun hH => ⟨fun xs => main_loop_count P hH xs (init P) ⟨le_refl _, le_of_lt hH⟩,
    fun s ts hg hv h0 h1 ht => would_be_writes_bucket P hH ts s hg hv ⟨h0, h1⟩ ht,
    fun s T0 ts hg hv h0 ht => would_be_writes_open P hH T0 ts s hg hv h0 ht⟩,
    fun hH s ts hg hv => would_be_writes_unlimited P hH ts s hg hv,
    fun s x => loop_body_rate P s x⟩

theorem rate_bucket_witness :
    (example_feed 10000).length = 100
    ∧ (main_loop example_limited (init example_limited) (example_feed 10000))._patternid = 10
    ∧ file_seconds (main_loop example_limited (init example_limited) (example_feed 10000))
        = [10000, 10180]
    ∧ (main_loop example_limited (init example_limited)
        (example_feed 10000 ++ example_feed 13660))._patternid = 20
    ∧ file_seconds (main_loop example_limited (init example_limited)
        (example_feed 10000 ++ example_feed 13660)) = [10000, 10180, 13660, 13840]
    ∧ (main_loop example_limited (init example_limited)
        (example_feed 10000 ++ example_feed 13660))._genpattern_count
          ≤ example_limited._genpattern_hour_limit :=
  ⟨by decide!, by decide!, by decide!, by decide!, by decide!,
    (((rate_bucket example_limited).1 (by decide)).1
      (example_feed 10000 ++ example_feed 13660)).2⟩

/-! ### Counting files -/

theorem countP_split (p q r : Int → Bool) (F : List Int)
    (h : ∀ t ∈ F, p t = true → q t = true ∨ r t = true) :
    F.countP p ≤ F.countP q + F.countP r := by
  induction F with
  | nil => simp
  | cons t F ih =>
    have ih2 := ih (fun u hu => h u (List.mem_cons_of_mem _ hu))
    have ht := h t (List.mem_cons_self _ _)
    rw [List.countP_cons, List.countP_cons, List.countP_cons]
    by_cases hp : p t = true
    · rcases ht hp with hq | hr
      · rw [if_pos hp, if_pos hq]; split_ifs <;> omega
      · rw [if_pos hp, if_pos hr]; split_ifs <;> omega
    · rw [if_neg hp]; split_ifs <;> omega

theorem hourly_later (H l b c T : Int) (F : List Int) (h : Hourly H l b c F) (hT : l ≤ T) :
    Hourly H T b c F :=
  ⟨h.count_range, le_trans h.start_le hT,
    fun t ht => ⟨le_trans (h.files_le t ht).1 hT, (h.files_le t ht).2⟩,
    h.current, h.before, h.rolling⟩

theorem hourly_count (H l b c c2 : Int) (F : List Int) (h : Hourly H l b c F)
    (hc : c ≤ c2) (hc2 : c2 ≤ H) : Hourly H l b c2 F :=
  ⟨⟨le_trans h.count_range.1 hc, hc2⟩, h.start_le, h.files_le, le_trans h.current hc,
    h.before, h.rolling⟩

/-- A file written inside the current hour, with room under the limit. -/
theorem hourly_room (H l b c T : Int) (F : List Int) (h : Hourly H l b c F) (hT : l ≤ T)
    (hin : ¬ T - b > 60 * 60) (hc : c < H) : Hourly H T b (c + 1) (F ++ [T]) := by
  have hb := h.start_le
  refine ⟨⟨by have := h.count_range; omega, by omega⟩, by omega, ?_, ?_, ?_, ?_⟩
  · intro t ht
    rw [List.mem_append, List.mem_singleton] at ht
    rcases ht with ht | rfl
    · have := h.files_le t ht; exact ⟨by omega, this.2⟩
    · exact ⟨le_refl _, by omega⟩
  · rw [List.countP_append, List.countP_singleton]
    have := h.current
    push_cast
    split_ifs <;> omega
  · intro a ha
    rw [List.countP_append, List.countP_singleton, if_neg (by simp; intro _; omega)]
    exact h.before a ha
  · intro a
    unfold within_hour
    rw [List.countP_append, List.countP_singleton]
    by_cases hw : a ≤ T ∧ T ≤ a + 3600
    · rw [if_pos (by simpa using hw)]
      have hs := countP_split (fun t => decide (a ≤ t ∧ t ≤ a + 3600))
        (fun t => decide (a ≤ t ∧ t < b)) (fun t => decide (b ≤ t)) F (fun t _ hp => by
          simp only [decide_eq_true_eq] at hp ⊢
          omega)
      have h1 := h.before a (by omega)
      have h2 := h.current
      push_cast
      omega
    · rw [if_neg (by simpa using hw)]
      exact h.rolling a

/-- A file written more than 3600 s after the start of the hour: it opens a
new hour. -/
theorem hourly_open (H l b c T : Int) (F : List Int) (h : Hourly H l b c F) (hT : l ≤ T)
    (hout : T - b > 60 * 60) (hH : 0 < H) : Hourly H T T 1 (F ++ [T]) := by
  have hold : ∀ t ∈ F, t < T := fun t ht => by have := (h.files_le t ht).2; omega
  have hcur : F.countP (fun t => decide (T ≤ t)) = 0 := by
    rw [List.countP_eq_zero]
    intro t ht
    have := hold t ht
    simp only [decide_eq_true_eq]
    omega
  refine ⟨⟨by omega, by omega⟩, le_refl _, ?_, ?_, ?_, ?_⟩
  · intro t ht
    rw [List.mem_append, List.mem_singleton] at ht
    rcases ht with ht | rfl
    · have := hold t ht; exact ⟨by omega, by omega⟩
    · exact ⟨le_refl _, by omega⟩
  · rw [List.countP_append, List.countP_singleton, hcur]
    simp
  · intro a ha
    rw [List.countP_append, List.countP_singleton, if_neg (by simp)]
    have hm : F.countP (fun t => decide (a ≤ t ∧ t < T)) ≤ F.countP (fun t => decide (b ≤ t)) :=
      List.countP_mono_left (fun t _ hp => by
        simp only [decide_eq_true_eq] at hp ⊢
        omega)
    have h2 := h.current
    have h3 := h.count_range
    push_cast
    omega
  · intro a
    unfold within_hour
    rw [List.countP_append, List.countP_singleton]
    by_cases hw : a ≤ T ∧ T ≤ a + 3600
    · rw [if_pos (by simpa using hw)]
      have hm : F.countP (fun t => decide (a ≤ t ∧ t ≤ a + 3600))
          ≤ F.countP (fun t => decide (b ≤ t)) :=
        List.countP_mono_left (fun t _ hp => by
          simp only [decide_eq_true_eq] at hp ⊢
          omega)
      have h2 := h.current
      have h3 := h.count_range
      push_cast
      omega
    · rw [if_neg (by simpa using hw)]
      exact h.rolling a

/-- A new hour opened without a file. -/
theorem hourly_open_only (H l b c T : Int) (F : List Int) (h : Hourly H l b c F)
    (hout : T - b > 60 * 60) (c2 : Int) (hc2 : 0 ≤ c2 ∧ c2 ≤ H) :
    Hourly H T T c2 F := by
  have hold : ∀ t ∈ F, t < T := fun t ht => by have := (h.files_le t ht).2; omega
  have hcur : F.countP (fun t => decide (T ≤ t)) = 0 := by
    rw [List.countP_eq_zero]
    intro t ht
    have := hold t ht
    simp only [decide_eq_true_eq]
    omega
  refine ⟨hc2, le_refl _, ?_, ?_, ?_, h.rolling⟩
  · intro t ht
    have := hold t ht; exact ⟨by omega, by omega⟩
  · rw [hcur]; exact hc2.1
  · intro a ha
    have hm : F.countP (fun t => decide (a ≤ t ∧ t < T)) ≤ F.countP (fun t => decide (b ≤ t)) :=
      List.countP_mono_left (fun t _ hp => by
        simp only [decide_eq_true_eq] at hp ⊢
        omega)
    have h2 := h.current
    have h3 := h.count_range
    omega

/-! ### The hourly limit in a run -/

theorem hourly_of_rate (H l : Int) (s r : State) (h : r.rate = s.rate) :
    r.hourly H l ↔ s.hourly H l := by
  have h1 : r._genpattern_time = s._genpattern_time := congrArg Rate.time h
  have h2 : r._genpattern_count = s._genpattern_count := congrArg Rate.count h
  have h3 : r._outputfiles = s._outputfiles := congrArg Rate.files h
  unfold State.hourly file_seconds
  rw [h1, h2, h3]

theorem generate_fingerprint_hourly (P : Params) (hH : 0 < P._genpattern_hour_limit)
    (m : State) (l : Int) (h : m.hourly P._genpattern_hour_limit l)
    (hT : l ≤ m._curtime.tv_sec) :
    (generate_fingerprint P m).hourly P._genpattern_hour_limit m._curtime.tv_sec := by
  unfold State.hourly at h ⊢
  by_cases ht : m._curtime.tv_sec - m._genpattern_time.tv_sec > 60 * 60
  · have hthr : throttle m = (m._curtime, 0) := by
      unfold throttle
      rw [if_pos ht]
    unfold generate_fingerprint
    rw [hthr]
    split_ifs with h1 h2 h3
    · exact hourly_open_only _ _ _ _ _ _ h ht 1 ⟨by decide, by omega⟩
    · have := hourly_open _ _ _ _ _ _ h hT ht hH
      simpa [file_seconds] using this
    · exact absurd (Or.inr hH) h2
    · exact hourly_later _ _ _ _ _ _ h hT
  · have hthr : throttle m = (m._genpattern_time, m._genpattern_count) := by
      unfold throttle
      rw [if_neg ht]
    unfold generate_fingerprint
    rw [hthr]
    split_ifs with h1 h2 h3
    · have hc : m._genpattern_count < P._genpattern_hour_limit := by omega
      show Hourly _ _ m._genpattern_time.tv_sec (m._genpattern_count + 1) (file_seconds m)
      exact hourly_count _ _ _ _ _ _ (hourly_later _ _ _ _ _ _ h hT) (by omega) (by omega)
    · have hc : m._genpattern_count < P._genpattern_hour_limit := by omega
      have := hourly_room _ _ _ _ _ _ h hT ht hc
      simpa [file_seconds] using this
    · exact hourly_later _ _ _ _ _ _ h hT
    · exact hourly_later _ _ _ _ _ _ h hT

theorem loop_body_hourly (P : Params) (hH : 0 < P._genpattern_hour_limit) (s : State)
    (x : Sample) (l : Int) (h : s.hourly P._genpattern_hour_limit l)
    (hT : l ≤ x.t.tv_sec) :
    (loop_body P s x).hourly P._genpattern_hour_limit x.t.tv_sec := by
  rcases loop_body_rate P s x with hr | ⟨m, hm, hc, _, hr⟩
  · rw [hourly_of_rate _ _ _ _ hr]
    exact hourly_later _ _ _ _ _ _ h hT
  · rw [hourly_of_rate _ _ _ _ hr, ← hc]
    exact generate_fingerprint_hourly P hH m l ((hourly_of_rate _ _ _ _ hm).2 h)
      (by rw [hc]; exact hT)

theorem main_loop_hourly (P : Params) (hH : 0 < P._genpattern_hour_limit)
    (xs : List Sample) (s : State) (l : Int) (h : s.hourly P._genpattern_hour_limit l)
    (hx : non_decreasing l (xs.map (fun x => x.t.tv_sec)) = true) :
    ∃ l2, (main_loop P s xs).hourly P._genpattern_hour_limit l2 := by
  induction xs generalizing s l with
  | nil => exact ⟨l, h⟩
  | cons x xs ih =>
    simp only [List.map_cons, non_decreasing, Bool.and_eq_true, decide_eq_true_eq] at hx
    rw [main_loop_cons]
    exact ih _ _ (loop_body_hourly P hH s x l h hx.1) hx.2

theorem init_hourly (P : Params) (hH : 0 < P._genpattern_hour_limit) :
    (init P).hourly P._genpattern_hour_limit 0 := by
  unfold State.hourly
  refine ⟨⟨le_refl _, le_of_lt hH⟩, le_refl _, ?_, ?_, ?_, ?_⟩
  · intro t ht; simp [file_seconds, init] at ht
  · show ((0 : Nat) : Int) ≤ 0
    simp
  · intro a _
    show ((0 : Nat) : Int) ≤ _
    simp; omega
  · intro a
    show ((0 : Nat) : Int) ≤ _
    simp; omega

/-- C31, the claim as it stands fails: with `H = 2` and a file for every
window, windows that end in the seconds 10000, 13599, 13601 and 13602 are all
written, the third one opening a new hour; three of the four files lie in the
hour that starts at the second 13599. -/
theorem rolling_hour_counterexample :
    example_limited._genpattern_hour_limit = 2
    ∧ example_limited._generate_fingerprints = 1
    ∧ non_decreasing 0 (example_hour_edge.map (fun x => x.t.tv_sec)) = true
    ∧ file_seconds (main_loop example_limited (init example_limited) example_hour_edge)
        = [10000, 13599, 13601, 13602]
    ∧ within_hour 13599
        (file_seconds (main_loop example_limited (init example_limited) example_hour_edge))
        = 3
    ∧ ¬ ((within_hour 13599
          (file_seconds (main_loop example_limited (init example_limited)
            example_hour_edge)) : Int)
        ≤ example_limited._genpattern_hour_limit) := by
  refine ⟨by decide!, by decide!, by decide!, by decide!, by decide!, by decide!⟩

/-- C31, amended. With `H = _genpattern_hour_limit > 0`, for every input
whose sample times do not go back (and are not before the epoch), the files
written in any interval of 3600 s of sample time, `a .. a + 3600`, number at
most `2·H`, and those written since the start of the current hour (the time
of the write that opened it) number at most `_genpattern_count`, which is
at most `H`. -/
theorem rolling_hour (P : Params) (hH : 0 < P._genpattern_hour_limit) (xs : List Sample)
    (hx : non_decreasing 0 (xs.map (fun x => x.t.tv_sec)) = true) :
    (∀ a : Int, (within_hour a (file_seconds (main_loop P (init P) xs)) : Int)
        ≤ 2 * P._genpattern_hour_limit)
    ∧ (((file_seconds (main_loop P (init P) xs)).countP
          (fun t => decide ((main_loop P (init P) xs)._genpattern_time.tv_sec ≤ t)) : Nat) : Int)
        ≤ (main_loop P (init P) xs)._genpattern_count
    ∧ (main_loop P (init P) xs)._genpattern_count ≤ P._genpattern_hour_limit := by
  obtain ⟨l2, h⟩ := main_loop_hourly P hH xs (init P) 0 (init_hourly P hH) hx
  exact ⟨h.rolling, h.current, h.count_range.2⟩

theorem rolling_hour_witness :
    non_decreasing 0 (example_hour_edge.map (fun x => x.t.tv_sec)) = true
    ∧ (within_hour 13599
        (file_seconds (main_loop example_limited (init example_limited) example_hour_edge))
          : Int)
        ≤ 2 * example_limited._genpattern_hour_limit :=
  ⟨by decide!, (rolling_hour example_limited (by decide) example_hour_edge (by decide!)).1 13599⟩

/-! ### The rounding -/

theorem log2_span_spec (n : Nat) (f k : Nat) (h : n < 2 ^ (2 ^ (k + f))) :
    n < 2 ^ (2 ^ log2_span n f k) := by
  induction f generalizing k with
  | zero => exact h
  | succ f ih =>
    unfold log2_span
    split_ifs with hc
    · exact hc
    · exact ih (k + 1) (by rw [show k + 1 + f = k + (f + 1) by omega]; exact h)

theorem log2_refine_spec (n : Nat) (k lo : Nat) (h1 : 2 ^ lo ≤ n)
    (h2 : n < 2 ^ (lo + 2 ^ k)) :
    2 ^ log2_refine n k lo ≤ n ∧ n < 2 ^ (log2_refine n k lo + 1) := by
  induction k generalizing lo with
  | zero => exact ⟨h1, h2⟩
  | succ k ih =>
    unfold log2_refine
    split_ifs with hc
    · exact ih _ hc (by rw [Nat.add_assoc, ← Nat.two_mul, ← pow_succ']; exact h2)
    · exact ih _ h1 (not_le.mp hc)

/-- The exponent that `nat_log2` finds is the binary exponent. -/
theorem nat_log2_spec (n : Nat) (hn : 1 ≤ n) :
    2 ^ nat_log2 n ≤ n ∧ n < 2 ^ (nat_log2 n + 1) := by
  unfold nat_log2
  apply log2_refine_spec n _ 0 hn
  rw [Nat.zero_add]
  apply log2_span_spec
  rw [Nat.zero_add]
  exact lt_of_lt_of_le (Nat.lt_two_pow n)
    (Nat.pow_le_pow_right (by decide) (le_of_lt (Nat.lt_two_pow n)))

/-- The exponent that `floor_log2` finds is the binary exponent of `n / d`. -/
theorem floor_log2_spec (n d : Nat) (hn : 1 ≤ n) (hd : 1 ≤ d) :
    (2 : ℚ) ^ floor_log2 n d ≤ (n : ℚ) / d
      ∧ (n : ℚ) / d < (2 : ℚ) ^ (floor_log2 n d + 1) := by
  obtain ⟨a1, a2⟩ := nat_log2_spec n hn
  obtain ⟨b1, b2⟩ := nat_log2_spec d hd
  have hd0 : (0 : ℚ) < d := by exact_mod_cast hd
  have ha : ∀ k : Nat, (0 : ℚ) < 2 ^ k := fun k => by positivity
  have a1q : (2 : ℚ) ^ nat_log2 n ≤ n := by exact_mod_cast a1
  have a2q : (n : ℚ) < 2 ^ (nat_log2 n + 1) := by exact_mod_cast a2
  have b1q : (2 : ℚ) ^ nat_log2 d ≤ d := by exact_mod_cast b1
  have b2q : (d : ℚ) < 2 ^ (nat_log2 d + 1) := by exact_mod_cast b2
  have hz : ∀ a b : Nat, (2 : ℚ) ^ ((a : Int) - (b : Int)) = 2 ^ a / 2 ^ b := fun a b => by
    rw [zpow_sub₀ (by norm_num : (2 : ℚ) ≠ 0), zpow_natCast, zpow_natCast]
  unfold floor_log2
  split_ifs with hc
  · have hcq : (d : ℚ) * 2 ^ nat_log2 n ≤ n * 2 ^ nat_log2 d := by exact_mod_cast hc
    constructor
    · rw [hz, div_le_div_iff₀ (ha _) hd0]
      linarith
    · rw [show ((nat_log2 n : Int) - (nat_log2 d : Int) + 1)
          = (((nat_log2 n + 1 : Nat) : Int) - (nat_log2 d : Int)) by push_cast; ring,
        hz, div_lt_div_iff₀ hd0 (ha _)]
      calc (n : ℚ) * 2 ^ nat_log2 d < 2 ^ (nat_log2 n + 1) * 2 ^ nat_log2 d :=
            mul_lt_mul_of_pos_right a2q (ha _)
        _ ≤ 2 ^ (nat_log2 n + 1) * d := mul_le_mul_of_nonneg_left b1q (le_of_lt (ha _))
  · have hcq : (n : ℚ) * 2 ^ nat_log2 d < d * 2 ^ nat_log2 n := by
      exact_mod_cast not_le.mp hc
    constructor
    · rw [show ((nat_log2 n : Int) - (nat_log2 d : Int) - 1)
          = ((nat_log2 n : Int) - ((nat_log2 d + 1 : Nat) : Int)) by push_cast; ring,
        hz, div_le_div_iff₀ (ha _) hd0]
      calc (2 : ℚ) ^ nat_log2 n * d ≤ 2 ^ nat_log2 n * 2 ^ (nat_log2 d + 1) :=
            mul_le_mul_of_nonneg_left (le_of_lt b2q) (le_of_lt (ha _))
        _ ≤ n * 2 ^ (nat_log2 d + 1) := mul_le_mul_of_nonneg_right a1q (le_of_lt (ha _))
    · rw [show ((nat_log2 n : Int) - (nat_log2 d : Int) - 1 + 1)
          = ((nat_log2 n : Int) - (nat_log2 d : Int)) by ring,
        hz, div_lt_div_iff₀ hd0 (ha _)]
      linarith

/-- The integer that `half_even` finds is within one half of `n / d`. -/
theorem half_even_spec (n d : Nat) (hd : 1 ≤ d) :
    |((half_even n d : Nat) : ℚ) - (n : ℚ) / d| ≤ 1 / 2 := by
  have hd0 : (0 : ℚ) < d := by exact_mod_cast hd
  have hdiv : (n : ℚ) / d = ((n / d : Nat) : ℚ) + ((n % d : Nat) : ℚ) / d := by
    have h := Nat.div_add_mod n d
    have hq : (n : ℚ) = (d : ℚ) * ((n / d : Nat) : ℚ) + ((n % d : Nat) : ℚ) := by
      exact_mod_cast h.symm
    field_simp
    linarith
  have hr0 : (0 : ℚ) ≤ ((n % d : Nat) : ℚ) / d := by positivity
  have hr1 : ((n % d : Nat) : ℚ) / d < 1 := by
    rw [div_lt_one hd0]
    exact_mod_cast Nat.mod_lt n (by omega)
  unfold half_even
  split_ifs with h1 h2 h3
  · have : ((n % d : Nat) : ℚ) / d < 1 / 2 := by
      rw [div_lt_iff₀ hd0]
      have : ((2 * (n % d) : Nat) : ℚ) < d := by exact_mod_cast h1
      push_cast at this
      linarith
    rw [hdiv, abs_le]
    constructor <;> linarith
  · have : 1 / 2 < ((n % d : Nat) : ℚ) / d := by
      rw [lt_div_iff₀ hd0]
      have : (d : ℚ) < ((2 * (n % d) : Nat) : ℚ) := by exact_mod_cast h2
      push_cast at this
      linarith
    rw [hdiv, abs_le]
    push_cast
    constructor <;> linarith
  · have : ((n % d : Nat) : ℚ) / d = 1 / 2 := by
      rw [div_eq_iff (ne_of_gt hd0)]
      have : 2 * (n % d) = d := by omega
      have : ((2 * (n % d) : Nat) : ℚ) = d := by exact_mod_cast this
      push_cast at this
      linarith
    rw [hdiv, abs_le]
    constructor <;> linarith
  · have : ((n % d : Nat) : ℚ) / d = 1 / 2 := by
      rw [div_eq_iff (ne_of_gt hd0)]
      have : 2 * (n % d) = d := by omega
      have : ((2 * (n % d) : Nat) : ℚ) = d := by exact_mod_cast this
      push_cast at this
      linarith
    rw [hdiv, abs_le]
    push_cast
    constructor <;> linarith

theorem round_error_up (sg n d m : ℚ) (K : Nat) (hs : |sg| = 1) (hd : 0 < d)
    (h : |m - n / (d * 2 ^ K)| ≤ 1 / 2) :
    |sg * (m * 2 ^ K) - sg * (n / d)| ≤ 2 ^ K / 2 := by
  have h2 : (0 : ℚ) < 2 ^ K := by positivity
  have he : sg * (m * 2 ^ K) - sg * (n / d) = sg * (2 ^ K * (m - n / (d * 2 ^ K))) := by
    field_simp
    ring
  rw [he, abs_mul, hs, one_mul, abs_mul, abs_of_pos h2]
  calc (2 : ℚ) ^ K * |m - n / (d * 2 ^ K)| ≤ 2 ^ K * (1 / 2) :=
        mul_le_mul_of_nonneg_left h (le_of_lt h2)
    _ = 2 ^ K / 2 := by ring

theorem round_error_down (sg n d m : ℚ) (K : Nat) (hs : |sg| = 1) (hd : 0 < d)
    (h : |m - n * 2 ^ K / d| ≤ 1 / 2) :
    |sg * m / 2 ^ K - sg * (n / d)| ≤ 1 / 2 ^ K / 2 := by
  have h2 : (0 : ℚ) < 1 / 2 ^ K := by positivity
  have he : sg * m / 2 ^ K - sg * (n / d) = sg * (1 / 2 ^ K * (m - n * 2 ^ K / d)) := by
    field_simp
    ring
  rw [he, abs_mul, hs, one_mul, abs_mul, abs_of_pos h2]
  calc (1 : ℚ) / 2 ^ K * |m - n * 2 ^ K / d| ≤ 1 / 2 ^ K * (1 / 2) :=
        mul_le_mul_of_nonneg_left h (le_of_lt h2)
    _ = 1 / 2 ^ K / 2 := by ring

theorem sign_natAbs_div (q : ℚ) (hq : q ≠ 0) :
    |(q.num.sign : ℚ)| = 1 ∧ q = (q.num.sign : ℚ) * ((q.num.natAbs : ℚ) / q.den) := by
  have hn0 : q.num ≠ 0 := Rat.num_ne_zero.mpr hq
  have hnd := Rat.num_div_den q
  rcases Int.lt_or_gt_of_ne hn0 with h | h
  · have ha : ((q.num.natAbs : Nat) : ℚ) = -(q.num : ℚ) := by
      rw [Nat.cast_natAbs, abs_of_neg h, Int.cast_neg]
    rw [Int.sign_eq_neg_one_of_neg h, ha]
    refine ⟨by norm_num, ?_⟩
    conv_lhs => rw [← hnd]
    push_cast
    ring
  · have ha : ((q.num.natAbs : Nat) : ℚ) = (q.num : ℚ) := by
      rw [Nat.cast_natAbs, abs_of_pos h]
    rw [Int.sign_eq_one_of_pos h, ha]
    refine ⟨by norm_num, ?_⟩
    conv_lhs => rw [← hnd]
    push_cast
    ring

/-- The rounded value is a multiple of `2^quantum` and within half of
`2^quantum` of the value. -/
theorem round_binary_spec (p : Nat) (emin : Int) (q : ℚ) (hq : q ≠ 0) :
    (∃ m : Int, round_binary p emin q = (m : ℚ) * (2 : ℚ) ^ quantum p emin q)
      ∧ |round_binary p emin q - q| ≤ (2 : ℚ) ^ quantum p emin q / 2 := by
  have hd : 1 ≤ q.den := q.den_pos
  have hd0 : (0 : ℚ) < q.den := by exact_mod_cast hd
  obtain ⟨hs, hqe⟩ := sign_natAbs_div q hq
  unfold round_binary
  rw [if_neg hq]
  split_ifs with hk
  · have hK : quantum p emin q = ((quantum p emin q).toNat : Int) := by omega
    have hz : (2 : ℚ) ^ quantum p emin q = 2 ^ (quantum p emin q).toNat := by
      conv_lhs => rw [hK]
      exact zpow_natCast _ _
    rw [hz]
    generalize (quantum p emin q).toNat = K
    have hh := half_even_spec q.num.natAbs (q.den * 2 ^ K)
      (Nat.mul_pos hd (pow_pos (by decide) K))
    have hr : ((q.num.sign * ((half_even q.num.natAbs (q.den * 2 ^ K) * 2 ^ K : Nat) : Int)
          : Int) : ℚ)
        = (q.num.sign : ℚ) * ((half_even q.num.natAbs (q.den * 2 ^ K) : ℚ) * 2 ^ K) := by
      push_cast; ring
    rw [hr]
    constructor
    · exact ⟨q.num.sign * (half_even q.num.natAbs (q.den * 2 ^ K) : Nat), by push_cast; ring⟩
    · have := round_error_up (q.num.sign : ℚ) q.num.natAbs q.den
        (half_even q.num.natAbs (q.den * 2 ^ K) : ℚ) K hs hd0 (by
          have h := hh
          push_cast at h
          exact h)
      rw [← hqe] at this
      exact this
  · have hK : quantum p emin q = -(((-quantum p emin q).toNat : Nat) : Int) := by omega
    have hz : (2 : ℚ) ^ quantum p emin q = 1 / 2 ^ (-quantum p emin q).toNat := by
      conv_lhs => rw [hK]
      rw [zpow_neg, zpow_natCast, one_div]
    rw [hz]
    generalize (-quantum p emin q).toNat = K
    have hh := half_even_spec (q.num.natAbs * 2 ^ K) q.den hd
    have hr : ((q.num.sign * ((half_even (q.num.natAbs * 2 ^ K) q.den : Nat) : Int)
          : Int) : ℚ) / ((2 ^ K : Nat) : ℚ)
        = (q.num.sign : ℚ) * (half_even (q.num.natAbs * 2 ^ K) q.den : ℚ) / 2 ^ K := by
      push_cast; ring
    rw [hr]
    constructor
    · exact ⟨q.num.sign * (half_even (q.num.natAbs * 2 ^ K) q.den : Nat), by
        push_cast; ring⟩
    · have := round_error_down (q.num.sign : ℚ) q.num.natAbs q.den
        (half_even (q.num.natAbs * 2 ^ K) q.den : ℚ) K hs hd0 (by
          have h := hh
          push_cast at h
          exact h)
      rw [← hqe] at this
      exact this

/-! ### The `float` noise floor -/

/-- Values of the two roundings: `0.1f`, the tie of `2^24 + 1`, the tie of
half the least positive `float` (to zero), one and a half times the least
positive `float` (to twice it), and `0.1` as a `double`. -/
theorem round_binary_values :
    to_float (1 / 10) = 13421773 / 134217728
    ∧ to_float (-1 / 10) = -13421773 / 134217728
    ∧ to_float 16777217 = 16777216
    ∧ to_float 16777219 = 16777220
    ∧ to_float 10 = 10
    ∧ to_float (1 / ((2 ^ 149 : Nat) : ℚ)) = 1 / ((2 ^ 149 : Nat) : ℚ)
    ∧ to_float (1 / ((2 ^ 150 : Nat) : ℚ)) = 0
    ∧ to_float (3 / ((2 ^ 150 : Nat) : ℚ)) = 1 / ((2 ^ 148 : Nat) : ℚ)
    ∧ to_double (1 / 10) = 3602879701896397 / 36028797018963968 := by
  refine ⟨by decide!, by decide!, by decide!, by decide!, by decide!, by decide!, by decide!,
    by decide!, by decide!⟩

/-- C26. With `D0 = 10`, `N = 1`, `A = 1`, `M = 2`, which the start of the
program accepts, the first of two equal samples amends the noise floor to 0
and leaves the detector outside the wait state; the second one has `Δ = 0`,
is met with `diffavg = 0`, and raises the alarm: `0 < M·0` is false, so the
sample counts as a point above the threshold.  The run is the same with the
`float` noise floor and in exact arithmetic. -/
theorem zero_noise_floor_fails :
    options_valid example_params_n1 = true
    ∧ arguments_valid example_params_n1 = true
    ∧ (main_loop_float example_params_n1 (init_float example_params_n1)
        [sample_at 0 100]).status = .running
    ∧ (main_loop_float example_params_n1 (init_float example_params_n1)
        [sample_at 0 100])._iswait = 0
    ∧ (main_loop_float example_params_n1 (init_float example_params_n1)
        [sample_at 0 100])._diffavg = 0
    ∧ (records_float example_params_n1 (init_float example_params_n1) example_flat).map
        (fun r => (r.lineid, r.diff, r.diffavg, r.isalarm, r.iswait, r.patternid))
        = [(1, 0, 0, 0, 0, 0), (2, 0, 0, 1, 1, 1)]
    ∧ (records example_params_n1 (init example_params_n1) example_flat).map
        (fun r => (r.lineid, r.diff, r.diffavg, r.isalarm, r.iswait, r.patternid))
        = [(1, 0, 0, 0, 0, 0), (2, 0, 0, 1, 1, 1)] := by
  refine ⟨by decide!, by decide!, by decide!, by decide!, by decide!, by decide!, by decide!⟩

/-- C27. The noise floor reaches 0 under valid configurations.  With `D0 =
10`, `N = 1` the first sample of any stream leaves `diffavg = 0`.  With `D0
= 10`, `N = 2` and a stream of equal samples the `float` `_diffavg` is
halved with every sample: the line 152 shows the least positive `float`,
`2^−149`, and the next halving rounds to 0 on the line 153 (in exact
arithmetic it would be `10 / 2^153`). -/
theorem positive_noise_floor_fails :
    options_valid example_params_n1 = true
    ∧ arguments_valid example_params_n1 = true
    ∧ (main_loop_float example_params_n1 (init_float example_params_n1)
        [sample_at 0 100])._diffavg = 0
    ∧ (main_loop example_params_n1 (init example_params_n1) [sample_at 0 100])._diffavg = 0
    ∧ options_valid example_params_n2 = true
    ∧ arguments_valid example_params_n2 = true
    ∧ ((records_float example_params_n2 (init_float example_params_n2)
        (example_quiescent 153)).drop 150).map (fun r => (r.lineid, r.diffavg))
        = [(151, 1 / ((2 ^ 148 : Nat) : ℚ)), (152, 1 / ((2 ^ 149 : Nat) : ℚ)), (153, 0)]
    ∧ (main_loop example_params_n2 (init example_params_n2)
        (example_quiescent 153))._diffavg = 10 / ((2 ^ 153 : Nat) : ℚ) := by
  refine ⟨by decide!, by decide!, by decide!, by decide!, by decide!, by decide!, by decide!,
    by decide!⟩

/-- C29. With `D0 = 10`, `N = 2`, `A = 1`, `M = 2` and 154 samples that all
carry the value 1000, the lines 1 to 153 have `isalarm = 0`, the line 153
has `diffavg = 0`, and the line 154, with `Δ = 0`, has `isalarm = 1`,
`iswait = 1` and `patternid = 1`: the `float` noise floor has gone to 0 and
the sample counts as a point above the threshold. -/
theorem quiescent_stream_fails :
    options_valid example_params_n2 = true
    ∧ arguments_valid example_params_n2 = true
    ∧ (∀ x ∈ example_quiescent 154, x.v = 1000)
    ∧ (records_float example_params_n2 (init_float example_params_n2)
        (example_quiescent 154)).map (fun r => r.isalarm)
        = List.replicate 153 0 ++ [1]
    ∧ ((records_float example_params_n2 (init_float example_params_n2)
        (example_quiescent 154)).drop 151).map
          (fun r => (r.lineid, r.diff, r.diffavg, r.isalarm, r.iswait, r.patternid))
        = [(152, 0, 1 / ((2 ^ 149 : Nat) : ℚ), 0, 0, 0), (153, 0, 0, 0, 0, 0),
            (154, 0, 0, 1, 1, 1)] := by
  refine ⟨by decide!, by decide!,
    fun x hx => by rw [List.eq_of_mem_replicate hx]; rfl, by decide!, by decide!⟩

end AlarmFingerprints
